import Mathlib

/-!
# Distributed SFC tree (`TreePiece.cpp`): embedding and verified properties

The definitions below follow `src/changa/TreePiece.cpp` function by function.
Conventions of the embedding:

* keys, indices and counters are natural numbers; pointer differences into the
  splitter and particle arrays are indices;
* an output pointer is an `Option Nat`: `none` is the null pointer, `some v` is a
  non-null pointer whose pointee currently holds `v`;
* `std::upper_bound` / `std::lower_bound` are library routines: they are embedded
  by their contract on a partitioned range (first position whose element is
  greater than, resp. not less than, the value), computed by a left-to-right scan;
* where the entries of `nodeLookup` matter, the table is the list of its entries, and
  `find` and `operator[]` are embedded by the contract of the standard associative
  containers: `operator[]` enters a null pointer under a key that has no entry;
* `int` and `unsigned int` have 32 bits.
-/

namespace TreePiece

/-! ## Definitions -/

/-- `std::upper_bound` on the elements `xs` that start at offset `base`:
the offset of the first element that is greater than `v` (or the end). -/
def upperBoundFrom (v : Nat) : List Nat → Nat → Nat
  | [], base => base
  | x :: xs, base => if v < x then base else upperBoundFrom v xs (base + 1)

/-- `std::lower_bound` on the elements `xs` that start at offset `base`:
the offset of the first element that is not less than `v` (or the end). -/
def lowerBoundFrom (v : Nat) : List Nat → Nat → Nat
  | [], base => base
  | x :: xs, base => if x < v then lowerBoundFrom v xs (base + 1) else base

/-- `upper_bound(a + first, a + last, v) - a`. -/
def upper_bound (a : List Nat) (first last v : Nat) : Nat :=
  upperBoundFrom v ((a.drop first).take (last - first)) first

/-- `lower_bound(a + first, a + last, v) - a`. -/
def lower_bound (a : List Nat) (first last v : Nat) : Nat :=
  lowerBoundFrom v ((a.drop first).take (last - first)) first

/-- The four output parameters of `nodeOwnership`. -/
structure OwnerOut where
  designatedOwner : Option Nat
  numOwners : Option Nat
  firstOwner : Option Nat
  lastOwner : Option Nat
  deriving DecidableEq, Repr

/-- The guarded store `if (p) *p = v;`. -/
def store (p : Option Nat) (v : Nat) : Option Nat :=
  match p with
  | none => none
  | some _ => some v

/-- `locLeft - splitters` in `TreePiece::nodeOwnership`. -/
def locLeft (splitters : List Nat) (leftBoundary : Nat) : Nat :=
  upper_bound splitters 0 splitters.length leftBoundary

/-- `locRight - splitters` in `TreePiece::nodeOwnership`. -/
def locRight (splitters : List Nat) (leftBoundary rightBoundary : Nat) : Nat :=
  lower_bound splitters (locLeft splitters leftBoundary) splitters.length rightBoundary

/-- `TreePiece::nodeOwnership` (lines 301-337). `leftBoundary` and `rightBoundary`
are the values of `node->leftBoundary()` and `node->rightBoundary()`; `out` holds the
four output pointers. The result is the returned flag and the pointees afterwards.
The indices are bounded by `numSplitters`, so their conversion to `unsigned int`
keeps the value, and `last - first` does not wrap (`first_le_last`). -/
def nodeOwnership (splitters : List Nat) (leftBoundary rightBoundary : Nat)
    (out : OwnerOut) : Bool × OwnerOut :=
  let l := locLeft splitters leftBoundary
  let r := locRight splitters leftBoundary rightBoundary
  if l = r then
    if l % 2 ≠ 0 then
      let owner := l / 2
      (true, { numOwners := store out.numOwners 1
               firstOwner := store out.firstOwner owner
               lastOwner := store out.lastOwner owner
               designatedOwner := store out.designatedOwner owner })
    else
      (false, out)
  else
    let first := l / 2
    let last := (r - 1) / 2
    (true, { numOwners := store out.numOwners (last - first + 1)
             firstOwner := store out.firstOwner first
             lastOwner := store out.lastOwner last
             designatedOwner := store out.designatedOwner ((first + last) / 2) })

/-- Piece `i` owns the keys `[splitters[2i], splitters[2i+1]]`; this is the test that
this interval meets the key range `[leftBoundary, rightBoundary]` of a node. -/
def pieceIntersects (splitters : List Nat) (leftBoundary rightBoundary i : Nat) : Bool :=
  decide (splitters.getD (2 * i) 0 ≤ rightBoundary) &&
    decide (leftBoundary ≤ splitters.getD (2 * i + 1) 0)

/-- The pieces whose splitter interval meets the key range of a node. -/
def intersectingPieces (splitters : List Nat) (leftBoundary rightBoundary : Nat) : List Nat :=
  (List.range (splitters.length / 2)).filter (pieceIntersects splitters leftBoundary rightBoundary)

/-! ### Tree nodes, particles and the parts declared outside `TreePiece.cpp` -/

/-- The kinds of a tree node. -/
inductive NodeType
  | Invalid | Bucket | Internal | NonLocal | Boundary | Empty | Top
  deriving DecidableEq, Repr

/-- The fields of `GravityParticle` that the tree code reads or writes. Arithmetic on
masses, accelerations and potentials is exact: the values are integers, multiples
of a common unit (one component stands for an acceleration vector). -/
structure GravityParticle where
  key : Nat
  mass : Int := 0
  intcellmass : Int := 0
  intpartmass : Int := 0
  extcellmass : Int := 0
  extpartmass : Int := 0
  treeAcceleration : Int := 0
  potential : Int := 0
  deriving DecidableEq, Repr

/-- The fields of `SFCTreeNode` that the tree code reads or writes; `M` is the type
of `MultipoleMoments`. -/
structure SFCTreeNode (M : Type) where
  type : NodeType
  key : Nat
  level : Nat
  beginParticle : Nat
  endParticle : Nat
  remoteIndex : Nat
  numOwners : Nat
  moments : M

/-- A node together with the subtrees under its `leftChild` and `rightChild`
pointers; `null` is the null pointer. -/
inductive Tree (M : Type)
  | null : Tree M
  | node : SFCTreeNode M → Tree M → Tree M → Tree M

/-- What `TreePiece.cpp` uses from its headers: the operations of `MultipoleMoments`
and the key functions of `SFCTreeNode`, the latter as functions of the node's `key`
and `level`. They are parameters of the embedding. -/
structure Env (M : Type) where
  /-- The moments of a freshly constructed node. -/
  zero : M
  /-- `moments += particle`. -/
  addParticle : M → GravityParticle → M
  /-- `moments += moments`. -/
  add : M → M → M
  /-- `moments - moments`. -/
  sub : M → M → M
  /-- `calculateRadiusFarthestCorner(moments, node->boundingBox)`, for the node of
  the given key and level. -/
  calculateRadiusFarthestCorner : M → Nat → Nat → M
  /-- `calculateRadiusFarthestParticle(moments, begin, end)`. -/
  calculateRadiusFarthestParticle : M → List GravityParticle → M
  /-- `moments.totalMass`. -/
  totalMass : M → Int
  /-- `SFCTreeNode::leftBoundary()`. -/
  leftBoundary : Nat → Nat → Nat
  /-- `SFCTreeNode::rightBoundary()`. -/
  rightBoundary : Nat → Nat → Nat
  /-- `SFCTreeNode::lookupKey()`. -/
  lookupKey : Nat → Nat → Nat

/-- The members of a `TreePiece` that stay fixed during the tree build. -/
structure Piece where
  thisIndex : Nat
  numTreePieces : Nat
  maxBucketSize : Int
  splitters : List Nat
  myNumParticles : Nat

/-- Constant `firstPossibleKey`. -/
def firstPossibleKey : Nat := 0

/-- Constant `lastPossibleKey`. -/
def lastPossibleKey : Nat := 2 ^ 63 - 1

/-- Modelled from the spec: a node as its constructor leaves it (the constructor is
in a header): kind `Invalid`, zero counts, zero moments. -/
def freshNode {M : Type} (env : Env M) (key level : Nat) : SFCTreeNode M :=
  { type := .Invalid, key := key, level := level, beginParticle := 0, endParticle := 0,
    remoteIndex := 0, numOwners := 0, moments := env.zero }

/-- Modelled from the spec: `SFCTreeNode::rightChildKey()`, the node's key with the
bit of its level switched on (the key `node->key | currentBitMask` that `buildTree`
searches for when it splits); `createLeftChild` keeps the key, and both children
are one level down. -/
def rightChildKey (key level : Nat) : Nat := key ||| 2 ^ (62 - level)

/-- The key of the particle at index `i` of `myParticles`. -/
def keyAt (parts : List GravityParticle) (i : Nat) : Nat :=
  (parts.map GravityParticle.key).getD i 0

/-- Lines written to `cerr` by the tree build. -/
inductive Diagnostic
  /-- "This piece of tree has exhausted all the bits in the keys." -/
  | keysExhausted (left right : Nat)
  /-- "Bits not right". -/
  | bitsNotRight (left right : Nat)
  /-- "This is surprising, but may get taken care of." -/
  | surprising (key level : Nat)
  /-- "Well crap, how the hell did this happen, especially now?" -/
  | unknownBoundaryNode (lookupKey : Nat)
  /-- "How does this work?" -/
  | notBoundary (lookupKey : Nat)
  deriving DecidableEq, Repr

/-- An entry-method invocation sent to another piece. -/
inductive Message (M : Type)
  | acceptBoundaryNodeContribution (dest lookupKey numParticles : Nat) (moments : M)
  | acceptBoundaryNode (dest lookupKey numParticles : Nat) (moments : M)

/-- The members of a `TreePiece` that the tree build writes, with the messages sent
and the diagnostics printed. -/
structure BuildState (M : Type) where
  bucketList : List (SFCTreeNode M)
  numBuckets : Nat
  boundaryNodesPending : Nat
  outbox : List (Message M)
  cerr : List Diagnostic

/-- The moments of the node a child pointer refers to. -/
def Tree.addMomentsTo {M : Type} (env : Env M) (m : M) : Tree M → M
  | .null => m
  | .node c _ _ => env.add m c.moments

/-- All nodes of a tree, parents first. -/
def Tree.nodes {M : Type} : Tree M → List (SFCTreeNode M)
  | .null => []
  | .node n l r => n :: (l.nodes ++ r.nodes)

/-- `TreePiece::lookupLeftChild` / `lookupRightChild` (lines 268-298) for the child
of the given key and level: the child is typed `NonLocal` and `nodeOwnership`
fills its `remoteIndex` and `numOwners`; when `nodeOwnership` fails the child is
deleted again and the parent's pointer stays null. -/
def lookupChild {M : Type} (env : Env M) (pc : Piece) (childKey childLevel : Nat)
    (st : BuildState M) : Tree M × BuildState M :=
  let child : SFCTreeNode M := { freshNode env childKey childLevel with type := .NonLocal }
  let res := nodeOwnership pc.splitters (env.leftBoundary childKey childLevel)
    (env.rightBoundary childKey childLevel)
    ⟨some child.remoteIndex, some child.numOwners, none, none⟩
  if res.1 then
    (.node { child with remoteIndex := res.2.designatedOwner.getD child.remoteIndex
                        numOwners := res.2.numOwners.getD child.numOwners } .null .null, st)
  else
    (.null, { st with cerr := st.cerr ++ [.surprising childKey childLevel] })

/-- The end of `buildTree` (lines 430-454): bottom-up collection of the children's
moments and classification of the node as `Boundary` or `Internal`. `none` is
undefined behaviour: `designatedOwner` is read although `nodeOwnership` failed and
left it uninitialised. -/
def finishNode {M : Type} (env : Env M) (pc : Piece) (node : SFCTreeNode M)
    (l r : Nat) (lt rt : Tree M) (st : BuildState M) : Option (Tree M × BuildState M) :=
  let node := { node with moments := rt.addMomentsTo env (lt.addMomentsTo env node.moments) }
  if (l = 0 ∧ pc.thisIndex ≠ 0) ∨
      (r = pc.myNumParticles + 1 ∧ (pc.thisIndex : Int) ≠ (pc.numTreePieces : Int) - 1) then
    let res := nodeOwnership pc.splitters (env.leftBoundary node.key node.level)
      (env.rightBoundary node.key node.level) ⟨some 0, some node.numOwners, none, none⟩
    if res.1 then
      let designatedOwner := res.2.designatedOwner.getD 0
      let node := { node with numOwners := res.2.numOwners.getD node.numOwners
                              remoteIndex := node.endParticle - node.beginParticle }
      let st := { st with boundaryNodesPending := st.boundaryNodesPending + 1 }
      let st := if designatedOwner ≠ pc.thisIndex then
          { st with outbox := st.outbox ++ [.acceptBoundaryNodeContribution designatedOwner
              (env.lookupKey node.key node.level) node.remoteIndex node.moments] }
        else st
      some (.node { node with type := .Boundary } lt rt, st)
    else none
  else
    some (.node { node with numOwners := 1, type := .Internal
                            moments := env.calculateRadiusFarthestCorner node.moments
                              node.key node.level } lt rt, st)

/-- `TreePiece::buildTree(node, leftParticle, rightParticle)` (lines 345-455) for the
node of key `key` at level `63 - bits`; `l` and `r` are the indices of
`leftParticle` and `rightParticle`, `leftBoundary` is index `0` and `rightBoundary`
index `myNumParticles + 1`. The result is the subtree hanging from the node and
the piece members afterwards. `none` is undefined behaviour of the source: the
shift `1 << (62 - level)` at level 63, a particle pointer before the array, or
the uninitialised read in `finishNode`. -/
def buildTree {M : Type} (env : Env M) (pc : Piece) (parts : List GravityParticle) :
    Nat → Nat → Nat → Nat → BuildState M → Option (Tree M × BuildState M)
  | bits, key, l, r, st =>
    let level := 63 - bits
    let node : SFCTreeNode M :=
      { freshNode env key level with
        beginParticle := if l = 0 then l + 1 else l
        endParticle := if r = pc.myNumParticles + 1 then r + 1 - 1 else r + 1 }
    if ((r : Int) - (l : Int) < pc.maxBucketSize) ∧ l ≠ 0 ∧ r ≠ pc.myNumParticles + 1 then
      let bucketParts := (parts.drop l).take (r + 1 - l)
      let node := { node with
        type := .Bucket
        numOwners := 1
        moments := env.calculateRadiusFarthestParticle
          (bucketParts.foldl env.addParticle node.moments) bucketParts }
      some (.node node .null .null,
        { st with bucketList := st.bucketList ++ [node], numBuckets := st.numBuckets + 1 })
    else if ¬ ((r : Int) - (l : Int) < pc.maxBucketSize) ∧ level = 63 then
      some (.node node .null .null, { st with cerr := st.cerr ++ [.keysExhausted l r] })
    else
      match bits with
      | 0 => none
      | b + 1 =>
        let currentBitMask := 2 ^ (62 - level)
        let leftBit := keyAt parts l &&& currentBitMask
        let rightBit := keyAt parts r &&& currentBitMask
        if leftBit < rightBit then
          let splitParticle :=
            lower_bound (parts.map GravityParticle.key) l (r + 1) (key ||| currentBitMask)
          if splitParticle = 0 + 1 then
            let lc := if pc.thisIndex ≠ 0 then lookupChild env pc key (level + 1) st
              else (.null, st)
            match buildTree env pc parts b (rightChildKey key level) splitParticle r lc.2 with
            | none => none
            | some (rt, st) => finishNode env pc node l r lc.1 rt st
          else if splitParticle = pc.myNumParticles + 1 then
            match buildTree env pc parts b key l (splitParticle - 1) st with
            | none => none
            | some (lt, st) =>
              let rc := if (pc.thisIndex : Int) ≠ (pc.numTreePieces : Int) - 1 then
                  lookupChild env pc (rightChildKey key level) (level + 1) st
                else (.null, st)
              finishNode env pc node l r lt rc.1 rc.2
          else if splitParticle = 0 then none
          else
            match buildTree env pc parts b key l (splitParticle - 1) st with
            | none => none
            | some (lt, st) =>
              match buildTree env pc parts b (rightChildKey key level) splitParticle r st with
              | none => none
              | some (rt, st) => finishNode env pc node l r lt rt st
        else if leftBit &&& rightBit ≠ 0 then
          let lc := if l = 0 ∧ pc.thisIndex ≠ 0 then lookupChild env pc key (level + 1) st
            else (.null, st)
          match buildTree env pc parts b (rightChildKey key level) l r lc.2 with
          | none => none
          | some (rt, st) => finishNode env pc node l r lc.1 rt st
        else if leftBit > rightBit then
          some (.node node .null .null, { st with cerr := st.cerr ++ [.bitsNotRight l r] })
        else
          match buildTree env pc parts b key l r st with
          | none => none
          | some (lt, st) =>
            let rc := if r = pc.myNumParticles + 1 ∧
                (pc.thisIndex : Int) ≠ (pc.numTreePieces : Int) - 1 then
                lookupChild env pc (rightChildKey key level) (level + 1) st
              else (.null, st)
            finishNode env pc node l r lt rc.1 rc.2

/-- The two diagnostics of `buildTree` after which it returns without finishing the
node: exhausted key bits and bits in the wrong order. -/
def Diagnostic.isBuildFailure : Diagnostic → Bool
  | .keysExhausted _ _ => true
  | .bitsNotRight _ _ => true
  | _ => false

/-- Neither of the two build diagnostics has been printed. -/
def Clean (cerr : List Diagnostic) : Prop := ∀ d ∈ cerr, d.isBuildFailure = false

/-- The half-open intervals `xs`, in list order, tile `[a, b)`: each is non-empty and
starts where the one before it ends. -/
def Tiles : List (Nat × Nat) → Nat → Nat → Prop
  | [], a, b => a = b
  | (x, y) :: rest, a, b => x = a ∧ x < y ∧ Tiles rest y b

/-- The particle interval `[beginParticle, endParticle)` of a node. -/
def SFCTreeNode.range {M : Type} (n : SFCTreeNode M) : Nat × Nat :=
  (n.beginParticle, n.endParticle)

/-- The interval of a node that `buildTree` has visited lies inside the local
indices `[1, N + 1)`; the `NonLocal` placeholders get no interval from `buildTree`. -/
def NodeOK (N : Nat) {M : Type} (n : SFCTreeNode M) : Prop :=
  n.type ≠ .NonLocal →
    1 ≤ n.beginParticle ∧ n.beginParticle ≤ n.endParticle ∧ n.endParticle ≤ N + 1

/-- The piece members as `startTreeBuild` resets them before the build (lines 248-251). -/
def BuildState.initial {M : Type} : BuildState M :=
  { bucketList := [], numBuckets := 0, boundaryNodesPending := 0, outbox := [], cerr := [] }

/-! ### Boundary reconciliation -/

/-- The modulus of `unsigned int` arithmetic; `remoteIndex` and `numOwners` are
`unsigned int` (their addresses are passed to `nodeOwnership`). -/
def UINT : Nat := 2 ^ 32

/-- Subtraction of two `unsigned int` values. -/
def usub (a b : Nat) : Nat := (a + UINT - b % UINT) % UINT

/-- `nodeLookup.find(lookupKey)`. Every node is entered in `nodeLookup` under its
lookup key when it is created and linked under its parent, and erased when it is
unlinked, so the table is read off the tree: the node found is the first one in
pre-order that carries the lookup key. -/
def Tree.find {M : Type} (env : Env M) (k : Nat) : Tree M → Option (SFCTreeNode M)
  | .null => none
  | .node n l r =>
    if env.lookupKey n.key n.level = k then some n
    else match l.find env k with
      | some x => some x
      | none => r.find env k

/-- An update of the node that `nodeLookup.find(lookupKey)` points to. -/
def Tree.modify {M : Type} (env : Env M) (k : Nat) (f : SFCTreeNode M → SFCTreeNode M) :
    Tree M → Tree M
  | .null => .null
  | .node n l r =>
    if env.lookupKey n.key n.level = k then .node (f n) l r
    else match l.find env k with
      | some _ => .node n (l.modify env k f) r
      | none => .node n l (r.modify env k f)

/-- The number of nodes of kind `Boundary` in a tree. -/
def Tree.countBoundary {M : Type} : Tree M → Nat
  | .null => 0
  | .node n l r => (if n.type = .Boundary then 1 else 0) + l.countBoundary + r.countBoundary

/-- The members of a `TreePiece` used by the boundary reconciliation: the tree
(with `nodeLookup`), the counter of pending boundary nodes (kept as an integer, the
code only decrements it and tests it against zero), the messages sent, the
diagnostics printed and the number of `contribute(0, 0, CkReduction::concat,
callback)` calls that signal the tree-ready barrier. -/
structure PieceState (M : Type) where
  root : Tree M
  boundaryNodesPending : Int
  outbox : List (Message M)
  cerr : List Diagnostic
  treeReady : Nat

/-- The value assigned to `node->endParticle` in `calculateRemoteMoments`
(lines 516-519), from the node's parent and sibling. -/
def remoteCount {M : Type} (parent sibling : SFCTreeNode M) : Nat :=
  if sibling.type = .Boundary then usub parent.remoteIndex sibling.remoteIndex
  else usub parent.remoteIndex (usub sibling.endParticle sibling.beginParticle)

/-- `TreePiece::calculateRemoteMoments(node)` (lines 511-537), returning the subtree
that hangs from the parent's child pointer afterwards (`null` when the node was
deleted). `ctx` is the node's parent together with the subtree under the parent's
other child pointer (`node->getSibling()`). `none` is a null `parent` or `sibling`
being dereferenced. -/
def calculateRemoteMoments {M : Type} (env : Env M) :
    Option (SFCTreeNode M × Tree M) → Tree M → Option (Tree M)
  | _, .null => some .null
  | ctx, .node n l r =>
    if n.type = .NonLocal then
      match ctx with
      | some (parent, .node sibling _ _) =>
        let endParticle := remoteCount parent sibling
        if endParticle ≠ 0 then
          some (.node { n with
            beginParticle := 0
            endParticle := endParticle
            moments := env.calculateRadiusFarthestCorner
              (env.sub parent.moments sibling.moments) n.key n.level } l r)
        else some .null
      | _ => none
    else if n.type = .Boundary then
      match calculateRemoteMoments env (some (n, r)) l with
      | none => none
      | some l' =>
        match calculateRemoteMoments env (some (n, l')) r with
        | none => none
        | some r' => some (.node n l' r')
    else some (.node n l r)

/-- `TreePiece::acceptBoundaryNodeContribution` (lines 457-488). `none` is undefined
behaviour: `firstOwner` and `lastOwner` are read although `nodeOwnership` failed. -/
def acceptBoundaryNodeContribution {M : Type} (env : Env M) (pc : Piece) (st : PieceState M)
    (lookupKey numParticles : Nat) (moments : M) : Option (PieceState M) :=
  match st.root.find env lookupKey with
  | none =>
    some { st with outbox := st.outbox ++
      [.acceptBoundaryNodeContribution pc.thisIndex lookupKey numParticles moments] }
  | some node =>
    let node := { node with
      remoteIndex := (node.remoteIndex + numParticles) % UINT
      moments := env.add node.moments moments
      numOwners := (node.numOwners + UINT - 1) % UINT }
    if node.numOwners = 1 then
      let node := { node with
        moments := env.calculateRadiusFarthestCorner node.moments node.key node.level }
      let res := nodeOwnership pc.splitters (env.leftBoundary node.key node.level)
        (env.rightBoundary node.key node.level) ⟨none, some node.numOwners, some 0, some 0⟩
      if res.1 then
        let node := { node with numOwners := res.2.numOwners.getD node.numOwners }
        let firstOwner := res.2.firstOwner.getD 0
        let lastOwner := res.2.lastOwner.getD 0
        some { st with
          root := st.root.modify env lookupKey (fun _ => node)
          outbox := st.outbox ++ (List.range' firstOwner (lastOwner + 1 - firstOwner)).map
            (fun i => .acceptBoundaryNode i lookupKey node.remoteIndex node.moments) }
      else none
    else some { st with root := st.root.modify env lookupKey (fun _ => node) }

/-- `TreePiece::acceptBoundaryNode` (lines 490-509). `none` is a null dereference in
`calculateRemoteMoments`. -/
def acceptBoundaryNode {M : Type} (env : Env M) (st : PieceState M)
    (lookupKey numParticles : Nat) (moments : M) : Option (PieceState M) :=
  match st.root.find env lookupKey with
  | none => some { st with cerr := st.cerr ++ [.unknownBoundaryNode lookupKey] }
  | some node =>
    let cerr := if node.type ≠ .Boundary then st.cerr ++ [.notBoundary lookupKey] else st.cerr
    let root := st.root.modify env lookupKey
      (fun n => { n with remoteIndex := numParticles % UINT, moments := moments })
    let pending := st.boundaryNodesPending - 1
    if pending = 0 then
      match calculateRemoteMoments env none root with
      | none => none
      | some root =>
        some { st with root := root, cerr := cerr, boundaryNodesPending := pending
                       treeReady := st.treeReady + 1 }
    else some { st with root := root, cerr := cerr, boundaryNodesPending := pending }

/-- The particle array with the sentinel keys that `startTreeBuild` writes
(lines 229-237). -/
def setSentinels (pc : Piece) (parts : List GravityParticle) : List GravityParticle :=
  let parts := parts.set 0
    { parts.getD 0 { key := 0 } with
      key := if pc.thisIndex = 0 then firstPossibleKey
        else pc.splitters.getD (2 * pc.thisIndex - 1) 0 }
  parts.set (pc.myNumParticles + 1)
    { parts.getD (pc.myNumParticles + 1) { key := 0 } with
      key := if (pc.thisIndex : Int) = (pc.numTreePieces : Int) - 1 then lastPossibleKey
        else pc.splitters.getD (2 * pc.thisIndex + 2) 0 }

/-- `TreePiece::startTreeBuild` (lines 226-265): the particle array with its
sentinels, and the state of the piece after the local build. -/
def startTreeBuild {M : Type} (env : Env M) (pc : Piece) (parts : List GravityParticle) :
    Option (List GravityParticle × BuildState M × PieceState M) :=
  let parts := setSentinels pc parts
  match buildTree env pc parts 63 firstPossibleKey 0 (pc.myNumParticles + 1)
      BuildState.initial with
  | none => none
  | some (root, bs) =>
    some (parts, bs,
      { root := root, boundaryNodesPending := bs.boundaryNodesPending, outbox := bs.outbox,
        cerr := bs.cerr, treeReady := if bs.boundaryNodesPending = 0 then 1 else 0 })

/-- The designated owner handling the contributions `(numParticles, moments)` for one
lookup key, in the order of arrival. -/
def acceptContributions {M : Type} (env : Env M) (pc : Piece) (lookupKey : Nat) :
    List (Nat × M) → PieceState M → Option (PieceState M)
  | [], st => some st
  | c :: rest, st =>
    match acceptBoundaryNodeContribution env pc st lookupKey c.1 c.2 with
    | none => none
    | some st => acceptContributions env pc lookupKey rest st

/-- A piece handling the `acceptBoundaryNode` messages `(lookupKey, numParticles,
moments)`, in the order of arrival. -/
def acceptBoundaryNodes {M : Type} (env : Env M) :
    List (Nat × Nat × M) → PieceState M → Option (PieceState M)
  | [], st => some st
  | c :: rest, st =>
    match acceptBoundaryNode env st c.1 c.2.1 c.2.2 with
    | none => none
    | some st => acceptBoundaryNodes env rest st

/-- The lookup keys of the `Boundary` nodes of a tree, in pre-order. -/
def Tree.boundaryKeys {M : Type} (env : Env M) (t : Tree M) : List Nat :=
  (t.nodes.filter (fun n => decide (n.type = .Boundary))).map
    (fun n => env.lookupKey n.key n.level)

/-- The number of `Boundary` nodes whose lookup key is not among the finalized ones. -/
def pendingNodes {M : Type} (env : Env M) (t : Tree M) (finalized : List Nat) : Nat :=
  ((t.boundaryKeys env).filter (fun k => decide (k ∉ finalized))).length

/-- The `Boundary` nodes that `calculateRemoteMoments` descends through from the root
of the tree, each with the subtrees under its two child pointers. -/
def Tree.visited {M : Type} : Tree M → List (SFCTreeNode M × Tree M × Tree M)
  | .null => []
  | .node n l r => if n.type = .Boundary then (n, l, r) :: (l.visited ++ r.visited) else []

/-- What `calculateRemoteMoments` leaves in a `NonLocal` child `c` of the node `p` whose
other child `sib` is not `NonLocal`: no local particles before it, the count
`remoteCount p sib`, which is not zero, and the moments `p.moments - sib.moments` with the
radius recomputed. -/
def NonLocalOK {M : Type} (env : Env M) (p : SFCTreeNode M) (c sib : Tree M) : Prop :=
  match c, sib with
  | .node cn _ _, .node s _ _ =>
    cn.type = .NonLocal → s.type ≠ .NonLocal →
      cn.beginParticle = 0 ∧ cn.endParticle = remoteCount p s ∧ cn.endParticle ≠ 0 ∧
      cn.moments = env.calculateRadiusFarthestCorner (env.sub p.moments s.moments) cn.key cn.level
  | _, _ => True

/-! ### The bucket walk and its pending-request accounting -/

/-- The fields of `BucketGravityRequest` that the walk and the completion tracking use.
Positions, softenings and the bounding box enter only through the opening criterion
and the force kernels. -/
structure BucketGravityRequest where
  finished : Nat
  identifier : Nat
  numAdditionalRequests : Int
  numParticlesInBucket : Nat
  accelerations : List Int
  potentials : List Int
  deriving DecidableEq, Repr

/-- A request that got no immediate answer: it was registered with the cache manager
(`localCache->requestNode` / `requestParticles` returned null) or sent to the owner
(`fillRequestNode` / `fillRequestParticles`); its answer arrives in a later
`receiveNode` / `receiveParticles`. -/
inductive Fetch
  | node (bucket remoteIndex lookupKey : Nat)
  | particles (bucket key remoteIndex : Nat) (first last : Int)
  deriving DecidableEq, Repr

/-- The bucket request a fetch belongs to. -/
def Fetch.bucket : Fetch → Nat
  | .node b _ _ => b
  | .particles b _ _ _ _ => b

/-- The number of items a fetch asks for: one node, or `end - begin` particles. -/
def Fetch.items : Fetch → Int
  | .node _ _ _ => 1
  | .particles _ _ _ first last => last - first

/-- The members of a `TreePiece` that the bucket walk reads and writes. Arrays are
functions of the index. `fetches` lists the requests registered so far, `asserts`
counts failed assertions (the walk goes on as in a build without assertions),
`contributed` counts the contributions to the gravity barrier. -/
structure GravState where
  myParticles : Nat → GravityParticle
  bucketReqs : Nat → BucketGravityRequest
  myNumParticlesPending : Int
  started : Bool
  contributed : Nat
  currentBucket : Nat
  fetches : List Fetch
  asserts : Nat
  myNumMACChecks : Nat
  myNumCellInteractions : Nat
  myNumParticleInteractions : Nat
  myNumProxyCalls : Nat
  countIntersects : Nat
  countHits : Nat
  cachecellcount : Nat

/-- The answers of the cache manager, a collaborator outside `TreePiece.cpp`:
`requestNode thisIndex remoteIndex lookupKey` and
`requestParticles thisIndex key remoteIndex begin end`; `none` is a null result. -/
structure CacheManager (M : Type) where
  requestNode : Nat → Nat → Nat → Option (SFCTreeNode M)
  requestParticles : Nat → Nat → Nat → Int → Int → Option (List GravityParticle)

/-- What the bucket walk takes as given: the piece and its tree, the configuration
flag `_cache`, the value the `BucketGravityRequest` constructor gives
`numAdditionalRequests`, the bound on nested `cachedWalkBucketTree` calls, and the
floating-point geometry and force kernels (`openCriterionBucket`, `nodeBucketForce`,
`partBucketForce`), which read a node or particle and the request and yield the new
accelerations and potentials. -/
structure Walker (M : Type) where
  thisIndex : Nat
  numTreePieces : Nat
  useCache : Bool
  initialRequests : Int
  depth : Nat
  bucketList : List (SFCTreeNode M)
  root : Tree M
  leftChildLookupKey : Nat → Nat → Nat
  rightChildLookupKey : Nat → Nat → Nat
  openCriterionBucket : SFCTreeNode M → BucketGravityRequest → Bool
  nodeBucketForce : SFCTreeNode M → BucketGravityRequest → List Int × List Int
  partBucketForce : GravityParticle → BucketGravityRequest → List Int × List Int

/-- `bucketList[req.identifier]`. -/
def Walker.reqnode {M : Type} (env : Env M) (w : Walker M) (id : Nat) : SFCTreeNode M :=
  w.bucketList.getD id (freshNode env 0 0)

/-- An update of `bucketReqs[id]`. -/
def GravState.updateReq (st : GravState) (id : Nat)
    (f : BucketGravityRequest → BucketGravityRequest) : GravState :=
  { st with bucketReqs := fun i => if i = id then f (st.bucketReqs i) else st.bucketReqs i }

/-- An update of `myParticles[i]` for every `first ≤ i < last`. -/
def GravState.updateParticles (st : GravState) (first last : Nat)
    (f : GravityParticle → GravityParticle) : GravState :=
  { st with myParticles := fun i =>
      if first ≤ i ∧ i < last then f (st.myParticles i) else st.myParticles i }

/-- The force kernels store the accelerations and potentials they computed. -/
def applyForce (r : BucketGravityRequest) (res : List Int × List Int) : BucketGravityRequest :=
  { r with accelerations := res.1, potentials := res.2 }

/-- `TreePiece::requestNode` (lines 1189-1213) for the request `bucketReqs[id]`. -/
def requestNode {M : Type} (w : Walker M) (cache : CacheManager M) (id remoteIndex lookupKey : Nat)
    (st : GravState) : Option (SFCTreeNode M) × GravState :=
  let st := if remoteIndex < w.numTreePieces then st else { st with asserts := st.asserts + 1 }
  if w.useCache then
    match cache.requestNode w.thisIndex remoteIndex lookupKey with
    | some res => (some res, st)
    | none =>
      (none, { st.updateReq id
          (fun r => { r with numAdditionalRequests := r.numAdditionalRequests + 1 }) with
        myNumProxyCalls := st.myNumProxyCalls + 1
        fetches := st.fetches ++ [.node id remoteIndex lookupKey] })
  else
    (none, { st.updateReq id
        (fun r => { r with numAdditionalRequests := r.numAdditionalRequests + 1 }) with
      myNumProxyCalls := st.myNumProxyCalls + 1
      fetches := st.fetches ++ [.node id remoteIndex lookupKey] })

/-- `TreePiece::requestParticles` (lines 1328-1345) for the request `bucketReqs[id]`. -/
def requestParticles {M : Type} (w : Walker M) (cache : CacheManager M)
    (id key remoteIndex : Nat) (first last : Int) (st : GravState) :
    Option (List GravityParticle) × GravState :=
  if w.useCache then
    match cache.requestParticles w.thisIndex key remoteIndex first last with
    | some p => (some p, st)
    | none =>
      (none, { st.updateReq id
          (fun r => { r with numAdditionalRequests := r.numAdditionalRequests + (last - first) })
        with fetches := st.fetches ++ [.particles id key remoteIndex first last] })
  else
    (none, { st.updateReq id
        (fun r => { r with numAdditionalRequests := r.numAdditionalRequests + (last - first) })
      with
      myNumProxyCalls := st.myNumProxyCalls + 1
      fetches := st.fetches ++ [.particles id key remoteIndex first last] })

/-- One round of the loop over the particles of an opened local bucket in
`walkBucketTree` (lines 1085-1092): the mass of particle `i` is added to the
`intpartmass` of every particle of the requesting bucket, then `partBucketForce`. -/
def localParticleStep {M : Type} (env : Env M) (w : Walker M) (id : Nat) (st : GravState)
    (i : Nat) : GravState :=
  let mass := (st.myParticles i).mass
  let st := st.updateParticles (w.reqnode env id).beginParticle (w.reqnode env id).endParticle
    (fun p => { p with intpartmass := p.intpartmass + mass })
  st.updateReq id (fun r => applyForce r (w.partBucketForce (st.myParticles i) r))

/-- One round of the loop over fetched remote particles (lines 1144-1149 and
1382-1388): the mass `m` is added to the `extpartmass` of every particle of the
requesting bucket, then `partBucketForce` for the fetched particle. -/
def remoteParticleStep {M : Type} (env : Env M) (w : Walker M) (id : Nat)
    (m : Int) (part : GravityParticle) (st : GravState) : GravState :=
  let st := st.updateParticles (w.reqnode env id).beginParticle (w.reqnode env id).endParticle
    (fun p => { p with extpartmass := p.extpartmass + m })
  st.updateReq id (fun r => applyForce r (w.partBucketForce part r))

/-- `TreePiece::cachedWalkBucketTree` (lines 1113-1187) for the request
`bucketReqs[id]`; the first argument bounds the nesting of the calls. -/
def cachedWalkBucketTree {M : Type} (env : Env M) (w : Walker M) (cache : CacheManager M)
    (id : Nat) : Nat → SFCTreeNode M → GravState → GravState
  | 0, _, st => st
  | fuel + 1, node, st =>
    let st := { st with myNumMACChecks := st.myNumMACChecks + 1 }
    let st := if node.type ≠ .Invalid then st else { st with asserts := st.asserts + 1 }
    let req := st.bucketReqs id
    if node.type = .Empty then st
    else if ¬ w.openCriterionBucket node req then
      let st := { st with
        myNumCellInteractions := st.myNumCellInteractions + req.numParticlesInBucket
        cachecellcount := st.cachecellcount + req.numParticlesInBucket }
      let st := st.updateParticles (w.reqnode env id).beginParticle
        (w.reqnode env id).endParticle
        (fun p => { p with extcellmass := p.extcellmass + env.totalMass node.moments })
      st.updateReq id (fun r => applyForce r (w.nodeBucketForce node r))
    else if node.type = .Bucket then
      match requestParticles w cache id (env.lookupKey node.key node.level) node.remoteIndex
          node.beginParticle node.endParticle st with
      | (some part, st) =>
        let st := { st with myNumParticleInteractions := st.myNumParticleInteractions +
          req.numParticlesInBucket * (node.endParticle - node.beginParticle) }
        (List.range' node.beginParticle (node.endParticle - node.beginParticle)).foldl
          (fun st i => remoteParticleStep env w id (st.myParticles i).mass
            (part.getD (i - node.beginParticle) { key := 0 }) st) st
      | (none, st) => st
    else if node.type = .NonLocal then
      match requestNode w cache id node.remoteIndex (env.lookupKey node.key node.level) st with
      | (some pnode, st) => cachedWalkBucketTree env w cache id fuel pnode st
      | (none, st) => st
    else
      let st :=
        match requestNode w cache id node.remoteIndex
            (w.leftChildLookupKey node.key node.level) st with
        | (some child, st) => cachedWalkBucketTree env w cache id fuel child st
        | (none, st) => st
      match requestNode w cache id node.remoteIndex
          (w.rightChildLookupKey node.key node.level) st with
      | (some child, st) => cachedWalkBucketTree env w cache id fuel child st
      | (none, st) => st

/-- `TreePiece::walkBucketTree` (lines 1062-1108) for the request `bucketReqs[id]`. -/
def walkBucketTree {M : Type} (env : Env M) (w : Walker M) (cache : CacheManager M)
    (id : Nat) : Tree M → GravState → GravState
  | .null, st => st
  | .node node l r, st =>
    let st := { st with myNumMACChecks := st.myNumMACChecks + 1 }
    let req := st.bucketReqs id
    if ¬ w.openCriterionBucket node req then
      let st := { st with
        countIntersects := st.countIntersects + 1
        myNumCellInteractions := st.myNumCellInteractions + req.numParticlesInBucket }
      let st := st.updateParticles (w.reqnode env id).beginParticle
        (w.reqnode env id).endParticle
        (fun p => { p with intcellmass := p.intcellmass + env.totalMass node.moments })
      st.updateReq id (fun r => applyForce r (w.nodeBucketForce node r))
    else if node.type = .Bucket then
      let st := { st with myNumParticleInteractions := st.myNumParticleInteractions +
        req.numParticlesInBucket * (node.endParticle - node.beginParticle) }
      (List.range' node.beginParticle (node.endParticle - node.beginParticle)).foldl
        (localParticleStep env w id) st
    else if node.type = .NonLocal then
      match requestNode w cache id node.remoteIndex (env.lookupKey node.key node.level) st with
      | (some pnode, st) =>
        cachedWalkBucketTree env w cache id w.depth pnode
          { st with countHits := st.countHits + 1 }
      | (none, st) => st
    else
      walkBucketTree env w cache id r (walkBucketTree env w cache id l st)

/-- The test of `finishBucket` (line 887). -/
def finishBucketFires (st : GravState) (iBucket : Nat) : Bool :=
  decide ((st.bucketReqs iBucket).finished ≠ 0) &&
    decide ((st.bucketReqs iBucket).numAdditionalRequests = 0)

/-- `TreePiece::finishBucket` (lines 883-909). -/
def finishBucket {M : Type} (env : Env M) (w : Walker M) (st : GravState) (iBucket : Nat) :
    GravState :=
  let req := st.bucketReqs iBucket
  if req.finished ≠ 0 ∧ req.numAdditionalRequests = 0 then
    let iStart := (w.reqnode env iBucket).beginParticle
    let st := { st with
      myNumParticlesPending := st.myNumParticlesPending - req.numParticlesInBucket
      myParticles := fun i =>
        if iStart ≤ i ∧ i < iStart + req.numParticlesInBucket then
          { st.myParticles i with
            treeAcceleration := (st.myParticles i).treeAcceleration
              + req.accelerations.getD (i - iStart) 0
            potential := (st.myParticles i).potential + req.potentials.getD (i - iStart) 0 }
        else st.myParticles i }
    if st.started = true ∧ st.myNumParticlesPending = 0 then
      { st with started := false, contributed := st.contributed + 1 }
    else st
  else st

/-- `TreePiece::startNextBucket` up to the call of `finishBucket` (lines 856-877). -/
def startNextBucketWalk {M : Type} (env : Env M) (w : Walker M) (cache : CacheManager M)
    (st : GravState) : GravState :=
  let currentBucket := st.currentBucket
  let node := w.reqnode env currentBucket
  let numParticlesInBucket := node.endParticle - node.beginParticle
  let req : BucketGravityRequest :=
    { finished := 0, identifier := currentBucket, numAdditionalRequests := w.initialRequests
      numParticlesInBucket := numParticlesInBucket
      accelerations := List.replicate numParticlesInBucket 0
      potentials := List.replicate numParticlesInBucket 0 }
  let st := st.updateParticles node.beginParticle node.endParticle
    (fun p => { p with treeAcceleration := 0 })
  let st := st.updateReq currentBucket (fun _ => req)
  let st := walkBucketTree env w cache currentBucket w.root st
  st.updateReq currentBucket (fun r => { r with finished := 1 })

/-- `TreePiece::startNextBucket` (lines 856-881). -/
def startNextBucket {M : Type} (env : Env M) (w : Walker M) (cache : CacheManager M)
    (st : GravState) : GravState :=
  if st.currentBucket ≥ w.bucketList.length then st
  else finishBucket env w (startNextBucketWalk env w cache st) st.currentBucket

/-- `TreePiece::receiveNode` up to the call of `finishBucket` (lines 1294-1302). -/
def receiveNodeWalk {M : Type} (env : Env M) (w : Walker M) (cache : CacheManager M)
    (node : SFCTreeNode M) (id : Nat) (st : GravState) : GravState :=
  let st := st.updateReq id
    (fun r => { r with numAdditionalRequests := r.numAdditionalRequests - 1 })
  let st := if node.type ≠ .Invalid then st else { st with asserts := st.asserts + 1 }
  if node.type ≠ .Empty then
    let st := if node.remoteIndex ≠ w.thisIndex then st
      else { st with asserts := st.asserts + 1 }
    cachedWalkBucketTree env w cache id w.depth node st
  else st

/-- `TreePiece::receiveNode` (lines 1294-1305). -/
def receiveNode {M : Type} (env : Env M) (w : Walker M) (cache : CacheManager M)
    (node : SFCTreeNode M) (id : Nat) (st : GravState) : GravState :=
  finishBucket env w (receiveNodeWalk env w cache node id st) id

/-- `TreePiece::receiveParticles` up to the call of `finishBucket` (lines 1375-1388). -/
def receiveParticlesWalk {M : Type} (env : Env M) (w : Walker M)
    (part : List GravityParticle) (num : Int) (id : Nat) (st : GravState) : GravState :=
  let st := st.updateReq id
    (fun r => { r with numAdditionalRequests := r.numAdditionalRequests - num })
  let st := { st with myNumParticleInteractions := st.myNumParticleInteractions +
    (st.bucketReqs id).numParticlesInBucket * num.toNat }
  (List.range num.toNat).foldl
    (fun st i => remoteParticleStep env w id (part.getD i { key := 0 }).mass
      (part.getD i { key := 0 }) st) st

/-- `TreePiece::receiveParticles` (lines 1375-1390). -/
def receiveParticles {M : Type} (env : Env M) (w : Walker M)
    (part : List GravityParticle) (num : Int) (id : Nat) (st : GravState) : GravState :=
  finishBucket env w (receiveParticlesWalk env w part num id st) id

/-- The number of items of the registered requests that belong to the bucket request
`id`. -/
def requestedItems (st : GravState) (id : Nat) : Int :=
  ((st.fetches.filter (fun f => decide (f.bucket = id))).map Fetch.items).sum

/-- A stretch of the walk for the request `id` leaves `finished` and
`numParticlesInBucket` of the request alone and changes `numAdditionalRequests` by the
number of items of the requests it registers. -/
def WalkFrame (id : Nat) (st st' : GravState) : Prop :=
  (st'.bucketReqs id).finished = (st.bucketReqs id).finished ∧
  (st'.bucketReqs id).numParticlesInBucket = (st.bucketReqs id).numParticlesInBucket ∧
  (st'.bucketReqs id).numAdditionalRequests - requestedItems st' id
    = (st.bucketReqs id).numAdditionalRequests - requestedItems st id

/-- An answer delivered for a bucket request: the node of a `receiveNode` call or the
particles and their number of a `receiveParticles` call. -/
inductive Delivery (M : Type)
  | node (n : SFCTreeNode M)
  | particles (part : List GravityParticle) (num : Int)

/-- The number of items an answer delivers. -/
def Delivery.items {M : Type} : Delivery M → Int
  | .node _ => 1
  | .particles _ num => num

/-- The handler of an answer up to its call of `finishBucket`. -/
def deliverWalk {M : Type} (env : Env M) (w : Walker M) (cache : CacheManager M) (id : Nat) :
    Delivery M → GravState → GravState
  | .node n, st => receiveNodeWalk env w cache n id st
  | .particles part num, st => receiveParticlesWalk env w part num id st

/-- The handler of an answer: `receiveNode` or `receiveParticles`. -/
def deliver {M : Type} (env : Env M) (w : Walker M) (cache : CacheManager M) (id : Nat)
    (d : Delivery M) (st : GravState) : GravState :=
  finishBucket env w (deliverWalk env w cache id d st) id

/-- The answers `ds` for the bucket request `id` handled one after the other, each with
the cache manager as it is at that time. -/
def runDeliveries {M : Type} (env : Env M) (w : Walker M) (id : Nat) :
    List (CacheManager M × Delivery M) → GravState → GravState
  | [], st => st
  | cd :: ds, st => runDeliveries env w id ds (deliver env w cd.1 id cd.2 st)

/-- The number of the handlers of `ds` whose call of `finishBucket` passes its test. -/
def firedCount {M : Type} (env : Env M) (w : Walker M) (id : Nat) :
    List (CacheManager M × Delivery M) → GravState → Nat
  | [], _ => 0
  | cd :: ds, st =>
    (if finishBucketFires (deliverWalk env w cd.1 id cd.2 st) id then 1 else 0)
      + firedCount env w id ds (deliver env w cd.1 id cd.2 st)

/-- Every answer of `ds` delivers at least one item and not more than the items that
are requested and not yet delivered (`delivered` counts the items delivered before). -/
def Answered {M : Type} (env : Env M) (w : Walker M) (id : Nat) :
    List (CacheManager M × Delivery M) → GravState → Int → Prop
  | [], _, _ => True
  | cd :: ds, st, delivered =>
    1 ≤ cd.2.items ∧ cd.2.items ≤ requestedItems st id - delivered ∧
      Answered env w id ds (deliver env w cd.1 id cd.2 st) (delivered + cd.2.items)

/-- The mass of the particle at index `i` of `myParticles`. -/
def partMass (parts : List GravityParticle) (i : Nat) : Int :=
  (parts.getD i { key := 0 }).mass

/-- The sum of the masses of the particles of `[a, b)`. -/
def massSum (mass : Nat → Int) (a b : Nat) : Int :=
  ((List.range' a (b - a)).map mass).sum

/-- The mass a particle has been made to interact with inside the piece, as a cell
or particle by particle. -/
def GravityParticle.accounted (p : GravityParticle) : Int := p.intcellmass + p.intpartmass

/-- Exact arithmetic of `MultipoleMoments` as far as `totalMass` goes: fresh moments
have no mass, adding a particle or other moments adds the mass, and the radius
calculations leave the mass alone. -/
def MassLaws {M : Type} (env : Env M) : Prop :=
  env.totalMass env.zero = 0 ∧
  (∀ m p, env.totalMass (env.addParticle m p) = env.totalMass m + p.mass) ∧
  (∀ m n, env.totalMass (env.add m n) = env.totalMass m + env.totalMass n) ∧
  (∀ m k l, env.totalMass (env.calculateRadiusFarthestCorner m k l) = env.totalMass m) ∧
  (∀ m ps, env.totalMass (env.calculateRadiusFarthestParticle m ps) = env.totalMass m)

/-- The subtree under a child pointer accounts for the particles of `[a, b)`: a null
pointer for none, a `Bucket` for its own particles, an `Internal` node through its two
children; the moments of each node hold the mass of its particles. -/
def Covers {M : Type} (env : Env M) (mass : Nat → Int) : Tree M → Nat → Nat → Prop
  | .null, a, b => a = b
  | .node n l r, a, b =>
    n.beginParticle = a ∧ n.endParticle = b ∧ a ≤ b ∧
    env.totalMass n.moments = massSum mass a b ∧
    ((n.type = .Bucket) ∨
      (n.type = .Internal ∧ ∃ m, Covers env mass l a m ∧ Covers env mass r m b))

/-- The effect of a part of the walk on the particles, for the requesting bucket
`[rb, re)` and the accounted mass `x`: no mass changes, the particles of the bucket
have `x` more accounted, every other particle is as before. -/
def Accounts (rb re : Nat) (x : Int) (st st' : GravState) : Prop :=
  (∀ j, (st'.myParticles j).mass = (st.myParticles j).mass) ∧
  (∀ j, rb ≤ j → j < re →
    (st'.myParticles j).accounted = (st.myParticles j).accounted + x) ∧
  (∀ j, ¬ (rb ≤ j ∧ j < re) → st'.myParticles j = st.myParticles j)

/-! ### The gravity iteration -/

/-- `TreePiece::calculateGravityBucketTree` (lines 946-971) up to the call of
`doAllBuckets`: the members it resets. `fresh` is a request as the default constructor
of `BucketGravityRequest` leaves it (`bucketReqs = new BucketGravityRequest[numBuckets]`). -/
def calculateGravityBucketTree (myNumParticles : Nat) (fresh : BucketGravityRequest)
    (st : GravState) : GravState :=
  { st with
    myNumProxyCalls := 0
    myNumCellInteractions := 0
    myNumParticleInteractions := 0
    myNumMACChecks := 0
    cachecellcount := 0
    bucketReqs := fun _ => fresh
    currentBucket := 0
    myNumParticlesPending := myNumParticles
    started := true
    countIntersects := 0
    countHits := 0 }

/-- The loop of `TreePiece::nextBucket` (lines 934-943): at most `_yieldPeriod` rounds of
`startNextBucket(); currentBucket++` while `currentBucket < numBuckets`. The message the
piece sends itself when buckets are left is the next `nextBucket` event. -/
def nextBucket {M : Type} (env : Env M) (w : Walker M) (cache : CacheManager M) :
    Nat → GravState → GravState
  | 0, st => st
  | i + 1, st =>
    if st.currentBucket < w.bucketList.length then
      let st := startNextBucket env w cache st
      nextBucket env w cache i { st with currentBucket := st.currentBucket + 1 }
    else st

/-- The entry methods that arrive at a piece during a gravity iteration after
`calculateGravityBucketTree`: `nextBucket`, and the answers `receiveNode` /
`receiveParticles` for a bucket request. Each comes with the cache manager as it is
then. -/
inductive GravEvent (M : Type)
  | nextBucket (cache : CacheManager M) (yieldPeriod : Nat)
  | deliver (cache : CacheManager M) (id : Nat) (d : Delivery M)

/-- The effect of one entry method. -/
def handleEvent {M : Type} (env : Env M) (w : Walker M) : GravEvent M → GravState → GravState
  | .nextBucket cache yieldPeriod, st => nextBucket env w cache yieldPeriod st
  | .deliver cache id d, st => deliver env w cache id d st

/-- The entry methods `es` handled one after the other. -/
def runEvents {M : Type} (env : Env M) (w : Walker M) :
    List (GravEvent M) → GravState → GravState
  | [], st => st
  | e :: es, st => runEvents env w es (handleEvent env w e st)

/-- The particle count of bucket `id`: `endParticle - beginParticle` of
`bucketList[id]`. -/
def bucketSize {M : Type} (env : Env M) (w : Walker M) (id : Nat) : Nat :=
  (w.reqnode env id).endParticle - (w.reqnode env id).beginParticle

/-- The buckets completed during `nextBucket`: those for which the `finishBucket` call of
`startNextBucket` passes its test, in order. -/
def nextBucketCompleted {M : Type} (env : Env M) (w : Walker M) (cache : CacheManager M) :
    Nat → GravState → List Nat
  | 0, _ => []
  | i + 1, st =>
    if st.currentBucket < w.bucketList.length then
      (if finishBucketFires (startNextBucketWalk env w cache st) st.currentBucket then
        [st.currentBucket] else []) ++
      nextBucketCompleted env w cache i
        { startNextBucket env w cache st with
          currentBucket := (startNextBucket env w cache st).currentBucket + 1 }
    else []

/-- The buckets completed by one entry method. -/
def eventCompleted {M : Type} (env : Env M) (w : Walker M) :
    GravEvent M → GravState → List Nat
  | .nextBucket cache yieldPeriod, st => nextBucketCompleted env w cache yieldPeriod st
  | .deliver cache id d, st =>
    if finishBucketFires (deliverWalk env w cache id d st) id then [id] else []

/-- The buckets completed while `es` are handled, in the order of completion. -/
def completedBuckets {M : Type} (env : Env M) (w : Walker M) :
    List (GravEvent M) → GravState → List Nat
  | [], _ => []
  | e :: es, st => eventCompleted env w e st ++ completedBuckets env w es (handleEvent env w e st)

/-- Answers arrive only for buckets whose walk has been started. -/
def Expected {M : Type} (env : Env M) (w : Walker M) :
    List (GravEvent M) → GravState → Prop
  | [], _ => True
  | .nextBucket cache y :: es, st => Expected env w es (handleEvent env w (.nextBucket cache y) st)
  | .deliver cache id d :: es, st =>
    id < st.currentBucket ∧ Expected env w es (handleEvent env w (.deliver cache id d) st)

/-- A stretch of a walk leaves the completion bookkeeping alone: the pending particles,
`started`, the barrier contributions, `currentBucket`, and the particle count of every
bucket request. -/
def IterFrame (st st' : GravState) : Prop :=
  st'.myNumParticlesPending = st.myNumParticlesPending ∧ st'.started = st.started ∧
  st'.contributed = st.contributed ∧ st'.currentBucket = st.currentBucket ∧
  ∀ j, (st'.bucketReqs j).numParticlesInBucket = (st.bucketReqs j).numParticlesInBucket

/-- The total particle count of the buckets `done`. -/
def completedCount {M : Type} (env : Env M) (w : Walker M) (done : List Nat) : Nat :=
  (done.map (bucketSize env w)).sum

/-- The bookkeeping of the pending particles after the buckets `done` have completed:
`myNumParticlesPending` is `N` minus their particle count, the requests of the buckets
started so far carry the bucket sizes, and only buckets of `bucketList` have completed. -/
def PendingOK {M : Type} (env : Env M) (w : Walker M) (N : Nat) (st : GravState)
    (done : List Nat) : Prop :=
  st.myNumParticlesPending = (N : Int) - (completedCount env w done : Int) ∧
  st.currentBucket ≤ w.bucketList.length ∧
  (∀ j, j < st.currentBucket → (st.bucketReqs j).numParticlesInBucket = bucketSize env w j) ∧
  (∀ x ∈ done, x < w.bucketList.length)

/-- The bookkeeping of the barrier: `started` is set as long as particles are pending,
and the piece has contributed once more than `c0` exactly when none is pending. -/
def BarrierOK (c0 : Nat) (st : GravState) : Prop :=
  (st.started = true ↔ st.myNumParticlesPending ≠ 0) ∧
  st.contributed = c0 + (if st.myNumParticlesPending = 0 then 1 else 0)

/-! ### The splitters and the classification of nodes -/

/-- The `KeyDouble` view of a key array (line 210): pairs of consecutive keys. -/
def toKeyDoubles : List Nat → List (Nat × Nat)
  | a :: b :: rest => (a, b) :: toKeyDoubles rest
  | _ => []

/-- The key array under an array of `KeyDouble`. -/
def ofKeyDoubles : List (Nat × Nat) → List Nat
  | [] => []
  | p :: rest => p.1 :: p.2 :: ofKeyDoubles rest

/-- The loop of `collectSplitters` (lines 213-218): false when it reaches
`CkAbort("Keys not ordered")`, that is when some `splitters[i] < splitters[i-1]`. -/
def keysOrdered : List Nat → Bool
  | a :: b :: rest => if b < a then false else keysOrdered (b :: rest)
  | _ => true

/-- The contract of `std::sort` on an array of `KeyDouble`, whose `operator<` compares
the first keys: the result is a rearrangement of the input in which no element is less
than an earlier one. -/
def SortsByFirst (sort : List (Nat × Nat) → List (Nat × Nat)) : Prop :=
  ∀ xs, (sort xs).Perm xs ∧ (sort xs).Pairwise (fun a b => ¬ b.1 < a.1)

/-- `TreePiece::collectSplitters` (lines 206-224) on the gathered keys `splits`, with
`std::sort` as a parameter: the splitter array it stores, or the message of `CkAbort`. -/
def collectSplitters (sort : List (Nat × Nat) → List (Nat × Nat)) (numTreePieces : Nat)
    (splits : List Nat) : Except String (List Nat) :=
  let numSplitters := 2 * numTreePieces
  let splitters := splits.take numSplitters
  let splitters := ofKeyDoubles (sort ((toKeyDoubles splitters).take numTreePieces))
  if keysOrdered splitters then .ok splitters else .error "Keys not ordered"

/-- The two keys a piece contributes in `buildTree(int, cb)` (lines 191-193), read
from its particle array after the local sort: the keys of its first and last particle. -/
def bounds (pc : Piece) (parts : List GravityParticle) : Nat × Nat :=
  (keyAt parts 1, keyAt parts pc.myNumParticles)

/-- The data of the reduction for pieces contributing in the given order. -/
def gathered (pieces : List (Piece × List GravityParticle)) : List Nat :=
  ofKeyDoubles (pieces.map (fun p => bounds p.1 p.2))

/-- The node `buildTree` works on, as lines 346-351 leave it. -/
def startNode {M : Type} (env : Env M) (pc : Piece) (bits key l r : Nat) : SFCTreeNode M :=
  { freshNode env key (63 - bits) with
    beginParticle := if l = 0 then l + 1 else l
    endParticle := if r = pc.myNumParticles + 1 then r + 1 - 1 else r + 1 }

/-- The test of line 439: an endpoint is a sentinel and the neighbouring piece exists. -/
def atBoundary (pc : Piece) (l r : Nat) : Prop :=
  (l = 0 ∧ pc.thisIndex ≠ 0) ∨
    (r = pc.myNumParticles + 1 ∧ (pc.thisIndex : Int) ≠ (pc.numTreePieces : Int) - 1)

/-- The bucket rule of `buildTree` (lines 354-356). -/
def bucketRule (pc : Piece) (l r : Nat) : Prop :=
  ((r : Int) - (l : Int) < pc.maxBucketSize) ∧ l ≠ 0 ∧ r ≠ pc.myNumParticles + 1

/-- The node `buildTree` finalizes as a bucket (lines 357-362). -/
def bucketNode {M : Type} (env : Env M) (pc : Piece) (parts : List GravityParticle)
    (bits key l r : Nat) : SFCTreeNode M :=
  { startNode env pc bits key l r with
    type := .Bucket
    numOwners := 1
    moments := env.calculateRadiusFarthestParticle
      (((parts.drop l).take (r + 1 - l)).foldl env.addParticle
        (startNode env pc bits key l r).moments) ((parts.drop l).take (r + 1 - l)) }

/-- What holds of a finalized bucket: it is a non-empty interval of local indices with
at most `maxBucketSize` particles, and its keys lie strictly between the sentinel keys. -/
def BucketOK {M : Type} (pc : Piece) (parts : List GravityParticle) (n : SFCTreeNode M) :
    Prop :=
  1 ≤ n.beginParticle ∧ n.beginParticle < n.endParticle ∧
    n.endParticle ≤ pc.myNumParticles + 1 ∧
    ((n.endParticle : Int) - (n.beginParticle : Int) ≤ pc.maxBucketSize) ∧
    keyAt parts 0 < keyAt parts n.beginParticle ∧
    keyAt parts (n.endParticle - 1) < keyAt parts (pc.myNumParticles + 1)

/-- The node a tree pointer refers to, if it is not null. -/
def Tree.rootNode {M : Type} : Tree M → Option (SFCTreeNode M)
  | .null => none
  | .node n _ _ => some n

/-! ### Loading the particles -/

/-- The particle count and the file offset that `TreePiece::load` computes for the piece
`thisIndex` (lines 45-57), as the pair `(myNumParticles, startParticle)`. `excess` and
`startParticle` are `unsigned int`; the particle counts `fh.numParticles` and
`myNumParticles`, whose types are declared in headers, are taken exact. -/
def load (numParticles numTreePieces thisIndex : Nat) : Nat × Nat :=
  let myNumParticles := numParticles / numTreePieces
  let excess := (numParticles % numTreePieces) % UINT
  let startParticle := (myNumParticles * thisIndex) % UINT
  if thisIndex < excess then (myNumParticles + 1, (startParticle + thisIndex) % UINT)
  else (myNumParticles, (startParticle + excess) % UINT)

/-! ### The chain of nextBucket messages -/

/-- The buckets for which the loop of `nextBucket` calls `startNextBucket`, in order
(lines 936-940). -/
def nextBucketStarted {M : Type} (env : Env M) (w : Walker M) (cache : CacheManager M) :
    Nat → GravState → List Nat
  | 0, _ => []
  | i + 1, st =>
    if st.currentBucket < w.bucketList.length then
      st.currentBucket :: nextBucketStarted env w cache i
        { startNextBucket env w cache st with
          currentBucket := (startNextBucket env w cache st).currentBucket + 1 }
    else []

/-- The test after the loop of `nextBucket` (lines 941-943): buckets are left and the
piece sends itself the `nextBucket` message again. -/
def nextBucketReposts {M : Type} (env : Env M) (w : Walker M) (cache : CacheManager M)
    (yieldPeriod : Nat) (st : GravState) : Bool :=
  decide ((nextBucket env w cache yieldPeriod st).currentBucket < w.bucketList.length)

/-- The buckets started by one entry method. -/
def eventStarted {M : Type} (env : Env M) (w : Walker M) : GravEvent M → GravState → List Nat
  | .nextBucket cache yieldPeriod, st => nextBucketStarted env w cache yieldPeriod st
  | .deliver _ _ _, _ => []

/-- The buckets started while `es` are handled, in the order they are started. -/
def startedBuckets {M : Type} (env : Env M) (w : Walker M) :
    List (GravEvent M) → GravState → List Nat
  | [], _ => []
  | e :: es, st => eventStarted env w e st ++ startedBuckets env w es (handleEvent env w e st)

/-- The number of `nextBucket` invocations among `es`. -/
def countNextBucket {M : Type} : List (GravEvent M) → Nat
  | [] => 0
  | .nextBucket _ _ :: es => countNextBucket es + 1
  | .deliver _ _ _ :: es => countNextBucket es

/-- The chain of `nextBucket` messages: `pending` tells whether a `nextBucket` message is
in flight (`doAllBuckets` sends the first one, every invocation that leaves buckets
sends the next). The result is the flag after `es` have been handled; `none` when `es`
handles a `nextBucket` message that nobody sent, or one with another yield period. -/
def chainPending {M : Type} (env : Env M) (w : Walker M) (yieldPeriod : Nat) :
    Bool → List (GravEvent M) → GravState → Option Bool
  | pending, [], _ => some pending
  | pending, .nextBucket cache y :: es, st =>
    if pending = true ∧ y = yieldPeriod then
      chainPending env w yieldPeriod (nextBucketReposts env w cache y st) es
        (handleEvent env w (.nextBucket cache y) st)
    else none
  | pending, .deliver cache id d :: es, st =>
    chainPending env w yieldPeriod pending es (handleEvent env w (.deliver cache id d) st)

/-! ### The course of a build on a sorted particle array -/

/-- What holds of the arguments of every `buildTree` call on a sorted particle array: the
node of key `key` at level `63 - bits` spans the keys `[key, key + 2^bits)`, the keys of
the particles `l .. r` lie in this span, and an endpoint that is not a sentinel has a
key strictly inside the sentinel keys. -/
def CallOK (pc : Piece) (parts : List GravityParticle) (bits key l r : Nat) : Prop :=
  bits ≤ 63 ∧ l ≤ r ∧ r ≤ pc.myNumParticles + 1 ∧ 2 ^ bits ∣ key ∧
  (∀ i, l ≤ i → i ≤ r → key ≤ keyAt parts i ∧ keyAt parts i < key + 2 ^ bits) ∧
  (l ≠ 0 → keyAt parts 0 < keyAt parts l) ∧
  (r ≠ pc.myNumParticles + 1 → keyAt parts r < keyAt parts (pc.myNumParticles + 1))

/-- The `lookupLeftChild` / `lookupRightChild` call that `buildTree` makes under the
condition `c`; without it the child pointer stays null. -/
def optLookup {M : Type} (env : Env M) (pc : Piece) (c : Prop) [Decidable c]
    (childKey childLevel : Nat) (st : BuildState M) : Tree M × BuildState M :=
  if c then lookupChild env pc childKey childLevel st else (.null, st)

/-- The course of a `buildTree` call on a sorted particle array, case by case:
`Built bits key l r st t st'` says that the call for the node of key `key` at level
`63 - bits` over the particles `l .. r`, entered with the members `st`, leaves the
subtree `t` and the members `st'`. The cases are the bucket (lines 354-365), the
exhausted key (lines 367-372), a split with the left half on another piece (lines
385-391), with the right half on another piece (lines 392-398), a split inside the
piece (lines 399-407), both bits set (lines 408-414) and both bits clear (lines
421-427), each followed by the classification of lines 430-454. The "Bits not right"
branch (lines 415-420) is no case: `buildTree_built` shows that no call on a sorted
array takes it. -/
inductive Built {M : Type} (env : Env M) (pc : Piece) (parts : List GravityParticle) :
    Nat → Nat → Nat → Nat → BuildState M → Tree M → BuildState M → Prop
  | bucket (bits key l r : Nat) (st : BuildState M) (hok : CallOK pc parts bits key l r)
      (hc : bucketRule pc l r) :
      Built env pc parts bits key l r st
        (.node (bucketNode env pc parts bits key l r) .null .null)
        { st with bucketList := st.bucketList ++ [bucketNode env pc parts bits key l r]
                  numBuckets := st.numBuckets + 1 }
  | exhausted (key l r : Nat) (st : BuildState M) (hok : CallOK pc parts 0 key l r)
      (hc : ¬ bucketRule pc l r) (hsz : ¬ ((r : Int) - (l : Int) < pc.maxBucketSize)) :
      Built env pc parts 0 key l r st (.node (startNode env pc 0 key l r) .null .null)
        { st with cerr := st.cerr ++ [.keysExhausted l r] }
  | leftRemote (b key r : Nat) (st st1 st' : BuildState M) (rt t : Tree M)
      (hok : CallOK pc parts (b + 1) key 0 r) (hc : ¬ bucketRule pc 0 r)
      (hr : Built env pc parts b (key + 2 ^ b) 1 r
        (optLookup env pc (pc.thisIndex ≠ 0) key (63 - b) st).2 rt st1)
      (hf : finishNode env pc (startNode env pc (b + 1) key 0 r) 0 r
        (optLookup env pc (pc.thisIndex ≠ 0) key (63 - b) st).1 rt st1 = some (t, st')) :
      Built env pc parts (b + 1) key 0 r st t st'
  | rightRemote (b key l : Nat) (st st1 st' : BuildState M) (lt t : Tree M)
      (hok : CallOK pc parts (b + 1) key l (pc.myNumParticles + 1))
      (hc : ¬ bucketRule pc l (pc.myNumParticles + 1))
      (hl : Built env pc parts b key l pc.myNumParticles st lt st1)
      (hf : finishNode env pc (startNode env pc (b + 1) key l (pc.myNumParticles + 1)) l
        (pc.myNumParticles + 1) lt
        (optLookup env pc ((pc.thisIndex : Int) ≠ (pc.numTreePieces : Int) - 1)
          (key + 2 ^ b) (63 - b) st1).1
        (optLookup env pc ((pc.thisIndex : Int) ≠ (pc.numTreePieces : Int) - 1)
          (key + 2 ^ b) (63 - b) st1).2 = some (t, st')) :
      Built env pc parts (b + 1) key l (pc.myNumParticles + 1) st t st'
  | split (b key l r s : Nat) (st st1 st2 st' : BuildState M) (lt rt t : Tree M)
      (hok : CallOK pc parts (b + 1) key l r) (hc : ¬ bucketRule pc l r)
      (hls : l < s) (hsr : s ≤ r) (hs1 : s ≠ 1) (hsN : s ≠ pc.myNumParticles + 1)
      (hl : Built env pc parts b key l (s - 1) st lt st1)
      (hr : Built env pc parts b (key + 2 ^ b) s r st1 rt st2)
      (hf : finishNode env pc (startNode env pc (b + 1) key l r) l r lt rt st2
        = some (t, st')) :
      Built env pc parts (b + 1) key l r st t st'
  | ones (b key l r : Nat) (st st1 st' : BuildState M) (rt t : Tree M)
      (hok : CallOK pc parts (b + 1) key l r) (hc : ¬ bucketRule pc l r)
      (hr : Built env pc parts b (key + 2 ^ b) l r
        (optLookup env pc (l = 0 ∧ pc.thisIndex ≠ 0) key (63 - b) st).2 rt st1)
      (hf : finishNode env pc (startNode env pc (b + 1) key l r) l r
        (optLookup env pc (l = 0 ∧ pc.thisIndex ≠ 0) key (63 - b) st).1 rt st1
          = some (t, st')) :
      Built env pc parts (b + 1) key l r st t st'
  | zeros (b key l r : Nat) (st st1 st' : BuildState M) (lt t : Tree M)
      (hok : CallOK pc parts (b + 1) key l r) (hc : ¬ bucketRule pc l r)
      (hl : Built env pc parts b key l r st lt st1)
      (hf : finishNode env pc (startNode env pc (b + 1) key l r) l r lt
        (optLookup env pc (r = pc.myNumParticles + 1 ∧
          (pc.thisIndex : Int) ≠ (pc.numTreePieces : Int) - 1) (key + 2 ^ b) (63 - b) st1).1
        (optLookup env pc (r = pc.myNumParticles + 1 ∧
          (pc.thisIndex : Int) ≠ (pc.numTreePieces : Int) - 1) (key + 2 ^ b) (63 - b) st1).2
          = some (t, st')) :
      Built env pc parts (b + 1) key l r st t st'

/-- What `buildTree` stores in a node it visits, whatever its kind: key, level and
particle interval. -/
def Visited {M : Type} (pc : Piece) (bits key l r : Nat) (n : SFCTreeNode M) : Prop :=
  n.key = key ∧ n.level = 63 - bits ∧ n.beginParticle = (if l = 0 then l + 1 else l) ∧
    n.endParticle = (if r = pc.myNumParticles + 1 then r + 1 - 1 else r + 1)

/-- The moments `buildTree` leaves in the nodes of a subtree: in a `Bucket` the sum of
the moments of its particles `[beginParticle, endParticle)` with the radius of
`calculateRadiusFarthestParticle` (lines 359-362), in a `Boundary` node the moments of
the nodes under its two child pointers added to fresh moments (lines 430-437), in an
`Internal` node the same sum with the radius of `calculateRadiusFarthestCorner`
(line 453). -/
def Tree.MomentsOK {M : Type} (env : Env M) (parts : List GravityParticle) : Tree M → Prop
  | .null => True
  | .node n l r =>
    (n.type = .Bucket → n.moments = env.calculateRadiusFarthestParticle
      (((parts.drop n.beginParticle).take (n.endParticle - n.beginParticle)).foldl
        env.addParticle env.zero)
      ((parts.drop n.beginParticle).take (n.endParticle - n.beginParticle))) ∧
    (n.type = .Boundary → n.moments = r.addMomentsTo env (l.addMomentsTo env env.zero)) ∧
    (n.type = .Internal → n.moments = env.calculateRadiusFarthestCorner
      (r.addMomentsTo env (l.addMomentsTo env env.zero)) n.key n.level) ∧
    l.MomentsOK env parts ∧ r.MomentsOK env parts

/-- The first local index of a call that starts at index `l`. -/
def beginOf (l : Nat) : Nat := if l = 0 then l + 1 else l

/-- The end of the local indices of a call that ends at index `r`. -/
def endOf (pc : Piece) (r : Nat) : Nat := if r = pc.myNumParticles + 1 then r + 1 - 1 else r + 1

/-- Modelled from the spec: `SFCTreeNode::lookupKey()`, which is declared in a header: the
node's key with the bit just below its prefix switched on, `key | (1 << (62 - level))`. -/
def SFCTreeNode.lookupKey {M : Type} (n : SFCTreeNode M) : Nat := n.key ||| 2 ^ (62 - n.level)

/-- The node at a position of the tree: the path from the root, `false` for `leftChild`
and `true` for `rightChild`. -/
def Tree.atPath {M : Type} : List Bool → Tree M → Option (SFCTreeNode M)
  | _, .null => none
  | [], .node n _ _ => some n
  | false :: p, .node _ l _ => l.atPath p
  | true :: p, .node _ _ r => r.atPath p

/-- The keys and levels in a subtree whose root has the key `key` at level `63 - bits`:
the key is a prefix of `63 - bits` bits, `createLeftChild` keeps the key,
`createRightChild` switches on the next bit, and both children are one level down. -/
def Tree.Keyed {M : Type} : Nat → Nat → Tree M → Prop
  | _, _, .null => True
  | bits, key, .node n l r =>
    n.key = key ∧ n.level = 63 - bits ∧ 2 ^ bits ∣ key ∧ bits ≤ 63 ∧
    (bits = 0 → l = .null ∧ r = .null) ∧
    l.Keyed (bits - 1) key ∧ r.Keyed (bits - 1) (key + 2 ^ (bits - 1))

/-! ### Cache lines -/

/-- `TreePiece::copySFCTreeNode(tmp, node)` (lines 1218-1238): the node written to `tmp`;
the argument `none` is the null pointer. The result `none` is the failure of
`assert(tmp.getType() != Invalid)` (line 1232), at which the program aborts. -/
def copySFCTreeNode {M : Type} (thisIndex : Nat) (tmp : SFCTreeNode M) :
    Option (SFCTreeNode M) → Option (SFCTreeNode M)
  | none => some { tmp with type := .Empty }
  | some node =>
    let tmp := { tmp with
      type := node.type
      moments := node.moments
      beginParticle := node.beginParticle
      endParticle := node.endParticle
      remoteIndex := node.remoteIndex
      key := node.key
      level := node.level }
    if tmp.type = .Invalid then none
    else if tmp.type = .Boundary ∨ tmp.type = .Internal ∨ tmp.type = .Bucket then
      some { tmp with remoteIndex := thisIndex }
    else some tmp

/-- `TreePiece::prefixCopyNode(node, lookupKey, cacheKeys, cacheNodes, count, depth)`
(lines 1243-1260): the `(key, node)` records written to `cacheKeys` and `cacheNodes`
from index `*count` on, in this order, and whether the call returns. `false` is the
failure of an assertion, the one of `copySFCTreeNode` (line 1232) or
`assert(lookupKey == node->lookupKey())` (line 1250), at which the program aborts: the
records are then those completed before it, and the element of `cacheNodes` that follows
them has been written as well. The first argument is `_cacheLineDepth - depth`,
`nodeLookup` gives the node stored under a lookup key (`none` for a null pointer), the
array elements are freshly constructed nodes. -/
def prefixCopyNode {M : Type} (env : Env M) (w : Walker M)
    (nodeLookup : Nat → Option (SFCTreeNode M)) :
    Nat → Option (SFCTreeNode M) → Nat → List (Nat × SFCTreeNode M) × Bool
  | 0, _, _ => ([], true)
  | rem + 1, node, lookupKey =>
    match copySFCTreeNode w.thisIndex (freshNode env 0 0) node with
    | none => ([], false)
    | some tmp =>
      match node with
      | none => ([(lookupKey, tmp)], true)
      | some node =>
        if lookupKey = env.lookupKey node.key node.level then
          let left := prefixCopyNode env w nodeLookup rem
            (nodeLookup (w.leftChildLookupKey node.key node.level))
            (w.leftChildLookupKey node.key node.level)
          if left.2 = true then
            let right := prefixCopyNode env w nodeLookup rem
              (nodeLookup (w.rightChildLookupKey node.key node.level))
              (w.rightChildLookupKey node.key node.level)
            ((env.lookupKey node.key node.level, tmp) :: (left.1 ++ right.1), right.2)
          else ((env.lookupKey node.key node.level, tmp) :: left.1, false)
        else ([], false)

/-- The copy of a node in a record, as `copySFCTreeNode` writes it when its assertion
holds: the kind, moments, particle range, key and level of the node, with the index of
this piece as `remoteIndex` for a `Boundary`, `Internal` or `Bucket` node and the
`remoteIndex` of the node otherwise. -/
def copiedNode {M : Type} (thisIndex : Nat) (tmp node : SFCTreeNode M) : SFCTreeNode M :=
  { tmp with
    type := node.type
    moments := node.moments
    beginParticle := node.beginParticle
    endParticle := node.endParticle
    remoteIndex :=
      if node.type = .Boundary ∨ node.type = .Internal ∨ node.type = .Bucket then thisIndex
      else node.remoteIndex
    key := node.key
    level := node.level }

/-- The records of a cache line as the specification words them, for the tree position
of lookup key `k` and `rem` levels: in pre-order the position itself, then the positions
under its left child, then those under its right child, each keyed by the lookup key of
the position; a position without a node is a record of kind `Empty` and the positions
below it have no record. -/
def cacheLine {M : Type} (env : Env M) (w : Walker M)
    (nodeLookup : Nat → Option (SFCTreeNode M)) : Nat → Nat → List (Nat × SFCTreeNode M)
  | 0, _ => []
  | rem + 1, k =>
    match nodeLookup k with
    | none => [(k, { freshNode env 0 0 with type := .Empty })]
    | some node =>
      (k, copiedNode w.thisIndex (freshNode env 0 0) node) ::
        (cacheLine env w nodeLookup rem (w.leftChildLookupKey node.key node.level) ++
          cacheLine env w nodeLookup rem (w.rightChildLookupKey node.key node.level))

/-- The tree is complete below the position of lookup key `k` as far as a cache line of
`rem` levels reaches: every position above the last level of the line holds a node. -/
def FullLine {M : Type} (w : Walker M) (nodeLookup : Nat → Option (SFCTreeNode M)) :
    Nat → Nat → Prop
  | 0, _ => True
  | rem + 1, k =>
    rem = 0 ∨ ∃ node, nodeLookup k = some node ∧
      FullLine w nodeLookup rem (w.leftChildLookupKey node.key node.level) ∧
      FullLine w nodeLookup rem (w.rightChildLookupKey node.key node.level)

/-! ### Migration of a piece -/

/-- What a pointer stored in `nodeLookup` refers to, as far as `pup` tells the pointers
apart: the null pointer, `root`, or another node. -/
inductive Stored (M : Type)
  | null : Stored M
  | root : Stored M
  | node (n : SFCTreeNode M) : Stored M

/-- The part of the stream that `pup` writes for the tree: the fields of `*root`
(line 1834), then key and fields of every entry of `nodeLookup` that it packs. -/
structure PackedTree (M : Type) where
  root : SFCTreeNode M
  entries : List (Nat × SFCTreeNode M)

/-- The packing branch of `TreePiece::pup` for the tree (lines 1834 and 1856-1870);
`nodeLookup` lists the entries of the map in the order of iteration. An entry is packed
when its pointer is neither `root` nor null. -/
def pupPack {M : Type} (root : SFCTreeNode M) (nodeLookup : List (Nat × Stored M)) :
    PackedTree M :=
  { root := root
    entries := nodeLookup.filterMap (fun e =>
      match e.2 with
      | .node n => some (e.1, n)
      | _ => none) }

/-- `TreePiece::rebuildSFCTree(node, parent, count)` (lines 1893-1905): the node with the
subtrees that hang from its `leftChild` and `rightChild` pointers afterwards. `nodeLookup`
gives the node stored under a lookup key (`none` for a null pointer); the recursive calls
pass the node as `parent` of its children. The first argument bounds the depth of the
recursion, `none` says that the bound was too small. -/
def rebuildSFCTree {M : Type} (w : Walker M) (nodeLookup : Nat → Option (SFCTreeNode M)) :
    Nat → Option (SFCTreeNode M) → Option (Tree M)
  | 0, _ => none
  | _ + 1, none => some .null
  | fuel + 1, some node =>
    match rebuildSFCTree w nodeLookup fuel
        (nodeLookup (w.leftChildLookupKey node.key node.level)),
      rebuildSFCTree w nodeLookup fuel
        (nodeLookup (w.rightChildLookupKey node.key node.level)) with
    | some l, some r => some (.node node l r)
    | _, _ => none

/-- The members of the piece that the unpacking branch of `pup` builds for the tree. -/
structure UnpackedTree (M : Type) where
  nodeLookup : List (Nat × SFCTreeNode M)
  bucketList : List (SFCTreeNode M)
  root : Option (Tree M)

/-- The unpacking branch of `TreePiece::pup` for the tree (lines 1831-1837 and
1871-1886) on a piece whose `nodeLookup` and `bucketList` are empty. The map is an
association list, an assignment `nodeLookup[k] = n` puts the entry in front; `sort` is
`std::sort` with `compBucket`. -/
def pupUnpack {M : Type} (env : Env M) (w : Walker M)
    (sort : List (SFCTreeNode M) → List (SFCTreeNode M)) (fuel : Nat) (p : PackedTree M) :
    UnpackedTree M :=
  let nodeLookup := p.entries.foldl (fun m e => (e.1, e.2) :: m)
    [(env.lookupKey p.root.key p.root.level, p.root)]
  let bucketList := (p.entries.filter (fun e => decide (e.2.type = .Bucket))).map Prod.snd
  { nodeLookup := nodeLookup
    bucketList := sort bucketList
    root := rebuildSFCTree w (fun k => nodeLookup.lookup k) fuel (some p.root) }

/-- The contract of `std::sort` with `compBucket`: the result is a rearrangement of the
input in which no bucket comes before one of smaller `beginParticle`. -/
def SortsByBegin {M : Type} (sort : List (SFCTreeNode M) → List (SFCTreeNode M)) : Prop :=
  ∀ xs, (sort xs).Perm xs ∧
    (sort xs).Pairwise (fun a b => ¬ (b.beginParticle < a.beginParticle))

/-- The node that the original `nodeLookup` holds under a key: `none` when the key is
absent or its pointer is null. -/
def storedAt {M : Type} (nodeLookup : List (Nat × Stored M)) (root : SFCTreeNode M)
    (k : Nat) : Option (SFCTreeNode M) :=
  match nodeLookup.lookup k with
  | some .root => some root
  | some (.node n) => some n
  | _ => none

/-- The child pointers in a subtree agree with the map: under the left and right child
lookup keys of every node the map holds the node's children, and nothing where a child
pointer is null. -/
def Tree.Linked {M : Type} (w : Walker M) (look : Nat → Option (SFCTreeNode M)) :
    Tree M → Prop
  | .null => True
  | .node n l r =>
    look (w.leftChildLookupKey n.key n.level) = l.rootNode ∧
    look (w.rightChildLookupKey n.key n.level) = r.rootNode ∧
    l.Linked w look ∧ r.Linked w look

/-- The number of levels of a subtree. -/
def Tree.depth {M : Type} : Tree M → Nat
  | .null => 0
  | .node _ l r => max l.depth r.depth + 1

/-! ### Node requests served from the tree table -/

/-- `nodeLookup.find(lookupKey)` on the entries of `nodeLookup`, each a lookup key with
the node pointer stored under it (`none` is the null pointer): the pointer of the entry
found, `none` for `nodeLookup.end()`. `NodeLookupType` is declared in a header;
`TreePiece.cpp` uses it through `find`, `end`, `begin`, `erase`, `operator[]` and
iterators with `first` and `second`, the interface of the standard associative
containers. -/
def nodeLookup_find {M : Type} (nodeLookup : List (Nat × Option (SFCTreeNode M)))
    (lookupKey : Nat) : Option (Option (SFCTreeNode M)) :=
  nodeLookup.lookup lookupKey

/-- The read `nodeLookup[lookupKey]`: the pointer read and the entries afterwards. By the
contract of `operator[]` of the standard associative containers a key without an entry
is entered with a value-initialised pointer, the null pointer. -/
def nodeLookup_index {M : Type} (nodeLookup : List (Nat × Option (SFCTreeNode M)))
    (lookupKey : Nat) : Option (SFCTreeNode M) × List (Nat × Option (SFCTreeNode M)) :=
  match nodeLookup_find nodeLookup lookupKey with
  | some node => (node, nodeLookup)
  | none => (none, nodeLookup ++ [(lookupKey, none)])

/-- `TreePiece::lookupNode(lookupKey, res)` (lines 1017-1024): the node written to `*res`
and the entries of `nodeLookup` afterwards. The node `none` is the failure of the
assertion of `copySFCTreeNode`, at which the program aborts. -/
def lookupNode {M : Type} (w : Walker M) (nodeLookup : List (Nat × Option (SFCTreeNode M)))
    (lookupKey : Nat) (res : SFCTreeNode M) :
    Option (SFCTreeNode M) × List (Nat × Option (SFCTreeNode M)) :=
  let node := nodeLookup_index nodeLookup lookupKey
  (copySFCTreeNode w.thisIndex res node.1, node.2)

/-- `TreePiece::prefixCopyNode` (lines 1243-1260) on the entries of `nodeLookup`: the
records written and whether the call returns, as in `prefixCopyNode`, and the entries of
`nodeLookup` afterwards (at the abort if it does not return). The arguments
`nodeLookup[node->leftChildLookupKey()]` and `nodeLookup[node->rightChildLookupKey()]`
are read before each recursive call, also before a call that returns at once. -/
def prefixCopyNodeTable {M : Type} (env : Env M) (w : Walker M) :
    Nat → Option (SFCTreeNode M) → Nat → List (Nat × Option (SFCTreeNode M)) →
      List (Nat × SFCTreeNode M) × Bool × List (Nat × Option (SFCTreeNode M))
  | 0, _, _, nodeLookup => ([], true, nodeLookup)
  | rem + 1, node, lookupKey, nodeLookup =>
    match copySFCTreeNode w.thisIndex (freshNode env 0 0) node with
    | none => ([], false, nodeLookup)
    | some tmp =>
      match node with
      | none => ([(lookupKey, tmp)], true, nodeLookup)
      | some node =>
        if lookupKey = env.lookupKey node.key node.level then
          let left := nodeLookup_index nodeLookup (w.leftChildLookupKey node.key node.level)
          let leftLine := prefixCopyNodeTable env w rem left.1
            (w.leftChildLookupKey node.key node.level) left.2
          if leftLine.2.1 = true then
            let right := nodeLookup_index leftLine.2.2
              (w.rightChildLookupKey node.key node.level)
            let rightLine := prefixCopyNodeTable env w rem right.1
              (w.rightChildLookupKey node.key node.level) right.2
            ((env.lookupKey node.key node.level, tmp) :: (leftLine.1 ++ rightLine.1),
              rightLine.2.1, rightLine.2.2)
          else ((env.lookupKey node.key node.level, tmp) :: leftLine.1, false, leftLine.2.2)
        else ([], false, nodeLookup)

/-- The largest value of `int`. -/
def INT_MAX : Nat := 2 ^ 31 - 1

/-- `int number = (1<<_cacheLineDepth)-1;` (line 1269), the number of elements of the
arrays `cacheKeys` and `cacheNodes`. `none` is undefined behaviour: the value of the
shift does not fit `int`. -/
def cacheLineNumber (cacheLineDepth : Nat) : Option Nat :=
  if 2 ^ cacheLineDepth ≤ INT_MAX then some (2 ^ cacheLineDepth - 1) else none

/-- The message `fillRequestNode` sends to answer a node request. -/
inductive NodeReply (M : Type)
  /-- `cacheManagerProxy[retIndex].recvNodes(count, cacheKeys, cacheNodes, thisIndex)`,
  with the first `count` elements of the two arrays. -/
  | recvNodes (retIndex : Nat) (line : List (Nat × SFCTreeNode M)) (sender : Nat)
  /-- `cacheManagerProxy[retIndex].recvNodes(lookupKey, thisIndex, tmp)`. -/
  | recvNode (retIndex lookupKey sender : Nat) (tmp : SFCTreeNode M)
  /-- `streamingProxy[retIndex].receiveNode(tmp, req)` for the request `id`. -/
  | receiveNode (retIndex : Nat) (tmp : SFCTreeNode M) (id : Nat)

/-- `TreePiece::fillRequestNode(retIndex, lookupKey, req)` (lines 1262-1292) for the
request of identifier `id`: the message sent and the entries of `nodeLookup` afterwards.
`cacheLineDepth` is the configuration value `_cacheLineDepth`. The result `none` is
undefined behaviour: the overflow in `number`, or an element written past the end of the
arrays. The message `none` is the failure of an assertion of `copySFCTreeNode` or
`prefixCopyNode`, at which the program aborts and no message is sent. -/
def fillRequestNode {M : Type} (env : Env M) (w : Walker M) (cacheLineDepth : Nat)
    (nodeLookup : List (Nat × Option (SFCTreeNode M))) (retIndex lookupKey id : Nat) :
    Option (Option (NodeReply M) × List (Nat × Option (SFCTreeNode M))) :=
  let node := nodeLookup_index nodeLookup lookupKey
  match node.1 with
  | some n =>
    if w.useCache then
      match cacheLineNumber cacheLineDepth with
      | none => none
      | some number =>
        let line := prefixCopyNodeTable env w cacheLineDepth (some n) lookupKey node.2
        if line.2.1 = true then
          if line.1.length ≤ number then
            some (some (.recvNodes retIndex line.1 w.thisIndex), line.2.2)
          else none
        else if line.1.length < number then some (none, line.2.2)
        else none
    else
      match copySFCTreeNode w.thisIndex (freshNode env 0 0) (some n) with
      | some tmp => some (some (.receiveNode retIndex tmp id), node.2)
      | none => some (none, node.2)
  | none =>
    let tmp := { freshNode env 0 0 with type := .Empty }
    some (some (if w.useCache then .recvNode retIndex lookupKey w.thisIndex tmp
      else .receiveNode retIndex tmp id), node.2)

/-- The entries `t'` are the entries `t` with null pointers entered under some keys that
had no entry: every key has the entry it had, or had none and has a null pointer. -/
def TableGrows {M : Type} (t t' : List (Nat × Option (SFCTreeNode M))) : Prop :=
  ∀ k, nodeLookup_find t' k = nodeLookup_find t k ∨
    (nodeLookup_find t k = none ∧ nodeLookup_find t' k = some none)

/-- The node stored under a lookup key, null for a key without an entry: the value of
`nodeLookup[lookupKey]`. -/
def nodeLookup_value {M : Type} (nodeLookup : List (Nat × Option (SFCTreeNode M)))
    (lookupKey : Nat) : Option (SFCTreeNode M) :=
  (nodeLookup_find nodeLookup lookupKey).join

/-- The entries of `nodeLookup` after `fillRequestNode` (the entries before it if the
call is undefined). -/
def servedTable {M : Type} (env : Env M) (w : Walker M) (cacheLineDepth : Nat)
    (nodeLookup : List (Nat × Option (SFCTreeNode M))) (retIndex lookupKey id : Nat) :
    List (Nat × Option (SFCTreeNode M)) :=
  match fillRequestNode env w cacheLineDepth nodeLookup retIndex lookupKey id with
  | some (_, t) => t
  | none => nodeLookup

/-! ### The force of a particle on a bucket -/

/-- The arithmetic that `partBucketForce` takes from its headers: the operations of
`Vector3D<double>` (type `V`) and of `double` (type `S`) and the macro `SPLINE`. They
are parameters of the embedding. -/
structure ForceOps (V S : Type) where
  /-- The difference of two positions. -/
  sub : V → V → V
  /-- `r.lengthSquared()`. -/
  lengthSquared : V → S
  /-- The test `rsq != 0`. -/
  nonzero : S → Bool
  /-- The sum of two softenings. -/
  add : S → S → S
  /-- The values that `SPLINE(rsq, twoh, a, b)` assigns to `a` and `b`. -/
  spline : S → S → S × S
  /-- `mass * r`. -/
  scale : S → V → V
  /-- `v * b`. -/
  scaleBy : V → S → V
  /-- `acceleration + v`. -/
  addVector : V → V → V
  /-- `mass * a`. -/
  mul : S → S → S
  /-- `potential - x`. -/
  subScalar : S → S → S

/-- The fields of `GravityParticle` that `partBucketForce` reads. -/
structure ForceParticle (V S : Type) where
  position : V
  soft : S
  mass : S

/-- The fields of `BucketGravityRequest`, with the positions, softenings, accelerations
and potentials of the bucket particles as functions of the index; `B` is the type of
the bounding box. -/
structure BucketForceRequest (V S B : Type) where
  finished : Nat
  identifier : Nat
  numAdditionalRequests : Int
  numParticlesInBucket : Nat
  boundingBox : B
  positions : Nat → V
  softs : Nat → S
  accelerations : Nat → V
  potentials : Nat → S

/-- The acceleration `part->mass * r * b` that the particle `part` contributes to the
bucket particle `j` (lines 587-591). -/
def partAcceleration {V S B : Type} (ops : ForceOps V S) (part : ForceParticle V S)
    (req : BucketForceRequest V S B) (j : Nat) : V :=
  let r := ops.sub part.position (req.positions j)
  ops.scaleBy (ops.scale part.mass r)
    (ops.spline (ops.lengthSquared r) (ops.add part.soft (req.softs j))).2

/-- The potential `part->mass * a` that the particle `part` contributes to the bucket
particle `j` (lines 587-593). -/
def partPotential {V S B : Type} (ops : ForceOps V S) (part : ForceParticle V S)
    (req : BucketForceRequest V S B) (j : Nat) : S :=
  let r := ops.sub part.position (req.positions j)
  ops.mul part.mass (ops.spline (ops.lengthSquared r) (ops.add part.soft (req.softs j))).1

/-- One round of the loop of `partBucketForce` (lines 586-595), for the bucket
particle `j`. -/
def partBucketForceStep {V S B : Type} (ops : ForceOps V S) (part : ForceParticle V S)
    (req : BucketForceRequest V S B) (j : Nat) : BucketForceRequest V S B :=
  let r := ops.sub part.position (req.positions j)
  let rsq := ops.lengthSquared r
  if ops.nonzero rsq then
    { req with
      accelerations := fun i =>
        if i = j then ops.addVector (req.accelerations j) (partAcceleration ops part req j)
        else req.accelerations i
      potentials := fun i =>
        if i = j then ops.subScalar (req.potentials j) (partPotential ops part req j)
        else req.potentials i }
  else req

/-- `partBucketForce(part, req)` (lines 576-596): the request afterwards. -/
def partBucketForce {V S B : Type} (ops : ForceOps V S) (part : ForceParticle V S)
    (req : BucketForceRequest V S B) : BucketForceRequest V S B :=
  (List.range req.numParticlesInBucket).foldl (partBucketForceStep ops part) req

/-- The squared separation `rsq` of the particle `part` and the bucket particle `j`. -/
def separation {V S B : Type} (ops : ForceOps V S) (part : ForceParticle V S)
    (req : BucketForceRequest V S B) (j : Nat) : S :=
  ops.lengthSquared (ops.sub part.position (req.positions j))

/-! ### Remote buckets on a cache hit and on a cache miss -/

/-- The forces of the particles `parts`, applied to a request one after the other. -/
def particleForces {M : Type} (w : Walker M) (parts : List GravityParticle)
    (r : BucketGravityRequest) : BucketGravityRequest :=
  parts.foldl (fun r p => applyForce r (w.partBucketForce p r)) r

/-- The sum of the masses of the first `num` particles of a fetched array. -/
def fetchedMass (part : List GravityParticle) (num : Nat) : Int :=
  ((List.range num).map (fun i => (part.getD i { key := 0 }).mass)).sum

/-! ### The opening test of the walk -/

/-- What `openCriterionBucket` takes from its headers: the centre of mass and the radius
of `MultipoleMoments`, the floating-point value `opening_geometry_factor * radius /
theta`, the constructor of `Sphere<double>`, the bounding box of a request and
`Space::intersect`. They are parameters of the embedding. -/
structure OpeningGeometry (M V S Sph Box : Type) where
  /-- `node->moments.cm`. -/
  cm : M → V
  /-- `node->moments.radius`. -/
  radius : M → S
  /-- `opening_geometry_factor * radius / theta`. -/
  scaled : S → S
  /-- `Sphere<double> s(centre, radius)`. -/
  sphere : V → S → Sph
  /-- `req.boundingBox`. -/
  boundingBox : BucketGravityRequest → Box
  /-- `Space::intersect(box, s)`. -/
  intersect : Box → Sph → Bool

/-- `openCriterionBucket(node, req)` (lines 680-688). -/
def openCriterionBucket {M V S Sph Box : Type} (geo : OpeningGeometry M V S Sph Box)
    (node : SFCTreeNode M) (req : BucketGravityRequest) : Bool :=
  let s := geo.sphere (geo.cm node.moments) (geo.scaled (geo.radius node.moments))
  geo.intersect (geo.boundingBox req) s

/-- A stretch of the walk counts at least one opening test for every node it treats as
a single multipole: `countIntersects` does not decrease and grows by no more than
`myNumMACChecks`. -/
def WalkCount (st st' : GravState) : Prop :=
  st.countIntersects ≤ st'.countIntersects ∧
  st'.countIntersects + st.myNumMACChecks ≤ st'.myNumMACChecks + st.countIntersects

/-! ### The place of the NonLocal nodes -/

/-- The child pointer refers to a `NonLocal` node. -/
def Tree.isNonLocal {M : Type} : Tree M → Prop
  | .null => False
  | .node n _ _ => n.type = .NonLocal

/-- The place of the `NonLocal` nodes in a tree: a `NonLocal` node has no children, its
parent is `Boundary` and the parent's other child pointer refers to a node that is not
`NonLocal`, and below a node that is not `Boundary` there is no `NonLocal` node. -/
def Tree.RemoteOK {M : Type} : Tree M → Prop
  | .null => True
  | .node n l r =>
    (n.type = .NonLocal → l = .null ∧ r = .null) ∧
    (l.isNonLocal → n.type = .Boundary ∧ r ≠ .null ∧ ¬ r.isNonLocal) ∧
    (r.isNonLocal → n.type = .Boundary ∧ l ≠ .null ∧ ¬ l.isNonLocal) ∧
    (n.type ≠ .Boundary → ∀ m ∈ l.nodes ++ r.nodes, m.type ≠ .NonLocal) ∧
    l.RemoteOK ∧ r.RemoteOK

/-- The nodes that `calculateRemoteMoments` is called for when it is called for the root
of the tree: the node itself and, below a `Boundary` node, the nodes it is called for
through the two child pointers. -/
def Tree.remoteCalls {M : Type} : Tree M → List (SFCTreeNode M)
  | .null => []
  | .node n l r => n :: (if n.type = .Boundary then l.remoteCalls ++ r.remoteCalls else [])

/-- What a child pointer of a node over the particles `l .. r` refers to after the build
of the node's children. -/
def ChildOK {M : Type} (pc : Piece) (l r : Nat) (c : Tree M) : Prop :=
  c.RemoteOK ∧ (c.isNonLocal → atBoundary pc l r) ∧
  (¬ atBoundary pc l r → ∀ m ∈ c.nodes, m.type ≠ .NonLocal)

/-- What a `buildTree` call over the particles `l .. r` leaves. -/
def BuiltOK {M : Type} (pc : Piece) (l r : Nat) (t : Tree M) : Prop :=
  (∃ n lt rt, t = .node n lt rt ∧ n.type ≠ .NonLocal) ∧ t.RemoteOK ∧
  (¬ atBoundary pc l r → ∀ m ∈ t.nodes, m.type ≠ .NonLocal)

/-- Two trees have the same shape and nodes of the same kinds at the same positions. -/
def Tree.SameKinds {M : Type} : Tree M → Tree M → Prop
  | .null, .null => True
  | .node a l r, .node b l' r' => a.type = b.type ∧ l.SameKinds l' ∧ r.SameKinds r'
  | _, _ => False

/-! ### The depth of the build -/

/-- The particle interval of the node a child pointer refers to lies in the interval of
the parent `n`; a `NonLocal` node holds no local particles. -/
def Tree.within {M : Type} (n : SFCTreeNode M) : Tree M → Prop
  | .null => True
  | .node c _ _ =>
    c.type ≠ .NonLocal → n.beginParticle ≤ c.beginParticle ∧ c.endParticle ≤ n.endParticle

/-- The particle intervals of the nodes of a tree are nested: each lies in the interval
of the parent. -/
def Tree.Nested {M : Type} : Tree M → Prop
  | .null => True
  | .node n l r => l.within n ∧ r.within n ∧ l.Nested ∧ r.Nested

/-! ### Concrete inputs used to evaluate the embedding -/

/-- An instance of the header operations used to evaluate the embedding on concrete
inputs: moments are reduced to their total mass, a node of key `k` at level `l`
spans the keys `[k, k + 2^(63-l) - 1]`. -/
def exampleEnv : Env Int :=
  { zero := 0
    addParticle := fun m p => m + p.mass
    add := fun a b => a + b
    sub := fun a b => a - b
    calculateRadiusFarthestCorner := fun m _ _ => m
    calculateRadiusFarthestParticle := fun m _ => m
    totalMass := fun m => m
    leftBoundary := fun k _ => k
    rightBoundary := fun k l => k + 2 ^ (63 - l) - 1
    lookupKey := fun k l => k ||| 2 ^ (62 - l) }

/-- A single piece holding one particle, buckets of at most one particle. -/
def onePiece : Piece :=
  { thisIndex := 0, numTreePieces := 1, maxBucketSize := 1, splitters := [2 ^ 62, 2 ^ 62],
    myNumParticles := 1 }

/-- Its particle array: the two sentinels around one particle of key `2^62`. -/
def oneParticle : List GravityParticle :=
  [{ key := firstPossibleKey }, { key := 2 ^ 62, mass := 1 }, { key := lastPossibleKey }]

/-- The splitters of two pieces: piece 0 holds the keys `2^60, 2^61`, piece 1 the
keys `2^62, 2^62 + 2^61`. -/
def twoSplitters : List Nat := [2 ^ 60, 2 ^ 61, 2 ^ 62, 2 ^ 62 + 2 ^ 61]

/-- Piece 0 of two, buckets of one particle. -/
def pieceZero : Piece :=
  { thisIndex := 0, numTreePieces := 2, maxBucketSize := 1, splitters := twoSplitters,
    myNumParticles := 2 }

/-- Piece 1 of two, buckets of one particle. -/
def pieceOne : Piece :=
  { thisIndex := 1, numTreePieces := 2, maxBucketSize := 1, splitters := twoSplitters,
    myNumParticles := 2 }

/-- The particles of piece 0, each of mass 1, between two sentinel slots. -/
def partsZero : List GravityParticle :=
  [{ key := 0 }, { key := 2 ^ 60, mass := 1 }, { key := 2 ^ 61, mass := 1 }, { key := 0 }]

/-- The particles of piece 1, each of mass 1, between two sentinel slots. -/
def partsOne : List GravityParticle :=
  [{ key := 0 }, { key := 2 ^ 62, mass := 1 }, { key := 2 ^ 62 + 2 ^ 61, mass := 1 },
   { key := 0 }]

/-- The state of a piece after `startTreeBuild` (an empty tree if the build is
undefined). -/
def builtState {M : Type} (env : Env M) (pc : Piece) (parts : List GravityParticle) :
    PieceState M :=
  match startTreeBuild env pc parts with
  | some (_, _, st) => st
  | none => { root := .null, boundaryNodesPending := 0, outbox := [], cerr := [], treeReady := 0 }

/-- The node `nodeLookup.find(k)` points to (a fresh node if there is none). -/
def nodeAt {M : Type} (env : Env M) (st : PieceState M) (k : Nat) : SFCTreeNode M :=
  match st.root.find env k with
  | some n => n
  | none => freshNode env 0 0

/-- The tree of piece 1 of the two-piece example after `acceptBoundaryNode` has stored
the totals (4 particles, total mass 4) in its root. -/
def finalizedRoot : Tree Int :=
  (builtState exampleEnv pieceOne partsOne).root.modify exampleEnv (2 ^ 62)
    (fun x => { x with remoteIndex := 4, moments := 4 })

/-- That tree after `calculateRemoteMoments(root)`. -/
def remoteTree : Tree Int :=
  match calculateRemoteMoments exampleEnv none finalizedRoot with
  | some t => t
  | none => .null

/-- The first visited `Boundary` node of `remoteTree` with its two children. -/
def remoteFamily : SFCTreeNode Int × Tree Int × Tree Int :=
  match remoteTree.visited with
  | x :: _ => x
  | [] => (freshNode exampleEnv 0 0, .null, .null)

/-- The buckets of a piece after `startTreeBuild` (none if the build is undefined). -/
def builtBuckets {M : Type} (env : Env M) (pc : Piece) (parts : List GravityParticle) :
    List (SFCTreeNode M) :=
  match startTreeBuild env pc parts with
  | some (_, bs, _) => bs.bucketList
  | none => []

/-- The particle array of a piece after `startTreeBuild`, as a function of the index. -/
def builtParticles {M : Type} (env : Env M) (pc : Piece) (parts : List GravityParticle) :
    Nat → GravityParticle :=
  match startTreeBuild env pc parts with
  | some (ps, _, _) => fun i => ps.getD i { key := 0 }
  | none => fun _ => { key := 0 }

/-- Piece 1 of the two-piece example walking its finalized tree without a cache: every
node is opened, the force kernels leave the request as it is. -/
def exampleWalker : Walker Int :=
  { thisIndex := 1, numTreePieces := 2, useCache := false, initialRequests := 0, depth := 64
    bucketList := builtBuckets exampleEnv pieceOne partsOne
    root := remoteTree
    leftChildLookupKey := fun k l => k ||| 2 ^ (61 - l)
    rightChildLookupKey := fun k l => (k ||| 2 ^ (62 - l)) ||| 2 ^ (61 - l)
    openCriterionBucket := fun _ _ => true
    nodeBucketForce := fun _ r => (r.accelerations, r.potentials)
    partBucketForce := fun _ r => (r.accelerations, r.potentials) }

/-- A cache manager that holds nothing. -/
def emptyCache : CacheManager Int :=
  { requestNode := fun _ _ _ => none, requestParticles := fun _ _ _ _ _ => none }

/-- The state of piece 1 as `calculateGravityBucketTree` leaves it before the first
bucket is started. -/
def exampleGrav : GravState :=
  { myParticles := builtParticles exampleEnv pieceOne partsOne
    bucketReqs := fun _ => { finished := 0, identifier := 0, numAdditionalRequests := 0
                             numParticlesInBucket := 0, accelerations := [], potentials := [] }
    myNumParticlesPending := 2, started := true, contributed := 0, currentBucket := 0
    fetches := [], asserts := 0, myNumMACChecks := 0, myNumCellInteractions := 0
    myNumParticleInteractions := 0, myNumProxyCalls := 0, countIntersects := 0
    countHits := 0, cachecellcount := 0 }

/-- The walker of `exampleWalker` with the software cache switched on. -/
def cachingWalker : Walker Int := { exampleWalker with useCache := true }

/-- An `Empty` node, the answer of an owner that has no node under the requested key. -/
def emptyNode : SFCTreeNode Int := { freshNode exampleEnv 0 0 with type := .Empty }

/-- A cache manager that holds an `Empty` node under every key and no particles of any
bucket it is asked for. -/
def fullCache : CacheManager Int :=
  { requestNode := fun _ _ _ => some emptyNode, requestParticles := fun _ _ _ _ _ => some [] }

/-- The answers to the one request of the example: the owner sends an `Empty` node. -/
def exampleAnswers : List (CacheManager Int × Delivery Int) := [(emptyCache, .node emptyNode)]

/-- A single piece holding three particles, buckets of at most one particle. -/
def tiedPiece : Piece :=
  { thisIndex := 0, numTreePieces := 1, maxBucketSize := 1, splitters := [2 ^ 61, 2 ^ 62],
    myNumParticles := 3 }

/-- Its particle array, sorted by key: the two sentinels around three particles of
mass 1, the last two with the same key `2^62`. -/
def tiedParticles : List GravityParticle :=
  [{ key := firstPossibleKey }, { key := 2 ^ 61, mass := 1 }, { key := 2 ^ 62, mass := 1 },
   { key := 2 ^ 62, mass := 1 }, { key := lastPossibleKey }]

/-- The tree `buildTree` leaves under the root (empty if the build is undefined). -/
def builtTree {M : Type} (env : Env M) (pc : Piece) (parts : List GravityParticle) : Tree M :=
  match buildTree env pc parts 63 firstPossibleKey 0 (pc.myNumParticles + 1)
      BuildState.initial with
  | some (t, _) => t
  | none => .null

/-- The piece members `buildTree` leaves (the initial ones if the build is undefined). -/
def builtMembers {M : Type} (env : Env M) (pc : Piece) (parts : List GravityParticle) :
    BuildState M :=
  match buildTree env pc parts 63 firstPossibleKey 0 (pc.myNumParticles + 1)
      BuildState.initial with
  | some (_, bs) => bs
  | none => BuildState.initial

/-- A walker of a single piece over the tree and buckets of a build: no cache, every
node is opened, the force kernels leave the request as it is. -/
def localWalker (pc : Piece) (parts : List GravityParticle) : Walker Int :=
  { thisIndex := 0, numTreePieces := 1, useCache := false, initialRequests := 0, depth := 64
    bucketList := (builtMembers exampleEnv pc parts).bucketList
    root := builtTree exampleEnv pc parts
    leftChildLookupKey := fun k l => k ||| 2 ^ (61 - l)
    rightChildLookupKey := fun k l => (k ||| 2 ^ (62 - l)) ||| 2 ^ (61 - l)
    openCriterionBucket := fun _ _ => true
    nodeBucketForce := fun _ r => (r.accelerations, r.potentials)
    partBucketForce := fun _ r => (r.accelerations, r.potentials) }

/-- The gravity state of a piece holding `parts` before any bucket is walked. -/
def localGrav (parts : List GravityParticle) : GravState :=
  { myParticles := fun i => parts.getD i { key := 0 }
    bucketReqs := fun _ => { finished := 0, identifier := 0, numAdditionalRequests := 0
                             numParticlesInBucket := 0, accelerations := [], potentials := [] }
    myNumParticlesPending := 0, started := true, contributed := 0, currentBucket := 0
    fetches := [], asserts := 0, myNumMACChecks := 0, myNumCellInteractions := 0
    myNumParticleInteractions := 0, myNumProxyCalls := 0, countIntersects := 0
    countHits := 0, cachecellcount := 0 }

/-- A single piece holding two particles of different keys, buckets of at most one
particle. -/
def pairPiece : Piece :=
  { thisIndex := 0, numTreePieces := 1, maxBucketSize := 1, splitters := [2 ^ 61, 2 ^ 62],
    myNumParticles := 2 }

/-- Its particle array: the two sentinels around particles of mass 1 and 2. -/
def pairParticles : List GravityParticle :=
  [{ key := firstPossibleKey }, { key := 2 ^ 61, mass := 1 }, { key := 2 ^ 62, mass := 2 },
   { key := lastPossibleKey }]

/-- A sort that meets the contract, used to evaluate `collectSplitters`. -/
def sortByFirst (xs : List (Nat × Nat)) : List (Nat × Nat) :=
  xs.insertionSort (fun a b => a.1 ≤ b.1)

/-- Piece 0 of two, holding the keys 10 and 20, with the splitters that
`collectSplitters` stores when piece 1 holds the keys 1 and 5. -/
def upperPiece : Piece :=
  { thisIndex := 0, numTreePieces := 2, maxBucketSize := 1, splitters := [1, 5, 10, 20],
    myNumParticles := 2 }

/-- Piece 1 of two, holding the keys 1 and 5. -/
def lowerPiece : Piece :=
  { thisIndex := 1, numTreePieces := 2, maxBucketSize := 1, splitters := [1, 5, 10, 20],
    myNumParticles := 2 }

/-- The sorted particles of `upperPiece` between two sentinel slots. -/
def upperParticles : List GravityParticle :=
  [{ key := 0 }, { key := 10, mass := 1 }, { key := 20, mass := 1 }, { key := 0 }]

/-- The sorted particles of `lowerPiece` between two sentinel slots. -/
def lowerParticles : List GravityParticle :=
  [{ key := 0 }, { key := 1, mass := 1 }, { key := 5, mass := 1 }, { key := 0 }]

/-- A single piece holding one particle, buckets of up to 12 particles. -/
def zeroKeyPiece : Piece :=
  { thisIndex := 0, numTreePieces := 1, maxBucketSize := 12, splitters := [0, 0],
    myNumParticles := 1 }

/-- Its particle array: the particle has the key `firstPossibleKey` of the left
sentinel. -/
def zeroKeyParticles : List GravityParticle :=
  [{ key := firstPossibleKey }, { key := 0, mass := 1 }, { key := lastPossibleKey }]

/-- The splitters of two pieces where the last key `2^62` of piece 0 is the first key of
the upper half of the key space. -/
def tieSplitters : List Nat := [2 ^ 60, 2 ^ 62, 2 ^ 62 + 2 ^ 60, 2 ^ 62 + 2 ^ 61]

/-- Piece 1 of two under `tieSplitters`, buckets of one particle. -/
def tiePieceOne : Piece :=
  { thisIndex := 1, numTreePieces := 2, maxBucketSize := 1, splitters := tieSplitters,
    myNumParticles := 2 }

/-- The particles of `tiePieceOne` between two sentinel slots. -/
def tiePartsOne : List GravityParticle :=
  [{ key := 0 }, { key := 2 ^ 62 + 2 ^ 60, mass := 1 }, { key := 2 ^ 62 + 2 ^ 61, mass := 1 },
   { key := 0 }]

/-- A bucket request before `startNextBucket` has filled it in. -/
def freshRequest : BucketGravityRequest :=
  { finished := 0, identifier := 0, numAdditionalRequests := 0, numParticlesInBucket := 0,
    accelerations := [], potentials := [] }

/-- The entry methods of piece 1 of the two-piece example during one iteration:
`nextBucket` starts both buckets, each of which requests the remote half of the tree,
then the two answers arrive. -/
def exampleEvents : List (GravEvent Int) :=
  [.nextBucket emptyCache 2, .deliver emptyCache 0 (.node emptyNode),
   .deliver emptyCache 1 (.node emptyNode)]

/-- The entry methods of piece 1 of the two-piece example during one iteration with a
yield period of one bucket: each `nextBucket` starts one bucket, the answer to its
request arrives before the next one. -/
def yieldingEvents : List (GravEvent Int) :=
  [.nextBucket emptyCache 1, .deliver emptyCache 0 (.node emptyNode),
   .nextBucket emptyCache 1, .deliver emptyCache 1 (.node emptyNode)]

/-- A single piece that holds no particle, buckets of one particle. -/
def emptyPiece : Piece :=
  { thisIndex := 0, numTreePieces := 1, maxBucketSize := 1, splitters := [0, 0],
    myNumParticles := 0 }

/-- Its particle array: the two sentinel slots. -/
def noParticles : List GravityParticle := [{ key := 0 }, { key := 0 }]

/-- The node stored under a lookup key in the tree of the single piece with two
particles. -/
def pairLookup (k : Nat) : Option (SFCTreeNode Int) :=
  (builtTree exampleEnv pairPiece pairParticles).find exampleEnv k

/-- A sort by `beginParticle` that meets the contract, used to evaluate `pupUnpack`. -/
def sortByBegin {M : Type} (xs : List (SFCTreeNode M)) : List (SFCTreeNode M) :=
  xs.insertionSort (fun a b => a.beginParticle ≤ b.beginParticle)

/-- The `nodeLookup` of the single piece with two particles after its build: the root
under its lookup key, then the other nodes of the tree under theirs. -/
def pairStored : List (Nat × Stored Int) :=
  match builtTree exampleEnv pairPiece pairParticles with
  | .null => []
  | .node n l r =>
    (exampleEnv.lookupKey n.key n.level, .root) ::
      (l.nodes ++ r.nodes).map (fun m => (exampleEnv.lookupKey m.key m.level, .node m))

/-- The root node of that tree. -/
def pairRoot : SFCTreeNode Int :=
  (builtTree exampleEnv pairPiece pairParticles).nodes.getD 0 (freshNode exampleEnv 0 0)

/-- The `nodeLookup` of the single piece with two particles after its build, every node
of the tree under its lookup key. -/
def pairTable : List (Nat × Option (SFCTreeNode Int)) :=
  (builtTree exampleEnv pairPiece pairParticles).nodes.map
    (fun n => (exampleEnv.lookupKey n.key n.level, some n))

/-- The `nodeLookup` of piece 1 of two when the walks run: every node of its finished
tree under its lookup key. -/
def servingTable : List (Nat × Option (SFCTreeNode Int)) :=
  exampleWalker.root.nodes.map (fun n => (exampleEnv.lookupKey n.key n.level, some n))

/-- Exact arithmetic on a line: positions, softenings, masses, accelerations and
potentials are integers, `SPLINE` yields `a = twoh` and `b = rsq`. -/
def lineOps : ForceOps Int Int :=
  { sub := fun a b => a - b
    lengthSquared := fun r => r * r
    nonzero := fun s => decide (s ≠ 0)
    add := fun a b => a + b
    spline := fun rsq twoh => (twoh, rsq)
    scale := fun m r => m * r
    scaleBy := fun v b => v * b
    addVector := fun a v => a + v
    mul := fun m a => m * a
    subScalar := fun p x => p - x }

/-- A source particle of mass 2 at position 1. -/
def lineSource : ForceParticle Int Int := { position := 1, soft := 3, mass := 2 }

/-- A request for a bucket of three particles at the positions 0, 1 and 3. -/
def lineRequest : BucketForceRequest Int Int Unit :=
  { finished := 0, identifier := 0, numAdditionalRequests := 0, numParticlesInBucket := 3
    boundingBox := ()
    positions := fun j => if j = 2 then 3 else j
    softs := fun _ => 1
    accelerations := fun _ => 0
    potentials := fun _ => 0 }

/-- A bucket of piece 0 as piece 1 sees it: one particle, at index 1 of the particle
array of piece 0. -/
def remoteBucket : SFCTreeNode Int :=
  { type := .Bucket, key := 2 ^ 60, level := 3, beginParticle := 1, endParticle := 2,
    remoteIndex := 0, numOwners := 1, moments := 5 }

/-- The particle of that bucket, of mass 5. -/
def fetchedParticles : List GravityParticle := [{ key := 2 ^ 60, mass := 5 }]

/-- A cache manager that holds the particles of `remoteBucket` and no node. -/
def holdingCache : CacheManager Int :=
  { requestNode := fun _ _ _ => none
    requestParticles := fun _ _ _ _ _ => some fetchedParticles }

/-- Geometry on a line: moments are a position, every node has radius 1, a sphere is the
interval around its centre, every request has the bounding box `[100, 200]`. -/
def lineGeometry : OpeningGeometry Int Int Int (Int × Int) (Int × Int) :=
  { cm := fun m => m
    radius := fun _ => 1
    scaled := fun x => x
    sphere := fun c x => (c - x, c + x)
    boundingBox := fun _ => (100, 200)
    intersect := fun b s => decide (b.1 ≤ s.2) && decide (s.1 ≤ b.2) }

/-- The walker of `exampleWalker` with the opening test on a line. -/
def lineWalker : Walker Int :=
  { exampleWalker with openCriterionBucket := openCriterionBucket lineGeometry }

/-- Piece 0 of two under `tieSplitters`, buckets of one particle. -/
def tiePieceZero : Piece :=
  { thisIndex := 0, numTreePieces := 2, maxBucketSize := 1, splitters := tieSplitters,
    myNumParticles := 2 }

/-- The particles of `tiePieceZero` between two sentinel slots. -/
def tiePartsZero : List GravityParticle :=
  [{ key := 0 }, { key := 2 ^ 60, mass := 1 }, { key := 2 ^ 62, mass := 1 }, { key := 0 }]

/-- The splitters of two pieces whose keys meet at adjacent values: piece 0 holds the
keys 4 and 6, piece 1 the keys 7 and 10. -/
def adjacentSplitters : List Nat := [4, 6, 7, 10]

/-- Piece 1 of two under `adjacentSplitters`, buckets of one particle. -/
def adjacentPieceOne : Piece :=
  { thisIndex := 1, numTreePieces := 2, maxBucketSize := 1, splitters := adjacentSplitters,
    myNumParticles := 2 }

/-- The particles of `adjacentPieceOne` between two sentinel slots. -/
def adjacentPartsOne : List GravityParticle :=
  [{ key := 0 }, { key := 7, mass := 1 }, { key := 10, mass := 1 }, { key := 0 }]

/-! ## Theorems -/

/-- The scan of `std::lower_bound` never moves left of its starting offset. -/
theorem lowerBoundFrom_ge (v : Nat) (xs : List Nat) (base : Nat) :
    base ≤ lowerBoundFrom v xs base := by
  induction xs generalizing base with
  | nil => simp [lowerBoundFrom]
  | cons x xs ih =>
    simp only [lowerBoundFrom]
    split
    · exact Nat.le_of_succ_le (ih (base + 1))
    · exact Nat.le_refl _

/-- In `nodeOwnership`, `locLeft <= locRight`. -/
theorem locLeft_le_locRight (splitters : List Nat) (lb rb : Nat) :
    locLeft splitters lb ≤ locRight splitters lb rb := by
  unfold locRight lower_bound
  exact lowerBoundFrom_ge _ _ _

/-- In the shared branch of `nodeOwnership` the first co-owner index is at most the
last one, so `last - first + 1` is computed without wrap-around. -/
theorem first_le_last (splitters : List Nat) (lb rb : Nat)
    (h : locLeft splitters lb ≠ locRight splitters lb rb) :
    locLeft splitters lb / 2 ≤ (locRight splitters lb rb - 1) / 2 := by
  have := locLeft_le_locRight splitters lb rb
  omega

/-- C1 (code evaluated at the failing input): with splitters `[0, 4, 6, 10]` and the
node of key range `[4, 7]`, `nodeOwnership` reports a single owner, piece 1, although
the splitter intervals of both pieces 0 and 1 meet the node's key range. -/
theorem C1_nodeOwnership_misses_tied_piece :
    nodeOwnership [0, 4, 6, 10] 4 7 ⟨some 0, some 0, some 0, some 0⟩
        = (true, ⟨some 1, some 1, some 1, some 1⟩)
      ∧ intersectingPieces [0, 4, 6, 10] 4 7 = [0, 1] := by
  decide

/-- C2: with `L = locLeft` and `R = locRight`, if `L = R` and `L` is odd then
`nodeOwnership` returns true and stores `numOwners = 1` and
`firstOwner = lastOwner = designatedOwner = L / 2`; if `L ≠ R` it returns true and
stores `firstOwner = L / 2`, `lastOwner = (R - 1) / 2`,
`numOwners = lastOwner - firstOwner + 1`, `designatedOwner = (firstOwner + lastOwner) / 2`. -/
theorem C2_nodeOwnership_outputs (splitters : List Nat) (lb rb d n f l : Nat) :
    (locLeft splitters lb = locRight splitters lb rb ∧ locLeft splitters lb % 2 = 1 →
      nodeOwnership splitters lb rb ⟨some d, some n, some f, some l⟩
        = (true, ⟨some (locLeft splitters lb / 2), some 1,
                  some (locLeft splitters lb / 2), some (locLeft splitters lb / 2)⟩))
    ∧ (locLeft splitters lb ≠ locRight splitters lb rb →
      nodeOwnership splitters lb rb ⟨some d, some n, some f, some l⟩
        = (true, ⟨some ((locLeft splitters lb / 2 + (locRight splitters lb rb - 1) / 2) / 2),
                  some ((locRight splitters lb rb - 1) / 2 - locLeft splitters lb / 2 + 1),
                  some (locLeft splitters lb / 2),
                  some ((locRight splitters lb rb - 1) / 2)⟩)) := by
  constructor
  · rintro ⟨h1, h2⟩
    have h3 : locLeft splitters lb % 2 ≠ 0 := by omega
    simp [nodeOwnership, store, h1.symm, h3]
  · intro h
    simp [nodeOwnership, store, h]

/-- C2 at concrete inputs: a node inside piece 1 (`L = R = 3`) and a node shared by
pieces 0 and 1 (`L = 1`, `R = 3`). -/
theorem C2_nodeOwnership_outputs_witness :
    nodeOwnership [0, 4, 6, 10] 6 7 ⟨some 9, some 9, some 9, some 9⟩
        = (true, ⟨some 1, some 1, some 1, some 1⟩)
      ∧ nodeOwnership [0, 4, 6, 10] 0 7 ⟨some 9, some 9, some 9, some 9⟩
        = (true, ⟨some 0, some 2, some 0, some 1⟩) :=
  ⟨(C2_nodeOwnership_outputs [0, 4, 6, 10] 6 7 9 9 9 9).1 (by decide),
   (C2_nodeOwnership_outputs [0, 4, 6, 10] 0 7 9 9 9 9).2 (by decide)⟩

/-- C3: `nodeOwnership` returns false exactly when `L = R` and `L` is even, and then
every output parameter keeps the value it had before the call. -/
theorem C3_nodeOwnership_false_iff (splitters : List Nat) (lb rb : Nat) (out : OwnerOut) :
    ((nodeOwnership splitters lb rb out).1 = false ↔
      (locLeft splitters lb = locRight splitters lb rb ∧ locLeft splitters lb % 2 = 0))
    ∧ ((nodeOwnership splitters lb rb out).1 = false →
      (nodeOwnership splitters lb rb out).2 = out) := by
  unfold nodeOwnership
  by_cases h1 : locLeft splitters lb = locRight splitters lb rb
  · by_cases h2 : locLeft splitters lb % 2 = 0
    · simp [h1.symm, h2]
    · simp [h1.symm, h2]
  · simp [h1]

/-- C3 at a concrete input: the key range `[5, 5]` lies between pieces 0 and 1. -/
theorem C3_nodeOwnership_false_iff_witness :
    (nodeOwnership [0, 4, 6, 10] 5 5 ⟨some 7, some 8, none, some 9⟩).2
      = ⟨some 7, some 8, none, some 9⟩ :=
  (C3_nodeOwnership_false_iff [0, 4, 6, 10] 5 5 ⟨some 7, some 8, none, some 9⟩).2 (by decide)

/-! ### The tree build -/

theorem lowerBoundFrom_spec (v : Nat) (xs : List Nat) (base : Nat) :
    base ≤ lowerBoundFrom v xs base ∧ lowerBoundFrom v xs base ≤ base + xs.length ∧
    (∀ j, j < lowerBoundFrom v xs base - base → xs.getD j 0 < v) ∧
    (lowerBoundFrom v xs base < base + xs.length →
      v ≤ xs.getD (lowerBoundFrom v xs base - base) 0) := by
  induction xs generalizing base with
  | nil => simp [lowerBoundFrom]
  | cons x xs ih =>
    simp only [lowerBoundFrom]
    split
    · rename_i hx
      obtain ⟨h1, h2, h3, h4⟩ := ih (base + 1)
      refine ⟨by omega, by simp only [List.length_cons]; omega, ?_, ?_⟩
      · intro j hj
        cases j with
        | zero => simpa using hx
        | succ j =>
          simp only [List.getD_cons_succ]
          exact h3 j (by omega)
      · intro h
        have h5 := h4 (by simp only [List.length_cons] at h; omega)
        have : lowerBoundFrom v xs (base + 1) - base = (lowerBoundFrom v xs (base + 1) - (base + 1)) + 1 := by omega
        rw [this, List.getD_cons_succ]
        exact h5
    · rename_i hx
      refine ⟨by omega, by simp, ?_, ?_⟩
      · intro j hj; omega
      · intro _; simp; omega

theorem and_two_pow_eq (x b : Nat) : x &&& 2 ^ b = if x.testBit b then 2 ^ b else 0 := by
  apply Nat.eq_of_testBit_eq
  intro j
  by_cases h : x.testBit b
  · simp only [h, if_true, Nat.testBit_and, Nat.testBit_two_pow]
    by_cases hj : b = j
    · subst hj; simp [h]
    · simp [hj]
  · simp only [h, Nat.testBit_and, Nat.testBit_two_pow]
    by_cases hj : b = j
    · subst hj; simp [h]
    · simp [hj]

theorem testBit_in_block (q y b : Nat) (hy : y < 2 ^ (b + 1)) :
    (2 ^ (b + 1) * q + y).testBit b = decide (2 ^ b ≤ y) := by
  rw [Nat.testBit_mul_pow_two_add q hy b]
  simp only [Nat.lt_succ_self, if_true]
  rw [Nat.testBit_to_div_mod]
  have hp : 0 < 2 ^ b := Nat.two_pow_pos b
  have h2 : y / 2 ^ b < 2 := by
    rw [Nat.div_lt_iff_lt_mul hp]
    rw [Nat.pow_succ] at hy; omega
  by_cases h : 2 ^ b ≤ y
  · have : 1 ≤ y / 2 ^ b := by
      rw [Nat.le_div_iff_mul_le hp]; omega
    have : y / 2 ^ b = 1 := by omega
    simp [this, h]
  · have : y / 2 ^ b = 0 := by
      rw [Nat.div_eq_zero_iff hp]; omega
    simp [this, h]

theorem Tiles_append {xs ys : List (Nat × Nat)} {a m b : Nat}
    (h1 : Tiles xs a m) (h2 : Tiles ys m b) : Tiles (xs ++ ys) a b := by
  induction xs generalizing a with
  | nil => simp only [Tiles] at h1; subst h1; simpa using h2
  | cons x xs ih =>
    obtain ⟨x1, x2⟩ := x
    simp only [Tiles, List.cons_append] at h1 ⊢
    exact ⟨h1.1, h1.2.1, ih h1.2.2⟩

theorem getD_drop_take (ks : List Nat) (l n j : Nat) (hj : j < n) :
    ((ks.drop l).take n).getD j 0 = ks.getD (l + j) 0 := by
  simp [List.getD_eq_getElem?_getD, List.getElem?_take, hj, List.getElem?_drop]

theorem finishNode_some {M : Type} {env : Env M} {pc : Piece} {node : SFCTreeNode M}
    {l r : Nat} {lt rt t : Tree M} {st st' : BuildState M}
    (h : finishNode env pc node l r lt rt st = some (t, st')) :
    ∃ n', t = .node n' lt rt ∧ n'.beginParticle = node.beginParticle ∧
      n'.endParticle = node.endParticle ∧ n'.key = node.key ∧ n'.level = node.level ∧
      st'.cerr = st.cerr ∧ st'.bucketList = st.bucketList ∧ st'.numBuckets = st.numBuckets := by
  unfold finishNode at h
  simp only at h
  split at h
  · split at h
    · simp only [Option.some.injEq, Prod.mk.injEq] at h
      obtain ⟨h1, h2⟩ := h
      subst h1 h2
      refine ⟨_, rfl, rfl, rfl, rfl, rfl, ?_, ?_, ?_⟩ <;> split <;> rfl
    · exact absurd h (by simp)
  · simp only [Option.some.injEq, Prod.mk.injEq] at h
    obtain ⟨h1, h2⟩ := h
    subst h1 h2
    exact ⟨_, rfl, rfl, rfl, rfl, rfl, rfl, rfl, rfl⟩

theorem lookupChild_spec {M : Type} (env : Env M) (pc : Piece) (k lv : Nat) (st : BuildState M) :
    (lookupChild env pc k lv st).2.bucketList = st.bucketList ∧
    (lookupChild env pc k lv st).2.numBuckets = st.numBuckets ∧
    (Clean (lookupChild env pc k lv st).2.cerr ↔ Clean st.cerr) ∧
    (∀ n ∈ (lookupChild env pc k lv st).1.nodes, n.type = .NonLocal) := by
  unfold lookupChild
  simp only
  split
  · refine ⟨rfl, rfl, Iff.rfl, ?_⟩
    intro n hn
    simp only [Tree.nodes, List.append_nil, List.mem_singleton] at hn
    subst hn; rfl
  · refine ⟨rfl, rfl, ?_, ?_⟩
    · unfold Clean
      constructor
      · intro h d hd
        exact h d (List.mem_append_left _ hd)
      · intro h d hd
        rcases List.mem_append.1 hd with hd | hd
        · exact h d hd
        · simp only [List.mem_singleton] at hd
          subst hd; rfl
    · intro n hn; simp [Tree.nodes] at hn

theorem lower_bound_spec (ks : List Nat) (l r v : Nat) (hlen : r + 1 ≤ ks.length) (hlr : l ≤ r) :
    l ≤ lower_bound ks l (r + 1) v ∧ lower_bound ks l (r + 1) v ≤ r + 1 ∧
    (∀ i, l ≤ i → i < lower_bound ks l (r + 1) v → ks.getD i 0 < v) ∧
    (lower_bound ks l (r + 1) v ≤ r → v ≤ ks.getD (lower_bound ks l (r + 1) v) 0) := by
  unfold lower_bound
  have hl : ((ks.drop l).take (r + 1 - l)).length = r + 1 - l := by
    simp only [List.length_take, List.length_drop]; omega
  obtain ⟨h1, h2, h3, h4⟩ := lowerBoundFrom_spec v ((ks.drop l).take (r + 1 - l)) l
  rw [hl] at h2 h4
  refine ⟨h1, by omega, ?_, ?_⟩
  · intro i hi1 hi2
    have := h3 (i - l) (by omega)
    rw [getD_drop_take _ _ _ _ (by omega)] at this
    have e : l + (i - l) = i := by omega
    rwa [e] at this
  · intro hs
    have := h4 (by omega)
    rw [getD_drop_take _ _ _ _ (by omega)] at this
    have e : l + (lowerBoundFrom v ((ks.drop l).take (r + 1 - l)) l - l)
        = lowerBoundFrom v ((ks.drop l).take (r + 1 - l)) l := by omega
    rwa [e] at this

theorem or_bit (key b : Nat) (hk : 2 ^ (b + 1) ∣ key) : key ||| 2 ^ b = key + 2 ^ b := by
  obtain ⟨q, rfl⟩ := hk
  have : 2 ^ b < 2 ^ (b + 1) := by rw [Nat.pow_succ]; have := Nat.two_pow_pos b; omega
  exact (Nat.mul_add_lt_is_or this q).symm

theorem bit_of_range (key b x : Nat) (hk : 2 ^ (b + 1) ∣ key) (h1 : key ≤ x)
    (h2 : x < key + 2 ^ (b + 1)) :
    x &&& 2 ^ b = if key + 2 ^ b ≤ x then 2 ^ b else 0 := by
  obtain ⟨q, rfl⟩ := hk
  obtain ⟨y, rfl⟩ := Nat.exists_eq_add_of_le h1
  have hy : y < 2 ^ (b + 1) := by omega
  rw [and_two_pow_eq, testBit_in_block q y b hy]
  by_cases h : 2 ^ b ≤ y
  · simp [h]
  · simp [h]

theorem Tiles_bounds {xs : List (Nat × Nat)} {a b : Nat} (h : Tiles xs a b) :
    a ≤ b ∧ ∀ q ∈ xs, a ≤ q.1 ∧ q.1 < q.2 ∧ q.2 ≤ b := by
  induction xs generalizing a with
  | nil => simp only [Tiles] at h; subst h; simp
  | cons x xs ih =>
    obtain ⟨x1, x2⟩ := x
    simp only [Tiles] at h
    obtain ⟨h1, h2, h3⟩ := h
    obtain ⟨i1, i2⟩ := ih h3
    subst h1
    refine ⟨by omega, ?_⟩
    intro q hq
    simp only [List.mem_cons] at hq
    rcases hq with rfl | hq
    · exact ⟨le_refl _, h2, i1⟩
    · have := i2 q hq
      omega

theorem Tiles_pairwise {xs : List (Nat × Nat)} {a b : Nat} (h : Tiles xs a b) :
    xs.Pairwise (fun p q => p.2 ≤ q.1) := by
  induction xs generalizing a with
  | nil => exact List.Pairwise.nil
  | cons x xs ih =>
    obtain ⟨x1, x2⟩ := x
    simp only [Tiles] at h
    obtain ⟨h1, h2, h3⟩ := h
    refine List.Pairwise.cons ?_ (ih h3)
    intro q hq
    exact ((Tiles_bounds h3).2 q hq).1

theorem Tiles_cover {xs : List (Nat × Nat)} {a b : Nat} (h : Tiles xs a b) (i : Nat) :
    (∃ p ∈ xs, p.1 ≤ i ∧ i < p.2) ↔ (a ≤ i ∧ i < b) := by
  induction xs generalizing a with
  | nil => simp only [Tiles] at h; subst h; simp
  | cons x xs ih =>
    obtain ⟨x1, x2⟩ := x
    simp only [Tiles] at h
    obtain ⟨h1, h2, h3⟩ := h
    subst h1
    have hb := (Tiles_bounds h3).1
    simp only [List.exists_mem_cons_iff, ih h3]
    omega

theorem finish_step {M : Type} {env : Env M} {pc : Piece} {node : SFCTreeNode M} {l r : Nat}
    {lt rt t : Tree M} {st st' : BuildState M}
    (h : finishNode env pc node l r lt rt st = some (t, st'))
    (hb : 1 ≤ node.beginParticle ∧ node.beginParticle ≤ node.endParticle ∧
      node.endParticle ≤ pc.myNumParticles + 1)
    (hlt : ∀ n ∈ lt.nodes, NodeOK pc.myNumParticles n)
    (hrt : ∀ n ∈ rt.nodes, NodeOK pc.myNumParticles n) :
    st'.cerr = st.cerr ∧ st'.bucketList = st.bucketList ∧
      ∀ n ∈ t.nodes, NodeOK pc.myNumParticles n := by
  obtain ⟨n', rfl, h1, h2, -, -, h5, h6, -⟩ := finishNode_some h
  refine ⟨h5, h6, ?_⟩
  intro n hn
  simp only [Tree.nodes, List.mem_cons, List.mem_append] at hn
  rcases hn with rfl | hn | hn
  · intro _; rw [h1, h2]; exact hb
  · exact hlt n hn
  · exact hrt n hn

theorem optLookup_spec {M : Type} (env : Env M) (pc : Piece) (k lv : Nat) (st : BuildState M)
    (c : Prop) [Decidable c] :
    (if c then lookupChild env pc k lv st else (Tree.null, st)).2.bucketList = st.bucketList ∧
    (Clean (if c then lookupChild env pc k lv st else (Tree.null, st)).2.cerr ↔ Clean st.cerr) ∧
    (∀ n ∈ (if c then lookupChild env pc k lv st else (Tree.null, st)).1.nodes,
      NodeOK pc.myNumParticles n) := by
  split
  · obtain ⟨h1, -, h3, h4⟩ := lookupChild_spec env pc k lv st
    exact ⟨h1, h3, fun n hn hne => absurd (h4 n hn) hne⟩
  · exact ⟨rfl, Iff.rfl, fun n hn => by simp [Tree.nodes] at hn⟩

set_option maxHeartbeats 4000000 in
theorem buildTree_tiles {M : Type} (env : Env M) (pc : Piece) (parts : List GravityParticle)
    (hlen : parts.length = pc.myNumParticles + 2)
    (hsorted : ∀ i j, i ≤ j → j ≤ pc.myNumParticles + 1 → keyAt parts i ≤ keyAt parts j) :
    ∀ (bits key l r : Nat) (st : BuildState M) (t : Tree M) (st' : BuildState M),
      bits ≤ 63 → l ≤ r → r ≤ pc.myNumParticles + 1 → 2 ^ bits ∣ key →
      (∀ i, l ≤ i → i ≤ r → key ≤ keyAt parts i ∧ keyAt parts i < key + 2 ^ bits) →
      buildTree env pc parts bits key l r st = some (t, st') → Clean st'.cerr →
      Clean st.cerr ∧ (∀ n ∈ t.nodes, NodeOK pc.myNumParticles n) ∧
      ∃ bs, st'.bucketList = st.bucketList ++ bs ∧
        Tiles (bs.map SFCTreeNode.range) (if l = 0 then 1 else l)
          (if r = pc.myNumParticles + 1 then r else r + 1) := by
  intro bits
  induction bits with
  | zero =>
    intro key l r st t st' hbits hlr hr hdiv hrange h hclean
    unfold buildTree at h
    simp only at h
    split at h
    · rename_i hc
      simp only [Option.some.injEq, Prod.mk.injEq] at h
      obtain ⟨rfl, rfl⟩ := h
      obtain ⟨hc1, hc2, hc3⟩ := hc
      refine ⟨hclean, ?_, [_], rfl, ?_⟩
      · intro n hn
        simp only [Tree.nodes, List.append_nil, List.mem_singleton] at hn
        subst hn
        intro _
        simp only [freshNode, hc2, hc3, if_false]
        omega
      · simp only [List.map, Tiles, SFCTreeNode.range, freshNode, hc2, hc3, if_false]
        exact ⟨trivial, by omega, trivial⟩
    · split at h
      · simp only [Option.some.injEq, Prod.mk.injEq] at h
        obtain ⟨rfl, rfl⟩ := h
        exact absurd (hclean (.keysExhausted l r) (by simp)) (by simp [Diagnostic.isBuildFailure])
      · exact absurd h (by simp)
  | succ b ih =>
    intro key l r st t st' hbits hlr hr hdiv hrange h hclean
    unfold buildTree at h
    simp only at h
    split at h
    · rename_i hc
      simp only [Option.some.injEq, Prod.mk.injEq] at h
      obtain ⟨rfl, rfl⟩ := h
      obtain ⟨hc1, hc2, hc3⟩ := hc
      refine ⟨hclean, ?_, [_], rfl, ?_⟩
      · intro n hn
        simp only [Tree.nodes, List.append_nil, List.mem_singleton] at hn
        subst hn
        intro _
        simp only [freshNode, hc2, hc3, if_false]
        omega
      · simp only [List.map, Tiles, SFCTreeNode.range, freshNode, hc2, hc3, if_false]
        exact ⟨trivial, by omega, trivial⟩
    · split at h
      · simp only [Option.some.injEq, Prod.mk.injEq] at h
        obtain ⟨rfl, rfl⟩ := h
        exact absurd (hclean (.keysExhausted l r) (by simp)) (by simp [Diagnostic.isBuildFailure])
      · have hlev : 62 - (63 - (b + 1)) = b := by omega
        have hlev1 : 63 - (b + 1) + 1 = 63 - b := by omega
        simp only [hlev, hlev1, rightChildKey] at h
        have hor : key ||| 2 ^ b = key + 2 ^ b := or_bit key b hdiv
        have hpow : 2 ^ (b + 1) = 2 ^ b + 2 ^ b := by rw [Nat.pow_succ]; omega
        have hpos : 0 < 2 ^ b := Nat.two_pow_pos b
        have hbl := bit_of_range key b (keyAt parts l) hdiv (hrange l (le_refl _) hlr).1
          (hrange l (le_refl _) hlr).2
        have hbr := bit_of_range key b (keyAt parts r) hdiv (hrange r hlr (le_refl _)).1
          (hrange r hlr (le_refl _)).2
        have hdl : 2 ^ b ∣ key := Dvd.dvd.trans (pow_dvd_pow 2 (Nat.le_succ b)) hdiv
        have hdr : 2 ^ b ∣ key + 2 ^ b := Nat.dvd_add hdl (dvd_refl _)
        have hb63 : b ≤ 63 := by omega
        have hnb : 1 ≤ (if l = 0 then l + 1 else l) ∧
            (if l = 0 then l + 1 else l) ≤ (if r = pc.myNumParticles + 1 then r + 1 - 1 else r + 1) ∧
            (if r = pc.myNumParticles + 1 then r + 1 - 1 else r + 1) ≤ pc.myNumParticles + 1 := by
          split <;> split <;> omega
        rw [hor] at h
        split at h
        · -- a split at this level
          rename_i hlt
          have hl1 : keyAt parts l < key + 2 ^ b := by
            by_contra hc
            rw [if_pos (by omega)] at hbl
            rw [hbl] at hlt
            split at hbr <;> omega
          have hr1 : key + 2 ^ b ≤ keyAt parts r := by
            by_contra hc
            rw [if_neg hc] at hbr
            omega
          obtain ⟨hs1, hs2, hs3, hs4⟩ := lower_bound_spec (parts.map GravityParticle.key) l r
            (key + 2 ^ b) (by simp only [List.length_map]; omega) hlr
          generalize lower_bound (parts.map GravityParticle.key) l (r + 1) (key + 2 ^ b) = s
            at h hs1 hs2 hs3 hs4
          have hsl : l < s := by
            rcases Nat.lt_or_ge l s with h' | h'
            · exact h'
            · have : s = l := by omega
              subst this
              have := hs4 hlr
              unfold keyAt at hl1
              omega
          have hsr : s ≤ r := by
            by_contra hc
            have := hs3 r hlr (by omega)
            unfold keyAt at hr1
            omega
          have hleft : ∀ i, l ≤ i → i ≤ s - 1 →
              key ≤ keyAt parts i ∧ keyAt parts i < key + 2 ^ b := by
            intro i hi1 hi2
            refine ⟨(hrange i hi1 (by omega)).1, ?_⟩
            have := hs3 i hi1 (by omega)
            unfold keyAt
            exact this
          have hright : ∀ i, s ≤ i → i ≤ r →
              key + 2 ^ b ≤ keyAt parts i ∧ keyAt parts i < key + 2 ^ b + 2 ^ b := by
            intro i hi1 hi2
            refine ⟨?_, by have := (hrange i (by omega) hi2).2; omega⟩
            have h1 := hs4 hsr
            have h2 := hsorted s i hi1 (by omega)
            unfold keyAt at h2 ⊢
            omega
          split at h
          · -- the left half is remote
            rename_i hs
            have hs' : s = 1 := by omega
            have hl0 : l = 0 := by omega
            obtain ⟨hlc1, hlc2, hlc3⟩ := optLookup_spec env pc key (63 - b) st (pc.thisIndex ≠ 0)
            generalize (if pc.thisIndex ≠ 0 then lookupChild env pc key (63 - b) st
              else (Tree.null, st)) = lc at h hlc1 hlc2 hlc3
            split at h
            · exact absurd h (by simp)
            · rename_i rt st1 heq
              have hcl1 : Clean st1.cerr := by
                obtain ⟨n', -, -, -, -, -, hc5, -, -⟩ := finishNode_some h
                rw [← hc5]; exact hclean
              obtain ⟨ihc, ihn, bs, ihb, iht⟩ := ih _ _ _ _ _ _ hb63 hsr hr hdr hright heq hcl1
              obtain ⟨hf1, hf2, hf3⟩ := finish_step h hnb hlc3 ihn
              refine ⟨hlc2.1 ihc, hf3, bs, ?_, ?_⟩
              · rw [hf2, ihb, hlc1]
              · simpa [hs', hl0] using iht
          · split at h
            · -- the right half is remote
              rename_i hs0 hs
              have hrN : r = pc.myNumParticles + 1 := by omega
              split at h
              · exact absurd h (by simp)
              · rename_i lt st1 heq
                obtain ⟨hrc1, hrc2, hrc3⟩ := optLookup_spec env pc (key + 2 ^ b) (63 - b) st1
                  ((pc.thisIndex : Int) ≠ (pc.numTreePieces : Int) - 1)
                generalize (if (pc.thisIndex : Int) ≠ (pc.numTreePieces : Int) - 1 then
                  lookupChild env pc (key + 2 ^ b) (63 - b) st1 else (Tree.null, st1)) = rc
                  at h hrc1 hrc2 hrc3
                have hcl2 : Clean rc.2.cerr := by
                  obtain ⟨n', -, -, -, -, -, hc5, -, -⟩ := finishNode_some h
                  rw [← hc5]; exact hclean
                obtain ⟨ihc, ihn, bs, ihb, iht⟩ := ih _ _ _ _ _ _ hb63 (by omega : l ≤ s - 1)
                  (by omega) hdl hleft heq (hrc2.1 hcl2)
                obtain ⟨hf1, hf2, hf3⟩ := finish_step h hnb ihn hrc3
                refine ⟨ihc, hf3, bs, ?_, ?_⟩
                · rw [hf2, hrc1, ihb]
                · have e1 : ¬ (s - 1 = pc.myNumParticles + 1) := by omega
                  have e2 : s - 1 + 1 = r := by omega
                  simpa [e1, e2, hrN] using iht
            · split at h
              · exact absurd h (by simp)
              · rename_i hs1 hsN hs0
                split at h
                · exact absurd h (by simp)
                · rename_i lt st1 heq1
                  split at h
                  · exact absurd h (by simp)
                  · rename_i rt st2 heq2
                    have hcl2 : Clean st2.cerr := by
                      obtain ⟨n', -, -, -, -, -, hc5, -, -⟩ := finishNode_some h
                      rw [← hc5]; exact hclean
                    obtain ⟨ihc2, ihn2, bs2, ihb2, iht2⟩ :=
                      ih _ _ _ _ _ _ hb63 hsr hr hdr hright heq2 hcl2
                    obtain ⟨ihc1, ihn1, bs1, ihb1, iht1⟩ := ih _ _ _ _ _ _ hb63
                      (by omega : l ≤ s - 1) (by omega) hdl hleft heq1 ihc2
                    obtain ⟨hf1, hf2, hf3⟩ := finish_step h hnb ihn1 ihn2
                    refine ⟨ihc1, hf3, bs1 ++ bs2, ?_, ?_⟩
                    · rw [hf2, ihb2, ihb1, List.append_assoc]
                    · have e1 : ¬ (s - 1 = pc.myNumParticles + 1) := by omega
                      have e2 : s - 1 + 1 = s := by omega
                      rw [if_neg e1, e2] at iht1
                      rw [if_neg hs0] at iht2
                      rw [List.map_append]
                      exact Tiles_append iht1 iht2
        · rename_i hnlt
          split at h
          · -- both ones
            rename_i hne
            have hl1 : key + 2 ^ b ≤ keyAt parts l := by
              by_contra hc
              rw [if_neg hc] at hbl
              rw [hbl, Nat.zero_and] at hne
              exact hne rfl
            have hright : ∀ i, l ≤ i → i ≤ r →
                key + 2 ^ b ≤ keyAt parts i ∧ keyAt parts i < key + 2 ^ b + 2 ^ b := by
              intro i hi1 hi2
              have h2 := hsorted l i hi1 (by omega)
              have h3 := (hrange i hi1 hi2).2
              omega
            obtain ⟨hlc1, hlc2, hlc3⟩ := optLookup_spec env pc key (63 - b) st
              (l = 0 ∧ pc.thisIndex ≠ 0)
            generalize (if l = 0 ∧ pc.thisIndex ≠ 0 then lookupChild env pc key (63 - b) st
              else (Tree.null, st)) = lc at h hlc1 hlc2 hlc3
            split at h
            · exact absurd h (by simp)
            · rename_i rt st1 heq
              have hcl1 : Clean st1.cerr := by
                obtain ⟨n', -, -, -, -, -, hc5, -, -⟩ := finishNode_some h
                rw [← hc5]; exact hclean
              obtain ⟨ihc, ihn, bs, ihb, iht⟩ := ih _ _ _ _ _ _ hb63 hlr hr hdr hright heq hcl1
              obtain ⟨hf1, hf2, hf3⟩ := finish_step h hnb hlc3 ihn
              refine ⟨hlc2.1 ihc, hf3, bs, ?_, iht⟩
              rw [hf2, ihb, hlc1]
          · rename_i hne
            split at h
            · simp only [Option.some.injEq, Prod.mk.injEq] at h
              obtain ⟨rfl, rfl⟩ := h
              exact absurd (hclean (.bitsNotRight l r) (by simp))
                (by simp [Diagnostic.isBuildFailure])
            · -- both zeros
              rename_i hngt
              have hr1 : keyAt parts r < key + 2 ^ b := by
                by_contra hc
                rw [if_pos (by omega)] at hbr
                rw [hbr] at hnlt hngt hne
                split at hbl
                · rename_i hh
                  rw [hbl, Nat.and_self] at hne
                  omega
                · omega
              have hleft : ∀ i, l ≤ i → i ≤ r →
                  key ≤ keyAt parts i ∧ keyAt parts i < key + 2 ^ b := by
                intro i hi1 hi2
                have h2 := hsorted i r hi2 hr
                have h3 := (hrange i hi1 hi2).1
                omega
              split at h
              · exact absurd h (by simp)
              · rename_i lt st1 heq
                obtain ⟨hrc1, hrc2, hrc3⟩ := optLookup_spec env pc (key + 2 ^ b) (63 - b) st1
                  (r = pc.myNumParticles + 1 ∧ (pc.thisIndex : Int) ≠ (pc.numTreePieces : Int) - 1)
                generalize (if r = pc.myNumParticles + 1 ∧
                  (pc.thisIndex : Int) ≠ (pc.numTreePieces : Int) - 1 then
                  lookupChild env pc (key + 2 ^ b) (63 - b) st1 else (Tree.null, st1)) = rc
                  at h hrc1 hrc2 hrc3
                have hcl2 : Clean rc.2.cerr := by
                  obtain ⟨n', -, -, -, -, -, hc5, -, -⟩ := finishNode_some h
                  rw [← hc5]; exact hclean
                obtain ⟨ihc, ihn, bs, ihb, iht⟩ := ih _ _ _ _ _ _ hb63 hlr hr hdl hleft heq
                  (hrc2.1 hcl2)
                obtain ⟨hf1, hf2, hf3⟩ := finish_step h hnb ihn hrc3
                refine ⟨ihc, hf3, bs, ?_, iht⟩
                rw [hf2, hrc1, ihb]


/-- C4: when `buildTree` completes from the root on a particle array that is sorted by
key, sentinels included, and neither the key-exhaustion nor the bit-order diagnostic
was printed, every node visited by `buildTree` has
`1 ≤ beginParticle ≤ endParticle ≤ myNumParticles + 1`, every bucket is a non-empty
interval of local indices, the buckets of `bucketList` are pairwise disjoint (each
ends before the next begins), and an index lies in some bucket exactly when it is a
local index `1 ≤ i < myNumParticles + 1`. -/
theorem C4_buckets_tile_local_particles {M : Type} (env : Env M) (pc : Piece)
    (parts : List GravityParticle) (t : Tree M) (st : BuildState M)
    (hlen : parts.length = pc.myNumParticles + 2)
    (hsorted : ∀ i j, i ≤ j → j ≤ pc.myNumParticles + 1 → keyAt parts i ≤ keyAt parts j)
    (hkey : keyAt parts (pc.myNumParticles + 1) ≤ lastPossibleKey)
    (hbuild : buildTree env pc parts 63 firstPossibleKey 0 (pc.myNumParticles + 1)
      BuildState.initial = some (t, st))
    (hdiag : Clean st.cerr) :
    (∀ n ∈ t.nodes, n.type ≠ .NonLocal →
      1 ≤ n.beginParticle ∧ n.beginParticle ≤ n.endParticle ∧
        n.endParticle ≤ pc.myNumParticles + 1) ∧
    (∀ b ∈ st.bucketList, 1 ≤ b.beginParticle ∧ b.beginParticle < b.endParticle ∧
        b.endParticle ≤ pc.myNumParticles + 1) ∧
    st.bucketList.Pairwise (fun a b => a.endParticle ≤ b.beginParticle) ∧
    (∀ i, (∃ b ∈ st.bucketList, b.beginParticle ≤ i ∧ i < b.endParticle) ↔
      (1 ≤ i ∧ i < pc.myNumParticles + 1)) := by
  have hrange : ∀ i, 0 ≤ i → i ≤ pc.myNumParticles + 1 →
      firstPossibleKey ≤ keyAt parts i ∧ keyAt parts i < firstPossibleKey + 2 ^ 63 := by
    intro i _ hi
    have := hsorted i (pc.myNumParticles + 1) hi (le_refl _)
    simp only [firstPossibleKey, lastPossibleKey] at hkey ⊢
    omega
  obtain ⟨-, hn, bs, hb, ht⟩ := buildTree_tiles env pc parts hlen hsorted 63 firstPossibleKey 0
    (pc.myNumParticles + 1) BuildState.initial t st (le_refl _) (Nat.zero_le _) (le_refl _)
    (by simp [firstPossibleKey]) hrange hbuild hdiag
  simp only [BuildState.initial, List.nil_append, if_true] at hb ht
  subst hb
  refine ⟨hn, ?_, ?_, ?_⟩
  · intro b hb
    have := (Tiles_bounds ht).2 b.range (List.mem_map_of_mem _ hb)
    simpa [SFCTreeNode.range] using this
  · have := Tiles_pairwise ht
    rw [List.pairwise_map] at this
    exact this
  · intro i
    rw [← Tiles_cover ht i]
    simp [SFCTreeNode.range]

/-- C4 on a single piece with one particle of key `2^62`: the build completes and the
only bucket is `[1, 2)`. -/
theorem C4_buckets_tile_local_particles_witness :
    ∃ t st, buildTree exampleEnv onePiece oneParticle 63 firstPossibleKey 0 2
        BuildState.initial = some (t, st) ∧
      st.bucketList.map SFCTreeNode.range = [(1, 2)] ∧
      (∀ i, (∃ b ∈ st.bucketList, b.beginParticle ≤ i ∧ i < b.endParticle) ↔
        (1 ≤ i ∧ i < 2)) := by
  refine ⟨_, _, rfl, rfl, ?_⟩
  exact (C4_buckets_tile_local_particles exampleEnv onePiece oneParticle _ _ (by rfl)
    (by
      intro i j hij hj
      have hj' : j ≤ 2 := hj
      interval_cases j <;> interval_cases i <;> decide)
    (by decide) rfl
    (by intro d hd; have hd' : d ∈ ([] : List Diagnostic) := hd; simp at hd')).2.2.2

/-! ### Boundary reconciliation -/

theorem find_lookupKey {M : Type} (env : Env M) (k : Nat) (t : Tree M) (n : SFCTreeNode M)
    (h : t.find env k = some n) : env.lookupKey n.key n.level = k := by
  induction t with
  | null => simp [Tree.find] at h
  | node m l r ihl ihr =>
    simp only [Tree.find] at h
    split at h
    · simp only [Option.some.injEq] at h; subst h; assumption
    · split at h
      · rename_i x hx
        simp only [Option.some.injEq] at h; subst h
        exact ihl hx
      · exact ihr h

theorem find_modify {M : Type} (env : Env M) (k : Nat) (f : SFCTreeNode M → SFCTreeNode M)
    (hf : ∀ n, env.lookupKey (f n).key (f n).level = env.lookupKey n.key n.level)
    (t : Tree M) : (t.modify env k f).find env k = (t.find env k).map f := by
  induction t with
  | null => simp [Tree.find, Tree.modify]
  | node m l r ihl ihr =>
    simp only [Tree.find, Tree.modify]
    split
    · rename_i hm
      simp [Tree.find, hf, hm]
    · rename_i hm
      split
      · rename_i x hx
        simp only [Tree.find, hm, if_false, ihl, hx, Option.map_some']
      · rename_i hx
        simp only [Tree.find, hm, if_false, hx, ihr]

theorem find_modify_const {M : Type} (env : Env M) (k : Nat) (n n' : SFCTreeNode M)
    (t : Tree M) (h : t.find env k = some n) (hk : env.lookupKey n'.key n'.level = k) :
    (t.modify env k (fun _ => n')).find env k = some n' := by
  induction t with
  | null => simp [Tree.find] at h
  | node m l r ihl ihr =>
    simp only [Tree.find, Tree.modify] at h ⊢
    split
    · simp [Tree.find, hk]
    · rename_i hm
      rw [if_neg hm] at h
      split
      · rename_i x hx
        rw [hx] at h
        simp only [Option.some.injEq] at h
        subst h
        simp only [Tree.find, hm, if_false, ihl hx]
      · rename_i hx
        rw [hx] at h
        simp only [Tree.find, hm, if_false, hx, ihr h]

/-- C5: on the designated owner, let the Boundary node found under `k` have
`numOwners = K` with `K - 1 ≥ 1` contributions `cs` arriving for it, let the particle
counts fit an `unsigned int`, and let `nodeOwnership` succeed on the node with
co-owner range `firstOwner..lastOwner`. Then handling any proper initial part of `cs`
sends nothing, and handling all of `cs` sends exactly one `acceptBoundaryNode` to each
piece of `firstOwner..lastOwner`, carrying the node's own count plus the sum of the
contributed counts, and the node's own moments plus the contributed moments (in order
of arrival) with the radius recomputed by `calculateRadiusFarthestCorner`. -/
theorem C5_designated_owner_broadcasts_once {M : Type} (env : Env M) (pc : Piece)
    (st : PieceState M) (k : Nat) (node : SFCTreeNode M) (cs : List (Nat × M)) (out : OwnerOut)
    (hfind : st.root.find env k = some node)
    (hK : node.numOwners = cs.length + 1)
    (hcs : cs ≠ [])
    (hKlt : node.numOwners < UINT)
    (hsum : node.remoteIndex + (cs.map Prod.fst).sum < UINT)
    (hown : nodeOwnership pc.splitters (env.leftBoundary node.key node.level)
      (env.rightBoundary node.key node.level) ⟨none, some 1, some 0, some 0⟩ = (true, out)) :
    (∀ j, j < cs.length →
      ∃ stj, acceptContributions env pc k (cs.take j) st = some stj ∧ stj.outbox = st.outbox) ∧
    ∃ st', acceptContributions env pc k cs st = some st' ∧
      st'.outbox = st.outbox ++
        (List.range' (out.firstOwner.getD 0)
          (out.lastOwner.getD 0 + 1 - out.firstOwner.getD 0)).map
        (fun i => Message.acceptBoundaryNode i k (node.remoteIndex + (cs.map Prod.fst).sum)
          (env.calculateRadiusFarthestCorner (cs.foldl (fun m c => env.add m c.2) node.moments)
            node.key node.level)) := by
  induction cs generalizing st node with
  | nil => exact absurd rfl hcs
  | cons c rest ih =>
    have hk := find_lookupKey env k _ _ hfind
    simp only [List.map_cons, List.sum_cons, List.length_cons] at hsum hK
    have hri : (node.remoteIndex + c.1) % UINT = node.remoteIndex + c.1 :=
      Nat.mod_eq_of_lt (by omega)
    have hno : (node.numOwners + UINT - 1) % UINT = rest.length + 1 := by
      have : node.numOwners + UINT - 1 = (rest.length + 1) + UINT := by omega
      rw [this, Nat.add_mod_right]
      exact Nat.mod_eq_of_lt (by omega)
    cases rest with
    | nil =>
      simp only [List.length_nil, Nat.zero_add] at hno
      constructor
      · intro j hj
        simp only [List.length_cons, List.length_nil] at hj
        have : j = 0 := by omega
        subst this
        exact ⟨st, rfl, rfl⟩
      · simp only [acceptContributions, acceptBoundaryNodeContribution, hfind, hno, if_true,
          hown, hri, List.map_cons, List.map_nil, List.sum_cons, List.sum_nil, Nat.add_zero,
          List.foldl_cons, List.foldl_nil]
        exact ⟨_, rfl, rfl⟩
    | cons c2 rest2 =>
      simp only [List.length_cons] at hno hK
      have hne : ¬ (rest2.length + 1 + 1 = 1) := by omega
      have hstep : acceptBoundaryNodeContribution env pc st k c.1 c.2 =
          some { st with root := st.root.modify env k (fun _ =>
            { node with remoteIndex := node.remoteIndex + c.1
                        moments := env.add node.moments c.2
                        numOwners := rest2.length + 1 + 1 }) } := by
        simp only [acceptBoundaryNodeContribution, hfind, hno, hne, if_false, hri]
      have hfind' := find_modify_const env k node
        { node with remoteIndex := node.remoteIndex + c.1
                    moments := env.add node.moments c.2
                    numOwners := rest2.length + 1 + 1 } st.root hfind hk
      obtain ⟨iha, st', ihb1, ihb2⟩ := ih
        { st with root := st.root.modify env k (fun _ =>
            { node with remoteIndex := node.remoteIndex + c.1
                        moments := env.add node.moments c.2
                        numOwners := rest2.length + 1 + 1 }) }
        { node with remoteIndex := node.remoteIndex + c.1
                    moments := env.add node.moments c.2
                    numOwners := rest2.length + 1 + 1 }
        hfind' (by simp) (by simp) (by simp only [UINT] at hKlt ⊢; omega)
        (by simp only [List.map_cons, List.sum_cons] at hsum ⊢; omega) hown
      constructor
      · intro j hj
        cases j with
        | zero => exact ⟨st, rfl, rfl⟩
        | succ j =>
          simp only [List.length_cons] at hj
          obtain ⟨stj, h1, h2⟩ := iha j (by simp only [List.length_cons]; omega)
          refine ⟨stj, ?_, h2⟩
          simp only [List.take_succ_cons, acceptContributions, hstep]
          exact h1
      · refine ⟨st', ?_, ?_⟩
        · simp only [acceptContributions, hstep]
          exact ihb1
        · rw [ihb2]
          simp only [List.map_cons, List.sum_cons, List.foldl_cons, Nat.add_assoc]

/-- C5 on piece 0 of two pieces, the designated owner of the root: the single
contribution of piece 1 (2 particles, total mass 2) triggers the broadcast of the
totals (4 particles, total mass 4) to pieces 0 and 1. -/
theorem C5_designated_owner_broadcasts_once_witness :
    ∃ st', acceptContributions exampleEnv pieceZero (2 ^ 62) [(2, 2)]
        (builtState exampleEnv pieceZero partsZero) = some st' ∧
      st'.outbox = (builtState exampleEnv pieceZero partsZero).outbox ++
        (List.range' 0 2).map (fun i => Message.acceptBoundaryNode i (2 ^ 62) 4 4) :=
  (C5_designated_owner_broadcasts_once exampleEnv pieceZero
    (builtState exampleEnv pieceZero partsZero) (2 ^ 62)
    (nodeAt exampleEnv (builtState exampleEnv pieceZero partsZero) (2 ^ 62)) [(2, 2)]
    ⟨none, some 2, some 0, some 1⟩ (by rfl) (by decide) (by simp) (by decide) (by decide)
    (by rfl)).2


theorem finishNode_count {M : Type} {env : Env M} {pc : Piece} {node : SFCTreeNode M}
    {l r : Nat} {lt rt t : Tree M} {st st' : BuildState M}
    (h : finishNode env pc node l r lt rt st = some (t, st')) :
    st'.boundaryNodesPending + lt.countBoundary + rt.countBoundary
      = st.boundaryNodesPending + t.countBoundary := by
  unfold finishNode at h
  simp only at h
  split at h
  · split at h
    · simp only [Option.some.injEq, Prod.mk.injEq] at h
      obtain ⟨h1, h2⟩ := h
      subst h1 h2
      simp only [Tree.countBoundary, if_true]
      split <;> simp only <;> omega
    · exact absurd h (by simp)
  · simp only [Option.some.injEq, Prod.mk.injEq] at h
    obtain ⟨h1, h2⟩ := h
    subst h1 h2
    simp [Tree.countBoundary]
    omega

theorem optLookup_count {M : Type} (env : Env M) (pc : Piece) (k lv : Nat) (st : BuildState M)
    (c : Prop) [Decidable c] :
    (if c then lookupChild env pc k lv st else (Tree.null, st)).2.boundaryNodesPending
        = st.boundaryNodesPending ∧
    (if c then lookupChild env pc k lv st else (Tree.null, st)).1.countBoundary = 0 := by
  split
  · unfold lookupChild
    simp only
    split <;> simp [Tree.countBoundary]
  · simp [Tree.countBoundary]

set_option maxHeartbeats 4000000 in
theorem buildTree_count {M : Type} (env : Env M) (pc : Piece) (parts : List GravityParticle) :
    ∀ (bits key l r : Nat) (st : BuildState M) (t : Tree M) (st' : BuildState M),
      buildTree env pc parts bits key l r st = some (t, st') →
      st'.boundaryNodesPending = st.boundaryNodesPending + t.countBoundary := by
  intro bits
  induction bits with
  | zero =>
    intro key l r st t st' h
    unfold buildTree at h
    simp only at h
    split at h
    · simp only [Option.some.injEq, Prod.mk.injEq] at h
      obtain ⟨rfl, rfl⟩ := h
      simp [Tree.countBoundary]
    · split at h
      · simp only [Option.some.injEq, Prod.mk.injEq] at h
        obtain ⟨rfl, rfl⟩ := h
        simp [Tree.countBoundary, freshNode]
      · exact absurd h (by simp)
  | succ b ih =>
    intro key l r st t st' h
    unfold buildTree at h
    simp only at h
    split at h
    · simp only [Option.some.injEq, Prod.mk.injEq] at h
      obtain ⟨rfl, rfl⟩ := h
      simp [Tree.countBoundary]
    · split at h
      · simp only [Option.some.injEq, Prod.mk.injEq] at h
        obtain ⟨rfl, rfl⟩ := h
        simp [Tree.countBoundary, freshNode]
      · split at h
        · generalize lower_bound (parts.map GravityParticle.key) l (r + 1) _ = s at h
          split at h
          · obtain ⟨hl1, hl2⟩ := optLookup_count env pc key (63 - (b + 1) + 1) st
              (pc.thisIndex ≠ 0)
            generalize (if pc.thisIndex ≠ 0 then lookupChild env pc key (63 - (b + 1) + 1) st
              else (Tree.null, st)) = lc at h hl1 hl2
            split at h
            · exact absurd h (by simp)
            · rename_i rt st1 heq
              have h1 := ih _ _ _ _ _ _ heq
              have h2 := finishNode_count h
              omega
          · split at h
            · split at h
              · exact absurd h (by simp)
              · rename_i lt st1 heq
                obtain ⟨hl1, hl2⟩ := optLookup_count env pc (rightChildKey key (63 - (b + 1)))
                  (63 - (b + 1) + 1) st1 ((pc.thisIndex : Int) ≠ (pc.numTreePieces : Int) - 1)
                generalize (if (pc.thisIndex : Int) ≠ (pc.numTreePieces : Int) - 1 then
                  lookupChild env pc (rightChildKey key (63 - (b + 1))) (63 - (b + 1) + 1) st1
                  else (Tree.null, st1)) = rc at h hl1 hl2
                have h1 := ih _ _ _ _ _ _ heq
                have h2 := finishNode_count h
                omega
            · split at h
              · exact absurd h (by simp)
              · split at h
                · exact absurd h (by simp)
                · rename_i lt st1 heq1
                  split at h
                  · exact absurd h (by simp)
                  · rename_i rt st2 heq2
                    have h1 := ih _ _ _ _ _ _ heq1
                    have h2 := ih _ _ _ _ _ _ heq2
                    have h3 := finishNode_count h
                    omega
        · split at h
          · obtain ⟨hl1, hl2⟩ := optLookup_count env pc key (63 - (b + 1) + 1) st
              (l = 0 ∧ pc.thisIndex ≠ 0)
            generalize (if l = 0 ∧ pc.thisIndex ≠ 0 then
              lookupChild env pc key (63 - (b + 1) + 1) st
              else (Tree.null, st)) = lc at h hl1 hl2
            split at h
            · exact absurd h (by simp)
            · rename_i rt st1 heq
              have h1 := ih _ _ _ _ _ _ heq
              have h2 := finishNode_count h
              omega
          · split at h
            · simp only [Option.some.injEq, Prod.mk.injEq] at h
              obtain ⟨rfl, rfl⟩ := h
              simp [Tree.countBoundary, freshNode]
            · split at h
              · exact absurd h (by simp)
              · rename_i lt st1 heq
                obtain ⟨hl1, hl2⟩ := optLookup_count env pc (rightChildKey key (63 - (b + 1)))
                  (63 - (b + 1) + 1) st1
                  (r = pc.myNumParticles + 1 ∧
                    (pc.thisIndex : Int) ≠ (pc.numTreePieces : Int) - 1)
                generalize (if r = pc.myNumParticles + 1 ∧
                  (pc.thisIndex : Int) ≠ (pc.numTreePieces : Int) - 1 then
                  lookupChild env pc (rightChildKey key (63 - (b + 1))) (63 - (b + 1) + 1) st1
                  else (Tree.null, st1)) = rc at h hl1 hl2
                have h1 := ih _ _ _ _ _ _ heq
                have h2 := finishNode_count h
                omega

theorem boundaryKeys_node {M : Type} (env : Env M) (n : SFCTreeNode M) (l r : Tree M) :
    (Tree.node n l r).boundaryKeys env =
      (if n.type = .Boundary then [env.lookupKey n.key n.level] else []) ++
        (l.boundaryKeys env ++ r.boundaryKeys env) := by
  unfold Tree.boundaryKeys
  simp only [Tree.nodes, List.filter_cons, List.filter_append, List.map_append]
  by_cases h : n.type = .Boundary <;> simp [h]

theorem countBoundary_eq {M : Type} (env : Env M) (t : Tree M) :
    t.countBoundary = (t.boundaryKeys env).length := by
  induction t with
  | null => rfl
  | node n l r ihl ihr =>
    rw [boundaryKeys_node]
    simp only [Tree.countBoundary, ihl, ihr, List.length_append]
    split <;> simp
    omega

theorem modify_boundaryKeys {M : Type} (env : Env M) (k : Nat)
    (f : SFCTreeNode M → SFCTreeNode M)
    (hf : ∀ n, (f n).type = n.type ∧ (f n).key = n.key ∧ (f n).level = n.level) (t : Tree M) :
    (t.modify env k f).boundaryKeys env = t.boundaryKeys env := by
  induction t with
  | null => rfl
  | node n l r ihl ihr =>
    simp only [Tree.modify]
    split
    · simp only [boundaryKeys_node, (hf n).1, (hf n).2.1, (hf n).2.2]
    · split
      · simp only [boundaryKeys_node, ihl]
      · simp only [boundaryKeys_node, ihr]

theorem find_of_mem_boundaryKeys {M : Type} (env : Env M) (k : Nat) (t : Tree M)
    (h : k ∈ t.boundaryKeys env) : ∃ n, t.find env k = some n := by
  induction t with
  | null => simp [Tree.boundaryKeys, Tree.nodes] at h
  | node n l r ihl ihr =>
    rw [boundaryKeys_node] at h
    simp only [Tree.find]
    by_cases hk : env.lookupKey n.key n.level = k
    · exact ⟨n, by simp [hk]⟩
    · simp only [hk, if_false]
      simp only [List.mem_append] at h
      rcases h with h | h | h
      · split at h
        · simp only [List.mem_singleton] at h; exact absurd h.symm hk
        · simp at h
      · obtain ⟨x, hx⟩ := ihl h
        exact ⟨x, by simp [hx]⟩
      · cases hl : l.find env k with
        | some x => exact ⟨x, rfl⟩
        | none => exact ihr h

theorem crm_boundaryKeys {M : Type} (env : Env M) (t : Tree M) :
    ∀ (ctx : Option (SFCTreeNode M × Tree M)) (t' : Tree M),
      calculateRemoteMoments env ctx t = some t' →
      (t'.boundaryKeys env).Sublist (t.boundaryKeys env) := by
  induction t with
  | null =>
    intro ctx t' h
    simp only [calculateRemoteMoments, Option.some.injEq] at h
    subst h
    exact List.Sublist.refl _
  | node n l r ihl ihr =>
    intro ctx t' h
    unfold calculateRemoteMoments at h
    split at h
    · rename_i hn
      split at h
      · simp only at h
        split at h <;> simp only [Option.some.injEq] at h <;> subst h <;>
          first
            | exact List.nil_sublist _
            | (simp only [boundaryKeys_node, hn]; exact List.Sublist.refl _)
      · exact absurd h (by simp)
    · split at h
      · split at h
        · exact absurd h (by simp)
        · rename_i l' hl
          split at h
          · exact absurd h (by simp)
          · rename_i r' hr
            simp only [Option.some.injEq] at h
            subst h
            simp only [boundaryKeys_node]
            exact List.Sublist.append (List.Sublist.refl _)
              (List.Sublist.append (ihl _ _ hl) (ihr _ _ hr))
      · simp only [Option.some.injEq] at h
        subst h
        exact List.Sublist.refl _

theorem filter_ne_length (L : List Nat) (k : Nat) (hnd : L.Nodup) (hk : k ∈ L)
    (p : Nat → Bool) (hp : p k = true) :
    (L.filter (fun x => !decide (x = k) && p x)).length + 1 = (L.filter p).length := by
  induction L with
  | nil => simp at hk
  | cons a L ih =>
    simp only [List.nodup_cons] at hnd
    simp only [List.mem_cons] at hk
    by_cases hak : a = k
    · subst hak
      have : L.filter (fun x => !decide (x = a) && p x) = L.filter p := by
        apply List.filter_congr
        intro x hx
        have : x ≠ a := fun h => hnd.1 (h ▸ hx)
        simp [this]
      simp [List.filter_cons, hp, this]
    · have hk' : k ∈ L := by
        rcases hk with h | h
        · exact absurd h.symm hak
        · exact h
      have := ih hnd.2 hk'
      by_cases hpa : p a = true
      · simp only [List.filter_cons, hak, decide_False, Bool.not_false, Bool.true_and, hpa,
          if_true, List.length_cons]
        omega
      · simp only [List.filter_cons, hak, decide_False, Bool.not_false, Bool.true_and, hpa]
        simpa using this

theorem pending_step (L F : List Nat) (k : Nat) (hnd : L.Nodup) (hk : k ∈ L) (hF : k ∉ F) :
    (L.filter (fun x => decide (x ∉ k :: F))).length + 1
      = (L.filter (fun x => decide (x ∉ F))).length := by
  have := filter_ne_length L k hnd hk (fun x => decide (x ∉ F)) (by simp [hF])
  rw [← this]
  congr 2
  apply List.filter_congr
  intro x _
  simp [List.mem_cons, not_or]

theorem pendingNodes_nil {M : Type} (env : Env M) (t : Tree M) :
    pendingNodes env t [] = t.countBoundary := by
  rw [countBoundary_eq env]
  unfold pendingNodes
  simp

/-- C6: for a lookup key `k` present in `nodeLookup` and a count `n` that fits an
`unsigned int`: (1) the assignments of `acceptBoundaryNode` leave the node found under
`k` with `remoteIndex = n` and `moments = m`; (2) if the decremented counter is not
zero, the handler ends there, with `boundaryNodesPending` one less and no tree-ready
contribution; (3) if it is zero, the handler runs `calculateRemoteMoments(root)` on
that tree and then contributes to the tree-ready barrier once; (4) after
`startTreeBuild` the counter equals the number of `Boundary` nodes, none being
finalized, and the build itself signals readiness only when there is none; (5) if the
counter equals the number of `Boundary` nodes whose key is not in the finalized list
`F`, lookup keys of `Boundary` nodes are distinct, and `k` names a `Boundary` node not
yet finalized, then afterwards the counter equals the number of `Boundary` nodes
whose key is not in `k :: F`. -/
theorem C6_boundaryNodesPending_counts_unfinalized {M : Type} (env : Env M) (pc : Piece)
    (parts : List GravityParticle) (st : PieceState M) (k n : Nat) (m : M)
    (node : SFCTreeNode M) (F : List Nat)
    (hfind : st.root.find env k = some node) (hn : n < UINT) :
    (st.root.modify env k (fun x => { x with remoteIndex := n % UINT, moments := m })).find env k
        = some { node with remoteIndex := n, moments := m } ∧
    (st.boundaryNodesPending - 1 ≠ 0 →
      ∃ st', acceptBoundaryNode env st k n m = some st' ∧
        st'.root = st.root.modify env k
          (fun x => { x with remoteIndex := n % UINT, moments := m }) ∧
        st'.boundaryNodesPending = st.boundaryNodesPending - 1 ∧
        st'.treeReady = st.treeReady) ∧
    (st.boundaryNodesPending - 1 = 0 →
      (acceptBoundaryNode env st k n m).isSome =
        (calculateRemoteMoments env none (st.root.modify env k
          (fun x => { x with remoteIndex := n % UINT, moments := m }))).isSome ∧
      ∀ st', acceptBoundaryNode env st k n m = some st' →
        calculateRemoteMoments env none (st.root.modify env k
          (fun x => { x with remoteIndex := n % UINT, moments := m })) = some st'.root ∧
        st'.boundaryNodesPending = 0 ∧ st'.treeReady = st.treeReady + 1) ∧
    (∀ parts' bs st0, startTreeBuild env pc parts = some (parts', bs, st0) →
      st0.boundaryNodesPending = pendingNodes env st0.root [] ∧
      st0.treeReady = if st0.boundaryNodesPending = 0 then 1 else 0) ∧
    (st.boundaryNodesPending = pendingNodes env st.root F →
      (st.root.boundaryKeys env).Nodup → k ∈ st.root.boundaryKeys env → k ∉ F →
      ∀ st', acceptBoundaryNode env st k n m = some st' →
        st'.boundaryNodesPending = pendingNodes env st'.root (k :: F) ∧
        (st'.root.boundaryKeys env).Nodup ∧
        ∀ k', k' ∈ st'.root.boundaryKeys env → k' ∈ st.root.boundaryKeys env) := by
  have hmod : n % UINT = n := Nat.mod_eq_of_lt hn
  have hkeys : (st.root.modify env k
      (fun x => { x with remoteIndex := n % UINT, moments := m })).boundaryKeys env
      = st.root.boundaryKeys env :=
    modify_boundaryKeys env k (fun x => { x with remoteIndex := n % UINT, moments := m })
      (fun _ => ⟨rfl, rfl, rfl⟩) st.root
  refine ⟨?_, ?_, ?_, ?_, ?_⟩
  · rw [find_modify env k (fun x => { x with remoteIndex := n % UINT, moments := m })
      (fun _ => rfl), hfind, hmod]
    rfl
  · intro hne
    simp only [acceptBoundaryNode, hfind, hne, if_false]
    exact ⟨_, rfl, rfl, rfl, rfl⟩
  · intro hz
    simp only [acceptBoundaryNode, hfind, hz, if_true]
    constructor
    · cases calculateRemoteMoments env none (st.root.modify env k
        (fun x => { x with remoteIndex := n % UINT, moments := m })) <;> rfl
    · intro st' h
      split at h
      · exact absurd h (by simp)
      · rename_i r hr
        simp only [Option.some.injEq] at h
        subst h
        exact ⟨hr, rfl, rfl⟩
  · intro parts' bs st0 h
    unfold startTreeBuild at h
    simp only at h
    split at h
    · exact absurd h (by simp)
    · rename_i root bs' hb
      simp only [Option.some.injEq, Prod.mk.injEq] at h
      obtain ⟨-, -, rfl⟩ := h
      have := buildTree_count env pc _ _ _ _ _ _ _ _ hb
      simp only [BuildState.initial, Nat.zero_add] at this
      simp only [pendingNodes_nil, this]
      constructor
      · trivial
      · by_cases h0 : root.countBoundary = 0
        · simp [h0]
        · simp [h0]
  · intro hinv hnd hk hF st' h
    have hstep := pending_step (st.root.boundaryKeys env) F k hnd hk hF
    by_cases hz : st.boundaryNodesPending - 1 = 0
    · simp only [acceptBoundaryNode, hfind, hz, if_true] at h
      split at h
      · exact absurd h (by simp)
      · rename_i r hr
        simp only [Option.some.injEq] at h
        subst h
        have hsub := crm_boundaryKeys env _ _ _ hr
        rw [hkeys] at hsub
        refine ⟨?_, hsub.nodup hnd, fun k' hk' => hsub.subset hk'⟩
        simp only
        have h1 : pendingNodes env st.root F = 1 := by
          have : (pendingNodes env st.root F : Int) = 1 := by rw [← hinv]; omega
          exact_mod_cast this
        have h2 : pendingNodes env st.root (k :: F) = 0 := by
          unfold pendingNodes at h1 ⊢
          omega
        have h3 : pendingNodes env r (k :: F) ≤ pendingNodes env st.root (k :: F) := by
          unfold pendingNodes
          exact (List.Sublist.filter _ hsub).length_le
        have : pendingNodes env r (k :: F) = 0 := by omega
        simp [this]
    · simp only [acceptBoundaryNode, hfind, hz, if_false, Option.some.injEq] at h
      subst h
      simp only
      rw [hkeys]
      refine ⟨?_, hnd, fun k' hk' => hk'⟩
      unfold pendingNodes at hinv ⊢
      rw [hkeys, hinv]
      omega


/-- C6 on piece 1 of the two-piece example: its only `Boundary` node is the root, and the
`acceptBoundaryNode` for it brings the counter to zero and signals readiness once. -/
theorem C6_boundaryNodesPending_counts_unfinalized_witness :
    (acceptBoundaryNode exampleEnv (builtState exampleEnv pieceOne partsOne) (2 ^ 62) 4 4).map
      (fun s => (s.boundaryNodesPending, s.treeReady)) = some (0, 1) := by
  have h := (C6_boundaryNodesPending_counts_unfinalized exampleEnv pieceOne partsOne
    (builtState exampleEnv pieceOne partsOne) (2 ^ 62) 4 4
    (nodeAt exampleEnv (builtState exampleEnv pieceOne partsOne) (2 ^ 62)) []
    (by rfl) (by decide)).2.2.1 (by decide)
  cases hacc : acceptBoundaryNode exampleEnv (builtState exampleEnv pieceOne partsOne)
      (2 ^ 62) 4 4 with
  | none =>
    have h1 := h.1
    rw [hacc] at h1
    exact absurd h1 (by decide)
  | some st' =>
    obtain ⟨-, h2, h3⟩ := h.2 st' hacc
    have h4 : (builtState exampleEnv pieceOne partsOne).treeReady = 0 := by decide
    simp only [Option.map_some', h2, h3, h4]

theorem crm_node {M : Type} (env : Env M) (ctx : Option (SFCTreeNode M × Tree M))
    (n : SFCTreeNode M) (l r t' : Tree M)
    (h : calculateRemoteMoments env ctx (.node n l r) = some t') :
    (n.type = .NonLocal ∧ ∃ p s sl sr, ctx = some (p, .node s sl sr) ∧
      ((remoteCount p s = 0 ∧ t' = .null) ∨
       (remoteCount p s ≠ 0 ∧ t' = .node { n with
          beginParticle := 0
          endParticle := remoteCount p s
          moments := env.calculateRadiusFarthestCorner (env.sub p.moments s.moments)
            n.key n.level } l r))) ∨
    (n.type = .Boundary ∧ ∃ l' r', calculateRemoteMoments env (some (n, r)) l = some l' ∧
      calculateRemoteMoments env (some (n, l')) r = some r' ∧ t' = .node n l' r') ∨
    (n.type ≠ .NonLocal ∧ n.type ≠ .Boundary ∧ t' = .node n l r) := by
  unfold calculateRemoteMoments at h
  split at h
  · rename_i hn
    left
    refine ⟨hn, ?_⟩
    split at h
    · rename_i p s sl sr
      refine ⟨p, s, sl, sr, rfl, ?_⟩
      simp only at h
      split at h
      · rename_i he
        simp only [Option.some.injEq] at h
        exact Or.inr ⟨he, h.symm⟩
      · rename_i he
        simp only [Option.some.injEq] at h
        exact Or.inl ⟨by simpa using he, h.symm⟩
    · exact absurd h (by simp)
  · rename_i hn
    split at h
    · rename_i hb
      right; left
      refine ⟨hb, ?_⟩
      split at h
      · exact absurd h (by simp)
      · rename_i l' hl
        split at h
        · exact absurd h (by simp)
        · rename_i r' hr
          simp only [Option.some.injEq] at h
          exact ⟨l', r', hl, hr, h.symm⟩
    · rename_i hb
      right; right
      simp only [Option.some.injEq] at h
      exact ⟨hn, hb, h.symm⟩

theorem crm_local_root {M : Type} (env : Env M) (ctx : Option (SFCTreeNode M × Tree M))
    (s : SFCTreeNode M) (sl sr t' : Tree M) (hs : s.type ≠ .NonLocal)
    (h : calculateRemoteMoments env ctx (.node s sl sr) = some t') :
    ∃ sl' sr', t' = .node s sl' sr' := by
  rcases crm_node env ctx s sl sr t' h with ⟨h1, -⟩ | ⟨-, l', r', -, -, h2⟩ | ⟨-, -, h2⟩
  · exact absurd h1 hs
  · exact ⟨l', r', h2⟩
  · exact ⟨sl, sr, h2⟩

theorem crm_nonlocal_root {M : Type} (env : Env M) (ctx : Option (SFCTreeNode M × Tree M))
    (t : Tree M) (cn : SFCTreeNode M) (cl cr : Tree M) (hc : cn.type = .NonLocal)
    (h : calculateRemoteMoments env ctx t = some (.node cn cl cr)) :
    ∃ p s sl sr, ctx = some (p, .node s sl sr) ∧ cn.beginParticle = 0 ∧
      cn.endParticle = remoteCount p s ∧ cn.endParticle ≠ 0 ∧
      cn.moments = env.calculateRadiusFarthestCorner (env.sub p.moments s.moments)
        cn.key cn.level := by
  cases t with
  | null => simp [calculateRemoteMoments] at h
  | node n l r =>
    rcases crm_node env ctx n l r _ h with
      ⟨-, p, s, sl, sr, hctx, h1 | h1⟩ | ⟨hb, l', r', -, -, h2⟩ | ⟨hn, -, h2⟩
    · exact absurd h1.2 (by simp)
    · obtain ⟨he, h2⟩ := h1
      simp only [Tree.node.injEq] at h2
      obtain ⟨rfl, -, -⟩ := h2
      exact ⟨p, s, sl, sr, hctx, rfl, rfl, he, rfl⟩
    · simp only [Tree.node.injEq] at h2
      obtain ⟨rfl, -, -⟩ := h2
      rw [hb] at hc
      exact absurd hc (by decide)
    · simp only [Tree.node.injEq] at h2
      obtain ⟨rfl, -, -⟩ := h2
      exact absurd hc hn

theorem crm_visited {M : Type} (env : Env M) (t : Tree M) :
    ∀ (ctx : Option (SFCTreeNode M × Tree M)) (t' : Tree M),
      calculateRemoteMoments env ctx t = some t' →
      ∀ x ∈ t'.visited, NonLocalOK env x.1 x.2.1 x.2.2 ∧ NonLocalOK env x.1 x.2.2 x.2.1 := by
  induction t with
  | null =>
    intro ctx t' h
    simp only [calculateRemoteMoments, Option.some.injEq] at h
    subst h
    intro x hx
    simp [Tree.visited] at hx
  | node n l r ihl ihr =>
    intro ctx t' h x hx
    rcases crm_node env ctx n l r t' h with
      ⟨hn, p, s, sl, sr, -, h1 | h1⟩ | ⟨hb, l', r', hl, hr, h2⟩ | ⟨hn, hb, h2⟩
    · rw [h1.2] at hx
      simp [Tree.visited] at hx
    · rw [h1.2] at hx
      simp [Tree.visited, hn] at hx
    · subst h2
      simp only [Tree.visited, hb, if_true, List.mem_cons, List.mem_append] at hx
      rcases hx with rfl | hx | hx
      · constructor
        · -- left child against right sibling
          show NonLocalOK env n l' r'
          cases l' with
          | null => simp [NonLocalOK]
          | node cn cl cr =>
            cases r' with
            | null => simp [NonLocalOK]
            | node s sl' sr' =>
              simp only [NonLocalOK]
              intro hc hs
              obtain ⟨p, s0, sl, sr, hctx, h1, h2, h3, h4⟩ :=
                crm_nonlocal_root env _ l cn cl cr hc hl
              simp only [Option.some.injEq, Prod.mk.injEq] at hctx
              obtain ⟨rfl, rfl⟩ := hctx
              have hs0 : s0.type ≠ .NonLocal := by
                intro hs0
                rcases crm_node env _ s0 sl sr _ hr with
                  ⟨-, p, s1, sl1, sr1, -, h5 | h5⟩ | ⟨hb', -⟩ | ⟨hn', -⟩
                · exact absurd h5.2 (by simp)
                · have := h5.2
                  simp only [Tree.node.injEq] at this
                  obtain ⟨rfl, -, -⟩ := this
                  exact hs hs0
                · rw [hb'] at hs0; exact absurd hs0 (by decide)
                · exact hn' hs0
              obtain ⟨sl2, sr2, h5⟩ := crm_local_root env _ s0 sl sr _ hs0 hr
              simp only [Tree.node.injEq] at h5
              obtain ⟨rfl, -, -⟩ := h5
              exact ⟨h1, h2, h3, h4⟩
        · show NonLocalOK env n r' l'
          cases r' with
          | null => simp [NonLocalOK]
          | node cn cl cr =>
            cases l' with
            | null => simp [NonLocalOK]
            | node s sl' sr' =>
              simp only [NonLocalOK]
              intro hc hs
              obtain ⟨p, s0, sl, sr, hctx, h1, h2, h3, h4⟩ :=
                crm_nonlocal_root env _ r cn cl cr hc hr
              simp only [Option.some.injEq, Prod.mk.injEq, Tree.node.injEq] at hctx
              obtain ⟨rfl, rfl, -, -⟩ := hctx
              exact ⟨h1, h2, h3, h4⟩
      · exact ihl _ _ hl x hx
      · exact ihr _ _ hr x hx
    · subst h2
      simp [Tree.visited, hb] at hx

theorem usub_eq (a b : Nat) (hb : b ≤ a) (ha : a < UINT) : usub a b = a - b := by
  unfold usub
  have hb' : b % UINT = b := Nat.mod_eq_of_lt (by omega)
  rw [hb']
  have : a + UINT - b = (a - b) + UINT := by omega
  rw [this, Nat.add_mod_right]
  exact Nat.mod_eq_of_lt (by omega)

/-- C7: if `calculateRemoteMoments` returns, then (1) under every `Boundary` node it
descended through, a `NonLocal` child whose sibling is local has `beginParticle = 0`,
`endParticle = remoteCount parent sibling` (the parent's `remoteIndex` minus the
sibling's `remoteIndex` if the sibling is `Boundary`, minus its local count
`endParticle - beginParticle` otherwise, in `unsigned int` arithmetic), this count is
not zero, and its moments are `parent.moments - sibling.moments` with the radius
recomputed by `calculateRadiusFarthestCorner`; (2, 3) a `NonLocal` left or right child
whose count is zero is gone and the parent's child link is null, the sibling keeps
its fields; (4) the `unsigned int` subtraction is the plain difference when the
subtrahend is not larger. -/
theorem C7_remote_moments {M : Type} (env : Env M) (ctx : Option (SFCTreeNode M × Tree M))
    (t t' : Tree M) (h : calculateRemoteMoments env ctx t = some t') :
    (∀ x ∈ t'.visited, NonLocalOK env x.1 x.2.1 x.2.2 ∧ NonLocalOK env x.1 x.2.2 x.2.1) ∧
    (∀ p c cl cr s sl sr, t = .node p (.node c cl cr) (.node s sl sr) →
      p.type = .Boundary → c.type = .NonLocal → s.type ≠ .NonLocal →
      ∃ sl' sr', t' = .node p
        (if remoteCount p s ≠ 0 then
          .node { c with beginParticle := 0, endParticle := remoteCount p s
                         moments := env.calculateRadiusFarthestCorner
                           (env.sub p.moments s.moments) c.key c.level } cl cr
         else .null)
        (.node s sl' sr')) ∧
    (∀ p c cl cr s sl sr, t = .node p (.node s sl sr) (.node c cl cr) →
      p.type = .Boundary → c.type = .NonLocal → s.type ≠ .NonLocal →
      ∃ sl' sr', t' = .node p (.node s sl' sr')
        (if remoteCount p s ≠ 0 then
          .node { c with beginParticle := 0, endParticle := remoteCount p s
                         moments := env.calculateRadiusFarthestCorner
                           (env.sub p.moments s.moments) c.key c.level } cl cr
         else .null)) ∧
    (∀ a b, b ≤ a → a < UINT → usub a b = a - b) := by
  refine ⟨crm_visited env t ctx t' h, ?_, ?_, usub_eq⟩
  · intro p c cl cr s sl sr ht hp hc hs
    subst ht
    rcases crm_node env ctx p _ _ t' h with ⟨hn, -⟩ | ⟨-, l', r', hl, hr, h2⟩ | ⟨-, hb, -⟩
    · rw [hp] at hn; exact absurd hn (by decide)
    · obtain ⟨sl', sr', rfl⟩ := crm_local_root env _ s sl sr r' hs hr
      refine ⟨sl', sr', ?_⟩
      subst h2
      rcases crm_node env _ c cl cr l' hl with
        ⟨-, p', s', sl2, sr2, hctx, h1 | h1⟩ | ⟨hb, -⟩ | ⟨hn, -⟩
      · simp only [Option.some.injEq, Prod.mk.injEq, Tree.node.injEq] at hctx
        obtain ⟨rfl, rfl, -, -⟩ := hctx
        simp [h1.1, h1.2]
      · simp only [Option.some.injEq, Prod.mk.injEq, Tree.node.injEq] at hctx
        obtain ⟨rfl, rfl, -, -⟩ := hctx
        simp [h1.1, h1.2]
      · rw [hb] at hc; exact absurd hc (by decide)
      · exact absurd hc hn
    · exact absurd hp hb
  · intro p c cl cr s sl sr ht hp hc hs
    subst ht
    rcases crm_node env ctx p _ _ t' h with ⟨hn, -⟩ | ⟨-, l', r', hl, hr, h2⟩ | ⟨-, hb, -⟩
    · rw [hp] at hn; exact absurd hn (by decide)
    · obtain ⟨sl', sr', rfl⟩ := crm_local_root env _ s sl sr l' hs hl
      refine ⟨sl', sr', ?_⟩
      subst h2
      rcases crm_node env _ c cl cr r' hr with
        ⟨-, p', s', sl2, sr2, hctx, h1 | h1⟩ | ⟨hb, -⟩ | ⟨hn, -⟩
      · simp only [Option.some.injEq, Prod.mk.injEq, Tree.node.injEq] at hctx
        obtain ⟨rfl, rfl, -, -⟩ := hctx
        simp [h1.1, h1.2]
      · simp only [Option.some.injEq, Prod.mk.injEq, Tree.node.injEq] at hctx
        obtain ⟨rfl, rfl, -, -⟩ := hctx
        simp [h1.1, h1.2]
      · rw [hb] at hc; exact absurd hc (by decide)
      · exact absurd hc hn
    · exact absurd hp hb

/-- C7 on piece 1 of the two-piece example: the `NonLocal` left child of the root gets
the count `4 - 2 = 2` and the mass `4 - 2 = 2`. -/
theorem C7_remote_moments_witness :
    NonLocalOK exampleEnv remoteFamily.1 remoteFamily.2.1 remoteFamily.2.2 ∧
    remoteTree.nodes.map (fun n => (n.type, n.beginParticle, n.endParticle, n.moments))
      = [(.Boundary, 1, 3, 4), (.NonLocal, 0, 2, 2), (.Internal, 1, 3, 2),
         (.Bucket, 1, 2, 1), (.Internal, 2, 3, 1), (.Bucket, 2, 3, 1)] :=
  ⟨((C7_remote_moments exampleEnv none finalizedRoot remoteTree (by rfl)).1 remoteFamily
      (List.mem_cons_self _ _)).1, by decide⟩


/-! ### The walk on a single piece -/

theorem massSum_self (mass : Nat → Int) (a : Nat) : massSum mass a a = 0 := by
  simp [massSum]

theorem massSum_split (mass : Nat → Int) (a m b : Nat) (h1 : a ≤ m) (h2 : m ≤ b) :
    massSum mass a b = massSum mass a m + massSum mass m b := by
  unfold massSum
  have e : b - a = (b - m) + (m - a) := by omega
  have e2 : a + (m - a) = m := by omega
  rw [e, ← List.range'_append_1, List.map_append, List.sum_append, e2]

theorem Covers_le {M : Type} (env : Env M) (mass : Nat → Int) (t : Tree M) (a b : Nat)
    (h : Covers env mass t a b) : a ≤ b := by
  cases t with
  | null => simp only [Covers] at h; omega
  | node n l r => simp only [Covers] at h; exact h.2.2.1

theorem addMomentsTo_mass {M : Type} (env : Env M) (hl : MassLaws env) (mass : Nat → Int)
    (t : Tree M) (a b : Nat) (h : Covers env mass t a b) (m : M) :
    env.totalMass (t.addMomentsTo env m) = env.totalMass m + massSum mass a b := by
  cases t with
  | null =>
    simp only [Covers] at h
    subst h
    simp [Tree.addMomentsTo, massSum_self]
  | node n l r =>
    simp only [Covers] at h
    simp only [Tree.addMomentsTo]
    rw [hl.2.2.1, h.2.2.2.1]

theorem foldl_addParticle_mass {M : Type} (env : Env M) (hl : MassLaws env)
    (ps : List GravityParticle) (m : M) :
    env.totalMass (ps.foldl env.addParticle m)
      = env.totalMass m + (ps.map GravityParticle.mass).sum := by
  induction ps generalizing m with
  | nil => simp
  | cons p ps ih =>
    simp only [List.foldl_cons, List.map_cons, List.sum_cons]
    rw [ih, hl.2.1]
    omega

theorem drop_take_mass (parts : List GravityParticle) (l n : Nat) (h : l + n ≤ parts.length) :
    (((parts.drop l).take n).map GravityParticle.mass).sum = massSum (partMass parts) l (l + n) := by
  unfold massSum
  have e : l + n - l = n := by omega
  rw [e]
  congr 1
  apply List.ext_getElem
  · simp only [List.length_map, List.length_take, List.length_drop, List.length_range']
    omega
  · intro i h1 h2
    simp only [List.length_map, List.length_range'] at h2
    simp only [List.getElem_map, List.getElem_take, List.getElem_drop, List.getElem_range',
      partMass, one_mul]
    rw [List.getD_eq_getElem _ _ (by omega)]

theorem finish_covers {M : Type} {env : Env M} {pc : Piece} {node : SFCTreeNode M} {l r : Nat}
    {lt rt t : Tree M} {st st' : BuildState M} (mass : Nat → Int)
    (h : finishNode env pc node l r lt rt st = some (t, st'))
    (h0 : pc.thisIndex = 0) (h1 : pc.numTreePieces = 1) (hl : MassLaws env)
    (hz : node.moments = env.zero) (m : Nat)
    (hlt : Covers env mass lt node.beginParticle m)
    (hrt : Covers env mass rt m node.endParticle) :
    st'.cerr = st.cerr ∧ Covers env mass t node.beginParticle node.endParticle := by
  have hA : ¬ ((l = 0 ∧ pc.thisIndex ≠ 0) ∨
      (r = pc.myNumParticles + 1 ∧ (pc.thisIndex : Int) ≠ (pc.numTreePieces : Int) - 1)) := by
    rw [h0, h1]; simp
  have ha := Covers_le env mass lt _ _ hlt
  have hb := Covers_le env mass rt _ _ hrt
  unfold finishNode at h
  simp only at h
  rw [if_neg hA] at h
  simp only [Option.some.injEq, Prod.mk.injEq] at h
  obtain ⟨rfl, rfl⟩ := h
  refine ⟨rfl, ?_⟩
  simp only [Covers]
  refine ⟨trivial, trivial, by omega, ?_, Or.inr ⟨trivial, m, hlt, hrt⟩⟩
  rw [hl.2.2.2.1, addMomentsTo_mass env hl mass rt _ _ hrt,
    addMomentsTo_mass env hl mass lt _ _ hlt, hz, hl.1,
    massSum_split mass _ m _ ha hb]
  omega

set_option maxHeartbeats 4000000 in
theorem buildTree_covers {M : Type} (env : Env M) (pc : Piece) (parts : List GravityParticle)
    (hlen : parts.length = pc.myNumParticles + 2)
    (hsorted : ∀ i j, i ≤ j → j ≤ pc.myNumParticles + 1 → keyAt parts i ≤ keyAt parts j)
    (h0 : pc.thisIndex = 0) (h1 : pc.numTreePieces = 1) (hl : MassLaws env) :
    ∀ (bits key l r : Nat) (st : BuildState M) (t : Tree M) (st' : BuildState M),
      bits ≤ 63 → l ≤ r → r ≤ pc.myNumParticles + 1 → 2 ^ bits ∣ key →
      (∀ i, l ≤ i → i ≤ r → key ≤ keyAt parts i ∧ keyAt parts i < key + 2 ^ bits) →
      buildTree env pc parts bits key l r st = some (t, st') → Clean st'.cerr →
      Covers env (partMass parts) t (if l = 0 then 1 else l)
          (if r = pc.myNumParticles + 1 then r else r + 1) := by
  have hA : ¬ (pc.thisIndex ≠ 0) := by rw [h0]; simp
  have hB : ¬ ((pc.thisIndex : Int) ≠ (pc.numTreePieces : Int) - 1) := by rw [h0, h1]; simp
  have hbucket : ∀ (key level l r : Nat), l ≤ r → r ≤ pc.myNumParticles + 1 → l ≠ 0 →
      r ≠ pc.myNumParticles + 1 →
      Covers env (partMass parts)
        (.node { freshNode env key level with
            beginParticle := if l = 0 then l + 1 else l
            endParticle := if r = pc.myNumParticles + 1 then r + 1 - 1 else r + 1
            type := .Bucket
            numOwners := 1
            moments := env.calculateRadiusFarthestParticle
              (((parts.drop l).take (r + 1 - l)).foldl env.addParticle
                (freshNode env key level).moments) ((parts.drop l).take (r + 1 - l)) }
          .null .null)
        (if l = 0 then 1 else l) (if r = pc.myNumParticles + 1 then r else r + 1) := by
    intro key level l r hlr hr hc2 hc3
    simp only [Covers, hc2, hc3, if_false, true_and]
    refine ⟨by omega, ?_, Or.inl trivial⟩
    rw [hl.2.2.2.2, foldl_addParticle_mass env hl, drop_take_mass parts l (r + 1 - l) (by omega)]
    have e : l + (r + 1 - l) = r + 1 := by omega
    rw [e]
    simp [freshNode, hl.1]
  intro bits
  induction bits with
  | zero =>
    intro key l r st t st' hbits hlr hr hdiv hrange h hclean
    unfold buildTree at h
    simp only at h
    split at h
    · rename_i hc
      simp only [Option.some.injEq, Prod.mk.injEq] at h
      obtain ⟨rfl, rfl⟩ := h
      obtain ⟨hc1, hc2, hc3⟩ := hc
      exact hbucket _ _ l r hlr hr hc2 hc3
    · split at h
      · simp only [Option.some.injEq, Prod.mk.injEq] at h
        obtain ⟨rfl, rfl⟩ := h
        exact absurd (hclean (.keysExhausted l r) (by simp)) (by simp [Diagnostic.isBuildFailure])
      · exact absurd h (by simp)
  | succ b ih =>
    intro key l r st t st' hbits hlr hr hdiv hrange h hclean
    unfold buildTree at h
    simp only at h
    split at h
    · rename_i hc
      simp only [Option.some.injEq, Prod.mk.injEq] at h
      obtain ⟨rfl, rfl⟩ := h
      obtain ⟨hc1, hc2, hc3⟩ := hc
      exact hbucket _ _ l r hlr hr hc2 hc3
    · split at h
      · simp only [Option.some.injEq, Prod.mk.injEq] at h
        obtain ⟨rfl, rfl⟩ := h
        exact absurd (hclean (.keysExhausted l r) (by simp)) (by simp [Diagnostic.isBuildFailure])
      · have hlev : 62 - (63 - (b + 1)) = b := by omega
        have hlev1 : 63 - (b + 1) + 1 = 63 - b := by omega
        simp only [hlev, hlev1, rightChildKey] at h
        have hor : key ||| 2 ^ b = key + 2 ^ b := or_bit key b hdiv
        have hpow : 2 ^ (b + 1) = 2 ^ b + 2 ^ b := by rw [Nat.pow_succ]; omega
        have hpos : 0 < 2 ^ b := Nat.two_pow_pos b
        have hbl := bit_of_range key b (keyAt parts l) hdiv (hrange l (le_refl _) hlr).1
          (hrange l (le_refl _) hlr).2
        have hbr := bit_of_range key b (keyAt parts r) hdiv (hrange r hlr (le_refl _)).1
          (hrange r hlr (le_refl _)).2
        have hdl : 2 ^ b ∣ key := Dvd.dvd.trans (pow_dvd_pow 2 (Nat.le_succ b)) hdiv
        have hdr : 2 ^ b ∣ key + 2 ^ b := Nat.dvd_add hdl (dvd_refl _)
        have hb63 : b ≤ 63 := by omega
        have hbe : (if l = 0 then l + 1 else l) = (if l = 0 then 1 else l) := by
          split <;> omega
        have hee : (if r = pc.myNumParticles + 1 then r + 1 - 1 else r + 1)
            = (if r = pc.myNumParticles + 1 then r else r + 1) := by
          split <;> omega
        rw [hor, hbe, hee] at h
        have hA2 : ¬ (l = 0 ∧ pc.thisIndex ≠ 0) := fun hc => hA hc.2
        have hB2 : ¬ (r = pc.myNumParticles + 1 ∧
            (pc.thisIndex : Int) ≠ (pc.numTreePieces : Int) - 1) := fun hc => hB hc.2
        try simp only [if_neg hA, if_neg hB, if_neg hA2, if_neg hB2] at h
        split at h
        · -- a split at this level
          rename_i hlt
          have hl1 : keyAt parts l < key + 2 ^ b := by
            by_contra hc
            rw [if_pos (by omega)] at hbl
            rw [hbl] at hlt
            split at hbr <;> omega
          have hr1 : key + 2 ^ b ≤ keyAt parts r := by
            by_contra hc
            rw [if_neg hc] at hbr
            omega
          obtain ⟨hs1, hs2, hs3, hs4⟩ := lower_bound_spec (parts.map GravityParticle.key) l r
            (key + 2 ^ b) (by simp only [List.length_map]; omega) hlr
          generalize lower_bound (parts.map GravityParticle.key) l (r + 1) (key + 2 ^ b) = s
            at h hs1 hs2 hs3 hs4
          have hsl : l < s := by
            rcases Nat.lt_or_ge l s with h' | h'
            · exact h'
            · have : s = l := by omega
              subst this
              have := hs4 hlr
              unfold keyAt at hl1
              omega
          have hsr : s ≤ r := by
            by_contra hc
            have := hs3 r hlr (by omega)
            unfold keyAt at hr1
            omega
          have hleft : ∀ i, l ≤ i → i ≤ s - 1 →
              key ≤ keyAt parts i ∧ keyAt parts i < key + 2 ^ b := by
            intro i hi1 hi2
            refine ⟨(hrange i hi1 (by omega)).1, ?_⟩
            have := hs3 i hi1 (by omega)
            unfold keyAt
            exact this
          have hright : ∀ i, s ≤ i → i ≤ r →
              key + 2 ^ b ≤ keyAt parts i ∧ keyAt parts i < key + 2 ^ b + 2 ^ b := by
            intro i hi1 hi2
            refine ⟨?_, by have := (hrange i (by omega) hi2).2; omega⟩
            have h1 := hs4 hsr
            have h2 := hsorted s i hi1 (by omega)
            unfold keyAt at h2 ⊢
            omega
          split at h
          · -- only the sentinel on the left
            rename_i hs
            have hs' : s = 1 := by omega
            have hl0 : l = 0 := by omega
            split at h
            · exact absurd h (by simp)
            · rename_i rt st1 heq
              have hcl1 : Clean st1.cerr := by
                obtain ⟨n', -, -, -, -, -, hc5, -, -⟩ := finishNode_some h
                rw [← hc5]; exact hclean
              have ihc := ih _ _ _ _ _ _ hb63 hsr hr hdr hright heq hcl1
              rw [if_neg (by omega : ¬ s = 0), hs'] at ihc
              have := (finish_covers (partMass parts) h h0 h1 hl rfl 1
                (by simp [Covers, hl0]) ihc).2
              exact this
          · split at h
            · -- only the sentinel on the right
              rename_i hs0 hs
              have hrN : r = pc.myNumParticles + 1 := by omega
              split at h
              · exact absurd h (by simp)
              · rename_i lt st1 heq
                have hcl2 : Clean st1.cerr := by
                  obtain ⟨n', -, -, -, -, -, hc5, -, -⟩ := finishNode_some h
                  rw [← hc5]; exact hclean
                have ihc := ih _ _ _ _ _ _ hb63 (by omega : l ≤ s - 1)
                  (by omega) hdl hleft heq hcl2
                have e1 : ¬ (s - 1 = pc.myNumParticles + 1) := by omega
                have e2 : s - 1 + 1 = r := by omega
                rw [if_neg e1, e2] at ihc
                have := (finish_covers (partMass parts) h h0 h1 hl rfl r
                  ihc (by simp [Covers, hrN])).2
                exact this
            · split at h
              · exact absurd h (by simp)
              · rename_i hs1 hsN hs0
                split at h
                · exact absurd h (by simp)
                · rename_i lt st1 heq1
                  split at h
                  · exact absurd h (by simp)
                  · rename_i rt st2 heq2
                    have hcl2 : Clean st2.cerr := by
                      obtain ⟨n', -, -, -, -, -, hc5, -, -⟩ := finishNode_some h
                      rw [← hc5]; exact hclean
                    have ihc2 := ih _ _ _ _ _ _ hb63 hsr hr hdr hright heq2 hcl2
                    have hcl1 : Clean st1.cerr :=
                      (buildTree_tiles env pc parts hlen hsorted _ _ _ _ _ _ _ hb63 hsr hr hdr
                        hright heq2 hcl2).1
                    have ihc1 := ih _ _ _ _ _ _ hb63
                      (by omega : l ≤ s - 1) (by omega) hdl hleft heq1 hcl1
                    have e1 : ¬ (s - 1 = pc.myNumParticles + 1) := by omega
                    have e2 : s - 1 + 1 = s := by omega
                    rw [if_neg e1, e2] at ihc1
                    rw [if_neg hs0] at ihc2
                    exact (finish_covers (partMass parts) h h0 h1 hl rfl s ihc1 ihc2).2
        · rename_i hnlt
          split at h
          · -- both ones
            rename_i hne
            have hl1 : key + 2 ^ b ≤ keyAt parts l := by
              by_contra hc
              rw [if_neg hc] at hbl
              rw [hbl, Nat.zero_and] at hne
              exact hne rfl
            have hright : ∀ i, l ≤ i → i ≤ r →
                key + 2 ^ b ≤ keyAt parts i ∧ keyAt parts i < key + 2 ^ b + 2 ^ b := by
              intro i hi1 hi2
              have h2 := hsorted l i hi1 (by omega)
              have h3 := (hrange i hi1 hi2).2
              omega
            split at h
            · exact absurd h (by simp)
            · rename_i rt st1 heq
              have hcl1 : Clean st1.cerr := by
                obtain ⟨n', -, -, -, -, -, hc5, -, -⟩ := finishNode_some h
                rw [← hc5]; exact hclean
              have ihc := ih _ _ _ _ _ _ hb63 hlr hr hdr hright heq hcl1
              exact (finish_covers (partMass parts) h h0 h1 hl rfl _
                (by simp [Covers]) ihc).2
          · rename_i hne
            split at h
            · simp only [Option.some.injEq, Prod.mk.injEq] at h
              obtain ⟨rfl, rfl⟩ := h
              exact absurd (hclean (.bitsNotRight l r) (by simp))
                (by simp [Diagnostic.isBuildFailure])
            · -- both zeros
              rename_i hngt
              have hr1 : keyAt parts r < key + 2 ^ b := by
                by_contra hc
                rw [if_pos (by omega)] at hbr
                rw [hbr] at hnlt hngt hne
                split at hbl
                · rename_i hh
                  rw [hbl, Nat.and_self] at hne
                  omega
                · omega
              have hleft : ∀ i, l ≤ i → i ≤ r →
                  key ≤ keyAt parts i ∧ keyAt parts i < key + 2 ^ b := by
                intro i hi1 hi2
                have h2 := hsorted i r hi2 hr
                have h3 := (hrange i hi1 hi2).1
                omega
              split at h
              · exact absurd h (by simp)
              · rename_i lt st1 heq
                have hcl2 : Clean st1.cerr := by
                  obtain ⟨n', -, -, -, -, -, hc5, -, -⟩ := finishNode_some h
                  rw [← hc5]; exact hclean
                have ihc := ih _ _ _ _ _ _ hb63 hlr hr hdl hleft heq hcl2
                exact (finish_covers (partMass parts) h h0 h1 hl rfl _ ihc
                  (by simp [Covers])).2

theorem Accounts_refl (rb re : Nat) (st : GravState) : Accounts rb re 0 st st :=
  ⟨fun _ => rfl, fun _ _ _ => by omega, fun _ _ => rfl⟩

theorem Accounts_trans {rb re : Nat} {x y : Int} {a b c : GravState}
    (h1 : Accounts rb re x a b) (h2 : Accounts rb re y b c) : Accounts rb re (x + y) a c := by
  refine ⟨fun j => by rw [h2.1, h1.1], fun j hj1 hj2 => ?_, fun j hj => by rw [h2.2.2 j hj, h1.2.2 j hj]⟩
  rw [h2.2.1 j hj1 hj2, h1.2.1 j hj1 hj2]
  omega

theorem Accounts_of_eq {rb re : Nat} {x : Int} {a b c : GravState}
    (h : a.myParticles = b.myParticles) (h2 : Accounts rb re x b c) : Accounts rb re x a c := by
  unfold Accounts at *
  rw [h]
  exact h2

theorem localParticleStep_accounts {M : Type} (env : Env M) (w : Walker M) (id : Nat)
    (st : GravState) (i : Nat) :
    Accounts (w.reqnode env id).beginParticle (w.reqnode env id).endParticle
      (st.myParticles i).mass st (localParticleStep env w id st i) := by
  unfold localParticleStep Accounts
  simp only [GravState.updateReq, GravState.updateParticles]
  refine ⟨?_, ?_, ?_⟩
  · intro j
    by_cases hj : (w.reqnode env id).beginParticle ≤ j ∧ j < (w.reqnode env id).endParticle
    · rw [if_pos hj]
    · rw [if_neg hj]
  · intro j hj1 hj2
    rw [if_pos ⟨hj1, hj2⟩]
    simp only [GravityParticle.accounted]
    omega
  · intro j hj
    rw [if_neg hj]

theorem foldl_local_accounts {M : Type} (env : Env M) (w : Walker M) (id : Nat)
    (mass : Nat → Int) (xs : List Nat) (st : GravState)
    (hm : ∀ i, (st.myParticles i).mass = mass i) :
    Accounts (w.reqnode env id).beginParticle (w.reqnode env id).endParticle
      (xs.map mass).sum st (xs.foldl (localParticleStep env w id) st) := by
  induction xs generalizing st with
  | nil => exact Accounts_refl _ _ _
  | cons x xs ih =>
    simp only [List.foldl_cons, List.map_cons, List.sum_cons]
    have h1 := localParticleStep_accounts env w id st x
    rw [hm x] at h1
    exact Accounts_trans h1 (ih _ (fun i => by rw [h1.1, hm]))

theorem walk_accounts {M : Type} (env : Env M) (w : Walker M) (cache : CacheManager M)
    (id : Nat) (mass : Nat → Int) (t : Tree M) :
    ∀ (a b : Nat) (st : GravState), Covers env mass t a b →
      (∀ i, (st.myParticles i).mass = mass i) →
      Accounts (w.reqnode env id).beginParticle (w.reqnode env id).endParticle
        (massSum mass a b) st (walkBucketTree env w cache id t st) := by
  induction t with
  | null =>
    intro a b st hc hm
    simp only [Covers] at hc
    subst hc
    rw [massSum_self]
    exact Accounts_refl _ _ _
  | node n l r ihl ihr =>
    intro a b st hc hm
    simp only [Covers] at hc
    obtain ⟨hb, he, hab, hmom, hty⟩ := hc
    unfold walkBucketTree
    simp only
    split
    · -- the node is accepted as a whole
      unfold Accounts
      simp only [GravState.updateReq, GravState.updateParticles]
      refine ⟨?_, ?_, ?_⟩
      · intro j
        by_cases hj : (w.reqnode env id).beginParticle ≤ j ∧ j < (w.reqnode env id).endParticle
        · rw [if_pos hj]
        · rw [if_neg hj]
      · intro j hj1 hj2
        rw [if_pos ⟨hj1, hj2⟩]
        simp only [GravityParticle.accounted]
        rw [hmom]
        omega
      · intro j hj
        rw [if_neg hj]
    · split
      · -- an opened bucket
        rw [hb, he]
        unfold massSum
        exact Accounts_of_eq rfl (foldl_local_accounts env w id mass _ _ hm)
      · rename_i hnb
        rcases hty with hty | ⟨hty, m, hcl, hcr⟩
        · exact absurd hty hnb
        · rw [if_neg (by rw [hty]; decide)]
          have h1 := ihl a m { st with myNumMACChecks := st.myNumMACChecks + 1 } hcl hm
          have h2 := ihr m b _ hcr (fun i => by rw [h1.1]; exact hm i)
          rw [massSum_split mass a m b (Covers_le env mass l a m hcl) (Covers_le env mass r m b hcr)]
          exact Accounts_of_eq rfl (Accounts_trans h1 h2)

theorem exampleEnv_massLaws : MassLaws exampleEnv := by
  refine ⟨rfl, fun _ _ => rfl, fun _ _ => rfl, fun _ _ _ => rfl, fun _ _ => rfl⟩

/-- C8 (amended): on a single piece whose particle array, sentinels included, is sorted
by key, when `buildTree` completes from the root without the key-exhaustion or the
bit-order diagnostic and the moments are exact as to mass, the walk
`walkBucketTree(root, request of b)` leaves every particle of the bucket `b` with
`intcellmass + intpartmass` increased by the total mass of the local particles
`1 ≤ i < myNumParticles + 1`, changes no particle outside `b`, and changes no mass. -/
theorem C8_walk_accounts_total_mass {M : Type} (env : Env M) (pc : Piece)
    (parts : List GravityParticle) (t : Tree M) (bs : BuildState M) (w : Walker M)
    (cache : CacheManager M) (id : Nat) (st : GravState)
    (hlaws : MassLaws env)
    (hsingle : pc.thisIndex = 0 ∧ pc.numTreePieces = 1)
    (hlen : parts.length = pc.myNumParticles + 2)
    (hsorted : ∀ i j, i ≤ j → j ≤ pc.myNumParticles + 1 → keyAt parts i ≤ keyAt parts j)
    (hkey : keyAt parts (pc.myNumParticles + 1) ≤ lastPossibleKey)
    (hbuild : buildTree env pc parts 63 firstPossibleKey 0 (pc.myNumParticles + 1)
      BuildState.initial = some (t, bs))
    (hdiag : Clean bs.cerr)
    (hmass : ∀ i, (st.myParticles i).mass = partMass parts i) :
    (∀ j, (w.reqnode env id).beginParticle ≤ j → j < (w.reqnode env id).endParticle →
      ((walkBucketTree env w cache id t st).myParticles j).accounted
        = (st.myParticles j).accounted + massSum (partMass parts) 1 (pc.myNumParticles + 1)) ∧
    (∀ j, ¬ ((w.reqnode env id).beginParticle ≤ j ∧ j < (w.reqnode env id).endParticle) →
      (walkBucketTree env w cache id t st).myParticles j = st.myParticles j) ∧
    (∀ j, ((walkBucketTree env w cache id t st).myParticles j).mass
      = (st.myParticles j).mass) := by
  have hrange : ∀ i, 0 ≤ i → i ≤ pc.myNumParticles + 1 →
      firstPossibleKey ≤ keyAt parts i ∧ keyAt parts i < firstPossibleKey + 2 ^ 63 := by
    intro i _ hi
    have := hsorted i (pc.myNumParticles + 1) hi (le_refl _)
    simp only [firstPossibleKey, lastPossibleKey] at hkey ⊢
    omega
  have hc := buildTree_covers env pc parts hlen hsorted hsingle.1 hsingle.2 hlaws 63
    firstPossibleKey 0 (pc.myNumParticles + 1) BuildState.initial t bs (le_refl _)
    (Nat.zero_le _) (le_refl _) (by simp [firstPossibleKey]) hrange hbuild hdiag
  simp only [if_true] at hc
  obtain ⟨h1, h2, h3⟩ := walk_accounts env w cache id (partMass parts) t _ _ st hc hmass
  exact ⟨h2, h3, h1⟩

set_option maxRecDepth 100000 in
/-- C8 on a single piece with particles of mass 1 and 2 in two buckets: the walk for
bucket 0 leaves its particle with 3 more accounted. -/
theorem C8_walk_accounts_total_mass_witness :
    (buildTree exampleEnv pairPiece pairParticles 63 firstPossibleKey 0 3 BuildState.initial
        = some (builtTree exampleEnv pairPiece pairParticles,
            builtMembers exampleEnv pairPiece pairParticles)) ∧
    (builtMembers exampleEnv pairPiece pairParticles).cerr = [] ∧
    ((builtMembers exampleEnv pairPiece pairParticles).bucketList.map SFCTreeNode.range
        = [(1, 2), (2, 3)]) ∧
    massSum (partMass pairParticles) 1 3 = 3 ∧
    ((walkBucketTree exampleEnv (localWalker pairPiece pairParticles) emptyCache 0
        (builtTree exampleEnv pairPiece pairParticles) (localGrav pairParticles)).myParticles
          1).accounted
      = ((localGrav pairParticles).myParticles 1).accounted
        + massSum (partMass pairParticles) 1 (pairPiece.myNumParticles + 1) :=
  ⟨rfl, by decide, by decide, by decide,
    (C8_walk_accounts_total_mass exampleEnv pairPiece pairParticles
      (builtTree exampleEnv pairPiece pairParticles)
      (builtMembers exampleEnv pairPiece pairParticles)
      (localWalker pairPiece pairParticles) emptyCache 0 (localGrav pairParticles)
      exampleEnv_massLaws ⟨rfl, rfl⟩ (by rfl)
      (by
        intro i j hij hj
        have hj' : j ≤ 3 := hj
        interval_cases j <;> interval_cases i <;> decide)
      (by decide) rfl
      (by intro d hd; have hd' : d ∈ ([] : List Diagnostic) := hd; simp at hd')
      (fun _ => rfl)).1 1 (by decide) (by decide)⟩

set_option maxRecDepth 100000 in
/-- C8 (the claim as stated, evaluated): on a single piece with key-sorted particles of
mass 1 and keys `2^61, 2^62, 2^62`, buckets of one particle, `buildTree` completes with
the key-exhaustion diagnostic for the two particles of equal key, the tree has no
`NonLocal` node and one bucket `[1, 2)`, and the walk for that bucket leaves its particle
with 1 more accounted, not with the total mass 3 of the local particles. -/
theorem C8_tied_keys_unaccounted :
    (tiedPiece.thisIndex = 0 ∧ tiedPiece.numTreePieces = 1) ∧
    (∀ i j, i ≤ j → j ≤ tiedPiece.myNumParticles + 1 →
      keyAt tiedParticles i ≤ keyAt tiedParticles j) ∧
    (buildTree exampleEnv tiedPiece tiedParticles 63 firstPossibleKey 0 4 BuildState.initial
        = some (builtTree exampleEnv tiedPiece tiedParticles,
            builtMembers exampleEnv tiedPiece tiedParticles)) ∧
    (∀ n ∈ (builtTree exampleEnv tiedPiece tiedParticles).nodes, n.type ≠ .NonLocal) ∧
    (builtMembers exampleEnv tiedPiece tiedParticles).cerr = [.keysExhausted 2 3] ∧
    ((builtMembers exampleEnv tiedPiece tiedParticles).bucketList.map SFCTreeNode.range
        = [(1, 2)]) ∧
    massSum (partMass tiedParticles) 1 (tiedPiece.myNumParticles + 1) = 3 ∧
    ((walkBucketTree exampleEnv (localWalker tiedPiece tiedParticles) emptyCache 0
        (builtTree exampleEnv tiedPiece tiedParticles) (localGrav tiedParticles)).myParticles
          1).accounted
      = ((localGrav tiedParticles).myParticles 1).accounted + 1 := by
  refine ⟨⟨rfl, rfl⟩, ?_, rfl, by decide, by decide, by decide, by decide, by decide⟩
  intro i j hij hj
  have hj' : j ≤ 4 := hj
  interval_cases j <;> interval_cases i <;> decide

/-! ### The pending requests of a bucket -/

theorem WalkFrame.refl (id : Nat) (st : GravState) : WalkFrame id st st := ⟨rfl, rfl, rfl⟩

theorem WalkFrame.trans {id : Nat} {a b c : GravState} (h1 : WalkFrame id a b)
    (h2 : WalkFrame id b c) : WalkFrame id a c :=
  ⟨h2.1.trans h1.1, h2.2.1.trans h1.2.1, h2.2.2.trans h1.2.2⟩

theorem WalkFrame.of_eq {id : Nat} (st st' : GravState)
    (h1 : st'.bucketReqs = st.bucketReqs) (h2 : st'.fetches = st.fetches) :
    WalkFrame id st st' := by
  simp [WalkFrame, requestedItems, h1, h2]

theorem frame_force (id : Nat) (st : GravState) (g : BucketGravityRequest → List Int × List Int) :
    WalkFrame id st (st.updateReq id (fun r => applyForce r (g r))) := by
  simp [WalkFrame, requestedItems, GravState.updateReq, applyForce]

theorem requestNode_frame {M : Type} (w : Walker M) (cache : CacheManager M)
    (id remoteIndex lookupKey : Nat) (st : GravState) :
    WalkFrame id st (requestNode w cache id remoteIndex lookupKey st).2 := by
  unfold requestNode
  simp only
  split
  · split
    · split <;> exact WalkFrame.of_eq _ _ rfl rfl
    · refine ⟨?_, ?_, ?_⟩
      · split <;> simp [GravState.updateReq]
      · split <;> simp [GravState.updateReq]
      · unfold requestedItems
        split <;> simp [GravState.updateReq, List.filter_append, List.filter_cons, Fetch.bucket,
          Fetch.items]
  · refine ⟨?_, ?_, ?_⟩
    · split <;> simp [GravState.updateReq]
    · split <;> simp [GravState.updateReq]
    · unfold requestedItems
      split <;> simp [GravState.updateReq, List.filter_append, List.filter_cons, Fetch.bucket,
        Fetch.items]

theorem requestParticles_frame {M : Type} (w : Walker M) (cache : CacheManager M)
    (id key remoteIndex : Nat) (first last : Int) (st : GravState) :
    WalkFrame id st (requestParticles w cache id key remoteIndex first last st).2 := by
  unfold requestParticles
  split
  · split
    · exact WalkFrame.refl _ _
    · refine ⟨?_, ?_, ?_⟩
      · simp [GravState.updateReq]
      · simp [GravState.updateReq]
      · unfold requestedItems
        simp [GravState.updateReq, List.filter_append, List.filter_cons, Fetch.bucket,
          Fetch.items]
  · refine ⟨?_, ?_, ?_⟩
    · simp [GravState.updateReq]
    · simp [GravState.updateReq]
    · unfold requestedItems
      simp [GravState.updateReq, List.filter_append, List.filter_cons, Fetch.bucket,
        Fetch.items]

theorem localParticleStep_frame {M : Type} (env : Env M) (w : Walker M) (id : Nat)
    (st : GravState) (i : Nat) : WalkFrame id st (localParticleStep env w id st i) := by
  simp [WalkFrame, requestedItems, localParticleStep, GravState.updateReq,
    GravState.updateParticles, applyForce]

theorem remoteParticleStep_frame {M : Type} (env : Env M) (w : Walker M) (id : Nat)
    (m : Int) (part : GravityParticle) (st : GravState) :
    WalkFrame id st (remoteParticleStep env w id m part st) := by
  simp [WalkFrame, requestedItems, remoteParticleStep, GravState.updateReq,
    GravState.updateParticles, applyForce]

theorem foldl_frame {α : Type} (id : Nat) (f : GravState → α → GravState)
    (hf : ∀ st a, WalkFrame id st (f st a)) (xs : List α) (st : GravState) :
    WalkFrame id st (xs.foldl f st) := by
  induction xs generalizing st with
  | nil => exact WalkFrame.refl _ _
  | cons x xs ih => exact (hf st x).trans (ih (f st x))

theorem cachedWalk_frame {M : Type} (env : Env M) (w : Walker M) (cache : CacheManager M)
    (id : Nat) : ∀ (fuel : Nat) (node : SFCTreeNode M) (st : GravState),
      WalkFrame id st (cachedWalkBucketTree env w cache id fuel node st) := by
  intro fuel
  induction fuel with
  | zero => intro node st; exact WalkFrame.refl _ _
  | succ fuel ih =>
    intro node st
    unfold cachedWalkBucketTree
    simp only
    have h0 : WalkFrame id st
        (if node.type ≠ .Invalid then { st with myNumMACChecks := st.myNumMACChecks + 1 }
         else { st with myNumMACChecks := st.myNumMACChecks + 1, asserts := st.asserts + 1 }) := by
      split <;> exact WalkFrame.of_eq _ _ rfl rfl
    generalize (if node.type ≠ .Invalid then { st with myNumMACChecks := st.myNumMACChecks + 1 }
         else { st with myNumMACChecks := st.myNumMACChecks + 1, asserts := st.asserts + 1 })
      = st0 at h0
    refine h0.trans ?_
    split
    · exact WalkFrame.refl _ _
    · split
      · exact (WalkFrame.of_eq st0 _ rfl rfl).trans (frame_force id _ _)
      · split
        · have h1 := requestParticles_frame w cache id (env.lookupKey node.key node.level)
            node.remoteIndex node.beginParticle node.endParticle st0
          split
          · rename_i part st1 heq
            rw [heq] at h1
            refine h1.trans ((WalkFrame.of_eq st1 _ rfl rfl).trans ?_)
            exact foldl_frame id _ (fun s i => remoteParticleStep_frame env w id _ _ s) _ _
          · rename_i st1 heq
            rw [heq] at h1
            exact h1
        · split
          · have h1 := requestNode_frame w cache id node.remoteIndex
              (env.lookupKey node.key node.level) st0
            split
            · rename_i pnode st1 heq
              rw [heq] at h1
              exact h1.trans (ih _ _)
            · rename_i st1 heq
              rw [heq] at h1
              exact h1
          · have h1 := requestNode_frame w cache id node.remoteIndex
              (w.leftChildLookupKey node.key node.level) st0
            generalize requestNode w cache id node.remoteIndex
              (w.leftChildLookupKey node.key node.level) st0 = ra at h1
            obtain ⟨oa, s1⟩ := ra
            cases oa with
            | none =>
              simp only
              have h2 : WalkFrame id st0 s1 := h1
              generalize s1 = st2 at h2
              have h3 := requestNode_frame w cache id node.remoteIndex
                (w.rightChildLookupKey node.key node.level) st2
              generalize requestNode w cache id node.remoteIndex
                (w.rightChildLookupKey node.key node.level) st2 = rb at h3
              obtain ⟨ob, s3⟩ := rb
              cases ob with
              | none => exact h2.trans h3
              | some child => exact h2.trans (h3.trans (ih _ _))
            | some child1 =>
              simp only
              have h2 : WalkFrame id st0 (cachedWalkBucketTree env w cache id fuel child1 s1) :=
                h1.trans (ih _ _)
              generalize cachedWalkBucketTree env w cache id fuel child1 s1 = st2 at h2
              have h3 := requestNode_frame w cache id node.remoteIndex
                (w.rightChildLookupKey node.key node.level) st2
              generalize requestNode w cache id node.remoteIndex
                (w.rightChildLookupKey node.key node.level) st2 = rb at h3
              obtain ⟨ob, s3⟩ := rb
              cases ob with
              | none => exact h2.trans h3
              | some child => exact h2.trans (h3.trans (ih _ _))

theorem walk_frame {M : Type} (env : Env M) (w : Walker M) (cache : CacheManager M)
    (id : Nat) : ∀ (t : Tree M) (st : GravState),
      WalkFrame id st (walkBucketTree env w cache id t st) := by
  intro t
  induction t with
  | null => intro st; exact WalkFrame.refl _ _
  | node node l r ihl ihr =>
    intro st
    unfold walkBucketTree
    simp only
    split
    · exact (WalkFrame.of_eq _ ({ st with
        myNumMACChecks := st.myNumMACChecks + 1
        countIntersects := st.countIntersects + 1
        myNumCellInteractions := st.myNumCellInteractions +
          (st.bucketReqs id).numParticlesInBucket }) rfl rfl).trans
        ((WalkFrame.of_eq _ _ rfl rfl).trans (frame_force id _ _))
    · split
      · refine (WalkFrame.of_eq _ ({ st with
          myNumMACChecks := st.myNumMACChecks + 1
          myNumParticleInteractions := st.myNumParticleInteractions +
            (st.bucketReqs id).numParticlesInBucket *
              (node.endParticle - node.beginParticle) }) rfl rfl).trans ?_
        exact foldl_frame id _ (fun s i => localParticleStep_frame env w id s i) _ _
      · split
        · have h1 := requestNode_frame w cache id node.remoteIndex
            (env.lookupKey node.key node.level)
            { st with myNumMACChecks := st.myNumMACChecks + 1 }
          refine (WalkFrame.of_eq _ ({ st with
            myNumMACChecks := st.myNumMACChecks + 1 }) rfl rfl).trans ?_
          split
          · rename_i pnode st1 heq
            rw [heq] at h1
            exact h1.trans ((WalkFrame.of_eq st1 _ rfl rfl).trans
              (cachedWalk_frame env w cache id _ _ _))
          · rename_i st1 heq
            rw [heq] at h1
            exact h1
        · exact (WalkFrame.of_eq _ ({ st with
            myNumMACChecks := st.myNumMACChecks + 1 }) rfl rfl).trans
            ((ihl _).trans (ihr _))

theorem finishBucket_reqs {M : Type} (env : Env M) (w : Walker M) (st : GravState) (id : Nat) :
    (finishBucket env w st id).bucketReqs = st.bucketReqs ∧
    (finishBucket env w st id).fetches = st.fetches := by
  unfold finishBucket
  simp only
  split
  · split <;> exact ⟨rfl, rfl⟩
  · exact ⟨rfl, rfl⟩

theorem receiveNodeWalk_frame {M : Type} (env : Env M) (w : Walker M) (cache : CacheManager M)
    (id : Nat) (n : SFCTreeNode M) (st : GravState) :
    WalkFrame id (st.updateReq id
      (fun r => { r with numAdditionalRequests := r.numAdditionalRequests - 1 }))
      (receiveNodeWalk env w cache n id st) := by
  unfold receiveNodeWalk
  simp only
  split <;> split <;> (try split) <;>
    first
      | exact WalkFrame.refl _ _
      | exact WalkFrame.of_eq _ _ rfl rfl
      | exact cachedWalk_frame env w cache id _ _ _

theorem receiveParticlesWalk_frame {M : Type} (env : Env M) (w : Walker M)
    (id : Nat) (part : List GravityParticle) (num : Int) (st : GravState) :
    WalkFrame id (st.updateReq id
      (fun r => { r with numAdditionalRequests := r.numAdditionalRequests - num }))
      (receiveParticlesWalk env w part num id st) := by
  unfold receiveParticlesWalk
  simp only
  exact (WalkFrame.of_eq _ _ rfl rfl).trans
    (foldl_frame id _ (fun s i => remoteParticleStep_frame env w id _ _ s) _ _)

theorem deliverWalk_spec {M : Type} (env : Env M) (w : Walker M) (cache : CacheManager M)
    (id : Nat) (d : Delivery M) (st : GravState) :
    ((deliverWalk env w cache id d st).bucketReqs id).finished = (st.bucketReqs id).finished ∧
    ((deliverWalk env w cache id d st).bucketReqs id).numAdditionalRequests
        - requestedItems (deliverWalk env w cache id d st) id
      = (st.bucketReqs id).numAdditionalRequests - d.items - requestedItems st id := by
  cases d with
  | node n =>
    obtain ⟨h1, -, h3⟩ := receiveNodeWalk_frame env w cache id n st
    simp only [deliverWalk, Delivery.items]
    refine ⟨by rw [h1]; simp [GravState.updateReq], ?_⟩
    rw [h3]
    simp [GravState.updateReq, requestedItems]
  | particles part num =>
    obtain ⟨h1, -, h3⟩ := receiveParticlesWalk_frame env w id part num st
    simp only [deliverWalk, Delivery.items]
    refine ⟨by rw [h1]; simp [GravState.updateReq], ?_⟩
    rw [h3]
    simp [GravState.updateReq, requestedItems]

theorem startNextBucketWalk_spec {M : Type} (env : Env M) (w : Walker M)
    (cache : CacheManager M) (st : GravState) :
    ((startNextBucketWalk env w cache st).bucketReqs st.currentBucket).finished = 1 ∧
    ((startNextBucketWalk env w cache st).bucketReqs st.currentBucket).numAdditionalRequests
        - requestedItems (startNextBucketWalk env w cache st) st.currentBucket
      = w.initialRequests - requestedItems st st.currentBucket := by
  unfold startNextBucketWalk
  simp only
  have hw := walk_frame env w cache st.currentBucket w.root
    ((st.updateParticles (w.reqnode env st.currentBucket).beginParticle
        (w.reqnode env st.currentBucket).endParticle
        (fun p => { p with treeAcceleration := 0 })).updateReq st.currentBucket
      (fun _ => { finished := 0, identifier := st.currentBucket
                  numAdditionalRequests := w.initialRequests
                  numParticlesInBucket := (w.reqnode env st.currentBucket).endParticle -
                    (w.reqnode env st.currentBucket).beginParticle
                  accelerations := List.replicate ((w.reqnode env st.currentBucket).endParticle -
                    (w.reqnode env st.currentBucket).beginParticle) 0
                  potentials := List.replicate ((w.reqnode env st.currentBucket).endParticle -
                    (w.reqnode env st.currentBucket).beginParticle) 0 }))
  obtain ⟨-, -, h3⟩ := hw
  constructor
  · simp [GravState.updateReq, GravState.updateParticles]
  · simp only [GravState.updateReq, GravState.updateParticles, requestedItems, if_true] at h3 ⊢
    exact h3

theorem deliver_spec {M : Type} (env : Env M) (w : Walker M) (cache : CacheManager M)
    (id : Nat) (d : Delivery M) (st : GravState) :
    ((deliver env w cache id d st).bucketReqs id).finished = (st.bucketReqs id).finished ∧
    ((deliver env w cache id d st).bucketReqs id).numAdditionalRequests
        - requestedItems (deliver env w cache id d st) id
      = (st.bucketReqs id).numAdditionalRequests - d.items - requestedItems st id ∧
    ((deliver env w cache id d st).bucketReqs id).numAdditionalRequests
      = ((deliverWalk env w cache id d st).bucketReqs id).numAdditionalRequests ∧
    requestedItems (deliver env w cache id d st) id
      = requestedItems (deliverWalk env w cache id d st) id := by
  obtain ⟨h1, h2⟩ := finishBucket_reqs env w (deliverWalk env w cache id d st) id
  obtain ⟨h3, h4⟩ := deliverWalk_spec env w cache id d st
  have hr : requestedItems (deliver env w cache id d st) id
      = requestedItems (deliverWalk env w cache id d st) id := by
    unfold deliver requestedItems
    rw [h2]
  have hb : (deliver env w cache id d st).bucketReqs
      = (deliverWalk env w cache id d st).bucketReqs := h1
  rw [hr, hb]
  exact ⟨h3, h4, rfl, rfl⟩

theorem runDeliveries_balance {M : Type} (env : Env M) (w : Walker M) (id : Nat)
    (ds : List (CacheManager M × Delivery M)) :
    ∀ st : GravState,
      ((runDeliveries env w id ds st).bucketReqs id).finished = (st.bucketReqs id).finished ∧
      ((runDeliveries env w id ds st).bucketReqs id).numAdditionalRequests
          - requestedItems (runDeliveries env w id ds st) id
        = (st.bucketReqs id).numAdditionalRequests - requestedItems st id
          - (ds.map (fun cd => cd.2.items)).sum := by
  induction ds with
  | nil => intro st; simp [runDeliveries]
  | cons cd ds ih =>
    intro st
    obtain ⟨h1, h2, -, -⟩ := deliver_spec env w cd.1 id cd.2 st
    obtain ⟨i1, i2⟩ := ih (deliver env w cd.1 id cd.2 st)
    simp only [runDeliveries, List.map_cons, List.sum_cons]
    refine ⟨by rw [i1, h1], ?_⟩
    rw [i2, h2]
    omega

theorem firedCount_spec {M : Type} (env : Env M) (w : Walker M) (id : Nat)
    (ds : List (CacheManager M × Delivery M)) :
    ∀ (st : GravState) (delivered : Int),
      (st.bucketReqs id).finished ≠ 0 →
      (st.bucketReqs id).numAdditionalRequests = requestedItems st id - delivered →
      Answered env w id ds st delivered →
      requestedItems (runDeliveries env w id ds st) id
        = delivered + (ds.map (fun cd => cd.2.items)).sum →
      firedCount env w id ds st = (if ds.length = 0 then 0 else 1) ∧
      (ds = [] → (st.bucketReqs id).numAdditionalRequests = 0) ∧
      (ds ≠ [] → 1 ≤ (st.bucketReqs id).numAdditionalRequests) := by
  induction ds with
  | nil =>
    intro st delivered _ hc _ hfin
    simp only [runDeliveries, List.map_nil, List.sum_nil] at hfin
    refine ⟨rfl, fun _ => by omega, fun h => absurd rfl h⟩
  | cons cd ds ih =>
    intro st delivered hf hc hans hfin
    obtain ⟨ha1, ha2, ha3⟩ := hans
    obtain ⟨h1, h2, h3, h4⟩ := deliver_spec env w cd.1 id cd.2 st
    have hf' : ((deliver env w cd.1 id cd.2 st).bucketReqs id).finished ≠ 0 := by
      rw [h1]; exact hf
    have hc' : ((deliver env w cd.1 id cd.2 st).bucketReqs id).numAdditionalRequests
        = requestedItems (deliver env w cd.1 id cd.2 st) id - (delivered + cd.2.items) := by
      omega
    have hfin' : requestedItems (runDeliveries env w id ds (deliver env w cd.1 id cd.2 st)) id
        = (delivered + cd.2.items) + (ds.map (fun cd => cd.2.items)).sum := by
      simp only [runDeliveries, List.map_cons, List.sum_cons] at hfin
      omega
    obtain ⟨i1, i2, i3⟩ := ih _ _ hf' hc' ha3 hfin'
    refine ⟨?_, fun h => absurd h (by simp), fun _ => by omega⟩
    have hfw : ((deliverWalk env w cd.1 id cd.2 st).bucketReqs id).finished ≠ 0 := by
      rw [(deliverWalk_spec env w cd.1 id cd.2 st).1]; exact hf
    simp only [firedCount, i1, finishBucketFires, hfw, ne_eq, not_false_eq_true, decide_True,
      Bool.true_and, decide_eq_true_eq, ← h3, List.length_cons]
    by_cases hds : ds = []
    · simp [hds, i2 hds]
    · have := i3 hds
      have hne : ¬ ((deliver env w cd.1 id cd.2 st).bucketReqs id).numAdditionalRequests = 0 := by
        omega
      have hl : ds.length ≠ 0 := by
        intro h; exact hds (List.length_eq_zero.1 h)
      simp [hl, hne]

theorem foldl_fetches {α : Type} (f : GravState → α → GravState)
    (hf : ∀ st a, (f st a).fetches = st.fetches) (xs : List α) (st : GravState) :
    (xs.foldl f st).fetches = st.fetches := by
  induction xs generalizing st with
  | nil => rfl
  | cons x xs ih => simp only [List.foldl_cons]; rw [ih, hf]

theorem receiveParticles_fetches {M : Type} (env : Env M) (w : Walker M)
    (part : List GravityParticle) (num : Int) (id : Nat) (st : GravState) :
    (receiveParticles env w part num id st).fetches = st.fetches := by
  unfold receiveParticles
  rw [(finishBucket_reqs env w _ id).2]
  unfold receiveParticlesWalk
  simp only
  exact foldl_fetches
    (fun st i => remoteParticleStep env w id (part.getD i { key := 0 }).mass
      (part.getD i { key := 0 }) st) (fun s i => rfl) _ _

/-- C9: the pending-request counter of a bucket request. `requestNode` on a miss (or
without a cache) adds 1 and sends one node fetch, on a hit it changes neither the
counters nor the fetches sent; `requestParticles` on a miss adds `last - first` and sends
one particle fetch, on a hit it changes nothing; `receiveNode` subtracts 1 and adds the
items of the fetches its continued walk sends; `receiveParticles` subtracts `num` and
sends nothing. Hence, from `startNextBucket` on and after any sequence `ds` of
deliveries, the counter of the bucket equals its constructor value plus the items
requested minus the items delivered, and for the constructor value 0 it is not negative
as long as no more items are delivered than were requested. -/
theorem C9_pending_requests_balanced {M : Type} (env : Env M) (w : Walker M)
    (cache : CacheManager M) (id : Nat) (st : GravState) (remoteIndex lookupKey key : Nat)
    (first last : Int) (node : SFCTreeNode M) (part : List GravityParticle) (num : Int)
    (ds : List (CacheManager M × Delivery M)) :
    ((requestNode w cache id remoteIndex lookupKey st).1 = none →
      ((requestNode w cache id remoteIndex lookupKey st).2.bucketReqs id).numAdditionalRequests
          = (st.bucketReqs id).numAdditionalRequests + 1 ∧
        (requestNode w cache id remoteIndex lookupKey st).2.fetches
          = st.fetches ++ [.node id remoteIndex lookupKey]) ∧
    ((requestNode w cache id remoteIndex lookupKey st).1 ≠ none →
      (requestNode w cache id remoteIndex lookupKey st).2.bucketReqs = st.bucketReqs ∧
        (requestNode w cache id remoteIndex lookupKey st).2.fetches = st.fetches) ∧
    ((requestParticles w cache id key remoteIndex first last st).1 = none →
      ((requestParticles w cache id key remoteIndex first last st).2.bucketReqs
          id).numAdditionalRequests
          = (st.bucketReqs id).numAdditionalRequests + (last - first) ∧
        (requestParticles w cache id key remoteIndex first last st).2.fetches
          = st.fetches ++ [.particles id key remoteIndex first last]) ∧
    ((requestParticles w cache id key remoteIndex first last st).1 ≠ none →
      (requestParticles w cache id key remoteIndex first last st).2 = st) ∧
    ((receiveNode env w cache node id st).bucketReqs id).numAdditionalRequests
      = (st.bucketReqs id).numAdditionalRequests - 1
        + (requestedItems (receiveNode env w cache node id st) id - requestedItems st id) ∧
    (((receiveParticles env w part num id st).bucketReqs id).numAdditionalRequests
        = (st.bucketReqs id).numAdditionalRequests - num ∧
      (receiveParticles env w part num id st).fetches = st.fetches) ∧
    (st.currentBucket = id → id < w.bucketList.length → requestedItems st id = 0 →
      ((runDeliveries env w id ds (startNextBucket env w cache st)).bucketReqs
          id).numAdditionalRequests
        = w.initialRequests
          + (requestedItems (runDeliveries env w id ds (startNextBucket env w cache st)) id
            - (ds.map (fun cd => cd.2.items)).sum) ∧
      (w.initialRequests = 0 →
        (ds.map (fun cd => cd.2.items)).sum
          ≤ requestedItems (runDeliveries env w id ds (startNextBucket env w cache st)) id →
        0 ≤ ((runDeliveries env w id ds (startNextBucket env w cache st)).bucketReqs
          id).numAdditionalRequests)) := by
  refine ⟨?_, ?_, ?_, ?_, ?_, ?_, ?_⟩
  · intro h
    cases hc : w.useCache <;>
      cases hq : cache.requestNode w.thisIndex remoteIndex lookupKey <;>
      simp only [requestNode, hc, hq, Bool.false_eq_true, if_false, if_true] at h ⊢ <;>
      first
        | (constructor
           · split <;> simp [GravState.updateReq]
           · split <;> rfl)
        | simp at h
  · intro h
    cases hc : w.useCache <;>
      cases hq : cache.requestNode w.thisIndex remoteIndex lookupKey <;>
      simp only [requestNode, hc, hq, Bool.false_eq_true, if_false, if_true] at h ⊢ <;>
      first
        | (split <;> exact ⟨rfl, rfl⟩)
        | simp at h
  · intro h
    cases hc : w.useCache <;>
      cases hq : cache.requestParticles w.thisIndex key remoteIndex first last <;>
      simp_all [requestParticles, GravState.updateReq]
  · intro h
    cases hc : w.useCache <;>
      cases hq : cache.requestParticles w.thisIndex key remoteIndex first last <;>
      simp_all [requestParticles, GravState.updateReq]
  · have := (deliver_spec env w cache id (.node node) st).2.1
    simp only [deliver, deliverWalk, Delivery.items] at this
    unfold receiveNode
    omega
  · constructor
    · have h := (deliver_spec env w cache id (.particles part num) st).2.1
      have hfe := receiveParticles_fetches env w part num id st
      simp only [deliver, deliverWalk, Delivery.items] at h
      have hr : requestedItems (receiveParticles env w part num id st) id
          = requestedItems st id := by
        unfold requestedItems; rw [hfe]
      unfold receiveParticles at hr ⊢
      omega
    · exact receiveParticles_fetches env w part num id st
  · intro hcur hlt hreq
    have hstart : startNextBucket env w cache st
        = finishBucket env w (startNextBucketWalk env w cache st) id := by
      unfold startNextBucket
      rw [if_neg (by omega), hcur]
    obtain ⟨-, hs2⟩ := startNextBucketWalk_spec env w cache st
    rw [hcur] at hs2
    obtain ⟨hb, hfe⟩ := finishBucket_reqs env w (startNextBucketWalk env w cache st) id
    have hs3 : ((startNextBucket env w cache st).bucketReqs id).numAdditionalRequests
        - requestedItems (startNextBucket env w cache st) id = w.initialRequests := by
      rw [hstart]
      unfold requestedItems at hs2 ⊢
      rw [hb, hfe, hs2]
      unfold requestedItems at hreq
      omega
    obtain ⟨-, hrun⟩ := runDeliveries_balance env w id ds (startNextBucket env w cache st)
    constructor
    · omega
    · intro h0 hle
      omega

/-- C10: (1) `finishBucket` changes nothing unless `finished` is set and
`numAdditionalRequests` is 0; (2) when both hold it adds the accumulated accelerations
and potentials of the request to the particles of the bucket, to no other particle, and
lowers `myNumParticlesPending` by the size of the bucket; (3) for a bucket whose walk in
`startNextBucket` registers no request (constructor value 0 of the counter), the
`finishBucket` called by `startNextBucket` passes the test, so the merge happens before
`startNextBucket` returns; (4) when every request registered for the bucket is answered
by the deliveries `ds`, each delivering at least one and at most the outstanding number
of items, exactly one of the `finishBucket` calls of `startNextBucket` and of the
handlers of `ds` passes the test. -/
theorem C10_finishBucket_merges_once {M : Type} (env : Env M) (w : Walker M)
    (cache : CacheManager M) (id : Nat) (st : GravState)
    (ds : List (CacheManager M × Delivery M)) :
    (finishBucketFires st id = false → finishBucket env w st id = st) ∧
    (finishBucketFires st id = true →
      (finishBucket env w st id).myNumParticlesPending
        = st.myNumParticlesPending - (st.bucketReqs id).numParticlesInBucket ∧
      (∀ i, (finishBucket env w st id).myParticles i =
        if (w.reqnode env id).beginParticle ≤ i ∧
            i < (w.reqnode env id).beginParticle + (st.bucketReqs id).numParticlesInBucket then
          { st.myParticles i with
            treeAcceleration := (st.myParticles i).treeAcceleration
              + (st.bucketReqs id).accelerations.getD (i - (w.reqnode env id).beginParticle) 0
            potential := (st.myParticles i).potential
              + (st.bucketReqs id).potentials.getD (i - (w.reqnode env id).beginParticle) 0 }
        else st.myParticles i) ∧
      (finishBucket env w st id).bucketReqs = st.bucketReqs) ∧
    (st.currentBucket = id → id < w.bucketList.length → w.initialRequests = 0 →
      requestedItems (startNextBucketWalk env w cache st) id = requestedItems st id →
      finishBucketFires (startNextBucketWalk env w cache st) id = true ∧
      startNextBucket env w cache st
        = finishBucket env w (startNextBucketWalk env w cache st) id) ∧
    (st.currentBucket = id → id < w.bucketList.length → w.initialRequests = 0 →
      requestedItems st id = 0 →
      Answered env w id ds (startNextBucket env w cache st) 0 →
      requestedItems (runDeliveries env w id ds (startNextBucket env w cache st)) id
        = (ds.map (fun cd => cd.2.items)).sum →
      (if finishBucketFires (startNextBucketWalk env w cache st) id then 1 else 0)
        + firedCount env w id ds (startNextBucket env w cache st) = 1) := by
  refine ⟨?_, ?_, ?_, ?_⟩
  · intro h
    unfold finishBucketFires at h
    unfold finishBucket
    simp only
    rw [if_neg]
    intro hc
    simp [hc.1, hc.2] at h
  · intro h
    unfold finishBucketFires at h
    simp only [Bool.and_eq_true, decide_eq_true_eq] at h
    unfold finishBucket
    simp only
    rw [if_pos h]
    refine ⟨?_, ?_, ?_⟩
    · split <;> rfl
    · intro i
      split <;> rfl
    · split <;> rfl
  · intro hcur hlt h0 hreq
    have hstart : startNextBucket env w cache st
        = finishBucket env w (startNextBucketWalk env w cache st) id := by
      unfold startNextBucket
      rw [if_neg (by omega), hcur]
    obtain ⟨hs1, hs2⟩ := startNextBucketWalk_spec env w cache st
    rw [hcur] at hs1 hs2
    refine ⟨?_, hstart⟩
    unfold finishBucketFires
    have : ((startNextBucketWalk env w cache st).bucketReqs id).numAdditionalRequests = 0 := by
      omega
    simp [hs1, this]
  · intro hcur hlt h0 hreq hans hfin
    have hstart : startNextBucket env w cache st
        = finishBucket env w (startNextBucketWalk env w cache st) id := by
      unfold startNextBucket
      rw [if_neg (by omega), hcur]
    obtain ⟨hs1, hs2⟩ := startNextBucketWalk_spec env w cache st
    rw [hcur] at hs1 hs2
    obtain ⟨hb, hfe⟩ := finishBucket_reqs env w (startNextBucketWalk env w cache st) id
    have hreq' : requestedItems (startNextBucket env w cache st) id
        = requestedItems (startNextBucketWalk env w cache st) id := by
      rw [hstart]; unfold requestedItems; rw [hfe]
    have hcnt : ((startNextBucket env w cache st).bucketReqs id).numAdditionalRequests
        = ((startNextBucketWalk env w cache st).bucketReqs id).numAdditionalRequests := by
      rw [hstart, hb]
    have hfin1 : ((startNextBucket env w cache st).bucketReqs id).finished ≠ 0 := by
      rw [hstart, hb, hs1]; decide
    obtain ⟨f1, f2, f3⟩ := firedCount_spec env w id ds (startNextBucket env w cache st) 0 hfin1
      (by omega) hans (by omega)
    rw [f1]
    unfold finishBucketFires
    by_cases hds : ds = []
    · have := f2 hds
      have hz : ((startNextBucketWalk env w cache st).bucketReqs id).numAdditionalRequests = 0 := by
        omega
      simp [hds, hs1, hz]
    · have := f3 hds
      have hz : ¬ ((startNextBucketWalk env w cache st).bucketReqs id).numAdditionalRequests = 0 := by
        omega
      have hl : ds.length ≠ 0 := fun h => hds (List.length_eq_zero.1 h)
      simp [hl, hs1, hz]

/-- C9 on piece 1 of two pieces: without a cache the request of the remote half of the
tree is a miss (counter 1), with a full cache it is a hit (nothing changes), and after
the walk of bucket 0 and the delivery of the one requested node the counter is 0. -/
theorem C9_pending_requests_balanced_witness :
    ((requestNode exampleWalker emptyCache 0 0 (2 ^ 61) exampleGrav).1 = none ∧
      ((requestNode exampleWalker emptyCache 0 0 (2 ^ 61) exampleGrav).2.bucketReqs
          0).numAdditionalRequests = (exampleGrav.bucketReqs 0).numAdditionalRequests + 1 ∧
      (requestNode exampleWalker emptyCache 0 0 (2 ^ 61) exampleGrav).2.fetches
          = exampleGrav.fetches ++ [.node 0 0 (2 ^ 61)]) ∧
    ((requestNode cachingWalker fullCache 0 0 (2 ^ 61) exampleGrav).1 ≠ none ∧
      (requestNode cachingWalker fullCache 0 0 (2 ^ 61) exampleGrav).2.bucketReqs
          = exampleGrav.bucketReqs ∧
      (requestNode cachingWalker fullCache 0 0 (2 ^ 61) exampleGrav).2.fetches
          = exampleGrav.fetches) ∧
    ((requestParticles exampleWalker emptyCache 0 0 0 0 3 exampleGrav).1 = none ∧
      ((requestParticles exampleWalker emptyCache 0 0 0 0 3 exampleGrav).2.bucketReqs
          0).numAdditionalRequests = (exampleGrav.bucketReqs 0).numAdditionalRequests + (3 - 0) ∧
      (requestParticles exampleWalker emptyCache 0 0 0 0 3 exampleGrav).2.fetches
          = exampleGrav.fetches ++ [.particles 0 0 0 0 3]) ∧
    ((requestParticles cachingWalker fullCache 0 0 0 0 3 exampleGrav).1 ≠ none ∧
      (requestParticles cachingWalker fullCache 0 0 0 0 3 exampleGrav).2 = exampleGrav) ∧
    (exampleGrav.currentBucket = 0 ∧ 0 < exampleWalker.bucketList.length ∧
      requestedItems exampleGrav 0 = 0 ∧ exampleWalker.initialRequests = 0 ∧
      (exampleAnswers.map (fun cd => cd.2.items)).sum
        ≤ requestedItems (runDeliveries exampleEnv exampleWalker 0 exampleAnswers
            (startNextBucket exampleEnv exampleWalker emptyCache exampleGrav)) 0 ∧
      ((runDeliveries exampleEnv exampleWalker 0 exampleAnswers
          (startNextBucket exampleEnv exampleWalker emptyCache exampleGrav)).bucketReqs
          0).numAdditionalRequests
        = exampleWalker.initialRequests
          + (requestedItems (runDeliveries exampleEnv exampleWalker 0 exampleAnswers
              (startNextBucket exampleEnv exampleWalker emptyCache exampleGrav)) 0
            - (exampleAnswers.map (fun cd => cd.2.items)).sum) ∧
      0 ≤ ((runDeliveries exampleEnv exampleWalker 0 exampleAnswers
          (startNextBucket exampleEnv exampleWalker emptyCache exampleGrav)).bucketReqs
          0).numAdditionalRequests) :=
  have miss := C9_pending_requests_balanced exampleEnv exampleWalker emptyCache 0 exampleGrav
    0 (2 ^ 61) 0 0 3 emptyNode [] 0 exampleAnswers
  have hit := C9_pending_requests_balanced exampleEnv cachingWalker fullCache 0 exampleGrav
    0 (2 ^ 61) 0 0 3 emptyNode [] 0 exampleAnswers
  ⟨⟨rfl, miss.1 rfl⟩,
   ⟨Option.some_ne_none emptyNode, hit.2.1 (Option.some_ne_none emptyNode)⟩,
   ⟨rfl, miss.2.2.1 rfl⟩,
   ⟨Option.some_ne_none [], hit.2.2.2.1 (Option.some_ne_none [])⟩,
   ⟨rfl, by decide, by decide, rfl, by decide,
    (miss.2.2.2.2.2.2 rfl (by decide) (by decide)).1,
    (miss.2.2.2.2.2.2 rfl (by decide) (by decide)).2 rfl (by decide)⟩⟩

/-- C10 on piece 1 of two pieces: before the walk `finishBucket` does nothing; with a
full cache the walk of bucket 0 registers nothing and `startNextBucket` merges at once;
without a cache one node is requested and exactly one of the two `finishBucket` calls
(after the walk, after the delivery) merges. -/
theorem C10_finishBucket_merges_once_witness :
    (finishBucketFires exampleGrav 0 = false ∧
      finishBucket exampleEnv exampleWalker exampleGrav 0 = exampleGrav) ∧
    (finishBucketFires (startNextBucketWalk exampleEnv cachingWalker fullCache exampleGrav) 0
        = true ∧
      (finishBucket exampleEnv cachingWalker
          (startNextBucketWalk exampleEnv cachingWalker fullCache exampleGrav)
          0).myNumParticlesPending
        = (startNextBucketWalk exampleEnv cachingWalker fullCache
              exampleGrav).myNumParticlesPending
          - ((startNextBucketWalk exampleEnv cachingWalker fullCache exampleGrav).bucketReqs
              0).numParticlesInBucket) ∧
    (exampleGrav.currentBucket = 0 ∧ 0 < cachingWalker.bucketList.length ∧
      cachingWalker.initialRequests = 0 ∧
      requestedItems (startNextBucketWalk exampleEnv cachingWalker fullCache exampleGrav) 0
        = requestedItems exampleGrav 0 ∧
      startNextBucket exampleEnv cachingWalker fullCache exampleGrav
        = finishBucket exampleEnv cachingWalker
            (startNextBucketWalk exampleEnv cachingWalker fullCache exampleGrav) 0) ∧
    (requestedItems exampleGrav 0 = 0 ∧
      Answered exampleEnv exampleWalker 0 exampleAnswers
        (startNextBucket exampleEnv exampleWalker emptyCache exampleGrav) 0 ∧
      requestedItems (runDeliveries exampleEnv exampleWalker 0 exampleAnswers
          (startNextBucket exampleEnv exampleWalker emptyCache exampleGrav)) 0
        = (exampleAnswers.map (fun cd => cd.2.items)).sum ∧
      (if finishBucketFires (startNextBucketWalk exampleEnv exampleWalker emptyCache exampleGrav) 0
          then 1 else 0)
        + firedCount exampleEnv exampleWalker 0 exampleAnswers
            (startNextBucket exampleEnv exampleWalker emptyCache exampleGrav) = 1) :=
  have hans : Answered exampleEnv exampleWalker 0 exampleAnswers
      (startNextBucket exampleEnv exampleWalker emptyCache exampleGrav) 0 := by
    simp only [exampleAnswers, Answered]
    decide
  have miss := C10_finishBucket_merges_once exampleEnv exampleWalker emptyCache 0 exampleGrav
    exampleAnswers
  have hit := C10_finishBucket_merges_once exampleEnv cachingWalker fullCache 0 exampleGrav
    exampleAnswers
  have fired := C10_finishBucket_merges_once exampleEnv cachingWalker fullCache 0
    (startNextBucketWalk exampleEnv cachingWalker fullCache exampleGrav) exampleAnswers
  ⟨⟨by decide, miss.1 (by decide)⟩,
   ⟨by decide, (fired.2.1 (by decide)).1⟩,
   ⟨rfl, by decide, rfl, by decide, (hit.2.2.1 rfl (by decide) rfl (by decide)).2⟩,
   ⟨by decide, hans, by decide,
    miss.2.2.2 rfl (by decide) rfl (by decide) hans (by decide)⟩⟩

/-! ### Splitters, sentinels and the classification of nodes -/

theorem upperBoundFrom_eq (v : Nat) (xs : List Nat) (base j : Nat) (hj : j < xs.length)
    (hle : ∀ a, a < j → xs.getD a 0 ≤ v) (hgt : v < xs.getD j 0) :
    upperBoundFrom v xs base = base + j := by
  induction xs generalizing base j with
  | nil => simp at hj
  | cons x xs ih =>
    unfold upperBoundFrom
    cases j with
    | zero =>
      have : v < x := by simpa using hgt
      rw [if_pos this]; rfl
    | succ j =>
      have h0 := hle 0 (by omega)
      have hx : ¬ v < x := by
        have : x ≤ v := by simpa using h0
        omega
      rw [if_neg hx]
      have := ih (base + 1) j (by simp only [List.length_cons] at hj; omega)
        (fun a ha => by
          have := hle (a + 1) (by omega)
          simpa using this)
        (by simpa using hgt)
      omega

theorem locLeft_eq (splitters : List Nat) (K j : Nat) (hj : j < splitters.length)
    (hs : ∀ a b, a ≤ b → b < splitters.length → splitters.getD a 0 ≤ splitters.getD b 0)
    (hle : j = 0 ∨ splitters.getD (j - 1) 0 ≤ K) (hgt : K < splitters.getD j 0) :
    locLeft splitters K = j := by
  unfold locLeft upper_bound
  simp only [List.drop_zero, Nat.sub_zero, List.take_length]
  have := upperBoundFrom_eq K splitters 0 j hj (fun a ha => by
    rcases hle with h | h
    · omega
    · exact le_trans (hs a (j - 1) (by omega) (by omega)) h) hgt
  omega

/-- What `upper_bound` returns on a non-decreasing splitter array, as `nodeOwnership`
calls it (line 303): the index `2i+1` when `splitters[2i] ≤ K < splitters[2i+1]` and the
index `2i` when `splitters[2i-1] ≤ K < splitters[2i]` (below `splitters[0]` for
`i = 0`), so the last key of the range of piece `i-1` is given the index `2i`. -/
theorem upper_bound_index (splitters : List Nat) (K i : Nat)
    (hs : ∀ a b, a ≤ b → b < splitters.length → splitters.getD a 0 ≤ splitters.getD b 0) :
    (2 * i + 1 < splitters.length → splitters.getD (2 * i) 0 ≤ K →
      K < splitters.getD (2 * i + 1) 0 → locLeft splitters K = 2 * i + 1) ∧
    (2 * i < splitters.length → (i = 0 ∨ splitters.getD (2 * i - 1) 0 ≤ K) →
      K < splitters.getD (2 * i) 0 → locLeft splitters K = 2 * i) := by
  constructor
  · intro h1 h2 h3
    exact locLeft_eq splitters K (2 * i + 1) h1 hs (Or.inr (by simpa using h2)) h3
  · intro h1 h2 h3
    refine locLeft_eq splitters K (2 * i) h1 hs ?_ h3
    rcases h2 with h | h
    · left; omega
    · right; exact h

/-- With splitters `[0, 4, 6, 10]` the key 2 inside the range of piece 0 gives index 1,
and the key 5 between pieces 0 and 1 gives index 2. -/
theorem upper_bound_index_examples :
    locLeft [0, 4, 6, 10] 2 = 2 * 0 + 1 ∧ locLeft [0, 4, 6, 10] 5 = 2 * 1 :=
  have hs : ∀ a b, a ≤ b → b < [0, 4, 6, 10].length →
      [0, 4, 6, 10].getD a 0 ≤ [0, 4, 6, 10].getD b 0 := by
    intro a b hab hb
    have hb' : b < 4 := hb
    interval_cases b <;> interval_cases a <;> decide
  ⟨(upper_bound_index [0, 4, 6, 10] 2 0 hs).1 (by decide) (by decide) (by decide),
   (upper_bound_index [0, 4, 6, 10] 5 1 hs).2 (by decide) (Or.inr (by decide)) (by decide)⟩

/-- C17 (code evaluated at the failing input): with the non-decreasing splitters
`[0, 4, 6, 10]` the key 4 lies inside the published range `[0, 4]` of piece 0, as its
last key, and `upper_bound` as `nodeOwnership` calls it returns index 2, not
`2·0 + 1`. -/
theorem C17_last_key_of_range :
    (∀ a b, a ≤ b → b < [0, 4, 6, 10].length →
      [0, 4, 6, 10].getD a 0 ≤ [0, 4, 6, 10].getD b 0) ∧
    [0, 4, 6, 10].getD (2 * 0) 0 ≤ 4 ∧ 4 ≤ [0, 4, 6, 10].getD (2 * 0 + 1) 0 ∧
    locLeft [0, 4, 6, 10] 4 = 2 ∧ locLeft [0, 4, 6, 10] 4 ≠ 2 * 0 + 1 := by
  refine ⟨?_, by decide, by decide, by decide, by decide⟩
  intro a b hab hb
  have hb' : b < 4 := hb
  interval_cases b <;> interval_cases a <;> decide

theorem ofKeyDoubles_toKeyDoubles (n : Nat) (xs : List Nat) (h : xs.length = 2 * n) :
    ofKeyDoubles (toKeyDoubles xs) = xs ∧ (toKeyDoubles xs).length = n := by
  induction n generalizing xs with
  | zero =>
    have : xs = [] := List.length_eq_zero.1 (by omega)
    subst this
    exact ⟨rfl, rfl⟩
  | succ n ih =>
    match xs, h with
    | a :: b :: rest, h =>
      have := ih rest (by simp only [List.length_cons] at h; omega)
      simp only [toKeyDoubles, ofKeyDoubles, this.1, List.length_cons, this.2, and_self]
    | [a], h => simp at h; omega
    | [], h => simp at h

theorem ofKeyDoubles_perm {ps qs : List (Nat × Nat)} (h : ps.Perm qs) :
    (ofKeyDoubles ps).Perm (ofKeyDoubles qs) := by
  induction h with
  | nil => exact List.Perm.refl _
  | cons x _ ih => exact (ih.cons _).cons _
  | swap x y l =>
    simp only [ofKeyDoubles]
    have h1 : (y.1 :: y.2 :: x.1 :: x.2 :: ofKeyDoubles l)
        = [y.1, y.2] ++ ([x.1, x.2] ++ ofKeyDoubles l) := rfl
    have h2 : (x.1 :: x.2 :: y.1 :: y.2 :: ofKeyDoubles l)
        = [x.1, x.2] ++ ([y.1, y.2] ++ ofKeyDoubles l) := rfl
    rw [h1, h2, ← List.append_assoc, ← List.append_assoc]
    exact List.Perm.append_right _ List.perm_append_comm
  | trans _ _ ih1 ih2 => exact ih1.trans ih2

theorem keysOrdered_iff (xs : List Nat) :
    keysOrdered xs = true ↔ xs.Chain' (fun a b => a ≤ b) := by
  induction xs with
  | nil => simp [keysOrdered]
  | cons a xs ih =>
    cases xs with
    | nil => simp [keysOrdered]
    | cons b rest =>
      unfold keysOrdered
      rw [List.chain'_cons]
      split
      · rename_i h
        simp only [Bool.false_eq_true, false_iff, not_and]
        intro h'; omega
      · rename_i h
        rw [ih]
        constructor
        · intro h'; exact ⟨by omega, h'⟩
        · intro h'; exact h'.2

theorem chain_iff_index (xs : List Nat) :
    xs.Chain' (fun a b => a ≤ b) ↔
      ∀ a b, a ≤ b → b < xs.length → xs.getD a 0 ≤ xs.getD b 0 := by
  rw [List.chain'_iff_pairwise]
  constructor
  · intro h a b hab hb
    rcases Nat.lt_or_eq_of_le hab with h1 | h1
    · have := List.pairwise_iff_getElem.1 h a b (by omega) hb h1
      rw [List.getD_eq_getElem _ _ (by omega), List.getD_eq_getElem _ _ hb]
      exact this
    · subst h1; exact le_refl _
  · intro h
    rw [List.pairwise_iff_getElem]
    intro i j hi hj hij
    have := h i j (by omega) hj
    rwa [List.getD_eq_getElem _ _ hi, List.getD_eq_getElem _ _ hj] at this

theorem not_chain_iff_index (xs : List Nat) :
    ¬ xs.Chain' (fun a b => a ≤ b) ↔
      ∃ i, 1 ≤ i ∧ i < xs.length ∧ xs.getD i 0 < xs.getD (i - 1) 0 := by
  constructor
  · intro h
    by_contra hc
    apply h
    rw [List.chain'_iff_get]
    intro i hi
    by_contra hlt
    apply hc
    refine ⟨i + 1, by omega, by omega, ?_⟩
    simp only [List.get_eq_getElem] at hlt
    rw [List.getD_eq_getElem _ _ (by omega), Nat.add_sub_cancel,
      List.getD_eq_getElem _ _ (by omega)]
    omega
  · rintro ⟨i, h1, h2, h3⟩ hc
    have := (chain_iff_index xs).1 hc (i - 1) i (by omega) h2
    omega

theorem sortByFirst_sorts : SortsByFirst sortByFirst := by
  intro xs
  haveI : IsTotal (Nat × Nat) (fun a b => a.1 ≤ b.1) := ⟨fun a b => Nat.le_total _ _⟩
  haveI : IsTrans (Nat × Nat) (fun a b => a.1 ≤ b.1) := ⟨fun a b c h1 h2 => Nat.le_trans h1 h2⟩
  refine ⟨List.perm_insertionSort _ xs, ?_⟩
  have := List.sorted_insertionSort (fun a b : Nat × Nat => a.1 ≤ b.1) xs
  exact this.imp (fun h => by omega)

theorem collectSplitters_spec (sort : List (Nat × Nat) → List (Nat × Nat)) (n : Nat)
    (splits : List Nat) (hsort : SortsByFirst sort) (hlen : splits.length = 2 * n) :
    (collectSplitters sort n splits = .error "Keys not ordered" ↔
      ∃ i, 1 ≤ i ∧ i < (ofKeyDoubles (sort (toKeyDoubles splits))).length ∧
        (ofKeyDoubles (sort (toKeyDoubles splits))).getD i 0
          < (ofKeyDoubles (sort (toKeyDoubles splits))).getD (i - 1) 0) ∧
    ((¬ ∃ i, 1 ≤ i ∧ i < (ofKeyDoubles (sort (toKeyDoubles splits))).length ∧
        (ofKeyDoubles (sort (toKeyDoubles splits))).getD i 0
          < (ofKeyDoubles (sort (toKeyDoubles splits))).getD (i - 1) 0) →
      collectSplitters sort n splits = .ok (ofKeyDoubles (sort (toKeyDoubles splits)))) ∧
    (∀ s, collectSplitters sort n splits = .ok s →
      (∀ a b, a ≤ b → b < s.length → s.getD a 0 ≤ s.getD b 0) ∧ s.Perm splits) := by
  obtain ⟨h1, h2⟩ := ofKeyDoubles_toKeyDoubles n splits hlen
  have hcs : collectSplitters sort n splits
      = if keysOrdered (ofKeyDoubles (sort (toKeyDoubles splits))) then
          .ok (ofKeyDoubles (sort (toKeyDoubles splits)))
        else .error "Keys not ordered" := by
    unfold collectSplitters
    simp only
    rw [List.take_of_length_le (by omega : splits.length ≤ 2 * n),
      List.take_of_length_le (by omega : (toKeyDoubles splits).length ≤ n)]
  rw [hcs]
  refine ⟨?_, ?_, ?_⟩
  · rw [← not_chain_iff_index, ← keysOrdered_iff]
    split <;> simp_all
  · rw [← not_chain_iff_index, not_not, ← keysOrdered_iff]
    intro h
    rw [if_pos h]
  · intro s hs
    split at hs
    · rename_i hk
      simp only [Except.ok.injEq] at hs
      subst hs
      refine ⟨(chain_iff_index _).1 ((keysOrdered_iff _).1 hk), ?_⟩
      have := ofKeyDoubles_perm (hsort (toKeyDoubles splits)).1
      rwa [h1] at this
    · simp at hs

/-- C14: on the `2N` gathered keys, `collectSplitters` aborts with "Keys not ordered"
exactly when, after the `N` pairs have been sorted by their first key, some key of the
flattened array is less than the one before it; when no key is, it stores that array,
and the array it stores is non-decreasing and a rearrangement of the gathered keys. -/
theorem C14_collectSplitters_ordered (sort : List (Nat × Nat) → List (Nat × Nat)) (n : Nat)
    (splits : List Nat) (hsort : SortsByFirst sort) (hlen : splits.length = 2 * n) :
    (collectSplitters sort n splits = .error "Keys not ordered" ↔
      ∃ i, 1 ≤ i ∧ i < (ofKeyDoubles (sort (toKeyDoubles splits))).length ∧
        (ofKeyDoubles (sort (toKeyDoubles splits))).getD i 0
          < (ofKeyDoubles (sort (toKeyDoubles splits))).getD (i - 1) 0) ∧
    ((¬ ∃ i, 1 ≤ i ∧ i < (ofKeyDoubles (sort (toKeyDoubles splits))).length ∧
        (ofKeyDoubles (sort (toKeyDoubles splits))).getD i 0
          < (ofKeyDoubles (sort (toKeyDoubles splits))).getD (i - 1) 0) →
      collectSplitters sort n splits = .ok (ofKeyDoubles (sort (toKeyDoubles splits)))) ∧
    (∀ s, collectSplitters sort n splits = .ok s →
      (∀ a b, a ≤ b → b < s.length → s.getD a 0 ≤ s.getD b 0) ∧ s.Perm splits) :=
  collectSplitters_spec sort n splits hsort hlen

/-- C14 at concrete inputs: the gathered keys `1, 10, 5, 20` (overlapping ranges) make
`collectSplitters` abort, the keys `10, 20, 1, 5` are stored as `1, 5, 10, 20`. -/
theorem C14_collectSplitters_ordered_witness :
    (collectSplitters sortByFirst 2 [1, 10, 5, 20] = .error "Keys not ordered" ∧
      ∃ i, 1 ≤ i ∧ i < (ofKeyDoubles (sortByFirst (toKeyDoubles [1, 10, 5, 20]))).length ∧
        (ofKeyDoubles (sortByFirst (toKeyDoubles [1, 10, 5, 20]))).getD i 0
          < (ofKeyDoubles (sortByFirst (toKeyDoubles [1, 10, 5, 20]))).getD (i - 1) 0) ∧
    (collectSplitters sortByFirst 2 [10, 20, 1, 5] = .ok [1, 5, 10, 20] ∧
      [1, 5, 10, 20].Perm [10, 20, 1, 5]) :=
  ⟨⟨rfl, (C14_collectSplitters_ordered sortByFirst 2 [1, 10, 5, 20] sortByFirst_sorts rfl).1.1
      rfl⟩,
   ⟨rfl, ((C14_collectSplitters_ordered sortByFirst 2 [10, 20, 1, 5] sortByFirst_sorts rfl).2.2
      [1, 5, 10, 20] rfl).2⟩⟩

theorem keyAt_set (parts : List GravityParticle) (i j : Nat) (p : GravityParticle) :
    keyAt (parts.set i p) j = if i = j ∧ i < parts.length then p.key else keyAt parts j := by
  unfold keyAt
  simp only [List.getD_eq_getElem?_getD, List.getElem?_map, List.getElem?_set]
  by_cases h : i = j
  · subst h
    by_cases h2 : i < parts.length
    · simp [h2]
    · simp [h2, List.getElem?_eq_none (by omega : parts.length ≤ i)]
  · simp [h]

theorem setSentinels_keys (pc : Piece) (parts : List GravityParticle)
    (hlen : parts.length = pc.myNumParticles + 2) :
    (keyAt (setSentinels pc parts) 0 = if pc.thisIndex = 0 then firstPossibleKey
      else pc.splitters.getD (2 * pc.thisIndex - 1) 0) ∧
    (keyAt (setSentinels pc parts) (pc.myNumParticles + 1)
      = if (pc.thisIndex : Int) = (pc.numTreePieces : Int) - 1 then lastPossibleKey
        else pc.splitters.getD (2 * pc.thisIndex + 2) 0) ∧
    (∀ i, 1 ≤ i → i ≤ pc.myNumParticles → keyAt (setSentinels pc parts) i = keyAt parts i) := by
  unfold setSentinels
  simp only
  refine ⟨?_, ?_, ?_⟩
  · rw [keyAt_set, if_neg (by omega), keyAt_set, if_pos ⟨rfl, by omega⟩]
  · rw [keyAt_set, if_pos ⟨rfl, by rw [List.length_set]; omega⟩]
  · intro i h1 h2
    rw [keyAt_set, if_neg (by omega), keyAt_set, if_neg (by omega)]

/-- C16 (amended): let the splitters be non-decreasing and hold the keys of the first and
the last particle of piece `p` at the indices `2p` and `2p+1`, let the particles of the
piece (at least one) be sorted by key and their keys be at most `lastPossibleKey`. Then
after `startTreeBuild` has set the sentinels (index 0: `firstPossibleKey` on piece 0,
otherwise `splitters[2p-1]`; index `N+1`: `lastPossibleKey` on the last piece, otherwise
`splitters[2p+2]`), the keys at the indices `0..N+1` are in non-decreasing order. -/
theorem C16_sentinels_keep_order (pc : Piece) (parts : List GravityParticle)
    (hlen : parts.length = pc.myNumParticles + 2)
    (hN : 1 ≤ pc.myNumParticles)
    (hidx : pc.thisIndex < pc.numTreePieces)
    (hslen : pc.splitters.length = 2 * pc.numTreePieces)
    (hsplit : ∀ a b, a ≤ b → b < pc.splitters.length →
      pc.splitters.getD a 0 ≤ pc.splitters.getD b 0)
    (hown : pc.splitters.getD (2 * pc.thisIndex) 0 = keyAt parts 1 ∧
      pc.splitters.getD (2 * pc.thisIndex + 1) 0 = keyAt parts pc.myNumParticles)
    (hsorted : ∀ i j, 1 ≤ i → i ≤ j → j ≤ pc.myNumParticles → keyAt parts i ≤ keyAt parts j)
    (hkey : keyAt parts pc.myNumParticles ≤ lastPossibleKey) :
    (keyAt (setSentinels pc parts) 0 = if pc.thisIndex = 0 then firstPossibleKey
      else pc.splitters.getD (2 * pc.thisIndex - 1) 0) ∧
    (keyAt (setSentinels pc parts) (pc.myNumParticles + 1)
      = if (pc.thisIndex : Int) = (pc.numTreePieces : Int) - 1 then lastPossibleKey
        else pc.splitters.getD (2 * pc.thisIndex + 2) 0) ∧
    (∀ i j, i ≤ j → j ≤ pc.myNumParticles + 1 →
      keyAt (setSentinels pc parts) i ≤ keyAt (setSentinels pc parts) j) := by
  obtain ⟨h0, hN1, hmid⟩ := setSentinels_keys pc parts hlen
  refine ⟨h0, hN1, ?_⟩
  have hleft : keyAt (setSentinels pc parts) 0 ≤ keyAt parts 1 := by
    rw [h0]
    split
    · simp [firstPossibleKey]
    · rw [← hown.1]
      exact hsplit _ _ (by omega) (by omega)
  have hright : keyAt parts pc.myNumParticles
      ≤ keyAt (setSentinels pc parts) (pc.myNumParticles + 1) := by
    rw [hN1]
    split
    · exact hkey
    · rename_i hne
      rw [← hown.2]
      have : pc.thisIndex + 1 < pc.numTreePieces := by omega
      exact hsplit _ _ (by omega) (by omega)
  intro i j hij hj
  rcases Nat.eq_zero_or_pos i with hi | hi
  · subst hi
    rcases Nat.eq_zero_or_pos j with hj0 | hj0
    · subst hj0; exact le_refl _
    · rcases Nat.lt_or_ge j (pc.myNumParticles + 1) with h | h
      · rw [hmid j hj0 (by omega)]
        exact le_trans hleft (hsorted 1 j (le_refl _) hj0 (by omega))
      · have : j = pc.myNumParticles + 1 := by omega
        subst this
        exact le_trans hleft (le_trans (hsorted 1 _ (le_refl _) hN (le_refl _)) hright)
  · rcases Nat.lt_or_ge j (pc.myNumParticles + 1) with h | h
    · rw [hmid i hi (by omega), hmid j (by omega) (by omega)]
      exact hsorted i j hi hij (by omega)
    · have : j = pc.myNumParticles + 1 := by omega
      subst this
      rcases Nat.lt_or_ge i (pc.myNumParticles + 1) with h' | h'
      · rw [hmid i hi (by omega)]
        exact le_trans (hsorted i _ hi (by omega) (le_refl _)) hright
      · have : i = pc.myNumParticles + 1 := by omega
        subst this; exact le_refl _

/-- C16 on piece 1 of the two-piece example: the sentinels are `2^61` and
`lastPossibleKey`, and the four keys are in order. -/
theorem C16_sentinels_keep_order_witness :
    keyAt (setSentinels pieceOne partsOne) 0 = 2 ^ 61 ∧
    keyAt (setSentinels pieceOne partsOne) 3 = lastPossibleKey ∧
    (∀ i j, i ≤ j → j ≤ pieceOne.myNumParticles + 1 →
      keyAt (setSentinels pieceOne partsOne) i ≤ keyAt (setSentinels pieceOne partsOne) j) :=
  have h := C16_sentinels_keep_order pieceOne partsOne rfl (by decide) (by decide) rfl
    (by
      intro a b hab hb
      have hb' : b < 4 := hb
      interval_cases b <;> interval_cases a <;> decide)
    ⟨by decide, by decide⟩
    (by
      intro i j hi hij hj
      have hj' : j ≤ 2 := hj
      interval_cases j <;> interval_cases i <;> decide)
    (by decide)
  ⟨by decide, by decide, h.2.2⟩

/-- C16 (the claim as stated, evaluated): piece 0 holds the keys 10 and 20, piece 1 the
keys 1 and 5, and `collectSplitters` stores `1, 5, 10, 20` without aborting. On piece 0
`startTreeBuild` sets the sentinels `firstPossibleKey` and `splitters[2] = 10`, so the
key 20 at index 2 is above the key 10 at index 3. -/
theorem C16_sentinel_below_last_particle :
    collectSplitters sortByFirst 2
        (gathered [(upperPiece, upperParticles), (lowerPiece, lowerParticles)])
      = .ok upperPiece.splitters ∧
    (setSentinels upperPiece upperParticles).map GravityParticle.key = [0, 10, 20, 10] ∧
    ¬ (keyAt (setSentinels upperPiece upperParticles) 2
        ≤ keyAt (setSentinels upperPiece upperParticles) 3) := by
  refine ⟨rfl, by decide, by decide⟩

theorem finishNode_class {M : Type} {env : Env M} {pc : Piece} {node : SFCTreeNode M}
    {l r : Nat} {lt rt t : Tree M} {st st' : BuildState M}
    (h : finishNode env pc node l r lt rt st = some (t, st')) :
    ∃ n, t = .node n lt rt ∧
      (n.type = .Boundary ↔ atBoundary pc l r) ∧
      (n.type = .Boundary →
        ∃ d k, nodeOwnership pc.splitters (env.leftBoundary node.key node.level)
            (env.rightBoundary node.key node.level) ⟨some 0, some node.numOwners, none, none⟩
            = (true, ⟨some d, some k, none, none⟩) ∧
          n.numOwners = k ∧
          n.moments = rt.addMomentsTo env (lt.addMomentsTo env node.moments) ∧
          st'.boundaryNodesPending = st.boundaryNodesPending + 1 ∧
          n.remoteIndex = node.endParticle - node.beginParticle ∧
          (d ≠ pc.thisIndex → st'.outbox = st.outbox ++
            [.acceptBoundaryNodeContribution d (env.lookupKey node.key node.level)
              (node.endParticle - node.beginParticle) n.moments]) ∧
          (d = pc.thisIndex → st'.outbox = st.outbox) ∧
          st'.bucketList = st.bucketList ∧ st'.cerr = st.cerr) ∧
      (n.type ≠ .Boundary → n.type = .Internal ∧ n.numOwners = 1 ∧ st' = st) := by
  unfold finishNode at h
  simp only at h
  split at h
  · rename_i hc
    split at h
    · rename_i hres
      simp only [Option.some.injEq, Prod.mk.injEq] at h
      obtain ⟨h1, h2⟩ := h
      subst h1 h2
      refine ⟨_, rfl, ⟨fun _ => hc, fun _ => rfl⟩, ?_, fun hne => absurd rfl hne⟩
      intro _
      generalize hno : nodeOwnership pc.splitters (env.leftBoundary node.key node.level)
        (env.rightBoundary node.key node.level) ⟨some 0, some node.numOwners, none, none⟩ = res
        at hres
      obtain ⟨b, o⟩ := res
      simp only at hres
      subst hres
      have hout : ∃ d k, o = ⟨some d, some k, none, none⟩ := by
        unfold nodeOwnership at hno
        simp only [store] at hno
        split at hno
        · split at hno
          · simp only [Prod.mk.injEq, true_and] at hno
            exact ⟨_, _, hno.symm⟩
          · simp at hno
        · simp only [Prod.mk.injEq, true_and] at hno
          exact ⟨_, _, hno.symm⟩
      obtain ⟨d, k, rfl⟩ := hout
      refine ⟨d, k, rfl, rfl, rfl, ?_, rfl, ?_, ?_, ?_, ?_⟩
      · simp only [Option.getD_some]; split <;> rfl
      · intro hd
        simp only [Option.getD_some, hd, ne_eq, not_false_eq_true, if_true]
      · intro hd
        simp only [Option.getD_some, hd, ne_eq, not_true_eq_false, if_false]
      · simp only [Option.getD_some]; split <;> rfl
      · simp only [Option.getD_some]; split <;> rfl
    · exact absurd h (by simp)
  · rename_i hc
    simp only [Option.some.injEq, Prod.mk.injEq] at h
    obtain ⟨h1, h2⟩ := h
    subst h1 h2
    refine ⟨_, rfl, ⟨fun h => by simp at h, fun h => absurd h hc⟩, fun h => by simp at h,
      fun _ => ⟨rfl, rfl, rfl⟩⟩

theorem buildTree_root {M : Type} (env : Env M) (pc : Piece) (parts : List GravityParticle)
    (bits key l r : Nat) (st : BuildState M) (t : Tree M) (st' : BuildState M)
    (h : buildTree env pc parts bits key l r st = some (t, st')) :
    (bucketRule pc l r ∧ t = .node (bucketNode env pc parts bits key l r) .null .null ∧
      st' = { st with bucketList := st.bucketList ++ [bucketNode env pc parts bits key l r]
                      numBuckets := st.numBuckets + 1 }) ∨
    (¬ bucketRule pc l r ∧ ¬ ((r : Int) - (l : Int) < pc.maxBucketSize) ∧ bits = 0 ∧
      t = .node (startNode env pc bits key l r) .null .null ∧
      st' = { st with cerr := st.cerr ++ [.keysExhausted l r] }) ∨
    (¬ bucketRule pc l r ∧ 0 < bits ∧
      t = .node (startNode env pc bits key l r) .null .null ∧
      st' = { st with cerr := st.cerr ++ [.bitsNotRight l r] }) ∨
    (¬ bucketRule pc l r ∧ 0 < bits ∧
      ∃ lt rt st1, finishNode env pc (startNode env pc bits key l r) l r lt rt st1
        = some (t, st')) := by
  cases bits with
  | zero =>
    unfold buildTree at h
    simp only at h
    split at h
    · rename_i hc
      simp only [Option.some.injEq, Prod.mk.injEq] at h
      obtain ⟨rfl, rfl⟩ := h
      exact Or.inl ⟨hc, rfl, rfl⟩
    · rename_i hc
      split at h
      · rename_i hc2
        simp only [Option.some.injEq, Prod.mk.injEq] at h
        obtain ⟨rfl, rfl⟩ := h
        exact Or.inr (Or.inl ⟨hc, hc2.1, rfl, rfl, rfl⟩)
      · exact absurd h (by simp)
  | succ b =>
    unfold buildTree at h
    simp only at h
    split at h
    · rename_i hc
      simp only [Option.some.injEq, Prod.mk.injEq] at h
      obtain ⟨rfl, rfl⟩ := h
      exact Or.inl ⟨hc, rfl, rfl⟩
    · rename_i hc
      split at h
      · rename_i hc2
        exact absurd hc2.2 (by omega)
      · split at h
        · split at h
          · split at h
            · exact absurd h (by simp)
            · exact Or.inr (Or.inr (Or.inr ⟨hc, by omega, _, _, _, h⟩))
          · split at h
            · split at h
              · exact absurd h (by simp)
              · exact Or.inr (Or.inr (Or.inr ⟨hc, by omega, _, _, _, h⟩))
            · split at h
              · exact absurd h (by simp)
              · split at h
                · exact absurd h (by simp)
                · split at h
                  · exact absurd h (by simp)
                  · exact Or.inr (Or.inr (Or.inr ⟨hc, by omega, _, _, _, h⟩))
        · split at h
          · split at h
            · exact absurd h (by simp)
            · exact Or.inr (Or.inr (Or.inr ⟨hc, by omega, _, _, _, h⟩))
          · split at h
            · simp only [Option.some.injEq, Prod.mk.injEq] at h
              obtain ⟨rfl, rfl⟩ := h
              exact Or.inr (Or.inr (Or.inl ⟨hc, by omega, rfl, rfl⟩))
            · split at h
              · exact absurd h (by simp)
              · exact Or.inr (Or.inr (Or.inr ⟨hc, by omega, _, _, _, h⟩))

theorem optLookup_nonlocal {M : Type} (env : Env M) (pc : Piece) (k lv : Nat)
    (st : BuildState M) (c : Prop) [Decidable c] :
    (if c then lookupChild env pc k lv st else (Tree.null, st)).2.bucketList = st.bucketList ∧
    (∀ n ∈ (if c then lookupChild env pc k lv st else (Tree.null, st)).1.nodes,
      n.type = .NonLocal) := by
  split
  · obtain ⟨h1, -, -, h4⟩ := lookupChild_spec env pc k lv st
    exact ⟨h1, h4⟩
  · exact ⟨rfl, fun n hn => by simp [Tree.nodes] at hn⟩

theorem finish_buckets {M : Type} {env : Env M} {pc : Piece} {node : SFCTreeNode M}
    {l r : Nat} {lt rt t : Tree M} {st st' : BuildState M} (P : SFCTreeNode M → Prop)
    (h : finishNode env pc node l r lt rt st = some (t, st'))
    (hlt : ∀ n ∈ lt.nodes, n.type = .Bucket → P n)
    (hrt : ∀ n ∈ rt.nodes, n.type = .Bucket → P n) :
    st'.bucketList = st.bucketList ∧ ∀ n ∈ t.nodes, n.type = .Bucket → P n := by
  obtain ⟨n, rfl, h1, h2, h3⟩ := finishNode_class h
  have hty : n.type ≠ .Bucket := by
    by_cases hb : n.type = .Boundary
    · rw [hb]; decide
    · rw [(h3 hb).1]; decide
  constructor
  · by_cases hb : n.type = .Boundary
    · obtain ⟨d, k, -, -, -, -, -, -, -, hbl, -⟩ := h2 hb
      exact hbl
    · rw [(h3 hb).2.2]
  · intro m hm hmt
    simp only [Tree.nodes, List.mem_cons, List.mem_append] at hm
    rcases hm with rfl | hm | hm
    · exact absurd hmt hty
    · exact hlt m hm hmt
    · exact hrt m hm hmt

set_option maxHeartbeats 4000000 in
theorem buildTree_buckets {M : Type} (env : Env M) (pc : Piece) (parts : List GravityParticle)
    (hlen : parts.length = pc.myNumParticles + 2)
    (hsorted : ∀ i j, i ≤ j → j ≤ pc.myNumParticles + 1 → keyAt parts i ≤ keyAt parts j) :
    ∀ (bits key l r : Nat) (st : BuildState M) (t : Tree M) (st' : BuildState M),
      bits ≤ 63 → l ≤ r → r ≤ pc.myNumParticles + 1 → 2 ^ bits ∣ key →
      (∀ i, l ≤ i → i ≤ r → key ≤ keyAt parts i ∧ keyAt parts i < key + 2 ^ bits) →
      (l ≠ 0 → keyAt parts 0 < keyAt parts l) →
      (r ≠ pc.myNumParticles + 1 → keyAt parts r < keyAt parts (pc.myNumParticles + 1)) →
      buildTree env pc parts bits key l r st = some (t, st') →
      (∀ n ∈ t.nodes, n.type = .Bucket → BucketOK pc parts n) ∧
      ∃ bs, st'.bucketList = st.bucketList ++ bs ∧ ∀ b ∈ bs, BucketOK pc parts b := by
  have hbucket : ∀ (bits key l r : Nat), l ≤ r → r ≤ pc.myNumParticles + 1 →
      (l ≠ 0 → keyAt parts 0 < keyAt parts l) →
      (r ≠ pc.myNumParticles + 1 → keyAt parts r < keyAt parts (pc.myNumParticles + 1)) →
      bucketRule pc l r → BucketOK pc parts (bucketNode env pc parts bits key l r) := by
    intro bits key l r hlr hr hkl hkr hc
    obtain ⟨hc1, hc2, hc3⟩ := hc
    simp only [BucketOK, bucketNode, startNode, hc2, hc3, if_false]
    refine ⟨by omega, by omega, by omega, ?_, hkl hc2, ?_⟩
    · push_cast; omega
    · simpa using hkr hc3
  have hleaf : ∀ (n : SFCTreeNode M) (P : SFCTreeNode M → Prop), (n.type = .Bucket → P n) →
      ∀ m ∈ (Tree.node n .null .null).nodes, m.type = .Bucket → P m := by
    intro n P hP m hm hmt
    simp only [Tree.nodes, List.append_nil, List.mem_singleton] at hm
    subst hm
    exact hP hmt
  intro bits
  induction bits with
  | zero =>
    intro key l r st t st' hbits hlr hr hdiv hrange hkl hkr h
    rcases buildTree_root env pc parts 0 key l r st t st' h with
      ⟨hc, rfl, rfl⟩ | ⟨-, -, -, rfl, rfl⟩ | ⟨-, h0, -⟩ | ⟨-, h0, -⟩
    · have hok := hbucket 0 key l r hlr hr hkl hkr hc
      refine ⟨hleaf _ _ (fun _ => hok), [_], rfl, ?_⟩
      intro b hb
      simp only [List.mem_singleton] at hb
      subst hb; exact hok
    · refine ⟨hleaf _ _ (fun hty => by simp [startNode, freshNode] at hty), [], by simp, ?_⟩
      intro b hb; simp at hb
    · omega
    · omega
  | succ b ih =>
    intro key l r st t st' hbits hlr hr hdiv hrange hkl hkr h
    rcases buildTree_root env pc parts (b + 1) key l r st t st' h with
      ⟨hc, rfl, rfl⟩ | ⟨-, -, h0, -⟩ | ⟨-, -, rfl, rfl⟩ | ⟨hnb, -, -⟩
    · have hok := hbucket (b + 1) key l r hlr hr hkl hkr hc
      refine ⟨hleaf _ _ (fun _ => hok), [_], rfl, ?_⟩
      intro b hb
      simp only [List.mem_singleton] at hb
      subst hb; exact hok
    · omega
    · refine ⟨hleaf _ _ (fun hty => by simp [startNode, freshNode] at hty), [], by simp, ?_⟩
      intro b hb; simp at hb
    · unfold buildTree at h
      simp only at h
      have hnb' : ¬ (((r : Int) - (l : Int) < pc.maxBucketSize) ∧ l ≠ 0 ∧
          r ≠ pc.myNumParticles + 1) := hnb
      rw [if_neg hnb'] at h
      split at h
      · rename_i hc2
        exact absurd hc2.2 (by omega)
      · have hlev : 62 - (63 - (b + 1)) = b := by omega
        have hlev1 : 63 - (b + 1) + 1 = 63 - b := by omega
        simp only [hlev, hlev1, rightChildKey] at h
        have hor : key ||| 2 ^ b = key + 2 ^ b := or_bit key b hdiv
        have hpow : 2 ^ (b + 1) = 2 ^ b + 2 ^ b := by rw [Nat.pow_succ]; omega
        have hpos : 0 < 2 ^ b := Nat.two_pow_pos b
        have hbl := bit_of_range key b (keyAt parts l) hdiv (hrange l (le_refl _) hlr).1
          (hrange l (le_refl _) hlr).2
        have hbr := bit_of_range key b (keyAt parts r) hdiv (hrange r hlr (le_refl _)).1
          (hrange r hlr (le_refl _)).2
        have hdl : 2 ^ b ∣ key := Dvd.dvd.trans (pow_dvd_pow 2 (Nat.le_succ b)) hdiv
        have hdr : 2 ^ b ∣ key + 2 ^ b := Nat.dvd_add hdl (dvd_refl _)
        have hb63 : b ≤ 63 := by omega
        rw [hor] at h
        split at h
        · -- a split at this level
          rename_i hlt
          have hl1 : keyAt parts l < key + 2 ^ b := by
            by_contra hc
            rw [if_pos (by omega)] at hbl
            rw [hbl] at hlt
            split at hbr <;> omega
          have hr1 : key + 2 ^ b ≤ keyAt parts r := by
            by_contra hc
            rw [if_neg hc] at hbr
            omega
          obtain ⟨hs1, hs2, hs3, hs4⟩ := lower_bound_spec (parts.map GravityParticle.key) l r
            (key + 2 ^ b) (by simp only [List.length_map]; omega) hlr
          generalize lower_bound (parts.map GravityParticle.key) l (r + 1) (key + 2 ^ b) = s
            at h hs1 hs2 hs3 hs4
          have hsl : l < s := by
            rcases Nat.lt_or_ge l s with h' | h'
            · exact h'
            · have : s = l := by omega
              subst this
              have := hs4 hlr
              unfold keyAt at hl1
              omega
          have hsr : s ≤ r := by
            by_contra hc
            have := hs3 r hlr (by omega)
            unfold keyAt at hr1
            omega
          have hleft : ∀ i, l ≤ i → i ≤ s - 1 →
              key ≤ keyAt parts i ∧ keyAt parts i < key + 2 ^ b := by
            intro i hi1 hi2
            refine ⟨(hrange i hi1 (by omega)).1, ?_⟩
            have := hs3 i hi1 (by omega)
            unfold keyAt
            exact this
          have hright : ∀ i, s ≤ i → i ≤ r →
              key + 2 ^ b ≤ keyAt parts i ∧ keyAt parts i < key + 2 ^ b + 2 ^ b := by
            intro i hi1 hi2
            refine ⟨?_, by have := (hrange i (by omega) hi2).2; omega⟩
            have h1 := hs4 hsr
            have h2 := hsorted s i hi1 (by omega)
            unfold keyAt at h2 ⊢
            omega
          have hks : keyAt parts 0 < keyAt parts s := by
            have h1 := hsorted 0 l (Nat.zero_le _) (by omega)
            have h2 := (hright s (le_refl _) hsr).1
            omega
          have hks1 : keyAt parts (s - 1) < keyAt parts (pc.myNumParticles + 1) := by
            have h1 := (hleft (s - 1) (by omega) (le_refl _)).2
            have h2 := (hright s (le_refl _) hsr).1
            have h3 := hsorted s (pc.myNumParticles + 1) (by omega) (le_refl _)
            omega
          split at h
          · -- the left half is remote
            obtain ⟨hlc1, hlc3⟩ := optLookup_nonlocal env pc key (63 - b) st (pc.thisIndex ≠ 0)
            generalize (if pc.thisIndex ≠ 0 then lookupChild env pc key (63 - b) st
              else (Tree.null, st)) = lc at h hlc1 hlc3
            split at h
            · exact absurd h (by simp)
            · rename_i rt st1 heq
              obtain ⟨ihn, bs, ihb, iht⟩ :=
                ih _ _ _ _ _ _ hb63 hsr hr hdr hright (fun _ => hks) hkr heq
              obtain ⟨hf2, hf3⟩ := finish_buckets (BucketOK pc parts) h
                (fun n hn hty => by rw [hlc3 n hn] at hty; exact absurd hty (by decide)) ihn
              exact ⟨hf3, bs, by rw [hf2, ihb, hlc1], iht⟩
          · split at h
            · -- the right half is remote
              split at h
              · exact absurd h (by simp)
              · rename_i lt st1 heq
                obtain ⟨hrc1, hrc3⟩ := optLookup_nonlocal env pc (key + 2 ^ b) (63 - b) st1
                  ((pc.thisIndex : Int) ≠ (pc.numTreePieces : Int) - 1)
                generalize (if (pc.thisIndex : Int) ≠ (pc.numTreePieces : Int) - 1 then
                  lookupChild env pc (key + 2 ^ b) (63 - b) st1 else (Tree.null, st1)) = rc
                  at h hrc1 hrc3
                obtain ⟨ihn, bs, ihb, iht⟩ := ih _ _ _ _ _ _ hb63 (by omega : l ≤ s - 1)
                  (by omega) hdl hleft hkl (fun _ => hks1) heq
                obtain ⟨hf2, hf3⟩ := finish_buckets (BucketOK pc parts) h ihn
                  (fun n hn hty => by rw [hrc3 n hn] at hty; exact absurd hty (by decide))
                exact ⟨hf3, bs, by rw [hf2, hrc1, ihb], iht⟩
            · split at h
              · exact absurd h (by simp)
              · split at h
                · exact absurd h (by simp)
                · rename_i lt st1 heq1
                  split at h
                  · exact absurd h (by simp)
                  · rename_i rt st2 heq2
                    obtain ⟨ihn2, bs2, ihb2, iht2⟩ :=
                      ih _ _ _ _ _ _ hb63 hsr hr hdr hright (fun _ => hks) hkr heq2
                    obtain ⟨ihn1, bs1, ihb1, iht1⟩ := ih _ _ _ _ _ _ hb63
                      (by omega : l ≤ s - 1) (by omega) hdl hleft hkl (fun _ => hks1) heq1
                    obtain ⟨hf2, hf3⟩ := finish_buckets (BucketOK pc parts) h ihn1 ihn2
                    refine ⟨hf3, bs1 ++ bs2, by rw [hf2, ihb2, ihb1, List.append_assoc], ?_⟩
                    intro x hx
                    rcases List.mem_append.1 hx with hx | hx
                    · exact iht1 x hx
                    · exact iht2 x hx
        · rename_i hnlt
          split at h
          · -- both ones
            rename_i hne
            have hl1 : key + 2 ^ b ≤ keyAt parts l := by
              by_contra hc
              rw [if_neg hc] at hbl
              rw [hbl, Nat.zero_and] at hne
              exact hne rfl
            have hright : ∀ i, l ≤ i → i ≤ r →
                key + 2 ^ b ≤ keyAt parts i ∧ keyAt parts i < key + 2 ^ b + 2 ^ b := by
              intro i hi1 hi2
              have h2 := hsorted l i hi1 (by omega)
              have h3 := (hrange i hi1 hi2).2
              omega
            obtain ⟨hlc1, hlc3⟩ := optLookup_nonlocal env pc key (63 - b) st
              (l = 0 ∧ pc.thisIndex ≠ 0)
            generalize (if l = 0 ∧ pc.thisIndex ≠ 0 then lookupChild env pc key (63 - b) st
              else (Tree.null, st)) = lc at h hlc1 hlc3
            split at h
            · exact absurd h (by simp)
            · rename_i rt st1 heq
              obtain ⟨ihn, bs, ihb, iht⟩ :=
                ih _ _ _ _ _ _ hb63 hlr hr hdr hright hkl hkr heq
              obtain ⟨hf2, hf3⟩ := finish_buckets (BucketOK pc parts) h
                (fun n hn hty => by rw [hlc3 n hn] at hty; exact absurd hty (by decide)) ihn
              exact ⟨hf3, bs, by rw [hf2, ihb, hlc1], iht⟩
          · rename_i hne
            split at h
            · simp only [Option.some.injEq, Prod.mk.injEq] at h
              obtain ⟨rfl, rfl⟩ := h
              refine ⟨hleaf _ _ (fun hty => by simp [freshNode] at hty), [], by simp, ?_⟩
              intro b hb; simp at hb
            · -- both zeros
              rename_i hngt
              have hr1 : keyAt parts r < key + 2 ^ b := by
                by_contra hc
                rw [if_pos (by omega)] at hbr
                rw [hbr] at hnlt hngt hne
                split at hbl
                · rename_i hh
                  rw [hbl, Nat.and_self] at hne
                  omega
                · omega
              have hleft : ∀ i, l ≤ i → i ≤ r →
                  key ≤ keyAt parts i ∧ keyAt parts i < key + 2 ^ b := by
                intro i hi1 hi2
                have h2 := hsorted i r hi2 hr
                have h3 := (hrange i hi1 hi2).1
                omega
              split at h
              · exact absurd h (by simp)
              · rename_i lt st1 heq
                obtain ⟨hrc1, hrc3⟩ := optLookup_nonlocal env pc (key + 2 ^ b) (63 - b) st1
                  (r = pc.myNumParticles + 1 ∧ (pc.thisIndex : Int) ≠ (pc.numTreePieces : Int) - 1)
                generalize (if r = pc.myNumParticles + 1 ∧
                  (pc.thisIndex : Int) ≠ (pc.numTreePieces : Int) - 1 then
                  lookupChild env pc (key + 2 ^ b) (63 - b) st1 else (Tree.null, st1)) = rc
                  at h hrc1 hrc3
                obtain ⟨ihn, bs, ihb, iht⟩ := ih _ _ _ _ _ _ hb63 hlr hr hdl hleft hkl hkr heq
                obtain ⟨hf2, hf3⟩ := finish_buckets (BucketOK pc parts) h ihn
                  (fun n hn hty => by rw [hrc3 n hn] at hty; exact absurd hty (by decide))
                exact ⟨hf3, bs, by rw [hf2, hrc1, ihb], iht⟩

theorem buildTree_root_type {M : Type} (env : Env M) (pc : Piece)
    (parts : List GravityParticle) (bits key l r : Nat) (st : BuildState M)
    (n : SFCTreeNode M) (lt rt : Tree M) (st' : BuildState M)
    (h : buildTree env pc parts bits key l r st = some (.node n lt rt, st')) :
    (n.type = .Bucket ↔ bucketRule pc l r) ∧
    (n.type ≠ .Bucket → n.type ≠ .Invalid →
      ∃ st1, finishNode env pc (startNode env pc bits key l r) l r lt rt st1
        = some (.node n lt rt, st')) := by
  rcases buildTree_root env pc parts bits key l r st _ st' h with
    ⟨hc, ht, -⟩ | ⟨hc, -, -, ht, -⟩ | ⟨hc, -, ht, -⟩ | ⟨hc, -, lt', rt', st1, hf⟩
  · simp only [Tree.node.injEq] at ht
    obtain ⟨rfl, -, -⟩ := ht
    exact ⟨⟨fun _ => hc, fun _ => rfl⟩, fun h1 => absurd rfl h1⟩
  · simp only [Tree.node.injEq] at ht
    obtain ⟨rfl, -, -⟩ := ht
    exact ⟨⟨fun h1 => by simp [startNode, freshNode] at h1, fun h1 => absurd h1 hc⟩,
      fun _ h2 => absurd rfl h2⟩
  · simp only [Tree.node.injEq] at ht
    obtain ⟨rfl, -, -⟩ := ht
    exact ⟨⟨fun h1 => by simp [startNode, freshNode] at h1, fun h1 => absurd h1 hc⟩,
      fun _ h2 => absurd rfl h2⟩
  · obtain ⟨n', ht, h1, h2, h3⟩ := finishNode_class hf
    simp only [Tree.node.injEq] at ht
    obtain ⟨rfl, rfl, rfl⟩ := ht
    refine ⟨⟨fun hb => ?_, fun hb => absurd hb hc⟩, fun _ _ => ⟨st1, hf⟩⟩
    by_cases hbd : n.type = .Boundary
    · rw [hbd] at hb; exact absurd hb (by decide)
    · rw [(h3 hbd).1] at hb; exact absurd hb (by decide)

/-- C12: (1) when `buildTree` returns for a node that is neither finalized as a `Bucket`
nor left `Invalid` by a diagnostic, it has reached the classification of lines 438-454
on that node, with the children built before; (2) the classification types the node
`Boundary` exactly when (`leftParticle` is the left sentinel and `thisIndex ≠ 0`) or
(`rightParticle` is the right sentinel and `thisIndex ≠ numTreePieces - 1`); (3) in the
`Boundary` case `nodeOwnership` has given a designated owner `d` and the node's
`numOwners`, `boundaryNodesPending` is one more, `remoteIndex` is
`endParticle - beginParticle`, and the contribution (lookup key, that count, the node's
moments with those of its children) is sent to `d` if `d` is not this piece and nothing
is sent if it is; (4) otherwise the node is `Internal` with `numOwners = 1` and the
piece members are unchanged. -/
theorem C12_boundary_classification {M : Type} (env : Env M) (pc : Piece)
    (parts : List GravityParticle) (bits key l r : Nat) (st : BuildState M)
    (n : SFCTreeNode M) (lt rt : Tree M) (st' : BuildState M)
    (node : SFCTreeNode M) (lt1 rt1 t1 : Tree M) (st1 st1' : BuildState M) :
    (buildTree env pc parts bits key l r st = some (.node n lt rt, st') →
      n.type ≠ .Bucket → n.type ≠ .Invalid →
      ∃ st0, finishNode env pc (startNode env pc bits key l r) l r lt rt st0
        = some (.node n lt rt, st')) ∧
    (finishNode env pc node l r lt1 rt1 st1 = some (t1, st1') →
      ∃ m, t1 = .node m lt1 rt1 ∧
        (m.type = .Boundary ↔
          ((l = 0 ∧ pc.thisIndex ≠ 0) ∨
            (r = pc.myNumParticles + 1 ∧
              (pc.thisIndex : Int) ≠ (pc.numTreePieces : Int) - 1))) ∧
        (m.type = .Boundary →
          ∃ d k, nodeOwnership pc.splitters (env.leftBoundary node.key node.level)
              (env.rightBoundary node.key node.level)
              ⟨some 0, some node.numOwners, none, none⟩
              = (true, ⟨some d, some k, none, none⟩) ∧
            m.numOwners = k ∧
            m.moments = rt1.addMomentsTo env (lt1.addMomentsTo env node.moments) ∧
            st1'.boundaryNodesPending = st1.boundaryNodesPending + 1 ∧
            m.remoteIndex = node.endParticle - node.beginParticle ∧
            (d ≠ pc.thisIndex → st1'.outbox = st1.outbox ++
              [.acceptBoundaryNodeContribution d (env.lookupKey node.key node.level)
                (node.endParticle - node.beginParticle) m.moments]) ∧
            (d = pc.thisIndex → st1'.outbox = st1.outbox)) ∧
        (m.type ≠ .Boundary → m.type = .Internal ∧ m.numOwners = 1 ∧ st1' = st1)) := by
  constructor
  · intro h hb hd
    exact (buildTree_root_type env pc parts bits key l r st n lt rt st' h).2 hb hd
  · intro h
    obtain ⟨m, ht, h1, h2, h3⟩ := finishNode_class h
    refine ⟨m, ht, h1, ?_, h3⟩
    intro hb
    obtain ⟨d, k, e1, e2, e3, e4, e5, e6, e7, -, -⟩ := h2 hb
    exact ⟨d, k, e1, e2, e3, e4, e5, e6, e7⟩

/-- C18: after `buildTree` has completed from the root on a particle array that is
sorted by key, sentinels included, every node finalized as a `Bucket` (every `Bucket`
node of the tree and every entry of `bucketList`) has
`1 ≤ beginParticle < endParticle ≤ myNumParticles + 1` and
`endParticle - beginParticle ≤ maxBucketSize`; and whenever a call of `buildTree`
returns, its node is a `Bucket` exactly when
`rightParticle - leftParticle < maxBucketSize` and neither endpoint is a sentinel. -/
theorem C18_bucket_size {M : Type} (env : Env M) (pc : Piece)
    (parts : List GravityParticle) (t : Tree M) (bs : BuildState M)
    (hlen : parts.length = pc.myNumParticles + 2)
    (hsorted : ∀ i j, i ≤ j → j ≤ pc.myNumParticles + 1 → keyAt parts i ≤ keyAt parts j)
    (hkey : keyAt parts (pc.myNumParticles + 1) ≤ lastPossibleKey)
    (hbuild : buildTree env pc parts 63 firstPossibleKey 0 (pc.myNumParticles + 1)
      BuildState.initial = some (t, bs)) :
    (∀ b, (b ∈ bs.bucketList ∨ (b ∈ t.nodes ∧ b.type = .Bucket)) →
      1 ≤ b.beginParticle ∧ b.beginParticle < b.endParticle ∧
      b.endParticle ≤ pc.myNumParticles + 1 ∧
      ((b.endParticle : Int) - (b.beginParticle : Int) ≤ pc.maxBucketSize)) ∧
    (∀ (bits key l r : Nat) (st st' : BuildState M) (n : SFCTreeNode M) (lt rt : Tree M),
      buildTree env pc parts bits key l r st = some (.node n lt rt, st') →
      (n.type = .Bucket ↔
        (((r : Int) - (l : Int) < pc.maxBucketSize) ∧ l ≠ 0 ∧ r ≠ pc.myNumParticles + 1))) := by
  have hrange : ∀ i, 0 ≤ i → i ≤ pc.myNumParticles + 1 →
      firstPossibleKey ≤ keyAt parts i ∧ keyAt parts i < firstPossibleKey + 2 ^ 63 := by
    intro i _ hi
    have := hsorted i (pc.myNumParticles + 1) hi (le_refl _)
    simp only [firstPossibleKey, lastPossibleKey] at hkey ⊢
    omega
  obtain ⟨hn, bl, hb, hbl⟩ := buildTree_buckets env pc parts hlen hsorted 63 firstPossibleKey 0
    (pc.myNumParticles + 1) BuildState.initial t bs (le_refl _) (Nat.zero_le _) (le_refl _)
    (by simp [firstPossibleKey]) hrange (fun h => absurd rfl h) (fun h => absurd rfl h) hbuild
  simp only [BuildState.initial, List.nil_append] at hb
  constructor
  · intro b hbm
    have hok : BucketOK pc parts b := by
      rcases hbm with hbm | ⟨hbm, hty⟩
      · rw [hb] at hbm; exact hbl b hbm
      · exact hn b hbm hty
    exact ⟨hok.1, hok.2.1, hok.2.2.1, hok.2.2.2.1⟩
  · intro bits key l r st st' n lt rt h
    exact (buildTree_root_type env pc parts bits key l r st n lt rt st' h).1

/-- C19: after `buildTree` has completed from the root on a particle array that is
sorted by key, sentinels included, every node finalized as a `Bucket` has
`beginParticle < endParticle`, the key of the right sentinel is greater than the key of
its last particle, and the key of the left sentinel is less than the key of its first
particle. -/
theorem C19_bucket_keys_inside_sentinels {M : Type} (env : Env M) (pc : Piece)
    (parts : List GravityParticle) (t : Tree M) (bs : BuildState M)
    (hlen : parts.length = pc.myNumParticles + 2)
    (hsorted : ∀ i j, i ≤ j → j ≤ pc.myNumParticles + 1 → keyAt parts i ≤ keyAt parts j)
    (hkey : keyAt parts (pc.myNumParticles + 1) ≤ lastPossibleKey)
    (hbuild : buildTree env pc parts 63 firstPossibleKey 0 (pc.myNumParticles + 1)
      BuildState.initial = some (t, bs)) :
    ∀ b, (b ∈ bs.bucketList ∨ (b ∈ t.nodes ∧ b.type = .Bucket)) →
      b.beginParticle < b.endParticle ∧
      keyAt parts (b.endParticle - 1) < keyAt parts (pc.myNumParticles + 1) ∧
      keyAt parts 0 < keyAt parts b.beginParticle := by
  have hrange : ∀ i, 0 ≤ i → i ≤ pc.myNumParticles + 1 →
      firstPossibleKey ≤ keyAt parts i ∧ keyAt parts i < firstPossibleKey + 2 ^ 63 := by
    intro i _ hi
    have := hsorted i (pc.myNumParticles + 1) hi (le_refl _)
    simp only [firstPossibleKey, lastPossibleKey] at hkey ⊢
    omega
  obtain ⟨hn, bl, hb, hbl⟩ := buildTree_buckets env pc parts hlen hsorted 63 firstPossibleKey 0
    (pc.myNumParticles + 1) BuildState.initial t bs (le_refl _) (Nat.zero_le _) (le_refl _)
    (by simp [firstPossibleKey]) hrange (fun h => absurd rfl h) (fun h => absurd rfl h) hbuild
  simp only [BuildState.initial, List.nil_append] at hb
  intro b hbm
  have hok : BucketOK pc parts b := by
    rcases hbm with hbm | ⟨hbm, hty⟩
    · rw [hb] at hbm; exact hbl b hbm
    · exact hn b hbm hty
  exact ⟨hok.2.1, hok.2.2.2.2.2, hok.2.2.2.2.1⟩

/-- C20: a call of `buildTree` on a node at level 63. (1) Under the bucket rule the node
is finalized as a bucket. (2) With `rightParticle - leftParticle ≥ maxBucketSize` the
call returns at once: the node keeps the kind `Invalid` and gets no children, and the
only change is the diagnostic naming the two particle indices. (3) With
`rightParticle - leftParticle < maxBucketSize` and a sentinel at an endpoint the node is
no bucket, yet the level-63 test is not made (it sits in the `else` branch of the size
test): control goes on to `1 << (62 - 63)`, whose behaviour is undefined, and no
diagnostic is printed. -/
theorem C20_level_63 {M : Type} (env : Env M) (pc : Piece) (parts : List GravityParticle)
    (key l r : Nat) (st : BuildState M) :
    ((((r : Int) - (l : Int) < pc.maxBucketSize) ∧ l ≠ 0 ∧ r ≠ pc.myNumParticles + 1) →
      buildTree env pc parts 0 key l r st
        = some (.node (bucketNode env pc parts 0 key l r) .null .null,
            { st with bucketList := st.bucketList ++ [bucketNode env pc parts 0 key l r]
                      numBuckets := st.numBuckets + 1 })) ∧
    (¬ ((r : Int) - (l : Int) < pc.maxBucketSize) →
      buildTree env pc parts 0 key l r st
        = some (.node (startNode env pc 0 key l r) .null .null,
            { st with cerr := st.cerr ++ [.keysExhausted l r] }) ∧
      (startNode env pc 0 key l r).type = .Invalid ∧
      (startNode env pc 0 key l r).level = 63) ∧
    (((r : Int) - (l : Int) < pc.maxBucketSize) → (l = 0 ∨ r = pc.myNumParticles + 1) →
      buildTree env pc parts 0 key l r st = none) := by
  refine ⟨?_, ?_, ?_⟩
  · intro hc
    unfold buildTree
    simp only
    rw [if_pos hc]
    rfl
  · intro hc
    refine ⟨?_, rfl, rfl⟩
    unfold buildTree
    simp only
    rw [if_neg (fun h => hc h.1), if_pos ⟨hc, trivial⟩]
    rfl
  · intro hc hs
    unfold buildTree
    simp only
    rw [if_neg (fun h => by rcases hs with hs | hs; exact h.2.1 hs; exact h.2.2 hs),
      if_neg (fun h => h.1 hc)]

/-- C12 on the two-piece example. On the single piece `pairPiece` the root is neither a
bucket nor invalid, so the build has classified it; on piece 1 of two the root (left
sentinel, `thisIndex ≠ 0`), classified without children, becomes `Boundary`: one more
pending boundary node, local count 2, and one contribution to the designated owner 0. -/
theorem C12_boundary_classification_witness :
    (∃ n lt rt st' st0,
      buildTree exampleEnv pairPiece pairParticles 63 firstPossibleKey 0 3 BuildState.initial
        = some (.node n lt rt, st') ∧
      finishNode exampleEnv pairPiece (startNode exampleEnv pairPiece 63 firstPossibleKey 0 3)
        0 3 lt rt st0 = some (.node n lt rt, st')) ∧
    (∃ m st', finishNode exampleEnv pieceOne (startNode exampleEnv pieceOne 63 0 0 3) 0 3
        .null .null BuildState.initial = some (.node m .null .null, st') ∧
      m.type = .Boundary ∧ st'.boundaryNodesPending = 1 ∧ m.remoteIndex = 2 ∧
      st'.outbox = [.acceptBoundaryNodeContribution 0 (2 ^ 62) 2 m.moments]) := by
  constructor
  · cases hb : buildTree exampleEnv pairPiece pairParticles 63 firstPossibleKey 0 3
        BuildState.initial with
    | none =>
      have h : (buildTree exampleEnv pairPiece pairParticles 63 firstPossibleKey 0 3
        BuildState.initial).isSome = true := by rfl
      rw [hb] at h
      exact absurd h (by simp)
    | some p =>
      obtain ⟨t, st'⟩ := p
      have hty : ((buildTree exampleEnv pairPiece pairParticles 63 firstPossibleKey 0 3
          BuildState.initial).bind (fun p => p.1.rootNode)).map (fun n => n.type)
            = some .Internal := by decide
      rw [hb] at hty
      cases t with
      | null => simp [Tree.rootNode] at hty
      | node n lt rt =>
        simp only [Option.some_bind, Tree.rootNode, Option.map_some', Option.some.injEq] at hty
        obtain ⟨st0, h0⟩ := (C12_boundary_classification exampleEnv pairPiece pairParticles 63
          firstPossibleKey 0 3 BuildState.initial n lt rt st' n lt rt (.node n lt rt) st' st').1
          hb (by rw [hty]; decide) (by rw [hty]; decide)
        exact ⟨n, lt, rt, st', st0, rfl, h0⟩
  · cases hf : finishNode exampleEnv pieceOne (startNode exampleEnv pieceOne 63 0 0 3) 0 3
        .null .null BuildState.initial with
    | none =>
      have h : (finishNode exampleEnv pieceOne (startNode exampleEnv pieceOne 63 0 0 3) 0 3
        .null .null BuildState.initial).isSome = true := by rfl
      rw [hf] at h
      exact absurd h (by simp)
    | some p =>
      obtain ⟨t1, st1'⟩ := p
      obtain ⟨m, rfl, h1, h2, -⟩ := (C12_boundary_classification exampleEnv pieceOne partsOne
        63 0 0 3 BuildState.initial (freshNode exampleEnv 0 0) .null .null BuildState.initial
        (startNode exampleEnv pieceOne 63 0 0 3) .null .null t1 BuildState.initial st1').2 hf
      have hB : m.type = .Boundary := h1.2 (Or.inl ⟨rfl, by decide⟩)
      obtain ⟨d, k, e1, -, -, e4, e5, e6, -⟩ := h2 hB
      have e1' : nodeOwnership pieceOne.splitters
          (exampleEnv.leftBoundary (startNode exampleEnv pieceOne 63 0 0 3).key
            (startNode exampleEnv pieceOne 63 0 0 3).level)
          (exampleEnv.rightBoundary (startNode exampleEnv pieceOne 63 0 0 3).key
            (startNode exampleEnv pieceOne 63 0 0 3).level)
          ⟨some 0, some (startNode exampleEnv pieceOne 63 0 0 3).numOwners, none, none⟩
          = (true, ⟨some 0, some 2, none, none⟩) := by decide
      rw [e1'] at e1
      simp only [Prod.mk.injEq, true_and, OwnerOut.mk.injEq, Option.some.injEq, and_true] at e1
      obtain ⟨rfl, rfl⟩ := e1
      refine ⟨m, st1', rfl, hB, ?_, ?_, ?_⟩
      · rw [e4]; rfl
      · rw [e5]; rfl
      · rw [e6 (by decide)]; rfl

/-- C18 on a single piece with two particles and buckets of one particle: the buckets
are `[1, 2)` and `[2, 3)`. -/
theorem C18_bucket_size_witness :
    ((builtMembers exampleEnv pairPiece pairParticles).bucketList.map SFCTreeNode.range
      = [(1, 2), (2, 3)]) ∧
    ∀ b ∈ (builtMembers exampleEnv pairPiece pairParticles).bucketList,
      1 ≤ b.beginParticle ∧ b.beginParticle < b.endParticle ∧
      b.endParticle ≤ pairPiece.myNumParticles + 1 ∧
      ((b.endParticle : Int) - (b.beginParticle : Int) ≤ pairPiece.maxBucketSize) :=
  ⟨by decide, fun b hb =>
    (C18_bucket_size exampleEnv pairPiece pairParticles
      (builtTree exampleEnv pairPiece pairParticles)
      (builtMembers exampleEnv pairPiece pairParticles) rfl
      (by
        intro i j hij hj
        have hj' : j ≤ 3 := hj
        interval_cases j <;> interval_cases i <;> decide)
      (by decide) rfl).1 b (Or.inl hb)⟩

/-- C19 on the same piece: the keys `2^61` and `2^62` of the two buckets lie strictly
between the sentinel keys `0` and `2^63 - 1`. -/
theorem C19_bucket_keys_inside_sentinels_witness :
    ((builtMembers exampleEnv pairPiece pairParticles).bucketList.map SFCTreeNode.range
      = [(1, 2), (2, 3)]) ∧
    ∀ b ∈ (builtMembers exampleEnv pairPiece pairParticles).bucketList,
      b.beginParticle < b.endParticle ∧
      keyAt pairParticles (b.endParticle - 1)
        < keyAt pairParticles (pairPiece.myNumParticles + 1) ∧
      keyAt pairParticles 0 < keyAt pairParticles b.beginParticle :=
  ⟨by decide, fun b hb =>
    C19_bucket_keys_inside_sentinels exampleEnv pairPiece pairParticles
      (builtTree exampleEnv pairPiece pairParticles)
      (builtMembers exampleEnv pairPiece pairParticles) rfl
      (by
        intro i j hij hj
        have hj' : j ≤ 3 := hj
        interval_cases j <;> interval_cases i <;> decide)
      (by decide) rfl b (Or.inl hb)⟩

set_option maxRecDepth 100000 in
/-- C20 at concrete inputs. With buckets of one particle, the level-63 call for the two
particles of equal key in `tiedPiece` prints the diagnostic. With buckets of up to 12
particles and a particle whose key is that of the left sentinel, the level-63 call for
the indices 0 and 1 is undefined, and so is the whole build from the root. -/
theorem C20_level_63_witness :
    (buildTree exampleEnv tiedPiece tiedParticles 0 (2 ^ 62) 2 3 BuildState.initial
      = some (.node (startNode exampleEnv tiedPiece 0 (2 ^ 62) 2 3) .null .null,
          { bucketList := [], numBuckets := 0, boundaryNodesPending := 0, outbox := [],
            cerr := [.keysExhausted 2 3] })) ∧
    (buildTree exampleEnv zeroKeyPiece zeroKeyParticles 0 0 0 1 BuildState.initial = none) ∧
    (buildTree exampleEnv zeroKeyPiece zeroKeyParticles 63 firstPossibleKey 0 2
      BuildState.initial = none) :=
  ⟨((C20_level_63 exampleEnv tiedPiece tiedParticles (2 ^ 62) 2 3 BuildState.initial).2.1
      (by decide)).1,
   (C20_level_63 exampleEnv zeroKeyPiece zeroKeyParticles 0 0 1 BuildState.initial).2.2
      (by decide) (Or.inl rfl),
   rfl⟩

set_option maxRecDepth 100000 in
/-- C13 (code evaluated at the failing input): two pieces with the non-decreasing
splitters `2^60, 2^62, 2^62 + 2^60, 2^62 + 2^61`. On piece 1 the particle array with its
sentinels is sorted and `startTreeBuild` completes; the node of key `2^62` at level 1
(key range `[2^62, 2^63 - 1]`) is typed `Boundary`, pieces 0 and 1 both hold keys in its
range, and the `numOwners` that `nodeOwnership` computed for it is 1. -/
theorem C13_boundary_node_with_one_owner :
    (setSentinels tiePieceOne tiePartsOne).map GravityParticle.key
      = [2 ^ 62, 2 ^ 62 + 2 ^ 60, 2 ^ 62 + 2 ^ 61, 2 ^ 63 - 1] ∧
    (startTreeBuild exampleEnv tiePieceOne tiePartsOne).isSome = true ∧
    ((builtState exampleEnv tiePieceOne tiePartsOne).root.nodes.filter
        (fun n => decide (n.type = .Boundary))).map (fun n => (n.key, n.level, n.numOwners))
      = [(0, 0, 2), (2 ^ 62, 1, 1), (2 ^ 62, 2, 1)] ∧
    intersectingPieces tieSplitters (exampleEnv.leftBoundary (2 ^ 62) 1)
      (exampleEnv.rightBoundary (2 ^ 62) 1) = [0, 1] := by
  refine ⟨by decide, by rfl, by decide, by decide⟩

/-! ### The pending particles of a gravity iteration -/

theorem IterFrame.same (st : GravState) : IterFrame st st := ⟨rfl, rfl, rfl, rfl, fun _ => rfl⟩

theorem IterFrame.comp {a b c : GravState} (h1 : IterFrame a b) (h2 : IterFrame b c) :
    IterFrame a c :=
  ⟨h2.1.trans h1.1, h2.2.1.trans h1.2.1, h2.2.2.1.trans h1.2.2.1,
    h2.2.2.2.1.trans h1.2.2.2.1, fun j => (h2.2.2.2.2 j).trans (h1.2.2.2.2 j)⟩

theorem IterFrame.ofEq (st st' : GravState) (h1 : st'.bucketReqs = st.bucketReqs)
    (h2 : (st'.myNumParticlesPending, st'.started, st'.contributed, st'.currentBucket)
      = (st.myNumParticlesPending, st.started, st.contributed, st.currentBucket)) :
    IterFrame st st' := by
  simp only [Prod.mk.injEq] at h2
  exact ⟨h2.1, h2.2.1, h2.2.2.1, h2.2.2.2, fun j => by rw [h1]⟩

theorem IterFrame.ofReq (st : GravState) (id : Nat)
    (f : BucketGravityRequest → BucketGravityRequest)
    (hf : ∀ r, (f r).numParticlesInBucket = r.numParticlesInBucket) :
    IterFrame st (st.updateReq id f) := by
  refine ⟨rfl, rfl, rfl, rfl, fun j => ?_⟩
  simp only [GravState.updateReq]
  split
  · exact hf _
  · rfl

theorem iter_force (id : Nat) (st : GravState) (g : BucketGravityRequest → List Int × List Int) :
    IterFrame st (st.updateReq id (fun r => applyForce r (g r))) :=
  IterFrame.ofReq st id _ (fun _ => rfl)

theorem requestNode_iter {M : Type} (w : Walker M) (cache : CacheManager M)
    (id remoteIndex lookupKey : Nat) (st : GravState) :
    IterFrame st (requestNode w cache id remoteIndex lookupKey st).2 := by
  unfold requestNode
  simp only
  have h0 : IterFrame st (if remoteIndex < w.numTreePieces then st
      else { st with asserts := st.asserts + 1 }) := by
    split
    · exact IterFrame.same _
    · exact IterFrame.ofEq _ _ rfl rfl
  generalize (if remoteIndex < w.numTreePieces then st
      else { st with asserts := st.asserts + 1 }) = st0 at h0
  refine h0.comp ?_
  have h1 : IterFrame st0 { st0.updateReq id
        (fun r => { r with numAdditionalRequests := r.numAdditionalRequests + 1 }) with
      myNumProxyCalls := st0.myNumProxyCalls + 1
      fetches := st0.fetches ++ [.node id remoteIndex lookupKey] } := by
    refine ⟨rfl, rfl, rfl, rfl, fun j => ?_⟩
    simp only [GravState.updateReq]
    split <;> rfl
  split
  · split
    · exact IterFrame.same _
    · exact h1
  · exact h1

theorem requestParticles_iter {M : Type} (w : Walker M) (cache : CacheManager M)
    (id key remoteIndex : Nat) (first last : Int) (st : GravState) :
    IterFrame st (requestParticles w cache id key remoteIndex first last st).2 := by
  unfold requestParticles
  split
  · split
    · exact IterFrame.same _
    · refine ⟨rfl, rfl, rfl, rfl, fun j => ?_⟩
      simp only [GravState.updateReq]
      split <;> rfl
  · refine ⟨rfl, rfl, rfl, rfl, fun j => ?_⟩
    simp only [GravState.updateReq]
    split <;> rfl

theorem localParticleStep_iter {M : Type} (env : Env M) (w : Walker M) (id : Nat)
    (st : GravState) (i : Nat) : IterFrame st (localParticleStep env w id st i) := by
  unfold localParticleStep
  exact (IterFrame.ofEq st (st.updateParticles _ _ _) rfl rfl).comp
    (IterFrame.ofReq _ id _ (fun _ => rfl))

theorem remoteParticleStep_iter {M : Type} (env : Env M) (w : Walker M) (id : Nat)
    (m : Int) (part : GravityParticle) (st : GravState) :
    IterFrame st (remoteParticleStep env w id m part st) := by
  unfold remoteParticleStep
  exact (IterFrame.ofEq st (st.updateParticles _ _ _) rfl rfl).comp
    (IterFrame.ofReq _ id _ (fun _ => rfl))

theorem foldl_iter {α : Type} (f : GravState → α → GravState)
    (hf : ∀ st a, IterFrame st (f st a)) (xs : List α) (st : GravState) :
    IterFrame st (xs.foldl f st) := by
  induction xs generalizing st with
  | nil => exact IterFrame.same _
  | cons x xs ih => exact (hf st x).comp (ih (f st x))

theorem cachedWalk_iter {M : Type} (env : Env M) (w : Walker M) (cache : CacheManager M)
    (id : Nat) : ∀ (fuel : Nat) (node : SFCTreeNode M) (st : GravState),
      IterFrame st (cachedWalkBucketTree env w cache id fuel node st) := by
  intro fuel
  induction fuel with
  | zero => intro node st; exact IterFrame.same _
  | succ fuel ih =>
    intro node st
    unfold cachedWalkBucketTree
    simp only
    have h0 : IterFrame st
        (if node.type ≠ .Invalid then { st with myNumMACChecks := st.myNumMACChecks + 1 }
         else { st with myNumMACChecks := st.myNumMACChecks + 1, asserts := st.asserts + 1 }) := by
      split <;> exact IterFrame.ofEq _ _ rfl rfl
    generalize (if node.type ≠ .Invalid then { st with myNumMACChecks := st.myNumMACChecks + 1 }
         else { st with myNumMACChecks := st.myNumMACChecks + 1, asserts := st.asserts + 1 })
      = st0 at h0
    refine h0.comp ?_
    split
    · exact IterFrame.same _
    · split
      · exact (IterFrame.ofEq st0 _ rfl rfl).comp (iter_force id _ _)
      · split
        · have h1 := requestParticles_iter w cache id (env.lookupKey node.key node.level)
            node.remoteIndex node.beginParticle node.endParticle st0
          split
          · rename_i part st1 heq
            rw [heq] at h1
            refine h1.comp ((IterFrame.ofEq st1 _ rfl rfl).comp ?_)
            exact foldl_iter _ (fun s i => remoteParticleStep_iter env w id _ _ s) _ _
          · rename_i st1 heq
            rw [heq] at h1
            exact h1
        · split
          · have h1 := requestNode_iter w cache id node.remoteIndex
              (env.lookupKey node.key node.level) st0
            split
            · rename_i pnode st1 heq
              rw [heq] at h1
              exact h1.comp (ih _ _)
            · rename_i st1 heq
              rw [heq] at h1
              exact h1
          · have h1 := requestNode_iter w cache id node.remoteIndex
              (w.leftChildLookupKey node.key node.level) st0
            generalize requestNode w cache id node.remoteIndex
              (w.leftChildLookupKey node.key node.level) st0 = ra at h1
            obtain ⟨oa, s1⟩ := ra
            cases oa with
            | none =>
              simp only
              have h2 : IterFrame st0 s1 := h1
              generalize s1 = st2 at h2
              have h3 := requestNode_iter w cache id node.remoteIndex
                (w.rightChildLookupKey node.key node.level) st2
              generalize requestNode w cache id node.remoteIndex
                (w.rightChildLookupKey node.key node.level) st2 = rb at h3
              obtain ⟨ob, s3⟩ := rb
              cases ob with
              | none => exact h2.comp h3
              | some child => exact h2.comp (h3.comp (ih _ _))
            | some child1 =>
              simp only
              have h2 : IterFrame st0 (cachedWalkBucketTree env w cache id fuel child1 s1) :=
                h1.comp (ih _ _)
              generalize cachedWalkBucketTree env w cache id fuel child1 s1 = st2 at h2
              have h3 := requestNode_iter w cache id node.remoteIndex
                (w.rightChildLookupKey node.key node.level) st2
              generalize requestNode w cache id node.remoteIndex
                (w.rightChildLookupKey node.key node.level) st2 = rb at h3
              obtain ⟨ob, s3⟩ := rb
              cases ob with
              | none => exact h2.comp h3
              | some child => exact h2.comp (h3.comp (ih _ _))

theorem walk_iter {M : Type} (env : Env M) (w : Walker M) (cache : CacheManager M)
    (id : Nat) : ∀ (t : Tree M) (st : GravState),
      IterFrame st (walkBucketTree env w cache id t st) := by
  intro t
  induction t with
  | null => intro st; exact IterFrame.same _
  | node node l r ihl ihr =>
    intro st
    unfold walkBucketTree
    simp only
    split
    · exact (IterFrame.ofEq _ ({ st with
        myNumMACChecks := st.myNumMACChecks + 1
        countIntersects := st.countIntersects + 1
        myNumCellInteractions := st.myNumCellInteractions +
          (st.bucketReqs id).numParticlesInBucket }) rfl rfl).comp
        ((IterFrame.ofEq _ _ rfl rfl).comp (iter_force id _ _))
    · split
      · refine (IterFrame.ofEq _ ({ st with
          myNumMACChecks := st.myNumMACChecks + 1
          myNumParticleInteractions := st.myNumParticleInteractions +
            (st.bucketReqs id).numParticlesInBucket *
              (node.endParticle - node.beginParticle) }) rfl rfl).comp ?_
        exact foldl_iter _ (fun s i => localParticleStep_iter env w id s i) _ _
      · split
        · have h1 := requestNode_iter w cache id node.remoteIndex
            (env.lookupKey node.key node.level)
            { st with myNumMACChecks := st.myNumMACChecks + 1 }
          refine (IterFrame.ofEq _ ({ st with
            myNumMACChecks := st.myNumMACChecks + 1 }) rfl rfl).comp ?_
          split
          · rename_i pnode st1 heq
            rw [heq] at h1
            exact h1.comp ((IterFrame.ofEq st1 _ rfl rfl).comp
              (cachedWalk_iter env w cache id _ _ _))
          · rename_i st1 heq
            rw [heq] at h1
            exact h1
        · exact (IterFrame.ofEq _ ({ st with
            myNumMACChecks := st.myNumMACChecks + 1 }) rfl rfl).comp
            ((ihl _).comp (ihr _))

theorem count_bound (f : Nat → Nat) (n : Nat) (acc : List Nat) (hnd : acc.Nodup)
    (hlt : ∀ x ∈ acc, x < n) (hpos : ∀ i, i < n → 0 < f i) :
    (acc.map f).sum ≤ ((List.range n).map f).sum ∧
    ((acc.map f).sum = ((List.range n).map f).sum ↔ ∀ i, i < n → i ∈ acc) := by
  have h1 : (acc.map f).sum = ∑ x in acc.toFinset, f x := (List.sum_toFinset f hnd).symm
  have h2 : ((List.range n).map f).sum = ∑ x in Finset.range n, f x := by
    have hr : (List.range n).toFinset = Finset.range n := by
      ext x; simp
    rw [← List.sum_toFinset f (List.nodup_range n), hr]
  have hsub : acc.toFinset ⊆ Finset.range n := by
    intro x hx
    rw [List.mem_toFinset] at hx
    exact Finset.mem_range.2 (hlt x hx)
  rw [h1, h2]
  refine ⟨Finset.sum_le_sum_of_subset hsub, ?_, ?_⟩
  · intro heq i hi
    by_contra hni
    have := Finset.sum_lt_sum_of_subset hsub (Finset.mem_range.2 hi)
      (by rw [List.mem_toFinset]; exact hni) (hpos i hi) (fun j _ _ => Nat.zero_le _)
    omega
  · intro hall
    have : acc.toFinset = Finset.range n := by
      apply Finset.Subset.antisymm hsub
      intro x hx
      rw [List.mem_toFinset]
      exact hall x (Finset.mem_range.1 hx)
    rw [this]

theorem finishBucket_step {M : Type} (env : Env M) (w : Walker M) (s : GravState) (id : Nat) :
    (finishBucket env w s id).bucketReqs = s.bucketReqs ∧
    (finishBucket env w s id).currentBucket = s.currentBucket ∧
    (finishBucketFires s id = false → finishBucket env w s id = s) ∧
    (finishBucketFires s id = true →
      (finishBucket env w s id).myNumParticlesPending
        = s.myNumParticlesPending - (s.bucketReqs id).numParticlesInBucket ∧
      (finishBucket env w s id).started
        = (if s.started = true ∧
              s.myNumParticlesPending - (s.bucketReqs id).numParticlesInBucket = 0
            then false else s.started) ∧
      (finishBucket env w s id).contributed
        = s.contributed + (if s.started = true ∧
              s.myNumParticlesPending - (s.bucketReqs id).numParticlesInBucket = 0
            then 1 else 0)) := by
  unfold finishBucketFires finishBucket
  simp only
  by_cases hc : (s.bucketReqs id).finished ≠ 0 ∧ (s.bucketReqs id).numAdditionalRequests = 0
  · rw [if_pos hc]
    refine ⟨?_, ?_, ?_, ?_⟩
    · split <;> rfl
    · split <;> rfl
    · intro h
      simp [hc.1, hc.2] at h
    · intro _
      by_cases hz : s.started = true ∧
          s.myNumParticlesPending - (s.bucketReqs id).numParticlesInBucket = 0
      · rw [if_pos hz]
        simp [hz]
      · rw [if_neg hz]
        simp [hz]
  · rw [if_neg hc]
    refine ⟨rfl, rfl, fun _ => rfl, ?_⟩
    intro h
    simp only [Bool.and_eq_true, decide_eq_true_eq] at h
    exact absurd h hc

theorem deliverWalk_iter {M : Type} (env : Env M) (w : Walker M) (cache : CacheManager M)
    (id : Nat) (d : Delivery M) (st : GravState) :
    IterFrame st (deliverWalk env w cache id d st) := by
  cases d with
  | node n =>
    simp only [deliverWalk]
    unfold receiveNodeWalk
    simp only
    have h0 : IterFrame st (st.updateReq id
        (fun r => { r with numAdditionalRequests := r.numAdditionalRequests - 1 })) :=
      IterFrame.ofReq st id _ (fun _ => rfl)
    generalize st.updateReq id
        (fun r => { r with numAdditionalRequests := r.numAdditionalRequests - 1 }) = s0 at h0
    refine h0.comp ?_
    have h1 : IterFrame s0 (if n.type ≠ .Invalid then s0
        else { s0 with asserts := s0.asserts + 1 }) := by
      split
      · exact IterFrame.same _
      · exact IterFrame.ofEq _ _ rfl rfl
    generalize (if n.type ≠ .Invalid then s0
        else { s0 with asserts := s0.asserts + 1 }) = s1 at h1
    refine h1.comp ?_
    split
    · have h2 : IterFrame s1 (if n.remoteIndex ≠ w.thisIndex then s1
          else { s1 with asserts := s1.asserts + 1 }) := by
        split
        · exact IterFrame.same _
        · exact IterFrame.ofEq _ _ rfl rfl
      exact h2.comp (cachedWalk_iter env w cache id _ _ _)
    · exact IterFrame.same _
  | particles part num =>
    simp only [deliverWalk]
    unfold receiveParticlesWalk
    simp only
    have h0 : IterFrame st (st.updateReq id
        (fun r => { r with numAdditionalRequests := r.numAdditionalRequests - num })) :=
      IterFrame.ofReq st id _ (fun _ => rfl)
    refine h0.comp ((IterFrame.ofEq _ _ rfl rfl).comp
      (foldl_iter _ (fun s i => remoteParticleStep_iter env w id _ _ s) _ _))

theorem startNextBucketWalk_iter {M : Type} (env : Env M) (w : Walker M)
    (cache : CacheManager M) (st : GravState) :
    (startNextBucketWalk env w cache st).myNumParticlesPending = st.myNumParticlesPending ∧
    (startNextBucketWalk env w cache st).started = st.started ∧
    (startNextBucketWalk env w cache st).contributed = st.contributed ∧
    (startNextBucketWalk env w cache st).currentBucket = st.currentBucket ∧
    ((startNextBucketWalk env w cache st).bucketReqs st.currentBucket).numParticlesInBucket
      = bucketSize env w st.currentBucket ∧
    ∀ j, j ≠ st.currentBucket →
      ((startNextBucketWalk env w cache st).bucketReqs j).numParticlesInBucket
        = (st.bucketReqs j).numParticlesInBucket := by
  unfold startNextBucketWalk
  simp only
  have key : ∀ s0 : GravState, IterFrame s0
      ((walkBucketTree env w cache st.currentBucket w.root s0).updateReq st.currentBucket
        (fun r => { r with finished := 1 })) := fun s0 =>
    (walk_iter env w cache st.currentBucket w.root s0).comp
      (IterFrame.ofReq _ st.currentBucket (fun r => { r with finished := 1 }) (fun _ => rfl))
  obtain ⟨a1, a2, a3, a4, a5⟩ := key
    ((st.updateParticles (w.reqnode env st.currentBucket).beginParticle
      (w.reqnode env st.currentBucket).endParticle
      (fun p => { p with treeAcceleration := 0 })).updateReq st.currentBucket
      (fun _ => (⟨0, st.currentBucket, w.initialRequests, bucketSize env w st.currentBucket,
        List.replicate (bucketSize env w st.currentBucket) 0,
        List.replicate (bucketSize env w st.currentBucket) 0⟩ : BucketGravityRequest)))
  refine ⟨a1, a2, a3, a4, ?_, ?_⟩
  · refine (a5 st.currentBucket).trans ?_
    simp [GravState.updateReq]
  · intro j hj
    refine (a5 j).trans ?_
    simp [GravState.updateReq, GravState.updateParticles, hj]

theorem completedCount_append {M : Type} (env : Env M) (w : Walker M) (a b : List Nat) :
    completedCount env w (a ++ b) = completedCount env w a + completedCount env w b := by
  simp [completedCount]

theorem merge_step {M : Type} (env : Env M) (w : Walker M) (N : Nat) (s : GravState)
    (id : Nat) (acc : List Nat)
    (hA : s.myNumParticlesPending = (N : Int) - (completedCount env w acc : Int))
    (hacc : ∀ x ∈ acc, x < w.bucketList.length) (hid : id < w.bucketList.length)
    (hsz : (s.bucketReqs id).numParticlesInBucket = bucketSize env w id) :
    (finishBucket env w s id).myNumParticlesPending = (N : Int)
      - (completedCount env w (acc ++ (if finishBucketFires s id then [id] else [])) : Int) ∧
    (∀ x ∈ acc ++ (if finishBucketFires s id then [id] else []), x < w.bucketList.length) ∧
    (∀ c0, BarrierOK c0 s →
      (acc ++ (if finishBucketFires s id then [id] else [])).Nodup →
      (∀ i, i < w.bucketList.length → 0 < bucketSize env w i) →
      ((List.range w.bucketList.length).map (bucketSize env w)).sum = N →
      BarrierOK c0 (finishBucket env w s id)) := by
  obtain ⟨-, -, h3, h4⟩ := finishBucket_step env w s id
  cases hf : finishBucketFires s id with
  | false =>
    rw [h3 hf]
    simp only [Bool.false_eq_true, if_false, List.append_nil]
    exact ⟨hA, hacc, fun c0 hB _ _ _ => hB⟩
  | true =>
    obtain ⟨e1, e2, e3⟩ := h4 hf
    simp only [if_true]
    have hcount : completedCount env w (acc ++ [id])
        = completedCount env w acc + bucketSize env w id := by
      rw [completedCount_append]; simp [completedCount]
    have hall : ∀ x ∈ acc ++ [id], x < w.bucketList.length := by
      intro x hx
      rcases List.mem_append.1 hx with hx | hx
      · exact hacc x hx
      · simp only [List.mem_singleton] at hx; omega
    have hp : (finishBucket env w s id).myNumParticlesPending
        = (N : Int) - (completedCount env w (acc ++ [id]) : Int) := by
      rw [e1, hA, hsz, hcount]; push_cast; omega
    refine ⟨hp, hall, ?_⟩
    intro c0 hB hnd hpos htot
    have hb := (count_bound (bucketSize env w) w.bucketList.length (acc ++ [id]) hnd hall hpos).1
    rw [htot] at hb
    have hb' : completedCount env w (acc ++ [id]) ≤ N := hb
    have hsp := hpos id hid
    have hpend : s.myNumParticlesPending ≠ 0 := by
      rw [hA]; rw [hcount] at hb'; omega
    have hst : s.started = true := hB.1.2 hpend
    have hc : s.contributed = c0 := by
      rw [hB.2, if_neg hpend]; rfl
    rw [hsz] at e1 e2 e3
    constructor
    · rw [e2]
      by_cases hz : s.myNumParticlesPending - (bucketSize env w id : Int) = 0
      · rw [if_pos ⟨hst, hz⟩, e1]
        simp [hz]
      · rw [if_neg (fun h => hz h.2), e1]
        simp [hst, hz]
    · rw [e3, e1, hc]
      by_cases hz : s.myNumParticlesPending - (bucketSize env w id : Int) = 0
      · rw [if_pos ⟨hst, hz⟩, if_pos hz]
      · rw [if_neg (fun h => hz h.2), if_neg hz]

theorem nextBucket_inv {M : Type} (env : Env M) (w : Walker M) (cache : CacheManager M)
    (N : Nat) : ∀ (i : Nat) (st : GravState) (acc : List Nat), PendingOK env w N st acc →
      PendingOK env w N (nextBucket env w cache i st)
        (acc ++ nextBucketCompleted env w cache i st) ∧
      (∀ c0, BarrierOK c0 st → (acc ++ nextBucketCompleted env w cache i st).Nodup →
        (∀ i, i < w.bucketList.length → 0 < bucketSize env w i) →
        ((List.range w.bucketList.length).map (bucketSize env w)).sum = N →
        BarrierOK c0 (nextBucket env w cache i st)) := by
  intro i
  induction i with
  | zero =>
    intro st acc hA
    simp only [nextBucket, nextBucketCompleted, List.append_nil]
    exact ⟨hA, fun c0 hB _ _ _ => hB⟩
  | succ i ih =>
    intro st acc hA
    unfold nextBucket nextBucketCompleted
    by_cases hcur : st.currentBucket < w.bucketList.length
    · rw [if_pos hcur, if_pos hcur]
      simp only
      obtain ⟨a1, a2, a3, a4, a5, a6⟩ := startNextBucketWalk_iter env w cache st
      have hstart : startNextBucket env w cache st
          = finishBucket env w (startNextBucketWalk env w cache st) st.currentBucket := by
        unfold startNextBucket
        rw [if_neg (by omega)]
      obtain ⟨m1, m2, m3⟩ := merge_step env w N (startNextBucketWalk env w cache st)
        st.currentBucket acc (by rw [a1]; exact hA.1) hA.2.2.2 hcur a5
      obtain ⟨f1, f2, -, -⟩ := finishBucket_step env w (startNextBucketWalk env w cache st)
        st.currentBucket
      have hA1 : PendingOK env w N
          { startNextBucket env w cache st with
            currentBucket := (startNextBucket env w cache st).currentBucket + 1 }
          (acc ++ (if finishBucketFires (startNextBucketWalk env w cache st) st.currentBucket
            then [st.currentBucket] else [])) := by
        rw [hstart]
        refine ⟨m1, ?_, ?_, m2⟩
        · show (finishBucket env w (startNextBucketWalk env w cache st)
            st.currentBucket).currentBucket + 1 ≤ w.bucketList.length
          rw [f2, a4]; omega
        · intro j hj
          have hj' : j < (finishBucket env w (startNextBucketWalk env w cache st)
            st.currentBucket).currentBucket + 1 := hj
          rw [f2, a4] at hj'
          show ((finishBucket env w (startNextBucketWalk env w cache st)
            st.currentBucket).bucketReqs j).numParticlesInBucket = bucketSize env w j
          rw [f1]
          by_cases hjc : j = st.currentBucket
          · subst hjc; exact a5
          · rw [a6 j hjc]
            exact hA.2.2.1 j (by omega)
      obtain ⟨i1, i2⟩ := ih _ _ hA1
      rw [List.append_assoc] at i1 i2
      refine ⟨i1, ?_⟩
      intro c0 hB hnd hpos htot
      refine i2 c0 ?_ hnd hpos htot
      have hB1 := m3 c0 ⟨by rw [a2, a1]; exact hB.1, by rw [a3, a1]; exact hB.2⟩
        (by
          rw [← List.append_assoc] at hnd
          exact (List.nodup_append.1 hnd).1) hpos htot
      rw [hstart]
      exact ⟨hB1.1, hB1.2⟩
    · rw [if_neg hcur, if_neg hcur]
      simp only [List.append_nil]
      exact ⟨hA, fun c0 hB _ _ _ => hB⟩

theorem handleEvent_inv {M : Type} (env : Env M) (w : Walker M) (N : Nat) (e : GravEvent M)
    (st : GravState) (acc : List Nat) (hA : PendingOK env w N st acc)
    (hexp : Expected env w [e] st) :
    PendingOK env w N (handleEvent env w e st) (acc ++ eventCompleted env w e st) ∧
    (∀ c0, BarrierOK c0 st → (acc ++ eventCompleted env w e st).Nodup →
      (∀ i, i < w.bucketList.length → 0 < bucketSize env w i) →
      ((List.range w.bucketList.length).map (bucketSize env w)).sum = N →
      BarrierOK c0 (handleEvent env w e st)) := by
  cases e with
  | nextBucket cache y =>
    exact nextBucket_inv env w cache N y st acc hA
  | deliver cache id d =>
    simp only [Expected, and_true] at hexp
    simp only [handleEvent, eventCompleted, deliver]
    obtain ⟨a1, a2, a3, a4, a5⟩ := deliverWalk_iter env w cache id d st
    have hid : id < w.bucketList.length := by have := hA.2.1; omega
    obtain ⟨m1, m2, m3⟩ := merge_step env w N (deliverWalk env w cache id d st) id acc
      (by rw [a1]; exact hA.1) hA.2.2.2 hid (by rw [a5]; exact hA.2.2.1 id hexp)
    obtain ⟨f1, f2, -, -⟩ := finishBucket_step env w (deliverWalk env w cache id d st) id
    refine ⟨⟨m1, ?_, ?_, m2⟩, ?_⟩
    · rw [f2, a4]; exact hA.2.1
    · intro j hj
      rw [f2, a4] at hj
      rw [f1, a5]
      exact hA.2.2.1 j hj
    · intro c0 hB hnd hpos htot
      exact m3 c0 ⟨by rw [a2, a1]; exact hB.1, by rw [a3, a1]; exact hB.2⟩ hnd hpos htot

theorem runEvents_inv {M : Type} (env : Env M) (w : Walker M) (N : Nat) :
    ∀ (es : List (GravEvent M)) (st : GravState) (acc : List Nat),
      PendingOK env w N st acc → Expected env w es st →
      PendingOK env w N (runEvents env w es st) (acc ++ completedBuckets env w es st) ∧
      (∀ c0, BarrierOK c0 st → (acc ++ completedBuckets env w es st).Nodup →
        (∀ i, i < w.bucketList.length → 0 < bucketSize env w i) →
        ((List.range w.bucketList.length).map (bucketSize env w)).sum = N →
        BarrierOK c0 (runEvents env w es st)) := by
  intro es
  induction es with
  | nil =>
    intro st acc hA _
    simp only [runEvents, completedBuckets, List.append_nil]
    exact ⟨hA, fun c0 hB _ _ _ => hB⟩
  | cons e es ih =>
    intro st acc hA hexp
    have hexp1 : Expected env w [e] st ∧ Expected env w es (handleEvent env w e st) := by
      cases e with
      | nextBucket cache y => exact ⟨by simp [Expected], hexp⟩
      | deliver cache id d => exact ⟨by simp only [Expected, and_true]; exact hexp.1, hexp.2⟩
    obtain ⟨h1, h2⟩ := handleEvent_inv env w N e st acc hA hexp1.1
    obtain ⟨i1, i2⟩ := ih _ _ h1 hexp1.2
    simp only [runEvents, completedBuckets]
    rw [List.append_assoc] at i1 i2
    refine ⟨i1, ?_⟩
    intro c0 hB hnd hpos htot
    refine i2 c0 (h2 c0 hB ?_ hpos htot) hnd hpos htot
    rw [← List.append_assoc] at hnd
    exact (List.nodup_append.1 hnd).1

theorem Expected_append {M : Type} (env : Env M) (w : Walker M) :
    ∀ (es1 es2 : List (GravEvent M)) (st : GravState),
      Expected env w (es1 ++ es2) st → Expected env w es1 st := by
  intro es1
  induction es1 with
  | nil => intro es2 st _; trivial
  | cons e es ih =>
    intro es2 st h
    cases e with
    | nextBucket cache y => exact ih es2 _ h
    | deliver cache id d => exact ⟨h.1, ih es2 _ h.2⟩

theorem completedBuckets_append {M : Type} (env : Env M) (w : Walker M) :
    ∀ (es1 es2 : List (GravEvent M)) (st : GravState),
      completedBuckets env w (es1 ++ es2) st
        = completedBuckets env w es1 st
          ++ completedBuckets env w es2 (runEvents env w es1 st) := by
  intro es1
  induction es1 with
  | nil => intro es2 st; rfl
  | cons e es ih =>
    intro es2 st
    show eventCompleted env w e st ++ completedBuckets env w (es ++ es2) (handleEvent env w e st)
      = (eventCompleted env w e st ++ completedBuckets env w es (handleEvent env w e st))
        ++ completedBuckets env w es2 (runEvents env w es (handleEvent env w e st))
    rw [ih, List.append_assoc]

/-- C11 (amended): a bucket-tree gravity iteration, seen after any entry methods `es1` of
a run `es1 ++ es2` in which answers arrive only for buckets already started.
(1) `calculateGravityBucketTree` sets `myNumParticlesPending` to `myNumParticles`, sets
`started` and starts with bucket 0. (2) `myNumParticlesPending` equals `myNumParticles`
minus the total particle count of the buckets completed so far. (3) If moreover no
bucket completes twice in the run, every bucket of `bucketList` is non-empty and the
bucket sizes add up to `myNumParticles > 0`, then `myNumParticlesPending` is zero exactly
when every bucket of `bucketList` has completed, `started` is cleared exactly then, and
the piece has contributed to the barrier once if every bucket has completed and not at
all otherwise. -/
theorem C11_pending_particles {M : Type} (env : Env M) (w : Walker M) (N : Nat)
    (fresh : BucketGravityRequest) (st0 : GravState) (es1 es2 : List (GravEvent M))
    (hexp : Expected env w (es1 ++ es2) (calculateGravityBucketTree N fresh st0)) :
    ((calculateGravityBucketTree N fresh st0).myNumParticlesPending = N ∧
      (calculateGravityBucketTree N fresh st0).started = true ∧
      (calculateGravityBucketTree N fresh st0).currentBucket = 0) ∧
    (runEvents env w es1 (calculateGravityBucketTree N fresh st0)).myNumParticlesPending
      = (N : Int) - (completedCount env w
          (completedBuckets env w es1 (calculateGravityBucketTree N fresh st0)) : Int) ∧
    ((completedBuckets env w (es1 ++ es2) (calculateGravityBucketTree N fresh st0)).Nodup →
      (∀ i, i < w.bucketList.length → 0 < bucketSize env w i) →
      ((List.range w.bucketList.length).map (bucketSize env w)).sum = N → 0 < N →
      ((runEvents env w es1 (calculateGravityBucketTree N fresh st0)).myNumParticlesPending = 0
        ↔ ∀ id, id < w.bucketList.length →
          id ∈ completedBuckets env w es1 (calculateGravityBucketTree N fresh st0)) ∧
      ((runEvents env w es1 (calculateGravityBucketTree N fresh st0)).started = false
        ↔ ∀ id, id < w.bucketList.length →
          id ∈ completedBuckets env w es1 (calculateGravityBucketTree N fresh st0)) ∧
      ((∀ id, id < w.bucketList.length →
          id ∈ completedBuckets env w es1 (calculateGravityBucketTree N fresh st0)) →
        (runEvents env w es1 (calculateGravityBucketTree N fresh st0)).contributed
          = st0.contributed + 1) ∧
      ((¬ ∀ id, id < w.bucketList.length →
          id ∈ completedBuckets env w es1 (calculateGravityBucketTree N fresh st0)) →
        (runEvents env w es1 (calculateGravityBucketTree N fresh st0)).contributed
          = st0.contributed)) := by
  have hA0 : PendingOK env w N (calculateGravityBucketTree N fresh st0) [] := by
    refine ⟨?_, Nat.zero_le _, fun j hj => absurd hj (Nat.not_lt_zero _), fun x hx => ?_⟩
    · simp [calculateGravityBucketTree, completedCount]
    · simp at hx
  obtain ⟨hA, hB⟩ := runEvents_inv env w N es1 _ [] hA0 (Expected_append env w es1 es2 _ hexp)
  simp only [List.nil_append] at hA hB
  refine ⟨⟨rfl, rfl, rfl⟩, hA.1, ?_⟩
  intro hnd hpos htot hN
  have hnd1 : (completedBuckets env w es1 (calculateGravityBucketTree N fresh st0)).Nodup := by
    rw [completedBuckets_append] at hnd
    exact (List.nodup_append.1 hnd).1
  have hB0 : BarrierOK st0.contributed (calculateGravityBucketTree N fresh st0) := by
    constructor
    · simp only [calculateGravityBucketTree, true_iff]
      exact_mod_cast (by omega : N ≠ 0)
    · simp only [calculateGravityBucketTree]
      rw [if_neg (by exact_mod_cast (by omega : N ≠ 0))]
      rfl
  obtain ⟨b1, b2⟩ := hB st0.contributed hB0 hnd1 hpos htot
  obtain ⟨c1, c2⟩ := count_bound (bucketSize env w) w.bucketList.length _ hnd1 hA.2.2.2 hpos
  rw [htot] at c1 c2
  have hzero : (runEvents env w es1 (calculateGravityBucketTree N fresh st0)).myNumParticlesPending
      = 0 ↔ ∀ id, id < w.bucketList.length →
        id ∈ completedBuckets env w es1 (calculateGravityBucketTree N fresh st0) := by
    rw [← c2, hA.1]
    unfold completedCount
    omega
  refine ⟨hzero, ?_, ?_, ?_⟩
  · rw [← hzero]
    constructor
    · intro hs
      by_contra hne
      have := b1.2 hne
      rw [hs] at this
      exact absurd this (by decide)
    · intro hz
      cases hst : (runEvents env w es1 (calculateGravityBucketTree N fresh st0)).started with
      | false => rfl
      | true => exact absurd hz (b1.1 hst)
  · intro hall
    rw [b2, if_pos (hzero.2 hall)]
  · intro hnall
    rw [b2, if_neg (fun h => hnall (hzero.1 h))]
    rfl

/-- C11 on piece 1 of the two-piece example (two particles in two buckets): after
`nextBucket` no bucket has completed and two particles are pending; after the first
answer bucket 0 has completed and one particle is pending; after the second answer both
buckets have completed, none is pending, `started` is cleared and the piece has
contributed once. -/
theorem C11_pending_particles_witness :
    (runEvents exampleEnv exampleWalker (exampleEvents.take 1)
        (calculateGravityBucketTree 2 freshRequest exampleGrav)).myNumParticlesPending
      = (2 : Int) - (completedCount exampleEnv exampleWalker []  : Int) ∧
    completedBuckets exampleEnv exampleWalker (exampleEvents.take 2)
        (calculateGravityBucketTree 2 freshRequest exampleGrav) = [0] ∧
    (runEvents exampleEnv exampleWalker (exampleEvents.take 2)
        (calculateGravityBucketTree 2 freshRequest exampleGrav)).myNumParticlesPending = 1 ∧
    completedBuckets exampleEnv exampleWalker exampleEvents
        (calculateGravityBucketTree 2 freshRequest exampleGrav) = [0, 1] ∧
    (runEvents exampleEnv exampleWalker exampleEvents
        (calculateGravityBucketTree 2 freshRequest exampleGrav)).myNumParticlesPending = 0 ∧
    (runEvents exampleEnv exampleWalker exampleEvents
        (calculateGravityBucketTree 2 freshRequest exampleGrav)).started = false ∧
    (runEvents exampleEnv exampleWalker exampleEvents
        (calculateGravityBucketTree 2 freshRequest exampleGrav)).contributed
      = exampleGrav.contributed + 1 :=
  have hexp : Expected exampleEnv exampleWalker (exampleEvents ++ [])
      (calculateGravityBucketTree 2 freshRequest exampleGrav) := by
    simp only [exampleEvents, List.cons_append, List.nil_append, Expected, and_true]
    decide
  have h := (C11_pending_particles exampleEnv exampleWalker 2 freshRequest exampleGrav
    exampleEvents [] hexp).2.2 (by decide) (by decide) (by decide) (by decide)
  have hall : ∀ id, id < exampleWalker.bucketList.length →
      id ∈ completedBuckets exampleEnv exampleWalker exampleEvents
        (calculateGravityBucketTree 2 freshRequest exampleGrav) := by decide
  ⟨by decide, by decide, by decide, by decide, h.1.2 hall, h.2.1.2 hall, h.2.2.1 hall⟩

set_option maxRecDepth 100000 in
/-- C11 (the claim as stated, evaluated): the single piece `tiedPiece` holds three
particles, two of them with the same key, which the build leaves in no bucket. After
`nextBucket` the only bucket of `bucketList` has completed, yet two particles are still
pending, `started` is set and the piece has not contributed to the barrier. -/
theorem C11_untiled_buckets_stay_pending :
    (localWalker tiedPiece tiedParticles).bucketList.length = 1 ∧
    completedBuckets exampleEnv (localWalker tiedPiece tiedParticles)
        [.nextBucket emptyCache 1] (calculateGravityBucketTree 3 freshRequest
          (localGrav tiedParticles)) = [0] ∧
    (runEvents exampleEnv (localWalker tiedPiece tiedParticles) [.nextBucket emptyCache 1]
        (calculateGravityBucketTree 3 freshRequest
          (localGrav tiedParticles))).myNumParticlesPending = 2 ∧
    (runEvents exampleEnv (localWalker tiedPiece tiedParticles) [.nextBucket emptyCache 1]
        (calculateGravityBucketTree 3 freshRequest
          (localGrav tiedParticles))).started = true ∧
    (runEvents exampleEnv (localWalker tiedPiece tiedParticles) [.nextBucket emptyCache 1]
        (calculateGravityBucketTree 3 freshRequest
          (localGrav tiedParticles))).contributed = 0 := by
  refine ⟨by decide, by decide, by decide, by decide, by decide⟩

/-! ### Loading the particles -/

theorem load_closed (n N i : Nat) (hN : 1 ≤ N) (hn : n < UINT) (hi : i < N) :
    load n N i = (n / N + (if i < n % N then 1 else 0), n / N * i + min i (n % N)) ∧
      n / N * i + min i (n % N) ≤ n := by
  have hmod : n % N < N := Nat.mod_lt _ hN
  have hmodn : n % N ≤ n := Nat.mod_le _ _
  have hdiv : N * (n / N) + n % N = n := Nat.div_add_mod n N
  have hmul : n / N * i ≤ n / N * N := Nat.mul_le_mul_left _ (le_of_lt hi)
  have hcomm : n / N * N = N * (n / N) := Nat.mul_comm _ _
  have hle : n / N * i + min i (n % N) ≤ n := by
    have : min i (n % N) ≤ n % N := Nat.min_le_right _ _
    omega
  refine ⟨?_, hle⟩
  unfold load
  simp only
  have e1 : n % N % UINT = n % N := Nat.mod_eq_of_lt (by omega)
  have hmi : n / N * i ≤ n := by omega
  have e2 : n / N * i % UINT = n / N * i := Nat.mod_eq_of_lt (by omega)
  rw [e1, e2]
  by_cases h : i < n % N
  · rw [if_pos h, if_pos h]
    have hm : min i (n % N) = i := Nat.min_eq_left (le_of_lt h)
    rw [hm] at hle ⊢
    rw [Nat.mod_eq_of_lt (by omega)]
  · rw [if_neg h, if_neg h]
    have hm : min i (n % N) = n % N := Nat.min_eq_right (by omega)
    rw [hm] at hle ⊢
    rw [Nat.mod_eq_of_lt (by omega)]
    rfl

theorem load_cover (q e : Nat) : ∀ (N x : Nat), x < q * N + min N e →
    ∃ i, i < N ∧ q * i + min i e ≤ x ∧ x < q * (i + 1) + min (i + 1) e := by
  intro N
  induction N with
  | zero => intro x hx; simp at hx
  | succ k ih =>
    intro x hx
    by_cases h : x < q * k + min k e
    · obtain ⟨i, h1, h2⟩ := ih x h
      exact ⟨i, by omega, h2⟩
    · exact ⟨k, by omega, by omega, hx⟩

theorem load_mono (q e : Nat) (i j : Nat) (h : i ≤ j) : q * i + min i e ≤ q * j + min j e := by
  have : q * i ≤ q * j := Nat.mul_le_mul_left _ h
  have : min i e ≤ min j e := by omega
  omega

/-- C30: when the total particle count fits the `unsigned int` that holds
`startParticle`, `load` gives piece `i` of `N` exactly `floor(n/N)` particles plus
one if `i < n mod N`; the first piece starts at `0`, every piece starts where the one
before it ends, the last piece ends at `n`, and every particle index below `n` lies in
the range of exactly one piece. -/
theorem C30_load_partitions (n N : Nat) (hN : 1 ≤ N) (hn : n < UINT) :
    (∀ i, i < N → (load n N i).1 = n / N + (if i < n % N then 1 else 0)) ∧
    (load n N 0).2 = 0 ∧
    (∀ i, i + 1 < N → (load n N (i + 1)).2 = (load n N i).2 + (load n N i).1) ∧
    (load n N (N - 1)).2 + (load n N (N - 1)).1 = n ∧
    (∀ x, x < n → ∃ i, i < N ∧ (load n N i).2 ≤ x ∧ x < (load n N i).2 + (load n N i).1 ∧
      ∀ j, j < N → (load n N j).2 ≤ x → x < (load n N j).2 + (load n N j).1 → j = i) := by
  have hmod : n % N < N := Nat.mod_lt _ hN
  have hdiv : N * (n / N) + n % N = n := Nat.div_add_mod n N
  have hend : ∀ i, i < N → (load n N i).2 + (load n N i).1
      = n / N * (i + 1) + min (i + 1) (n % N) := by
    intro i hi
    rw [(load_closed n N i hN hn hi).1]
    simp only
    rw [Nat.mul_succ]
    split <;> omega
  refine ⟨fun i hi => by rw [(load_closed n N i hN hn hi).1], ?_, ?_, ?_, ?_⟩
  · rw [(load_closed n N 0 hN hn (by omega)).1]; simp
  · intro i hi
    rw [hend i (by omega), (load_closed n N (i + 1) hN hn hi).1]
  · rw [hend (N - 1) (by omega)]
    have e : N - 1 + 1 = N := by omega
    rw [e, Nat.min_eq_right (le_of_lt hmod), Nat.mul_comm]
    exact hdiv
  · intro x hx
    have hx' : x < n / N * N + min N (n % N) := by
      rw [Nat.min_eq_right (le_of_lt hmod), Nat.mul_comm]; omega
    obtain ⟨i, hi, h1, h2⟩ := load_cover (n / N) (n % N) N x hx'
    refine ⟨i, hi, ?_, ?_, ?_⟩
    · rw [(load_closed n N i hN hn hi).1]; exact h1
    · rw [hend i hi]; exact h2
    · intro j hj hj1 hj2
      rw [hend j hj] at hj2
      rw [(load_closed n N j hN hn hj).1] at hj1
      simp only at hj1
      rcases Nat.lt_trichotomy j i with hlt | heq | hgt
      · have := load_mono (n / N) (n % N) (j + 1) i hlt
        omega
      · exact heq
      · have := load_mono (n / N) (n % N) (i + 1) j hgt
        omega

/-- C30 at concrete inputs. Ten particles on three pieces: the pieces take 4, 3 and 3
particles from the offsets 0, 4 and 7. With `3 * 2^31` particles on three pieces the
offset of piece 2 is `2^32`, which an `unsigned int` holds as `0`: piece 2 starts at
offset 0 like piece 0, not where piece 1 ends. -/
theorem C30_load_partitions_witness :
    (1 ≤ 3 ∧ 10 < UINT) ∧ (load 10 3 0, load 10 3 1, load 10 3 2) = ((4, 0), (3, 4), (3, 7)) ∧
    (load 10 3 2).2 + (load 10 3 2).1 = 10 ∧
    ¬ (3 * 2 ^ 31 < UINT) ∧
    load (3 * 2 ^ 31) 3 0 = (2 ^ 31, 0) ∧ load (3 * 2 ^ 31) 3 1 = (2 ^ 31, 2 ^ 31) ∧
    load (3 * 2 ^ 31) 3 2 = (2 ^ 31, 0) ∧
    (load (3 * 2 ^ 31) 3 2).2 ≠ (load (3 * 2 ^ 31) 3 1).2 + (load (3 * 2 ^ 31) 3 1).1 :=
  ⟨⟨by decide, by decide⟩, by decide,
    (C30_load_partitions 10 3 (by decide) (by decide)).2.2.2.1,
    by decide, by decide, by decide, by decide, by decide⟩

/-! ### Boundary messages for unknown nodes -/

/-- C23: a boundary message whose lookup key is not in `nodeLookup` changes neither the
tree nor a counter. `acceptBoundaryNodeContribution` sends exactly one message, to the
piece itself, with the same lookup key, particle count and moments;
`acceptBoundaryNode` prints its diagnostic and drops the message, so
`boundaryNodesPending` stays as it is and the tree-ready barrier is not signalled. -/
theorem C23_unknown_lookup_key {M : Type} (env : Env M) (pc : Piece) (st : PieceState M)
    (lookupKey numParticles : Nat) (moments : M)
    (hfind : st.root.find env lookupKey = none) :
    (∃ st', acceptBoundaryNodeContribution env pc st lookupKey numParticles moments = some st' ∧
      st'.root = st.root ∧ st'.boundaryNodesPending = st.boundaryNodesPending ∧
      st'.treeReady = st.treeReady ∧ st'.cerr = st.cerr ∧
      st'.outbox = st.outbox ++
        [.acceptBoundaryNodeContribution pc.thisIndex lookupKey numParticles moments]) ∧
    (∃ st', acceptBoundaryNode env st lookupKey numParticles moments = some st' ∧
      st'.root = st.root ∧ st'.boundaryNodesPending = st.boundaryNodesPending ∧
      st'.treeReady = st.treeReady ∧ st'.outbox = st.outbox ∧
      st'.cerr = st.cerr ++ [.unknownBoundaryNode lookupKey]) := by
  constructor
  · refine ⟨{ st with outbox := st.outbox ++
      [.acceptBoundaryNodeContribution pc.thisIndex lookupKey numParticles moments] },
      ?_, rfl, rfl, rfl, rfl, rfl⟩
    unfold acceptBoundaryNodeContribution
    rw [hfind]
  · refine ⟨{ st with cerr := st.cerr ++ [.unknownBoundaryNode lookupKey] },
      ?_, rfl, rfl, rfl, rfl, rfl⟩
    unfold acceptBoundaryNode
    rw [hfind]

/-- C23 on piece 0 of two after its build, for the lookup key `5`, which no node of its
tree has: the contribution comes back to piece 0 and the pending count stays 2. -/
theorem C23_unknown_lookup_key_witness :
    (builtState exampleEnv pieceZero partsZero).root.find exampleEnv 5 = none ∧
    (∃ st', acceptBoundaryNodeContribution exampleEnv pieceZero
        (builtState exampleEnv pieceZero partsZero) 5 7 3 = some st' ∧
      st'.outbox = (builtState exampleEnv pieceZero partsZero).outbox ++
        [.acceptBoundaryNodeContribution 0 5 7 3]) ∧
    (∃ st', acceptBoundaryNode exampleEnv (builtState exampleEnv pieceZero partsZero) 5 7 3
        = some st' ∧
      st'.boundaryNodesPending = (builtState exampleEnv pieceZero partsZero).boundaryNodesPending) := by
  have h := C23_unknown_lookup_key exampleEnv pieceZero
    (builtState exampleEnv pieceZero partsZero) 5 7 3 (by rfl)
  refine ⟨by rfl, ?_, ?_⟩
  · obtain ⟨st', h1, -, -, -, -, h6⟩ := h.1
    exact ⟨st', h1, h6⟩
  · obtain ⟨st', h1, -, h3, -⟩ := h.2
    exact ⟨st', h1, h3⟩

/-! ### The chain of nextBucket messages -/

theorem startNextBucket_cur {M : Type} (env : Env M) (w : Walker M) (cache : CacheManager M)
    (st : GravState) : (startNextBucket env w cache st).currentBucket = st.currentBucket := by
  unfold startNextBucket
  split
  · rfl
  · rw [(finishBucket_step env w _ _).2.1, (startNextBucketWalk_iter env w cache st).2.2.2.1]

theorem deliver_cur {M : Type} (env : Env M) (w : Walker M) (cache : CacheManager M)
    (id : Nat) (d : Delivery M) (st : GravState) :
    (deliver env w cache id d st).currentBucket = st.currentBucket := by
  unfold deliver
  rw [(finishBucket_step env w _ _).2.1, (deliverWalk_iter env w cache id d st).2.2.2.1]

theorem nextBucket_started {M : Type} (env : Env M) (w : Walker M) (cache : CacheManager M) :
    ∀ (y : Nat) (st : GravState),
      nextBucketStarted env w cache y st
        = List.range' st.currentBucket (min y (w.bucketList.length - st.currentBucket)) ∧
      (nextBucket env w cache y st).currentBucket
        = st.currentBucket + min y (w.bucketList.length - st.currentBucket) := by
  intro y
  induction y with
  | zero => intro st; simp [nextBucketStarted, nextBucket]
  | succ i ih =>
    intro st
    simp only [nextBucketStarted, nextBucket]
    by_cases h : st.currentBucket < w.bucketList.length
    · rw [if_pos h, if_pos h]
      obtain ⟨h1, h2⟩ := ih { startNextBucket env w cache st with
        currentBucket := (startNextBucket env w cache st).currentBucket + 1 }
      rw [h1, h2]
      simp only [startNextBucket_cur]
      have e : min (i + 1) (w.bucketList.length - st.currentBucket)
          = min i (w.bucketList.length - (st.currentBucket + 1)) + 1 := by omega
      rw [e]
      exact ⟨by rw [List.range'_succ], by omega⟩
    · rw [if_neg h, if_neg h]
      have e : min (i + 1) (w.bucketList.length - st.currentBucket) = 0 := by omega
      rw [e]
      simp

theorem chain_step {M : Type} (env : Env M) (w : Walker M) (y : Nat) (hy : 1 ≤ y) :
    ∀ (es : List (GravEvent M)) (p : Bool) (st : GravState) (p' : Bool),
      (p = true ↔ st.currentBucket < w.bucketList.length) →
      st.currentBucket ≤ w.bucketList.length →
      chainPending env w y p es st = some p' →
      startedBuckets env w es st = List.range' st.currentBucket
        ((runEvents env w es st).currentBucket - st.currentBucket) ∧
      countNextBucket es ≤ (runEvents env w es st).currentBucket - st.currentBucket ∧
      st.currentBucket ≤ (runEvents env w es st).currentBucket ∧
      (runEvents env w es st).currentBucket ≤ w.bucketList.length ∧
      (p' = true ↔ (runEvents env w es st).currentBucket < w.bucketList.length) := by
  intro es
  induction es with
  | nil =>
    intro p st p' hp hle h
    simp only [chainPending, Option.some.injEq] at h
    subst h
    simp only [startedBuckets, runEvents, countNextBucket, Nat.sub_self, List.range'_zero]
    exact ⟨trivial, le_refl _, le_refl _, hle, hp⟩
  | cons e es ih =>
    intro p st p' hp hle h
    cases e with
    | nextBucket cache y' =>
      simp only [chainPending] at h
      split at h
      · rename_i hc
        obtain ⟨hc1, rfl⟩ := hc
        have hlt := hp.1 hc1
        obtain ⟨h1, h2⟩ := nextBucket_started env w cache y' st
        have hcur : (handleEvent env w (.nextBucket cache y') st).currentBucket
            = st.currentBucket + min y' (w.bucketList.length - st.currentBucket) := h2
        obtain ⟨i1, i2, i3, i4, i5⟩ := ih (nextBucketReposts env w cache y' st)
          (handleEvent env w (.nextBucket cache y') st) p'
          (by simp only [nextBucketReposts, decide_eq_true_eq]; rfl)
          (by rw [hcur]; omega) h
        simp only [startedBuckets, runEvents, countNextBucket, eventStarted]
        rw [hcur] at i1 i2 i3
        rw [h1, i1]
        refine ⟨?_, by omega, by omega, i4, i5⟩
        rw [List.range'_append_1]
        congr 1
        omega
      · exact absurd h (by simp)
    | deliver cache id d =>
      simp only [chainPending] at h
      have hcur : (handleEvent env w (.deliver cache id d) st).currentBucket
          = st.currentBucket := deliver_cur env w cache id d st
      obtain ⟨i1, i2, i3, i4, i5⟩ := ih p (handleEvent env w (.deliver cache id d) st) p'
        (by rw [hcur]; exact hp) (by rw [hcur]; exact hle) h
      simp only [startedBuckets, runEvents, countNextBucket, eventStarted, List.nil_append]
      rw [hcur] at i1 i2 i3
      exact ⟨i1, i2, i3, i4, i5⟩

theorem chain_start {M : Type} (env : Env M) (w : Walker M) (y : Nat) (hy : 1 ≤ y) :
    ∀ (es : List (GravEvent M)) (st : GravState) (p' : Bool), st.currentBucket = 0 →
      chainPending env w y true es st = some p' →
      startedBuckets env w es st = List.range (runEvents env w es st).currentBucket ∧
      countNextBucket es ≤ (runEvents env w es st).currentBucket + 1 ∧
      (runEvents env w es st).currentBucket ≤ w.bucketList.length ∧
      (p' = false → (runEvents env w es st).currentBucket = w.bucketList.length) := by
  intro es
  induction es with
  | nil =>
    intro st p' h0 h
    simp only [chainPending, Option.some.injEq] at h
    subst h
    simp only [startedBuckets, runEvents, countNextBucket, h0, List.range_zero]
    exact ⟨trivial, Nat.zero_le _, Nat.zero_le _, fun hc => absurd hc (by decide)⟩
  | cons e es ih =>
    intro st p' h0 h
    cases e with
    | nextBucket cache y' =>
      simp only [chainPending] at h
      split at h
      · rename_i hc
        obtain ⟨-, rfl⟩ := hc
        obtain ⟨h1, h2⟩ := nextBucket_started env w cache y' st
        have hcur : (handleEvent env w (.nextBucket cache y') st).currentBucket
            = st.currentBucket + min y' (w.bucketList.length - st.currentBucket) := h2
        obtain ⟨i1, i2, i3, i4, i5⟩ := chain_step env w y' hy es
          (nextBucketReposts env w cache y' st)
          (handleEvent env w (.nextBucket cache y') st) p'
          (by simp only [nextBucketReposts, decide_eq_true_eq]; rfl)
          (by rw [hcur]; omega) h
        simp only [startedBuckets, runEvents, countNextBucket, eventStarted]
        rw [hcur] at i1 i2 i3
        rw [h1, i1, h0] at *
        refine ⟨?_, by omega, i4, ?_⟩
        · rw [List.range'_append_1, List.range_eq_range']
          congr 1
          omega
        · intro hp
          have : ¬ (p' = true) := by rw [hp]; decide
          rw [i5] at this
          omega
      · exact absurd h (by simp)
    | deliver cache id d =>
      simp only [chainPending] at h
      have hcur : (handleEvent env w (.deliver cache id d) st).currentBucket
          = st.currentBucket := deliver_cur env w cache id d st
      obtain ⟨i1, i2, i3, i4⟩ := ih (handleEvent env w (.deliver cache id d) st) p'
        (by rw [hcur]; exact h0) h
      simp only [startedBuckets, runEvents, countNextBucket, eventStarted, List.nil_append]
      exact ⟨i1, i2, i3, i4⟩

/-- C29: with a yield period of at least one, each `nextBucket` invocation starts the
`min(yieldPeriod, numBuckets - currentBucket)` buckets of consecutive indices from
`currentBucket` on, advances `currentBucket` by that number and sends itself the message
again exactly when `currentBucket < numBuckets` afterwards. In the chain that
`doAllBuckets` starts with `currentBucket = 0`, answers arriving in between, the buckets
started so far are `0, 1, ..` up to `currentBucket`, in this order; there are at most
`numBuckets + 1` invocations, and once no message is in flight every bucket index below
`numBuckets` has been started exactly once, in increasing order. -/
theorem C29_nextBucket_chain {M : Type} (env : Env M) (w : Walker M) (yieldPeriod : Nat)
    (hy : 1 ≤ yieldPeriod) :
    (∀ (cache : CacheManager M) (st : GravState),
      nextBucketStarted env w cache yieldPeriod st = List.range' st.currentBucket
        (min yieldPeriod (w.bucketList.length - st.currentBucket)) ∧
      (nextBucket env w cache yieldPeriod st).currentBucket
        = st.currentBucket + min yieldPeriod (w.bucketList.length - st.currentBucket) ∧
      (nextBucketReposts env w cache yieldPeriod st = true ↔
        (nextBucket env w cache yieldPeriod st).currentBucket < w.bucketList.length)) ∧
    (∀ (es : List (GravEvent M)) (st : GravState) (pending : Bool), st.currentBucket = 0 →
      chainPending env w yieldPeriod true es st = some pending →
      startedBuckets env w es st = List.range (runEvents env w es st).currentBucket ∧
      (runEvents env w es st).currentBucket ≤ w.bucketList.length ∧
      countNextBucket es ≤ w.bucketList.length + 1 ∧
      (pending = false → startedBuckets env w es st = List.range w.bucketList.length)) := by
  constructor
  · intro cache st
    obtain ⟨h1, h2⟩ := nextBucket_started env w cache yieldPeriod st
    exact ⟨h1, h2, by simp only [nextBucketReposts, decide_eq_true_eq]⟩
  · intro es st pending h0 h
    obtain ⟨h1, h2, h3, h4⟩ := chain_start env w yieldPeriod hy es st pending h0 h
    refine ⟨h1, h3, by omega, fun hp => ?_⟩
    rw [h1, h4 hp]

/-- C29 on piece 1 of the two-piece example with a yield period of one: the chain of
two `nextBucket` invocations ends with no message in flight and has started the buckets
0 and 1, in this order. -/
theorem C29_nextBucket_chain_witness :
    1 ≤ 1 ∧ exampleWalker.bucketList.length = 2 ∧
    chainPending exampleEnv exampleWalker 1 true yieldingEvents
      (calculateGravityBucketTree 2 freshRequest exampleGrav) = some false ∧
    startedBuckets exampleEnv exampleWalker yieldingEvents
      (calculateGravityBucketTree 2 freshRequest exampleGrav)
        = List.range exampleWalker.bucketList.length :=
  ⟨by decide, by decide, by decide,
    ((C29_nextBucket_chain exampleEnv exampleWalker 1 (by decide)).2 yieldingEvents
      (calculateGravityBucketTree 2 freshRequest exampleGrav) false rfl (by decide)).2.2.2 rfl⟩

/-! ### The course of a build on a sorted particle array -/

set_option maxHeartbeats 4000000 in
theorem buildTree_built {M : Type} (env : Env M) (pc : Piece) (parts : List GravityParticle)
    (hlen : parts.length = pc.myNumParticles + 2)
    (hsorted : ∀ i j, i ≤ j → j ≤ pc.myNumParticles + 1 → keyAt parts i ≤ keyAt parts j) :
    ∀ (bits key l r : Nat) (st : BuildState M) (t : Tree M) (st' : BuildState M),
      CallOK pc parts bits key l r →
      buildTree env pc parts bits key l r st = some (t, st') →
      Built env pc parts bits key l r st t st' := by
  intro bits
  induction bits with
  | zero =>
    intro key l r st t st' hok h
    rcases buildTree_root env pc parts 0 key l r st t st' h with
      ⟨hc, rfl, rfl⟩ | ⟨hc, hsz, -, rfl, rfl⟩ | ⟨-, h0, -⟩ | ⟨-, h0, -⟩
    · exact Built.bucket 0 key l r st hok hc
    · exact Built.exhausted key l r st hok hc hsz
    · omega
    · omega
  | succ b ih =>
    intro key l r st t st' hok h
    obtain ⟨hbits, hlr, hr, hdiv, hrange, hkl, hkr⟩ := hok
    have hok : CallOK pc parts (b + 1) key l r := ⟨hbits, hlr, hr, hdiv, hrange, hkl, hkr⟩
    by_cases hc : bucketRule pc l r
    · rcases buildTree_root env pc parts (b + 1) key l r st t st' h with
        ⟨-, rfl, rfl⟩ | ⟨hnb, -⟩ | ⟨hnb, -⟩ | ⟨hnb, -⟩
      · exact Built.bucket (b + 1) key l r st hok hc
      · exact absurd hc hnb
      · exact absurd hc hnb
      · exact absurd hc hnb
    · have hnb := hc
      unfold buildTree at h
      simp only at h
      have hnb' : ¬ (((r : Int) - (l : Int) < pc.maxBucketSize) ∧ l ≠ 0 ∧
          r ≠ pc.myNumParticles + 1) := hnb
      rw [if_neg hnb'] at h
      split at h
      · rename_i hc2
        exact absurd hc2.2 (by omega)
      · have hlev : 62 - (63 - (b + 1)) = b := by omega
        have hlev1 : 63 - (b + 1) + 1 = 63 - b := by omega
        simp only [hlev, hlev1, rightChildKey] at h
        have hor : key ||| 2 ^ b = key + 2 ^ b := or_bit key b hdiv
        have hpow : 2 ^ (b + 1) = 2 ^ b + 2 ^ b := by rw [Nat.pow_succ]; omega
        have hpos : 0 < 2 ^ b := Nat.two_pow_pos b
        have hbl := bit_of_range key b (keyAt parts l) hdiv (hrange l (le_refl _) hlr).1
          (hrange l (le_refl _) hlr).2
        have hbr := bit_of_range key b (keyAt parts r) hdiv (hrange r hlr (le_refl _)).1
          (hrange r hlr (le_refl _)).2
        have hdl : 2 ^ b ∣ key := Dvd.dvd.trans (pow_dvd_pow 2 (Nat.le_succ b)) hdiv
        have hdr : 2 ^ b ∣ key + 2 ^ b := Nat.dvd_add hdl (dvd_refl _)
        have hb63 : b ≤ 63 := by omega
        rw [hor] at h
        split at h
        · -- a split at this level
          rename_i hlt
          have hl1 : keyAt parts l < key + 2 ^ b := by
            by_contra hc
            rw [if_pos (by omega)] at hbl
            rw [hbl] at hlt
            split at hbr <;> omega
          have hr1 : key + 2 ^ b ≤ keyAt parts r := by
            by_contra hc
            rw [if_neg hc] at hbr
            omega
          obtain ⟨hs1, hs2, hs3, hs4⟩ := lower_bound_spec (parts.map GravityParticle.key) l r
            (key + 2 ^ b) (by simp only [List.length_map]; omega) hlr
          generalize lower_bound (parts.map GravityParticle.key) l (r + 1) (key + 2 ^ b) = s
            at h hs1 hs2 hs3 hs4
          have hsl : l < s := by
            rcases Nat.lt_or_ge l s with h' | h'
            · exact h'
            · have : s = l := by omega
              subst this
              have := hs4 hlr
              unfold keyAt at hl1
              omega
          have hsr : s ≤ r := by
            by_contra hc
            have := hs3 r hlr (by omega)
            unfold keyAt at hr1
            omega
          have hleft : ∀ i, l ≤ i → i ≤ s - 1 →
              key ≤ keyAt parts i ∧ keyAt parts i < key + 2 ^ b := by
            intro i hi1 hi2
            refine ⟨(hrange i hi1 (by omega)).1, ?_⟩
            have := hs3 i hi1 (by omega)
            unfold keyAt
            exact this
          have hright : ∀ i, s ≤ i → i ≤ r →
              key + 2 ^ b ≤ keyAt parts i ∧ keyAt parts i < key + 2 ^ b + 2 ^ b := by
            intro i hi1 hi2
            refine ⟨?_, by have := (hrange i (by omega) hi2).2; omega⟩
            have h1 := hs4 hsr
            have h2 := hsorted s i hi1 (by omega)
            unfold keyAt at h2 ⊢
            omega
          have hks : keyAt parts 0 < keyAt parts s := by
            have h1 := hsorted 0 l (Nat.zero_le _) (by omega)
            have h2 := (hright s (le_refl _) hsr).1
            omega
          have hks1 : keyAt parts (s - 1) < keyAt parts (pc.myNumParticles + 1) := by
            have h1 := (hleft (s - 1) (by omega) (le_refl _)).2
            have h2 := (hright s (le_refl _) hsr).1
            have h3 := hsorted s (pc.myNumParticles + 1) (by omega) (le_refl _)
            omega
          have hokL : CallOK pc parts b key l (s - 1) :=
            ⟨hb63, by omega, by omega, hdl, hleft, hkl, fun _ => hks1⟩
          have hokR : CallOK pc parts b (key + 2 ^ b) s r :=
            ⟨hb63, hsr, hr, hdr, hright, fun _ => hks, hkr⟩
          split at h
          · -- the left half is remote
            rename_i hs
            have hl0 : l = 0 := by omega
            subst hl0
            subst hs
            split at h
            · exact absurd h (by simp)
            · rename_i rt st1 heq
              exact Built.leftRemote b key r st st1 st' rt t hok hnb
                (ih _ _ _ _ _ _ hokR heq) h
          · rename_i hs1'
            split at h
            · -- the right half is remote
              rename_i hs
              have hrN : r = pc.myNumParticles + 1 := by omega
              subst hrN
              subst hs
              split at h
              · exact absurd h (by simp)
              · rename_i lt st1 heq
                exact Built.rightRemote b key l st st1 st' lt t hok hnb
                  (ih _ _ _ _ _ _ hokL heq) h
            · rename_i hsN'
              split at h
              · exact absurd h (by simp)
              · split at h
                · exact absurd h (by simp)
                · rename_i lt st1 heq1
                  split at h
                  · exact absurd h (by simp)
                  · rename_i rt st2 heq2
                    exact Built.split b key l r s st st1 st2 st' lt rt t hok hnb hsl hsr
                      (by omega) hsN' (ih _ _ _ _ _ _ hokL heq1) (ih _ _ _ _ _ _ hokR heq2) h
        · rename_i hnlt
          split at h
          · -- both ones
            rename_i hne
            have hl1 : key + 2 ^ b ≤ keyAt parts l := by
              by_contra hc
              rw [if_neg hc] at hbl
              rw [hbl, Nat.zero_and] at hne
              exact hne rfl
            have hright : ∀ i, l ≤ i → i ≤ r →
                key + 2 ^ b ≤ keyAt parts i ∧ keyAt parts i < key + 2 ^ b + 2 ^ b := by
              intro i hi1 hi2
              have h2 := hsorted l i hi1 (by omega)
              have h3 := (hrange i hi1 hi2).2
              omega
            split at h
            · exact absurd h (by simp)
            · rename_i rt st1 heq
              exact Built.ones b key l r st st1 st' rt t hok hnb
                (ih _ _ _ _ _ _ ⟨hb63, hlr, hr, hdr, hright, hkl, hkr⟩ heq) h
          · rename_i hne
            split at h
            · -- the bits are in the wrong order
              rename_i hgt
              exfalso
              have h2 := hsorted l r hlr hr
              split at hbl <;> split at hbr <;> omega
            · -- both zeros
              rename_i hngt
              have hr1 : keyAt parts r < key + 2 ^ b := by
                by_contra hc
                rw [if_pos (by omega)] at hbr
                rw [hbr] at hnlt hngt hne
                split at hbl
                · rename_i hh
                  rw [hbl, Nat.and_self] at hne
                  omega
                · omega
              have hleft : ∀ i, l ≤ i → i ≤ r →
                  key ≤ keyAt parts i ∧ keyAt parts i < key + 2 ^ b := by
                intro i hi1 hi2
                have h2 := hsorted i r hi2 hr
                have h3 := (hrange i hi1 hi2).1
                omega
              split at h
              · exact absurd h (by simp)
              · rename_i lt st1 heq
                exact Built.zeros b key l r st st1 st' lt t hok hnb
                  (ih _ _ _ _ _ _ ⟨hb63, hlr, hr, hdl, hleft, hkl, hkr⟩ heq) h

theorem root_callOK (pc : Piece) (parts : List GravityParticle)
    (hsorted : ∀ i j, i ≤ j → j ≤ pc.myNumParticles + 1 → keyAt parts i ≤ keyAt parts j)
    (hkey : keyAt parts (pc.myNumParticles + 1) ≤ lastPossibleKey) :
    CallOK pc parts 63 firstPossibleKey 0 (pc.myNumParticles + 1) := by
  refine ⟨le_refl _, Nat.zero_le _, le_refl _, by simp [firstPossibleKey], ?_,
    fun h => absurd rfl h, fun h => absurd rfl h⟩
  intro i _ hi
  have := hsorted i (pc.myNumParticles + 1) hi (le_refl _)
  simp only [firstPossibleKey, lastPossibleKey] at hkey ⊢
  omega

theorem optLookup_cerr {M : Type} (env : Env M) (pc : Piece) (c : Prop) [Decidable c]
    (k lv : Nat) (st : BuildState M) :
    ∃ ds, (optLookup env pc c k lv st).2.cerr = st.cerr ++ ds ∧
      ∀ d ∈ ds, d = .surprising k lv := by
  unfold optLookup
  split
  · unfold lookupChild
    simp only
    split
    · exact ⟨[], by simp, by simp⟩
    · exact ⟨[.surprising k lv], rfl, by simp⟩
  · exact ⟨[], by simp, by simp⟩

theorem optLookup_nodes {M : Type} (env : Env M) (pc : Piece) (c : Prop) [Decidable c]
    (k lv : Nat) (st : BuildState M) :
    (optLookup env pc c k lv st).2.bucketList = st.bucketList ∧
    (optLookup env pc c k lv st).2.numBuckets = st.numBuckets ∧
    (optLookup env pc c k lv st).2.boundaryNodesPending = st.boundaryNodesPending ∧
    (optLookup env pc c k lv st).2.outbox = st.outbox ∧
    (∀ n ∈ (optLookup env pc c k lv st).1.nodes,
      n.type = .NonLocal ∧ n.key = k ∧ n.level = lv ∧ n.moments = env.zero) ∧
    (¬ c → optLookup env pc c k lv st = (.null, st)) := by
  unfold optLookup
  split
  · rename_i hc
    refine ⟨?_, ?_, ?_, ?_, ?_, fun h => absurd hc h⟩
    all_goals unfold lookupChild
    all_goals simp only
    all_goals split
    all_goals first
      | rfl
      | (intro n hn
         simp only [Tree.nodes, List.append_nil, List.mem_singleton] at hn
         subst hn
         exact ⟨rfl, rfl, rfl, rfl⟩)
      | (intro n hn
         simp [Tree.nodes] at hn)
  · exact ⟨rfl, rfl, rfl, rfl, fun n hn => by simp [Tree.nodes] at hn, fun _ => rfl⟩

theorem Built_cerr {M : Type} {env : Env M} {pc : Piece} {parts : List GravityParticle}
    {bits key l r : Nat} {st st' : BuildState M} {t : Tree M}
    (h : Built env pc parts bits key l r st t st') :
    ∃ ds, st'.cerr = st.cerr ++ ds ∧
      ∀ d ∈ ds, (∃ a b, d = .keysExhausted a b) ∨ (∃ k lv, d = .surprising k lv) := by
  induction h with
  | bucket bits key l r st hok hc => exact ⟨[], by simp, by simp⟩
  | exhausted key l r st hok hc hsz =>
    exact ⟨[.keysExhausted l r], rfl, by simp⟩
  | leftRemote b key r st st1 st' rt t hok hc hr hf ih =>
    obtain ⟨ds1, e1, m1⟩ := optLookup_cerr env pc (pc.thisIndex ≠ 0) key (63 - b) st
    obtain ⟨ds2, e2, m2⟩ := ih
    obtain ⟨n', -, -, -, -, -, e3, -⟩ := finishNode_some hf
    refine ⟨ds1 ++ ds2, by rw [e3, e2, e1, List.append_assoc], ?_⟩
    intro d hd
    rcases List.mem_append.1 hd with hd | hd
    · exact Or.inr ⟨_, _, m1 d hd⟩
    · exact m2 d hd
  | rightRemote b key l st st1 st' lt t hok hc hl hf ih =>
    obtain ⟨ds1, e1, m1⟩ := ih
    obtain ⟨ds2, e2, m2⟩ := optLookup_cerr env pc
      ((pc.thisIndex : Int) ≠ (pc.numTreePieces : Int) - 1) (key + 2 ^ b) (63 - b) st1
    obtain ⟨n', -, -, -, -, -, e3, -⟩ := finishNode_some hf
    refine ⟨ds1 ++ ds2, by rw [e3, e2, e1, List.append_assoc], ?_⟩
    intro d hd
    rcases List.mem_append.1 hd with hd | hd
    · exact m1 d hd
    · exact Or.inr ⟨_, _, m2 d hd⟩
  | split b key l r s st st1 st2 st' lt rt t hok hc hls hsr hs1 hsN hl hr hf ih1 ih2 =>
    obtain ⟨ds1, e1, m1⟩ := ih1
    obtain ⟨ds2, e2, m2⟩ := ih2
    obtain ⟨n', -, -, -, -, -, e3, -⟩ := finishNode_some hf
    refine ⟨ds1 ++ ds2, by rw [e3, e2, e1, List.append_assoc], ?_⟩
    intro d hd
    rcases List.mem_append.1 hd with hd | hd
    · exact m1 d hd
    · exact m2 d hd
  | ones b key l r st st1 st' rt t hok hc hr hf ih =>
    obtain ⟨ds1, e1, m1⟩ := optLookup_cerr env pc (l = 0 ∧ pc.thisIndex ≠ 0) key (63 - b) st
    obtain ⟨ds2, e2, m2⟩ := ih
    obtain ⟨n', -, -, -, -, -, e3, -⟩ := finishNode_some hf
    refine ⟨ds1 ++ ds2, by rw [e3, e2, e1, List.append_assoc], ?_⟩
    intro d hd
    rcases List.mem_append.1 hd with hd | hd
    · exact Or.inr ⟨_, _, m1 d hd⟩
    · exact m2 d hd
  | zeros b key l r st st1 st' lt t hok hc hl hf ih =>
    obtain ⟨ds1, e1, m1⟩ := ih
    obtain ⟨ds2, e2, m2⟩ := optLookup_cerr env pc (r = pc.myNumParticles + 1 ∧
      (pc.thisIndex : Int) ≠ (pc.numTreePieces : Int) - 1) (key + 2 ^ b) (63 - b) st1
    obtain ⟨n', -, -, -, -, -, e3, -⟩ := finishNode_some hf
    refine ⟨ds1 ++ ds2, by rw [e3, e2, e1, List.append_assoc], ?_⟩
    intro d hd
    rcases List.mem_append.1 hd with hd | hd
    · exact m1 d hd
    · exact Or.inr ⟨_, _, m2 d hd⟩

theorem finish_visited {M : Type} {env : Env M} {pc : Piece} {bits key l r : Nat}
    {lt rt t : Tree M} {st st' : BuildState M}
    (h : finishNode env pc (startNode env pc bits key l r) l r lt rt st = some (t, st')) :
    ∃ n, t = .node n lt rt ∧ Visited pc bits key l r n := by
  obtain ⟨n', rfl, h1, h2, h3, h4, -⟩ := finishNode_some h
  exact ⟨n', rfl, h3, h4, h1, h2⟩

theorem Built_nodes {M : Type} {env : Env M} {pc : Piece} {parts : List GravityParticle}
    (P : SFCTreeNode M → Prop)
    (hP : ∀ bits key l r (n : SFCTreeNode M), CallOK pc parts bits key l r →
      Visited pc bits key l r n → P n)
    {bits key l r : Nat} {st st' : BuildState M} {t : Tree M}
    (h : Built env pc parts bits key l r st t st') :
    ∀ n ∈ t.nodes, n.type ≠ .NonLocal → P n := by
  have hleaf : ∀ (bits key l r : Nat) (m : SFCTreeNode M), CallOK pc parts bits key l r →
      Visited pc bits key l r m →
      ∀ n ∈ (Tree.node m .null .null).nodes, n.type ≠ .NonLocal → P n := by
    intro bits key l r m hok hv n hn _
    simp only [Tree.nodes, List.append_nil, List.mem_singleton] at hn
    subst hn
    exact hP bits key l r _ hok hv
  have hfin : ∀ (bits key l r : Nat) (lt rt t : Tree M) (st st' : BuildState M),
      CallOK pc parts bits key l r →
      finishNode env pc (startNode env pc bits key l r) l r lt rt st = some (t, st') →
      (∀ n ∈ lt.nodes, n.type ≠ .NonLocal → P n) →
      (∀ n ∈ rt.nodes, n.type ≠ .NonLocal → P n) →
      ∀ n ∈ t.nodes, n.type ≠ .NonLocal → P n := by
    intro bits key l r lt rt t st st' hok hf h1 h2 n hn hty
    obtain ⟨m, rfl, hv⟩ := finish_visited hf
    simp only [Tree.nodes, List.mem_cons, List.mem_append] at hn
    rcases hn with rfl | hn | hn
    · exact hP bits key l r _ hok hv
    · exact h1 n hn hty
    · exact h2 n hn hty
  have hlook : ∀ (c : Prop) [Decidable c] (k lv : Nat) (st : BuildState M),
      ∀ n ∈ (optLookup env pc c k lv st).1.nodes, n.type ≠ .NonLocal → P n := by
    intro c _ k lv st n hn hty
    exact absurd ((optLookup_nodes env pc c k lv st).2.2.2.2.1 n hn).1 hty
  induction h with
  | bucket bits key l r st hok hc => exact hleaf bits key l r _ hok ⟨rfl, rfl, rfl, rfl⟩
  | exhausted key l r st hok hc hsz => exact hleaf 0 key l r _ hok ⟨rfl, rfl, rfl, rfl⟩
  | leftRemote b key r st st1 st' rt t hok hc hr hf ih =>
    exact hfin _ _ _ _ _ _ _ _ _ hok hf (hlook _ _ _ _) ih
  | rightRemote b key l st st1 st' lt t hok hc hl hf ih =>
    exact hfin _ _ _ _ _ _ _ _ _ hok hf ih (hlook _ _ _ _)
  | split b key l r s st st1 st2 st' lt rt t hok hc hls hsr hs1 hsN hl hr hf ih1 ih2 =>
    exact hfin _ _ _ _ _ _ _ _ _ hok hf ih1 ih2
  | ones b key l r st st1 st' rt t hok hc hr hf ih =>
    exact hfin _ _ _ _ _ _ _ _ _ hok hf (hlook _ _ _ _) ih
  | zeros b key l r st st1 st' lt t hok hc hl hf ih =>
    exact hfin _ _ _ _ _ _ _ _ _ hok hf ih (hlook _ _ _ _)

/-- C21: on a piece whose particle array, both sentinels included, is sorted by key (the
keys being 63-bit keys), the build prints no "Bits not right" diagnostic: no
`buildTree` call finds the examined bit set in the key of its left particle and clear
in the key of its right particle. The reason is the prefix property: the keys of the
particles of every node that `buildTree` visits lie in the key span of the node, from
its key up to `2^(63 - level)` keys further. -/
theorem C21_bits_in_order {M : Type} (env : Env M) (pc : Piece)
    (parts : List GravityParticle) (t : Tree M) (st : BuildState M)
    (hlen : parts.length = pc.myNumParticles + 2)
    (hsorted : ∀ i j, i ≤ j → j ≤ pc.myNumParticles + 1 → keyAt parts i ≤ keyAt parts j)
    (hkey : keyAt parts (pc.myNumParticles + 1) ≤ lastPossibleKey)
    (hbuild : buildTree env pc parts 63 firstPossibleKey 0 (pc.myNumParticles + 1)
      BuildState.initial = some (t, st)) :
    (∀ l r, Diagnostic.bitsNotRight l r ∉ st.cerr) ∧
    (∀ n ∈ t.nodes, n.type ≠ .NonLocal → n.level ≤ 63 ∧ 2 ^ (63 - n.level) ∣ n.key ∧
      ∀ i, n.beginParticle ≤ i → i < n.endParticle →
        n.key ≤ keyAt parts i ∧ keyAt parts i < n.key + 2 ^ (63 - n.level)) := by
  have hb := buildTree_built env pc parts hlen hsorted 63 firstPossibleKey 0
    (pc.myNumParticles + 1) BuildState.initial t st (root_callOK pc parts hsorted hkey) hbuild
  constructor
  · intro l r hmem
    obtain ⟨ds, e, m⟩ := Built_cerr hb
    rw [e] at hmem
    simp only [BuildState.initial, List.nil_append] at hmem
    rcases m _ hmem with ⟨a, b, h⟩ | ⟨k, lv, h⟩
    · exact absurd h (by simp)
    · exact absurd h (by simp)
  · refine Built_nodes _ ?_ hb
    intro bits key l r n hok hv
    obtain ⟨hbits, hlr, hr, hdiv, hrange, -, -⟩ := hok
    obtain ⟨h1, h2, h3, h4⟩ := hv
    have e : 63 - n.level = bits := by omega
    rw [e, h1, h3, h4]
    refine ⟨by omega, hdiv, ?_⟩
    intro i hi1 hi2
    apply hrange i
    · split at hi1 <;> omega
    · split at hi2 <;> omega

/-- C21 on a single piece with two particles of keys `2^61` and `2^62`: the build
completes and prints nothing; its five nodes are listed with key, level and particle
interval. -/
theorem C21_bits_in_order_witness :
    (builtMembers exampleEnv pairPiece pairParticles).cerr = [] ∧
    (∀ l r, Diagnostic.bitsNotRight l r ∉
      (builtMembers exampleEnv pairPiece pairParticles).cerr) ∧
    (builtTree exampleEnv pairPiece pairParticles).nodes.map
      (fun n => (n.key, n.level, n.beginParticle, n.endParticle))
      = [(0, 0, 1, 3), (0, 1, 1, 2), (2 ^ 61, 2, 1, 2), (2 ^ 62, 1, 2, 3), (2 ^ 62, 2, 2, 3)] :=
  ⟨by decide,
    (C21_bits_in_order exampleEnv pairPiece pairParticles
      (builtTree exampleEnv pairPiece pairParticles)
      (builtMembers exampleEnv pairPiece pairParticles) rfl
      (by
        intro i j hij hj
        have hj' : j ≤ 3 := hj
        interval_cases j <;> interval_cases i <;> decide)
      (by decide) rfl).1, by decide⟩

/-- C24: with at least two pieces, on a piece whose local build completes without the
"exhausted" and "Bits not right" diagnostics the root node is classified `Boundary`:
one of its endpoints is a sentinel next to an existing neighbouring piece. Hence
`boundaryNodesPending` is at least 1 after the build. -/
theorem C24_root_is_boundary {M : Type} (env : Env M) (pc : Piece)
    (parts : List GravityParticle) (t : Tree M) (st : BuildState M)
    (hpieces : 2 ≤ pc.numTreePieces)
    (hbuild : buildTree env pc parts 63 firstPossibleKey 0 (pc.myNumParticles + 1)
      BuildState.initial = some (t, st))
    (hdiag : Clean st.cerr) :
    (∃ n lt rt, t = .node n lt rt ∧ n.type = .Boundary) ∧ 1 ≤ st.boundaryNodesPending := by
  have hroot : ∃ n lt rt, t = .node n lt rt ∧ n.type = .Boundary := by
    rcases buildTree_root env pc parts 63 firstPossibleKey 0 (pc.myNumParticles + 1)
        BuildState.initial t st hbuild with
      ⟨hc, -, -⟩ | ⟨-, -, h0, -⟩ | ⟨-, -, -, hst⟩ | ⟨-, -, lt, rt, st1, hf⟩
    · exact absurd rfl hc.2.1
    · exact absurd h0 (by decide)
    · have hd := hdiag (.bitsNotRight 0 (pc.myNumParticles + 1)) (by rw [hst]; simp)
      simp [Diagnostic.isBuildFailure] at hd
    · obtain ⟨n, ht, h1, -, -⟩ := finishNode_class hf
      refine ⟨n, lt, rt, ht, h1.2 ?_⟩
      by_cases h0 : pc.thisIndex = 0
      · exact Or.inr ⟨rfl, by rw [h0]; push_cast; omega⟩
      · exact Or.inl ⟨rfl, h0⟩
  refine ⟨hroot, ?_⟩
  obtain ⟨n, lt, rt, rfl, hty⟩ := hroot
  have hcount := buildTree_count env pc parts 63 firstPossibleKey 0 (pc.myNumParticles + 1)
    BuildState.initial _ st hbuild
  rw [hcount]
  simp only [Tree.countBoundary, hty, if_true]
  omega

/-- C24 on piece 0 of two: the build prints nothing, the root is a `Boundary` node, and
one boundary node is pending. -/
theorem C24_root_is_boundary_witness :
    2 ≤ pieceZero.numTreePieces ∧
    (builtMembers exampleEnv pieceZero (setSentinels pieceZero partsZero)).cerr = [] ∧
    (builtMembers exampleEnv pieceZero (setSentinels pieceZero partsZero)).boundaryNodesPending
      = 1 ∧
    (∃ n lt rt, builtTree exampleEnv pieceZero (setSentinels pieceZero partsZero)
      = .node n lt rt ∧ n.type = .Boundary) :=
  ⟨by decide, by decide, by decide,
    (C24_root_is_boundary exampleEnv pieceZero (setSentinels pieceZero partsZero)
      (builtTree exampleEnv pieceZero (setSentinels pieceZero partsZero))
      (builtMembers exampleEnv pieceZero (setSentinels pieceZero partsZero)) (by decide) rfl
      (by
        intro d hd
        have hd' : d ∈ ([] : List Diagnostic) := hd
        simp at hd')).1⟩

theorem finishNode_moments {M : Type} {env : Env M} {pc : Piece} {node : SFCTreeNode M}
    {l r : Nat} {lt rt t : Tree M} {st st' : BuildState M}
    (h : finishNode env pc node l r lt rt st = some (t, st')) :
    ∃ n, t = .node n lt rt ∧ n.key = node.key ∧ n.level = node.level ∧
      n.beginParticle = node.beginParticle ∧ n.endParticle = node.endParticle ∧
      ((n.type = .Boundary ∧
          n.moments = rt.addMomentsTo env (lt.addMomentsTo env node.moments)) ∨
        (n.type = .Internal ∧ n.moments = env.calculateRadiusFarthestCorner
          (rt.addMomentsTo env (lt.addMomentsTo env node.moments)) node.key node.level)) := by
  unfold finishNode at h
  simp only at h
  split at h
  · split at h
    · simp only [Option.some.injEq, Prod.mk.injEq] at h
      obtain ⟨h1, -⟩ := h
      subst h1
      exact ⟨_, rfl, rfl, rfl, rfl, rfl, Or.inl ⟨rfl, rfl⟩⟩
    · exact absurd h (by simp)
  · simp only [Option.some.injEq, Prod.mk.injEq] at h
    obtain ⟨h1, -⟩ := h
    subst h1
    exact ⟨_, rfl, rfl, rfl, rfl, rfl, Or.inr ⟨rfl, rfl⟩⟩

theorem optLookup_moments {M : Type} (env : Env M) (pc : Piece) (parts : List GravityParticle)
    (c : Prop) [Decidable c] (k lv : Nat) (st : BuildState M) :
    (optLookup env pc c k lv st).1.MomentsOK env parts ∧
    (∀ m, MassLaws env → env.totalMass ((optLookup env pc c k lv st).1.addMomentsTo env m)
      = env.totalMass m) := by
  unfold optLookup
  split
  · unfold lookupChild
    simp only
    split
    · refine ⟨by simp [Tree.MomentsOK, freshNode], ?_⟩
      intro m hm
      simp only [Tree.addMomentsTo, freshNode]
      rw [hm.2.2.1, hm.1]
      omega
    · exact ⟨trivial, fun m _ => rfl⟩
  · exact ⟨trivial, fun m _ => rfl⟩

theorem Built_clean {M : Type} {env : Env M} {pc : Piece} {parts : List GravityParticle}
    {bits key l r : Nat} {st st' : BuildState M} {t : Tree M}
    (h : Built env pc parts bits key l r st t st') (hc : Clean st'.cerr) : Clean st.cerr := by
  obtain ⟨ds, e, -⟩ := Built_cerr h
  intro d hd
  exact hc d (by rw [e]; exact List.mem_append_left _ hd)

theorem optLookup_clean {M : Type} (env : Env M) (pc : Piece) (c : Prop) [Decidable c]
    (k lv : Nat) (st : BuildState M) (hc : Clean (optLookup env pc c k lv st).2.cerr) :
    Clean st.cerr := by
  obtain ⟨ds, e, -⟩ := optLookup_cerr env pc c k lv st
  intro d hd
  exact hc d (by rw [e]; exact List.mem_append_left _ hd)

theorem finishNode_clean {M : Type} {env : Env M} {pc : Piece} {node : SFCTreeNode M}
    {l r : Nat} {lt rt t : Tree M} {st st' : BuildState M}
    (h : finishNode env pc node l r lt rt st = some (t, st')) (hc : Clean st'.cerr) :
    Clean st.cerr := by
  obtain ⟨n', -, -, -, -, -, e3, -⟩ := finishNode_some h
  rw [e3] at hc
  exact hc

theorem Built_moments {M : Type} {env : Env M} {pc : Piece} {parts : List GravityParticle}
    {bits key l r : Nat} {st st' : BuildState M} {t : Tree M}
    (h : Built env pc parts bits key l r st t st') : t.MomentsOK env parts := by
  have hfin : ∀ (bits key l r : Nat) (lt rt t : Tree M) (st st' : BuildState M),
      finishNode env pc (startNode env pc bits key l r) l r lt rt st = some (t, st') →
      lt.MomentsOK env parts → rt.MomentsOK env parts → t.MomentsOK env parts := by
    intro bits key l r lt rt t st st' hf h1 h2
    obtain ⟨n, rfl, hk, hlv, -, -, hm⟩ := finishNode_moments hf
    have hz : (startNode env pc bits key l r).moments = env.zero := rfl
    rw [hz] at hm
    simp only [Tree.MomentsOK]
    rcases hm with ⟨hty, hm⟩ | ⟨hty, hm⟩
    · exact ⟨fun hb => by rw [hty] at hb; exact absurd hb (by decide), fun _ => hm,
        fun hb => by rw [hty] at hb; exact absurd hb (by decide), h1, h2⟩
    · refine ⟨fun hb => by rw [hty] at hb; exact absurd hb (by decide),
        fun hb => by rw [hty] at hb; exact absurd hb (by decide), fun _ => ?_, h1, h2⟩
      rw [hm, hk, hlv]
  induction h with
  | bucket bits key l r st hok hc =>
    obtain ⟨-, hc2, hc3⟩ := hc
    simp only [Tree.MomentsOK, bucketNode, startNode, freshNode, if_neg hc2, if_neg hc3,
      and_true, true_and]
    exact ⟨fun _ => trivial, fun h => absurd h (by decide), fun h => absurd h (by decide)⟩
  | exhausted key l r st hok hc hsz =>
    simp only [Tree.MomentsOK, startNode, freshNode, and_true]
    exact ⟨fun h => absurd h (by decide), fun h => absurd h (by decide),
      fun h => absurd h (by decide)⟩
  | leftRemote b key r st st1 st' rt t hok hc hr hf ih =>
    exact hfin _ _ _ _ _ _ _ _ _ hf (optLookup_moments env pc parts _ _ _ _).1 ih
  | rightRemote b key l st st1 st' lt t hok hc hl hf ih =>
    exact hfin _ _ _ _ _ _ _ _ _ hf ih (optLookup_moments env pc parts _ _ _ _).1
  | split b key l r s st st1 st2 st' lt rt t hok hc hls hsr hs1 hsN hl hr hf ih1 ih2 =>
    exact hfin _ _ _ _ _ _ _ _ _ hf ih1 ih2
  | ones b key l r st st1 st' rt t hok hc hr hf ih =>
    exact hfin _ _ _ _ _ _ _ _ _ hf (optLookup_moments env pc parts _ _ _ _).1 ih
  | zeros b key l r st st1 st' lt t hok hc hl hf ih =>
    exact hfin _ _ _ _ _ _ _ _ _ hf ih (optLookup_moments env pc parts _ _ _ _).1

theorem Built_mass {M : Type} {env : Env M} {pc : Piece} {parts : List GravityParticle}
    (hlen : parts.length = pc.myNumParticles + 2) (hl : MassLaws env)
    {bits key l r : Nat} {st st' : BuildState M} {t : Tree M}
    (h : Built env pc parts bits key l r st t st') (hc : Clean st'.cerr) :
    (∀ n ∈ t.nodes, n.type ≠ .NonLocal →
      (n.type = .Bucket ∨ n.type = .Internal ∨ n.type = .Boundary) ∧
      env.totalMass n.moments = massSum (partMass parts) n.beginParticle n.endParticle) ∧
    (∀ m, env.totalMass (t.addMomentsTo env m)
      = env.totalMass m + massSum (partMass parts) (beginOf l) (endOf pc r)) := by
  have hfin : ∀ (bits key l r : Nat) (lt rt t : Tree M) (st st' : BuildState M) (A B : Int),
      finishNode env pc (startNode env pc bits key l r) l r lt rt st = some (t, st') →
      (∀ n ∈ lt.nodes, n.type ≠ .NonLocal →
        (n.type = .Bucket ∨ n.type = .Internal ∨ n.type = .Boundary) ∧
        env.totalMass n.moments = massSum (partMass parts) n.beginParticle n.endParticle) →
      (∀ n ∈ rt.nodes, n.type ≠ .NonLocal →
        (n.type = .Bucket ∨ n.type = .Internal ∨ n.type = .Boundary) ∧
        env.totalMass n.moments = massSum (partMass parts) n.beginParticle n.endParticle) →
      (∀ m, env.totalMass (lt.addMomentsTo env m) = env.totalMass m + A) →
      (∀ m, env.totalMass (rt.addMomentsTo env m) = env.totalMass m + B) →
      A + B = massSum (partMass parts) (beginOf l) (endOf pc r) →
      (∀ n ∈ t.nodes, n.type ≠ .NonLocal →
        (n.type = .Bucket ∨ n.type = .Internal ∨ n.type = .Boundary) ∧
        env.totalMass n.moments = massSum (partMass parts) n.beginParticle n.endParticle) ∧
      (∀ m, env.totalMass (t.addMomentsTo env m)
        = env.totalMass m + massSum (partMass parts) (beginOf l) (endOf pc r)) := by
    intro bits key l r lt rt t st st' A B hf h1 h2 hA hB hAB
    obtain ⟨n, rfl, -, -, hb, he, hm⟩ := finishNode_moments hf
    have hz : (startNode env pc bits key l r).moments = env.zero := rfl
    have hb' : n.beginParticle = beginOf l := hb
    have he' : n.endParticle = endOf pc r := he
    rw [hz] at hm
    have hmass : env.totalMass n.moments
        = massSum (partMass parts) (beginOf l) (endOf pc r) := by
      rcases hm with ⟨-, hm⟩ | ⟨-, hm⟩
      · rw [hm, hB, hA, hl.1, ← hAB]; omega
      · rw [hm, hl.2.2.2.1, hB, hA, hl.1, ← hAB]; omega
    constructor
    · intro x hx hty
      simp only [Tree.nodes, List.mem_cons, List.mem_append] at hx
      rcases hx with rfl | hx | hx
      · refine ⟨?_, by rw [hmass, hb', he']⟩
        rcases hm with ⟨hty', -⟩ | ⟨hty', -⟩
        · exact Or.inr (Or.inr hty')
        · exact Or.inr (Or.inl hty')
      · exact h1 x hx hty
      · exact h2 x hx hty
    · intro m
      simp only [Tree.addMomentsTo]
      rw [hl.2.2.1, hmass]
  induction h with
  | bucket bits key l r st hok hc0 =>
    obtain ⟨-, hlr, hr, -⟩ := hok
    obtain ⟨-, hc2, hc3⟩ := hc0
    have hmass : env.totalMass (bucketNode env pc parts bits key l r).moments
        = massSum (partMass parts) (beginOf l) (endOf pc r) := by
      simp only [bucketNode, startNode, freshNode, beginOf, endOf, if_neg hc2, if_neg hc3]
      rw [hl.2.2.2.2, foldl_addParticle_mass env hl, hl.1,
        drop_take_mass parts l (r + 1 - l) (by omega)]
      have e : l + (r + 1 - l) = r + 1 := by omega
      rw [e]; omega
    constructor
    · intro n hn _
      simp only [Tree.nodes, List.append_nil, List.mem_singleton] at hn
      subst hn
      exact ⟨Or.inl rfl, hmass⟩
    · intro m
      simp only [Tree.addMomentsTo]
      rw [hl.2.2.1, hmass]
  | exhausted key l r st hok hc0 hsz =>
    have := hc (.keysExhausted l r) (by simp)
    simp [Diagnostic.isBuildFailure] at this
  | leftRemote b key r st st1 st' rt t hok hc0 hr hf ih =>
    obtain ⟨i1, i2⟩ := ih (finishNode_clean hf hc)
    refine hfin _ _ _ _ _ _ _ _ _ 0 _ hf ?_ i1 ?_ i2 ?_
    · intro n hn hty
      exact absurd ((optLookup_nodes env pc _ _ _ _).2.2.2.2.1 n hn).1 hty
    · intro m
      rw [(optLookup_moments env pc parts _ _ _ _).2 m hl]; omega
    · simp [beginOf]
  | rightRemote b key l st st1 st' lt t hok hc0 hl' hf ih =>
    obtain ⟨i1, i2⟩ := ih (optLookup_clean env pc _ _ _ _ (finishNode_clean hf hc))
    refine hfin _ _ _ _ _ _ _ _ _ _ 0 hf i1 ?_ i2 ?_ ?_
    · intro n hn hty
      exact absurd ((optLookup_nodes env pc _ _ _ _).2.2.2.2.1 n hn).1 hty
    · intro m
      rw [(optLookup_moments env pc parts _ _ _ _).2 m hl]; omega
    · simp [endOf]
  | split b key l r s st st1 st2 st' lt rt t hok hc0 hls hsr hs1 hsN hl' hr hf ih1 ih2 =>
    have hc2 := finishNode_clean hf hc
    obtain ⟨j1, j2⟩ := ih2 hc2
    obtain ⟨i1, i2⟩ := ih1 (Built_clean hr hc2)
    obtain ⟨-, -, hrN, -⟩ := hok
    refine hfin _ _ _ _ _ _ _ _ _ _ _ hf i1 j1 i2 j2 ?_
    have e1 : endOf pc (s - 1) = s := by
      unfold endOf
      rw [if_neg (by omega)]; omega
    have e2 : beginOf s = s := by
      unfold beginOf
      rw [if_neg (by omega)]
    rw [e1, e2]
    symm
    apply massSum_split
    · unfold beginOf; split <;> omega
    · unfold endOf; split <;> omega
  | ones b key l r st st1 st' rt t hok hc0 hr hf ih =>
    obtain ⟨i1, i2⟩ := ih (finishNode_clean hf hc)
    refine hfin _ _ _ _ _ _ _ _ _ 0 _ hf ?_ i1 ?_ i2 ?_
    · intro n hn hty
      exact absurd ((optLookup_nodes env pc _ _ _ _).2.2.2.2.1 n hn).1 hty
    · intro m
      rw [(optLookup_moments env pc parts _ _ _ _).2 m hl]; omega
    · simp
  | zeros b key l r st st1 st' lt t hok hc0 hl' hf ih =>
    obtain ⟨i1, i2⟩ := ih (optLookup_clean env pc _ _ _ _ (finishNode_clean hf hc))
    refine hfin _ _ _ _ _ _ _ _ _ _ 0 hf i1 ?_ i2 ?_ ?_
    · intro n hn hty
      exact absurd ((optLookup_nodes env pc _ _ _ _).2.2.2.2.1 n hn).1 hty
    · intro m
      rw [(optLookup_moments env pc parts _ _ _ _).2 m hl]; omega
    · simp

/-- C22 (amended): after `buildTree` has completed from the root on a particle array
sorted by key, sentinels included, the moments of every `Bucket` are the sum of the
moments of the particles of its `[beginParticle, endParticle)` (with the radius of the
farthest particle), and the moments of every `Boundary` or `Internal` node are the
moments of the nodes under its two child pointers added up (for an `Internal` node with
the radius of the farthest corner). When moreover the build has printed neither the
"exhausted" nor the "Bits not right" diagnostic and the moments are exact as to mass,
every node that is not a `NonLocal` placeholder is a `Bucket`, `Internal` or `Boundary`
node whose `totalMass` is the sum of the masses of the local particles of its
`[beginParticle, endParticle)`. -/
theorem C22_moments_bottom_up {M : Type} (env : Env M) (pc : Piece)
    (parts : List GravityParticle) (t : Tree M) (st : BuildState M)
    (hlen : parts.length = pc.myNumParticles + 2)
    (hsorted : ∀ i j, i ≤ j → j ≤ pc.myNumParticles + 1 → keyAt parts i ≤ keyAt parts j)
    (hkey : keyAt parts (pc.myNumParticles + 1) ≤ lastPossibleKey)
    (hbuild : buildTree env pc parts 63 firstPossibleKey 0 (pc.myNumParticles + 1)
      BuildState.initial = some (t, st)) :
    t.MomentsOK env parts ∧
    (MassLaws env → Clean st.cerr → ∀ n ∈ t.nodes, n.type ≠ .NonLocal →
      (n.type = .Bucket ∨ n.type = .Internal ∨ n.type = .Boundary) ∧
      env.totalMass n.moments
        = massSum (partMass parts) n.beginParticle n.endParticle) := by
  have hb := buildTree_built env pc parts hlen hsorted 63 firstPossibleKey 0
    (pc.myNumParticles + 1) BuildState.initial t st (root_callOK pc parts hsorted hkey) hbuild
  exact ⟨Built_moments hb, fun hl hc => (Built_mass hlen hl hb hc).1⟩

/-- C22 on piece 0 of two, which holds two particles of mass 1: the build prints nothing;
the two buckets have mass 1 each, the `Internal` nodes above them 1 and 2, the `Boundary`
root 2 and the `NonLocal` placeholder of the remote half 0. -/
theorem C22_moments_bottom_up_witness :
    (builtMembers exampleEnv pieceZero (setSentinels pieceZero partsZero)).cerr = [] ∧
    (builtTree exampleEnv pieceZero (setSentinels pieceZero partsZero)).nodes.map
      (fun n => (n.type, n.beginParticle, n.endParticle, n.moments))
      = [(.Boundary, 1, 3, 2), (.Internal, 1, 3, 2), (.Internal, 1, 2, 1), (.Bucket, 1, 2, 1),
         (.Bucket, 2, 3, 1), (.NonLocal, 0, 0, 0)] ∧
    (∀ n ∈ (builtTree exampleEnv pieceZero (setSentinels pieceZero partsZero)).nodes,
      n.type ≠ .NonLocal →
      (n.type = .Bucket ∨ n.type = .Internal ∨ n.type = .Boundary) ∧
      exampleEnv.totalMass n.moments = massSum (partMass (setSentinels pieceZero partsZero))
        n.beginParticle n.endParticle) :=
  ⟨by decide, by decide,
    (C22_moments_bottom_up exampleEnv pieceZero (setSentinels pieceZero partsZero)
      (builtTree exampleEnv pieceZero (setSentinels pieceZero partsZero))
      (builtMembers exampleEnv pieceZero (setSentinels pieceZero partsZero)) rfl
      (by
        intro i j hij hj
        have hj' : j ≤ 3 := hj
        interval_cases j <;> interval_cases i <;> decide)
      (by decide) rfl).2 exampleEnv_massLaws
      (by
        intro d hd
        have hd' : d ∈ ([] : List Diagnostic) := hd
        simp at hd')⟩

set_option maxRecDepth 100000 in
/-- C22 (the claim as stated, evaluated): on a single piece with key-sorted particles of
mass 1 and keys `2^61, 2^62, 2^62`, buckets of one particle, `buildTree` completes with
the key-exhaustion diagnostic for the two particles of equal key. The fourth node of the
tree, of key `2^62` at level 1, is an `Internal` node over the particles `[2, 4)` whose
moments are those of its only child, yet its `totalMass` is 0 and the two particles have
mass 2. -/
theorem C22_exhausted_keys_lose_mass :
    MassLaws exampleEnv ∧
    (∀ i j, i ≤ j → j ≤ tiedPiece.myNumParticles + 1 →
      keyAt tiedParticles i ≤ keyAt tiedParticles j) ∧
    (buildTree exampleEnv tiedPiece tiedParticles 63 firstPossibleKey 0 4 BuildState.initial
        = some (builtTree exampleEnv tiedPiece tiedParticles,
            builtMembers exampleEnv tiedPiece tiedParticles)) ∧
    (builtMembers exampleEnv tiedPiece tiedParticles).cerr = [.keysExhausted 2 3] ∧
    (((builtTree exampleEnv tiedPiece tiedParticles).nodes.map
      (fun n => (n.type, n.key, n.level, n.beginParticle, n.endParticle,
        exampleEnv.totalMass n.moments))).getD 3 (.Invalid, 0, 0, 0, 0, 0)
      = (.Internal, 2 ^ 62, 1, 2, 4, 0)) ∧
    massSum (partMass tiedParticles) 2 4 = 2 := by
  refine ⟨exampleEnv_massLaws, ?_, rfl, by decide, by decide, by decide⟩
  intro i j hij hj
  have hj' : j ≤ 4 := hj
  interval_cases j <;> interval_cases i <;> decide

theorem lookupKey_lt (k1 k2 b1 b2 : Nat) (h1 : 2 ^ (b1 + 1) ∣ k1) (h2 : 2 ^ (b2 + 1) ∣ k2)
    (hlt : b1 < b2) : k1 + 2 ^ b1 ≠ k2 + 2 ^ b2 := by
  intro h
  have d2 : 2 ^ (b1 + 1) ∣ k2 := Dvd.dvd.trans (pow_dvd_pow 2 (by omega)) h2
  have d3 : 2 ^ (b1 + 1) ∣ 2 ^ b2 := pow_dvd_pow 2 (by omega)
  have d4 : 2 ^ (b1 + 1) ∣ k1 + 2 ^ b1 := by rw [h]; exact Nat.dvd_add d2 d3
  have d5 : 2 ^ (b1 + 1) ∣ 2 ^ b1 := (Nat.dvd_add_right h1).1 d4
  have := Nat.le_of_dvd (Nat.two_pow_pos b1) d5
  rw [Nat.pow_succ] at this
  have := Nat.two_pow_pos b1
  omega

theorem lookupKey_inj {M : Type} (a b : SFCTreeNode M) (ha : a.level ≤ 62) (hb : b.level ≤ 62)
    (hka : 2 ^ (63 - a.level) ∣ a.key) (hkb : 2 ^ (63 - b.level) ∣ b.key)
    (h : a.lookupKey = b.lookupKey) : a.key = b.key ∧ a.level = b.level := by
  unfold SFCTreeNode.lookupKey at h
  have ea : 63 - a.level = (62 - a.level) + 1 := by omega
  have eb : 63 - b.level = (62 - b.level) + 1 := by omega
  rw [ea] at hka
  rw [eb] at hkb
  rw [or_bit _ _ hka, or_bit _ _ hkb] at h
  rcases Nat.lt_trichotomy (62 - a.level) (62 - b.level) with hlt | heq | hgt
  · exact absurd h (lookupKey_lt _ _ _ _ hka hkb hlt)
  · rw [heq] at h
    exact ⟨by omega, by omega⟩
  · exact absurd h.symm (lookupKey_lt _ _ _ _ hkb hka hgt)

theorem optLookup_keyed {M : Type} (env : Env M) (pc : Piece) (c : Prop) [Decidable c]
    (k b : Nat) (st : BuildState M) (hk : 2 ^ b ∣ k) (hb : b ≤ 63) :
    (optLookup env pc c k (63 - b) st).1.Keyed b k := by
  unfold optLookup
  split
  · unfold lookupChild
    simp only
    split
    · simp only [Tree.Keyed, freshNode, and_true, implies_true, true_and]
      exact ⟨hk, hb⟩
    · trivial
  · trivial

theorem Built_keyed {M : Type} {env : Env M} {pc : Piece} {parts : List GravityParticle}
    {bits key l r : Nat} {st st' : BuildState M} {t : Tree M}
    (h : Built env pc parts bits key l r st t st') : t.Keyed bits key := by
  have hfin : ∀ (b key l r : Nat) (lt rt t : Tree M) (st st' : BuildState M),
      CallOK pc parts (b + 1) key l r →
      finishNode env pc (startNode env pc (b + 1) key l r) l r lt rt st = some (t, st') →
      lt.Keyed b key → rt.Keyed b (key + 2 ^ b) → t.Keyed (b + 1) key := by
    intro b key l r lt rt t st st' hok hf h1 h2
    obtain ⟨n, rfl, hk, hlv, -, -⟩ := finish_visited hf
    simp only [Tree.Keyed, Nat.add_sub_cancel]
    exact ⟨hk, hlv, hok.2.2.2.1, hok.1, fun h => absurd h (by omega), h1, h2⟩
  have hdiv : ∀ (b key l r : Nat), CallOK pc parts (b + 1) key l r →
      2 ^ b ∣ key ∧ 2 ^ b ∣ key + 2 ^ b ∧ b ≤ 63 := by
    intro b key l r hok
    have hdl : 2 ^ b ∣ key := Dvd.dvd.trans (pow_dvd_pow 2 (Nat.le_succ b)) hok.2.2.2.1
    exact ⟨hdl, Nat.dvd_add hdl (dvd_refl _), by have := hok.1; omega⟩
  induction h with
  | bucket bits key l r st hok hc =>
    simp only [Tree.Keyed, and_true, implies_true]
    exact ⟨rfl, rfl, hok.2.2.2.1, hok.1⟩
  | exhausted key l r st hok hc hsz =>
    simp only [Tree.Keyed, and_true, implies_true]
    exact ⟨rfl, rfl, hok.2.2.2.1, hok.1⟩
  | leftRemote b key r st st1 st' rt t hok hc hr hf ih =>
    obtain ⟨d1, d2, d3⟩ := hdiv _ _ _ _ hok
    exact hfin _ _ _ _ _ _ _ _ _ hok hf (optLookup_keyed env pc _ _ _ _ d1 d3) ih
  | rightRemote b key l st st1 st' lt t hok hc hl hf ih =>
    obtain ⟨d1, d2, d3⟩ := hdiv _ _ _ _ hok
    exact hfin _ _ _ _ _ _ _ _ _ hok hf ih (optLookup_keyed env pc _ _ _ _ d2 d3)
  | split b key l r s st st1 st2 st' lt rt t hok hc hls hsr hs1 hsN hl hr hf ih1 ih2 =>
    exact hfin _ _ _ _ _ _ _ _ _ hok hf ih1 ih2
  | ones b key l r st st1 st' rt t hok hc hr hf ih =>
    obtain ⟨d1, d2, d3⟩ := hdiv _ _ _ _ hok
    exact hfin _ _ _ _ _ _ _ _ _ hok hf (optLookup_keyed env pc _ _ _ _ d1 d3) ih
  | zeros b key l r st st1 st' lt t hok hc hl hf ih =>
    obtain ⟨d1, d2, d3⟩ := hdiv _ _ _ _ hok
    exact hfin _ _ _ _ _ _ _ _ _ hok hf ih (optLookup_keyed env pc _ _ _ _ d2 d3)

theorem Keyed_atPath {M : Type} : ∀ (t : Tree M) (bits key : Nat) (p : List Bool)
    (a : SFCTreeNode M), t.Keyed bits key → t.atPath p = some a →
    p.length ≤ bits ∧ bits ≤ 63 ∧ a.level = 63 - bits + p.length ∧
      2 ^ (bits - p.length) ∣ a.key ∧ key ≤ a.key ∧ a.key < key + 2 ^ bits := by
  intro t
  induction t with
  | null => intro bits key p a _ h; cases p <;> simp [Tree.atPath] at h
  | node n l r ihl ihr =>
    intro bits key p a hk h
    simp only [Tree.Keyed] at hk
    obtain ⟨k1, k2, k3, k4, k5, k6, k7⟩ := hk
    have hpos := Nat.two_pow_pos bits
    cases p with
    | nil =>
      simp only [Tree.atPath, Option.some.injEq] at h
      subst h
      simp only [List.length_nil, Nat.sub_zero, Nat.add_zero]
      exact ⟨Nat.zero_le _, k4, k2, by rw [k1]; exact k3, by omega, by omega⟩
    | cons x p =>
      have hb : bits ≠ 0 := by
        intro h0
        obtain ⟨e1, e2⟩ := k5 h0
        subst e1 e2
        cases x <;> cases p <;> simp [Tree.atPath] at h
      obtain ⟨b, rfl⟩ := Nat.exists_eq_succ_of_ne_zero hb
      simp only [Nat.succ_eq_add_one, Nat.add_sub_cancel] at k6 k7
      have hpow : 2 ^ (b + 1) = 2 ^ b + 2 ^ b := by rw [Nat.pow_succ]; omega
      cases x with
      | false =>
        simp only [Tree.atPath] at h
        obtain ⟨i1, i2, i3, i4, i5, i6⟩ := ihl b key p a k6 h
        simp only [List.length_cons]
        have e : b + 1 - (p.length + 1) = b - p.length := by omega
        rw [e]
        exact ⟨by omega, k4, by omega, i4, i5, by omega⟩
      | true =>
        simp only [Tree.atPath] at h
        obtain ⟨i1, i2, i3, i4, i5, i6⟩ := ihr b (key + 2 ^ b) p a k7 h
        simp only [List.length_cons]
        have e : b + 1 - (p.length + 1) = b - p.length := by omega
        rw [e]
        exact ⟨by omega, k4, by omega, i4, by omega, by omega⟩

theorem Keyed_path_inj {M : Type} : ∀ (t : Tree M) (bits key : Nat) (p q : List Bool)
    (a b : SFCTreeNode M), t.Keyed bits key → t.atPath p = some a → t.atPath q = some b →
    p.length = q.length → a.key = b.key → p = q := by
  intro t
  induction t with
  | null => intro bits key p q a b _ h; cases p <;> simp [Tree.atPath] at h
  | node n l r ihl ihr =>
    intro bits key p q a b hk hp hq hlen hkey
    cases p with
    | nil =>
      cases q with
      | nil => rfl
      | cons y q => simp at hlen
    | cons x p =>
      cases q with
      | nil => simp at hlen
      | cons y q =>
        simp only [Tree.Keyed] at hk
        obtain ⟨k1, k2, k3, k4, k5, k6, k7⟩ := hk
        have hb : bits ≠ 0 := by
          intro h0
          obtain ⟨e1, e2⟩ := k5 h0
          subst e1 e2
          cases x <;> cases p <;> simp [Tree.atPath] at hp
        obtain ⟨c, rfl⟩ := Nat.exists_eq_succ_of_ne_zero hb
        simp only [Nat.succ_eq_add_one, Nat.add_sub_cancel] at k6 k7
        simp only [List.length_cons, Nat.add_right_cancel_iff] at hlen
        cases x <;> cases y <;> simp only [Tree.atPath] at hp hq
        · rw [ihl c key p q a b k6 hp hq hlen hkey]
        · have h1 := (Keyed_atPath l c key p a k6 hp).2.2.2.2.2
          have h2 := (Keyed_atPath r c (key + 2 ^ c) q b k7 hq).2.2.2.2.1
          omega
        · have h1 := (Keyed_atPath r c (key + 2 ^ c) p a k7 hp).2.2.2.2.1
          have h2 := (Keyed_atPath l c key q b k6 hq).2.2.2.2.2
          omega
        · rw [ihr c (key + 2 ^ c) p q a b k7 hp hq hlen hkey]

/-- C28: the lookup key `key | (1 << (62 - level))` tells nodes apart. For two nodes of
level at most 62 whose keys have no bit set below bit `63 - level`, equal lookup keys
mean equal keys and equal levels. In the tree that `buildTree` leaves on a sorted
particle array every node has such a key, and two tree positions whose nodes have level
at most 62 and the same lookup key are the same position. -/
theorem C28_lookupKey_injective {M : Type} (env : Env M) (pc : Piece)
    (parts : List GravityParticle) (t : Tree M) (st : BuildState M)
    (hlen : parts.length = pc.myNumParticles + 2)
    (hsorted : ∀ i j, i ≤ j → j ≤ pc.myNumParticles + 1 → keyAt parts i ≤ keyAt parts j)
    (hkey : keyAt parts (pc.myNumParticles + 1) ≤ lastPossibleKey)
    (hbuild : buildTree env pc parts 63 firstPossibleKey 0 (pc.myNumParticles + 1)
      BuildState.initial = some (t, st)) :
    (∀ a b : SFCTreeNode M, a.level ≤ 62 → b.level ≤ 62 →
      2 ^ (63 - a.level) ∣ a.key → 2 ^ (63 - b.level) ∣ b.key →
      a.lookupKey = b.lookupKey → a.key = b.key ∧ a.level = b.level) ∧
    (∀ p a, t.atPath p = some a →
      a.level = p.length ∧ a.level ≤ 63 ∧ 2 ^ (63 - a.level) ∣ a.key) ∧
    (∀ p q a b, t.atPath p = some a → t.atPath q = some b → a.level ≤ 62 → b.level ≤ 62 →
      a.lookupKey = b.lookupKey → p = q) := by
  have hb := buildTree_built env pc parts hlen hsorted 63 firstPossibleKey 0
    (pc.myNumParticles + 1) BuildState.initial t st (root_callOK pc parts hsorted hkey) hbuild
  have hk := Built_keyed hb
  have hpos : ∀ p a, t.atPath p = some a →
      a.level = p.length ∧ a.level ≤ 63 ∧ 2 ^ (63 - a.level) ∣ a.key := by
    intro p a hp
    obtain ⟨h1, h2, h3, h4, -, -⟩ := Keyed_atPath t 63 firstPossibleKey p a hk hp
    have e : 63 - a.level = 63 - p.length := by omega
    rw [e]
    exact ⟨by omega, by omega, h4⟩
  refine ⟨fun a b => lookupKey_inj a b, hpos, ?_⟩
  intro p q a b hp hq ha hb' h
  obtain ⟨a1, -, a3⟩ := hpos p a hp
  obtain ⟨b1, -, b3⟩ := hpos q b hq
  obtain ⟨e1, e2⟩ := lookupKey_inj a b ha hb' a3 b3 h
  exact Keyed_path_inj t 63 firstPossibleKey p q a b hk hp hq (by omega) e1

/-- C28 on a single piece with two particles: the five nodes of the tree have five
different lookup keys. -/
theorem C28_lookupKey_injective_witness :
    ((builtTree exampleEnv pairPiece pairParticles).nodes.map SFCTreeNode.lookupKey
      = [2 ^ 62, 2 ^ 61, 2 ^ 61 + 2 ^ 60, 2 ^ 62 + 2 ^ 61, 2 ^ 62 + 2 ^ 60]) ∧
    (∀ p q a b, (builtTree exampleEnv pairPiece pairParticles).atPath p = some a →
      (builtTree exampleEnv pairPiece pairParticles).atPath q = some b →
      a.level ≤ 62 → b.level ≤ 62 → a.lookupKey = b.lookupKey → p = q) :=
  ⟨by decide,
    (C28_lookupKey_injective exampleEnv pairPiece pairParticles
      (builtTree exampleEnv pairPiece pairParticles)
      (builtMembers exampleEnv pairPiece pairParticles) rfl
      (by
        intro i j hij hj
        have hj' : j ≤ 3 := hj
        interval_cases j <;> interval_cases i <;> decide)
      (by decide) rfl).2.2⟩

theorem finishNode_single {M : Type} (env : Env M) (pc : Piece) (node : SFCTreeNode M)
    (l r : Nat) (lt rt : Tree M) (st : BuildState M)
    (h0 : pc.thisIndex = 0) (h1 : pc.numTreePieces = 1) :
    ∃ n, finishNode env pc node l r lt rt st = some (.node n lt rt, st) ∧
      n.type = .Internal := by
  have hA : ¬ ((l = 0 ∧ pc.thisIndex ≠ 0) ∨
      (r = pc.myNumParticles + 1 ∧ (pc.thisIndex : Int) ≠ (pc.numTreePieces : Int) - 1)) := by
    rw [h0, h1]; simp
  unfold finishNode
  simp only
  rw [if_neg hA]
  exact ⟨_, rfl, rfl⟩

set_option maxHeartbeats 4000000 in
theorem buildTree_total {M : Type} (env : Env M) (pc : Piece) (parts : List GravityParticle)
    (hlen : parts.length = pc.myNumParticles + 2)
    (hstrict : ∀ i j, i < j → j ≤ pc.myNumParticles + 1 → keyAt parts i < keyAt parts j)
    (h0 : pc.thisIndex = 0) (h1 : pc.numTreePieces = 1) (hmbs : 1 ≤ pc.maxBucketSize)
    (hN : 1 ≤ pc.myNumParticles) :
    ∀ (bits key l r : Nat) (st : BuildState M), CallOK pc parts bits key l r →
      (l < r ∨ (l ≠ 0 ∧ r ≠ pc.myNumParticles + 1)) →
      ∃ t st', buildTree env pc parts bits key l r st = some (t, st') ∧
        st'.cerr = st.cerr := by
  have hA : ¬ (pc.thisIndex ≠ 0) := by rw [h0]; simp
  have hB : ¬ ((pc.thisIndex : Int) ≠ (pc.numTreePieces : Int) - 1) := by rw [h0, h1]; simp
  have hsorted : ∀ i j, i ≤ j → j ≤ pc.myNumParticles + 1 → keyAt parts i ≤ keyAt parts j := by
    intro i j hij hj
    rcases Nat.lt_or_ge i j with h | h
    · exact le_of_lt (hstrict i j h hj)
    · have : i = j := by omega
      subst this; exact le_refl _
  have hbucket : ∀ (bits key l r : Nat) (st : BuildState M), bucketRule pc l r →
      ∃ t st', buildTree env pc parts bits key l r st = some (t, st') ∧
        st'.cerr = st.cerr := by
    intro bits key l r st hc
    have hc' : ((r : Int) - (l : Int) < pc.maxBucketSize) ∧ l ≠ 0 ∧
        r ≠ pc.myNumParticles + 1 := hc
    unfold buildTree
    simp only
    rw [if_pos hc']
    exact ⟨_, _, rfl, rfl⟩
  intro bits
  induction bits with
  | zero =>
    intro key l r st hok hside
    obtain ⟨-, hlr, hr, -, hrange, -, -⟩ := hok
    have hl_eq : l = r := by
      by_contra hne
      have hlt : l < r := by omega
      have h3 := hstrict l r hlt hr
      have a := hrange l (le_refl _) hlr
      have b := hrange r hlr (le_refl _)
      simp only [pow_zero] at a b
      omega
    subst hl_eq
    refine hbucket 0 key l l st ⟨by omega, ?_, ?_⟩
    · rcases hside with h | h
      · omega
      · exact h.1
    · rcases hside with h | h
      · omega
      · exact h.2
  | succ b ih =>
    intro key l r st hok hside
    by_cases hc : bucketRule pc l r
    · exact hbucket (b + 1) key l r st hc
    · obtain ⟨hbits, hlr, hr, hdiv, hrange, hkl, hkr⟩ := hok
      have hnb' : ¬ (((r : Int) - (l : Int) < pc.maxBucketSize) ∧ l ≠ 0 ∧
          r ≠ pc.myNumParticles + 1) := hc
      have hlevne : ¬ (¬ ((r : Int) - (l : Int) < pc.maxBucketSize) ∧ 63 - (b + 1) = 63) := by
        intro h; omega
      unfold buildTree
      simp only
      rw [if_neg hnb', if_neg hlevne]
      have hlev : 62 - (63 - (b + 1)) = b := by omega
      have hlev1 : 63 - (b + 1) + 1 = 63 - b := by omega
      simp only [hlev, hlev1, rightChildKey]
      have hor : key ||| 2 ^ b = key + 2 ^ b := or_bit key b hdiv
      have hpow : 2 ^ (b + 1) = 2 ^ b + 2 ^ b := by rw [Nat.pow_succ]; omega
      have hpos : 0 < 2 ^ b := Nat.two_pow_pos b
      have hbl := bit_of_range key b (keyAt parts l) hdiv (hrange l (le_refl _) hlr).1
        (hrange l (le_refl _) hlr).2
      have hbr := bit_of_range key b (keyAt parts r) hdiv (hrange r hlr (le_refl _)).1
        (hrange r hlr (le_refl _)).2
      have hdl : 2 ^ b ∣ key := Dvd.dvd.trans (pow_dvd_pow 2 (Nat.le_succ b)) hdiv
      have hdr : 2 ^ b ∣ key + 2 ^ b := Nat.dvd_add hdl (dvd_refl _)
      have hb63 : b ≤ 63 := by omega
      rw [hor]
      by_cases hlt : keyAt parts l &&& 2 ^ b < keyAt parts r &&& 2 ^ b
      · rw [if_pos hlt]
        have hl1 : keyAt parts l < key + 2 ^ b := by
          by_contra hc
          rw [if_pos (by omega)] at hbl
          rw [hbl] at hlt
          split at hbr <;> omega
        have hr1 : key + 2 ^ b ≤ keyAt parts r := by
          by_contra hc
          rw [if_neg hc] at hbr
          omega
        obtain ⟨hs1, hs2, hs3, hs4⟩ := lower_bound_spec (parts.map GravityParticle.key) l r
          (key + 2 ^ b) (by simp only [List.length_map]; omega) hlr
        generalize lower_bound (parts.map GravityParticle.key) l (r + 1) (key + 2 ^ b) = s
          at hs1 hs2 hs3 hs4
        have hsl : l < s := by
          rcases Nat.lt_or_ge l s with h' | h'
          · exact h'
          · have : s = l := by omega
            subst this
            have := hs4 hlr
            unfold keyAt at hl1
            omega
        have hsr : s ≤ r := by
          by_contra hc
          have := hs3 r hlr (by omega)
          unfold keyAt at hr1
          omega
        have hleft : ∀ i, l ≤ i → i ≤ s - 1 →
            key ≤ keyAt parts i ∧ keyAt parts i < key + 2 ^ b := by
          intro i hi1 hi2
          refine ⟨(hrange i hi1 (by omega)).1, ?_⟩
          have := hs3 i hi1 (by omega)
          unfold keyAt
          exact this
        have hright : ∀ i, s ≤ i → i ≤ r →
            key + 2 ^ b ≤ keyAt parts i ∧ keyAt parts i < key + 2 ^ b + 2 ^ b := by
          intro i hi1 hi2
          refine ⟨?_, by have := (hrange i (by omega) hi2).2; omega⟩
          have h1 := hs4 hsr
          have h2 := hsorted s i hi1 (by omega)
          unfold keyAt at h2 ⊢
          omega
        have hks : keyAt parts 0 < keyAt parts s := by
          have h1 := hsorted 0 l (Nat.zero_le _) (by omega)
          have h2 := (hright s (le_refl _) hsr).1
          omega
        have hks1 : keyAt parts (s - 1) < keyAt parts (pc.myNumParticles + 1) := by
          have h1 := (hleft (s - 1) (by omega) (le_refl _)).2
          have h2 := (hright s (le_refl _) hsr).1
          have h3 := hsorted s (pc.myNumParticles + 1) (by omega) (le_refl _)
          omega
        have hokL : CallOK pc parts b key l (s - 1) :=
          ⟨hb63, by omega, by omega, hdl, hleft, hkl, fun _ => hks1⟩
        have hokR : CallOK pc parts b (key + 2 ^ b) s r :=
          ⟨hb63, hsr, hr, hdr, hright, fun _ => hks, hkr⟩
        by_cases hs1' : s = 0 + 1
        · rw [if_pos hs1', if_neg hA]
          obtain ⟨rt, st1, e, hce⟩ := ih (key + 2 ^ b) s r st hokR (by omega)
          rw [e]
          simp only
          obtain ⟨n, ef, -⟩ := finishNode_single env pc
            { freshNode env key (63 - (b + 1)) with
              beginParticle := if l = 0 then l + 1 else l
              endParticle := if r = pc.myNumParticles + 1 then r + 1 - 1 else r + 1 }
            l r .null rt st1 h0 h1
          rw [ef]
          exact ⟨_, _, rfl, hce⟩
        · rw [if_neg hs1']
          by_cases hsN : s = pc.myNumParticles + 1
          · rw [if_pos hsN]
            obtain ⟨lt, st1, e, hce⟩ := ih key l (s - 1) st hokL (by omega)
            rw [e]
            simp only
            rw [if_neg hB]
            obtain ⟨n, ef, -⟩ := finishNode_single env pc
              { freshNode env key (63 - (b + 1)) with
                beginParticle := if l = 0 then l + 1 else l
                endParticle := if r = pc.myNumParticles + 1 then r + 1 - 1 else r + 1 }
              l r lt .null st1 h0 h1
            rw [ef]
            exact ⟨_, _, rfl, hce⟩
          · rw [if_neg hsN, if_neg (by omega : ¬ s = 0)]
            obtain ⟨lt, st1, e1, hce1⟩ := ih key l (s - 1) st hokL (by omega)
            rw [e1]
            simp only
            obtain ⟨rt, st2, e2, hce2⟩ := ih (key + 2 ^ b) s r st1 hokR (by omega)
            rw [e2]
            simp only
            obtain ⟨n, ef, -⟩ := finishNode_single env pc
              { freshNode env key (63 - (b + 1)) with
                beginParticle := if l = 0 then l + 1 else l
                endParticle := if r = pc.myNumParticles + 1 then r + 1 - 1 else r + 1 }
              l r lt rt st2 h0 h1
            rw [ef]
            exact ⟨_, _, rfl, by rw [hce2, hce1]⟩
      · rw [if_neg hlt]
        by_cases hne : keyAt parts l &&& 2 ^ b &&& (keyAt parts r &&& 2 ^ b) ≠ 0
        · rw [if_pos hne]
          have hl1 : key + 2 ^ b ≤ keyAt parts l := by
            by_contra hc
            rw [if_neg hc] at hbl
            rw [hbl, Nat.zero_and] at hne
            exact hne rfl
          have hright : ∀ i, l ≤ i → i ≤ r →
              key + 2 ^ b ≤ keyAt parts i ∧ keyAt parts i < key + 2 ^ b + 2 ^ b := by
            intro i hi1 hi2
            have h2 := hsorted l i hi1 (by omega)
            have h3 := (hrange i hi1 hi2).2
            omega
          rw [if_neg (fun h : l = 0 ∧ pc.thisIndex ≠ 0 => hA h.2)]
          obtain ⟨rt, st1, e, hce⟩ := ih (key + 2 ^ b) l r st
            ⟨hb63, hlr, hr, hdr, hright, hkl, hkr⟩ hside
          rw [e]
          simp only
          obtain ⟨n, ef, -⟩ := finishNode_single env pc
            { freshNode env key (63 - (b + 1)) with
              beginParticle := if l = 0 then l + 1 else l
              endParticle := if r = pc.myNumParticles + 1 then r + 1 - 1 else r + 1 }
            l r .null rt st1 h0 h1
          rw [ef]
          exact ⟨_, _, rfl, hce⟩
        · rw [if_neg hne]
          have hngt : ¬ (keyAt parts l &&& 2 ^ b > keyAt parts r &&& 2 ^ b) := by
            intro hgt
            have h2 := hsorted l r hlr hr
            split at hbl <;> split at hbr <;> omega
          rw [if_neg hngt]
          have hr1 : keyAt parts r < key + 2 ^ b := by
            by_contra hc
            rw [if_pos (by omega)] at hbr
            rw [hbr] at hlt hngt hne
            split at hbl
            · rename_i hh
              rw [hbl, Nat.and_self] at hne
              omega
            · omega
          have hleft : ∀ i, l ≤ i → i ≤ r →
              key ≤ keyAt parts i ∧ keyAt parts i < key + 2 ^ b := by
            intro i hi1 hi2
            have h2 := hsorted i r hi2 hr
            have h3 := (hrange i hi1 hi2).1
            omega
          obtain ⟨lt, st1, e, hce⟩ := ih key l r st
            ⟨hb63, hlr, hr, hdl, hleft, hkl, hkr⟩ hside
          rw [e]
          simp only
          rw [if_neg (fun h : r = pc.myNumParticles + 1 ∧
            (pc.thisIndex : Int) ≠ (pc.numTreePieces : Int) - 1 => hB h.2)]
          obtain ⟨n, ef, -⟩ := finishNode_single env pc
            { freshNode env key (63 - (b + 1)) with
              beginParticle := if l = 0 then l + 1 else l
              endParticle := if r = pc.myNumParticles + 1 then r + 1 - 1 else r + 1 }
            l r lt .null st1 h0 h1
          rw [ef]
          exact ⟨_, _, rfl, hce⟩

theorem Built_single {M : Type} {env : Env M} {pc : Piece} {parts : List GravityParticle}
    (h0 : pc.thisIndex = 0) (h1 : pc.numTreePieces = 1)
    {bits key l r : Nat} {st st' : BuildState M} {t : Tree M}
    (h : Built env pc parts bits key l r st t st') :
    (∀ n ∈ t.nodes, n.type ≠ .Boundary ∧ n.type ≠ .NonLocal) ∧
    st'.boundaryNodesPending = st.boundaryNodesPending ∧ st'.outbox = st.outbox := by
  have hA : ¬ (pc.thisIndex ≠ 0) := by rw [h0]; simp
  have hB : ¬ ((pc.thisIndex : Int) ≠ (pc.numTreePieces : Int) - 1) := by rw [h0, h1]; simp
  have hfin : ∀ (node : SFCTreeNode M) (l r : Nat) (lt rt t : Tree M) (s1 s2 s0 : BuildState M),
      finishNode env pc node l r lt rt s1 = some (t, s2) →
      (∀ n ∈ lt.nodes, n.type ≠ .Boundary ∧ n.type ≠ .NonLocal) →
      (∀ n ∈ rt.nodes, n.type ≠ .Boundary ∧ n.type ≠ .NonLocal) →
      s1.boundaryNodesPending = s0.boundaryNodesPending ∧ s1.outbox = s0.outbox →
      (∀ n ∈ t.nodes, n.type ≠ .Boundary ∧ n.type ≠ .NonLocal) ∧
      s2.boundaryNodesPending = s0.boundaryNodesPending ∧ s2.outbox = s0.outbox := by
    intro node l r lt rt t s1 s2 s0 hf hl hr hs
    obtain ⟨n, ef, hty⟩ := finishNode_single env pc node l r lt rt s1 h0 h1
    rw [ef] at hf
    simp only [Option.some.injEq, Prod.mk.injEq] at hf
    obtain ⟨rfl, rfl⟩ := hf
    refine ⟨?_, hs⟩
    intro m hm
    simp only [Tree.nodes, List.mem_cons, List.mem_append] at hm
    rcases hm with rfl | hm | hm
    · rw [hty]; exact ⟨by decide, by decide⟩
    · exact hl m hm
    · exact hr m hm
  have hnull : ∀ n ∈ (Tree.null : Tree M).nodes, n.type ≠ .Boundary ∧ n.type ≠ .NonLocal := by
    intro n hn; simp [Tree.nodes] at hn
  induction h with
  | bucket bits key l r st hok hc =>
    refine ⟨?_, rfl, rfl⟩
    intro n hn
    simp only [Tree.nodes, List.append_nil, List.mem_singleton] at hn
    subst hn
    exact ⟨by simp [bucketNode], by simp [bucketNode]⟩
  | exhausted key l r st hok hc hsz =>
    refine ⟨?_, rfl, rfl⟩
    intro n hn
    simp only [Tree.nodes, List.append_nil, List.mem_singleton] at hn
    subst hn
    exact ⟨by simp [startNode, freshNode], by simp [startNode, freshNode]⟩
  | leftRemote b key r st st1 st' rt t hok hc hr hf ih =>
    have e := (optLookup_nodes env pc (pc.thisIndex ≠ 0) key (63 - b) st).2.2.2.2.2 hA
    rw [e] at hf ih
    exact hfin _ _ _ _ _ _ _ _ _ hf hnull ih.1 ih.2
  | rightRemote b key l st st1 st' lt t hok hc hl hf ih =>
    have e := (optLookup_nodes env pc ((pc.thisIndex : Int) ≠ (pc.numTreePieces : Int) - 1)
      (key + 2 ^ b) (63 - b) st1).2.2.2.2.2 hB
    rw [e] at hf
    exact hfin _ _ _ _ _ _ _ _ _ hf ih.1 hnull ih.2
  | split b key l r s st st1 st2 st' lt rt t hok hc hls hsr hs1 hsN hl hr hf ih1 ih2 =>
    exact hfin _ _ _ _ _ _ _ _ _ hf ih1.1 ih2.1
      ⟨by rw [ih2.2.1, ih1.2.1], by rw [ih2.2.2, ih1.2.2]⟩
  | ones b key l r st st1 st' rt t hok hc hr hf ih =>
    have e := (optLookup_nodes env pc (l = 0 ∧ pc.thisIndex ≠ 0) key (63 - b) st).2.2.2.2.2
      (fun h => hA h.2)
    rw [e] at hf ih
    exact hfin _ _ _ _ _ _ _ _ _ hf hnull ih.1 ih.2
  | zeros b key l r st st1 st' lt t hok hc hl hf ih =>
    have e := (optLookup_nodes env pc (r = pc.myNumParticles + 1 ∧
      (pc.thisIndex : Int) ≠ (pc.numTreePieces : Int) - 1) (key + 2 ^ b) (63 - b)
      st1).2.2.2.2.2 (fun h => hB h.2)
    rw [e] at hf
    exact hfin _ _ _ _ _ _ _ _ _ hf ih.1 hnull ih.2

theorem Built_numBuckets {M : Type} {env : Env M} {pc : Piece} {parts : List GravityParticle}
    {bits key l r : Nat} {st st' : BuildState M} {t : Tree M}
    (h : Built env pc parts bits key l r st t st') :
    st'.numBuckets + st.bucketList.length = st.numBuckets + st'.bucketList.length := by
  induction h with
  | bucket bits key l r st hok hc => simp only [List.length_append, List.length_singleton]; omega
  | exhausted key l r st hok hc hsz => rfl
  | leftRemote b key r st st1 st' rt t hok hc hr hf ih =>
    obtain ⟨n', -, -, -, -, -, -, e1, e2⟩ := finishNode_some hf
    obtain ⟨o1, o2, -⟩ := optLookup_nodes env pc (pc.thisIndex ≠ 0) key (63 - b) st
    rw [o1, o2] at ih
    rw [e1, e2]; exact ih
  | rightRemote b key l st st1 st' lt t hok hc hl hf ih =>
    obtain ⟨n', -, -, -, -, -, -, e1, e2⟩ := finishNode_some hf
    obtain ⟨o1, o2, -⟩ := optLookup_nodes env pc
      ((pc.thisIndex : Int) ≠ (pc.numTreePieces : Int) - 1) (key + 2 ^ b) (63 - b) st1
    rw [e1, e2, o1, o2]; exact ih
  | split b key l r s st st1 st2 st' lt rt t hok hc hls hsr hs1 hsN hl hr hf ih1 ih2 =>
    obtain ⟨n', -, -, -, -, -, -, e1, e2⟩ := finishNode_some hf
    rw [e1, e2]; omega
  | ones b key l r st st1 st' rt t hok hc hr hf ih =>
    obtain ⟨n', -, -, -, -, -, -, e1, e2⟩ := finishNode_some hf
    obtain ⟨o1, o2, -⟩ := optLookup_nodes env pc (l = 0 ∧ pc.thisIndex ≠ 0) key (63 - b) st
    rw [o1, o2] at ih
    rw [e1, e2]; exact ih
  | zeros b key l r st st1 st' lt t hok hc hl hf ih =>
    obtain ⟨n', -, -, -, -, -, -, e1, e2⟩ := finishNode_some hf
    obtain ⟨o1, o2, -⟩ := optLookup_nodes env pc (r = pc.myNumParticles + 1 ∧
      (pc.thisIndex : Int) ≠ (pc.numTreePieces : Int) - 1) (key + 2 ^ b) (63 - b) st1
    rw [e1, e2, o1, o2]; exact ih

theorem Tiles_unit : ∀ (xs : List (Nat × Nat)) (a b : Nat), Tiles xs a b →
    (∀ q ∈ xs, q.2 ≤ q.1 + 1) →
    xs = (List.range' a (b - a)).map (fun i => (i, i + 1)) := by
  intro xs
  induction xs with
  | nil =>
    intro a b h _
    simp only [Tiles] at h
    subst h
    simp
  | cons x xs ih =>
    intro a b h hq
    obtain ⟨x1, x2⟩ := x
    simp only [Tiles] at h
    obtain ⟨rfl, h2, h3⟩ := h
    have hx := hq (x1, x2) (List.mem_cons_self _ _)
    simp only at hx
    have e : x2 = x1 + 1 := by omega
    subst e
    have hb := (Tiles_bounds h3).1
    have e2 : b - x1 = (b - (x1 + 1)) + 1 := by omega
    rw [e2, List.range'_succ, List.map_cons, ← ih (x1 + 1) b h3
      (fun q hq' => hq q (List.mem_cons_of_mem _ hq'))]

theorem sentinel_call_undefined {M : Type} (env : Env M) (pc : Piece)
    (parts : List GravityParticle) (hmbs : 0 < pc.maxBucketSize) (l : Nat)
    (hl : l = 0 ∨ l = pc.myNumParticles + 1) :
    ∀ (bits key : Nat) (st : BuildState M), buildTree env pc parts bits key l l st = none := by
  have hnb : ¬ (((l : Int) - (l : Int) < pc.maxBucketSize) ∧ l ≠ 0 ∧
      l ≠ pc.myNumParticles + 1) := by
    intro h
    rcases hl with h' | h'
    · exact h.2.1 h'
    · exact h.2.2 h'
  intro bits
  induction bits with
  | zero =>
    intro key st
    unfold buildTree
    simp only
    rw [if_neg hnb, if_neg (by intro h; exact h.1 (by omega))]
  | succ b ih =>
    intro key st
    unfold buildTree
    simp only
    rw [if_neg hnb, if_neg (by intro h; exact h.1 (by omega)), if_neg (Nat.lt_irrefl _)]
    by_cases hne : keyAt parts l &&& 2 ^ (62 - (63 - (b + 1))) &&&
        (keyAt parts l &&& 2 ^ (62 - (63 - (b + 1)))) ≠ 0
    · rw [if_pos hne, ih]
    · rw [if_neg hne, if_neg (Nat.lt_irrefl _), ih]

theorem empty_piece_undefined {M : Type} (env : Env M) (pc : Piece)
    (parts : List GravityParticle) (h0 : pc.thisIndex = 0) (h1 : pc.numTreePieces = 1)
    (hN : pc.myNumParticles = 0) (hmbs : 0 < pc.maxBucketSize) (hlen : parts.length = 2) :
    buildTree env pc (setSentinels pc parts) 63 firstPossibleKey 0 (pc.myNumParticles + 1)
      BuildState.initial = none ∧
    startTreeBuild env pc parts = none := by
  have hkeys : (setSentinels pc parts).map GravityParticle.key = [0, 2 ^ 63 - 1] := by
    match parts, hlen with
    | [a, b], _ =>
      simp [setSentinels, hN, h0, h1, firstPossibleKey, lastPossibleKey]
  have hb : buildTree env pc (setSentinels pc parts) 63 firstPossibleKey 0
      (pc.myNumParticles + 1) BuildState.initial = none := by
    have hnb : ¬ ((((pc.myNumParticles + 1 : Nat) : Int) - ((0 : Nat) : Int) < pc.maxBucketSize) ∧
        0 ≠ 0 ∧ pc.myNumParticles + 1 ≠ pc.myNumParticles + 1) := fun h => h.2.1 rfl
    unfold buildTree
    simp only
    rw [if_neg hnb, if_neg (by intro h; exact absurd h.2 (by decide))]
    simp only [keyAt, hkeys, hN, firstPossibleKey]
    rw [if_pos (by decide), if_pos (by decide)]
    have hs := sentinel_call_undefined env pc (setSentinels pc parts) hmbs 1
      (Or.inr (by rw [hN]))
    have e : lower_bound [0, 2 ^ 63 - 1] 0 (0 + 1 + 1) (0 ||| 2 ^ (62 - (63 - 63))) = 1 := by
      decide
    rw [e, hs]
  refine ⟨hb, ?_⟩
  unfold startTreeBuild
  simp only
  rw [hb]

/-- C25 (amended): a single piece (`numTreePieces = 1`) with buckets of one particle, the
particles sorted by key with pairwise distinct keys strictly between `firstPossibleKey`
and `lastPossibleKey`. When the piece holds at least one particle, `startTreeBuild`
completes without a diagnostic; `bucketList` has exactly `myNumParticles` buckets, the
`i`-th of them holding the particle `i` alone, and `numBuckets` is `myNumParticles`; the
tree has no `Boundary` and no `NonLocal` node; `boundaryNodesPending` is 0 and the piece
signals that its tree is ready right after the build. When the piece holds no particle,
the build is undefined: the call for the right sentinel alone runs down to level 63,
where it is neither a bucket nor stopped by the level test, and shifts by a negative
count. -/
theorem C25_one_bucket_per_particle {M : Type} (env : Env M) (pc : Piece)
    (parts : List GravityParticle)
    (hlen : parts.length = pc.myNumParticles + 2)
    (h0 : pc.thisIndex = 0) (h1 : pc.numTreePieces = 1) (hmbs : pc.maxBucketSize = 1)
    (hsorted : ∀ i j, 1 ≤ i → i ≤ j → j ≤ pc.myNumParticles → keyAt parts i ≤ keyAt parts j)
    (hdistinct : ∀ i j, 1 ≤ i → i < j → j ≤ pc.myNumParticles →
      keyAt parts i ≠ keyAt parts j)
    (hinside : ∀ i, 1 ≤ i → i ≤ pc.myNumParticles →
      firstPossibleKey < keyAt parts i ∧ keyAt parts i < lastPossibleKey) :
    (1 ≤ pc.myNumParticles →
      ∃ ps bs pst, startTreeBuild env pc parts = some (ps, bs, pst) ∧
        bs.cerr = [] ∧ bs.bucketList.length = pc.myNumParticles ∧
        bs.numBuckets = pc.myNumParticles ∧
        bs.bucketList.map SFCTreeNode.range
          = (List.range' 1 pc.myNumParticles).map (fun i => (i, i + 1)) ∧
        (∀ n ∈ pst.root.nodes, n.type ≠ .Boundary ∧ n.type ≠ .NonLocal) ∧
        bs.boundaryNodesPending = 0 ∧ pst.boundaryNodesPending = 0 ∧ pst.treeReady = 1) ∧
    (pc.myNumParticles = 0 → startTreeBuild env pc parts = none) := by
  constructor
  · intro hN
    have hlen' : (setSentinels pc parts).length = pc.myNumParticles + 2 := by
      unfold setSentinels
      simp only [List.length_set]
      exact hlen
    obtain ⟨k0, kN, kmid⟩ := setSentinels_keys pc parts hlen
    rw [if_pos h0] at k0
    rw [if_pos (by rw [h0, h1]; simp)] at kN
    have hfl : firstPossibleKey < lastPossibleKey := by decide
    have hstrict : ∀ i j, i < j → j ≤ pc.myNumParticles + 1 →
        keyAt (setSentinels pc parts) i < keyAt (setSentinels pc parts) j := by
      intro i j hij hj
      by_cases hi0 : i = 0
      · subst hi0
        rw [k0]
        by_cases hjN : j = pc.myNumParticles + 1
        · subst hjN; rw [kN]; exact hfl
        · rw [kmid j (by omega) (by omega)]
          exact (hinside j (by omega) (by omega)).1
      · by_cases hjN : j = pc.myNumParticles + 1
        · subst hjN
          rw [kN, kmid i (by omega) (by omega)]
          exact (hinside i (by omega) (by omega)).2
        · rw [kmid i (by omega) (by omega), kmid j (by omega) (by omega)]
          have h1' := hsorted i j (by omega) (by omega) (by omega)
          have h2' := hdistinct i j (by omega) hij (by omega)
          omega
    have hsorted' : ∀ i j, i ≤ j → j ≤ pc.myNumParticles + 1 →
        keyAt (setSentinels pc parts) i ≤ keyAt (setSentinels pc parts) j := by
      intro i j hij hj
      rcases Nat.lt_or_ge i j with h | h
      · exact le_of_lt (hstrict i j h hj)
      · have : i = j := by omega
        subst this; exact le_refl _
    have hkey : keyAt (setSentinels pc parts) (pc.myNumParticles + 1) ≤ lastPossibleKey := by
      rw [kN]
    have hok := root_callOK pc (setSentinels pc parts) hsorted' hkey
    obtain ⟨t, bs, hbuild, hcerr⟩ := buildTree_total env pc (setSentinels pc parts) hlen' hstrict
      h0 h1 (by rw [hmbs]) hN 63 firstPossibleKey 0 (pc.myNumParticles + 1) BuildState.initial
      hok (Or.inl (by omega))
    have hcerr' : bs.cerr = [] := hcerr
    have hclean : Clean bs.cerr := by
      rw [hcerr']
      intro d hd
      simp at hd
    have hb := buildTree_built env pc (setSentinels pc parts) hlen' hsorted' 63 firstPossibleKey 0
      (pc.myNumParticles + 1) BuildState.initial t bs hok hbuild
    obtain ⟨s1, s2, -⟩ := Built_single h0 h1 hb
    have s3 := Built_numBuckets hb
    obtain ⟨-, -, bsl, e1, ht⟩ := buildTree_tiles env pc (setSentinels pc parts) hlen' hsorted' 63
      firstPossibleKey 0 (pc.myNumParticles + 1) BuildState.initial t bs hok.1 hok.2.1 hok.2.2.1
      hok.2.2.2.1 hok.2.2.2.2.1 hbuild hclean
    obtain ⟨-, bsl', e2, hbk⟩ := buildTree_buckets env pc (setSentinels pc parts) hlen' hsorted' 63
      firstPossibleKey 0 (pc.myNumParticles + 1) BuildState.initial t bs hok.1 hok.2.1 hok.2.2.1
      hok.2.2.2.1 hok.2.2.2.2.1 hok.2.2.2.2.2.1 hok.2.2.2.2.2.2 hbuild
    simp only [BuildState.initial, List.nil_append] at e1 e2
    rw [e1] at e2
    subst e2
    simp only [if_true] at ht
    have hu := Tiles_unit _ _ _ ht (by
      intro q hq
      obtain ⟨n, hn, rfl⟩ := List.mem_map.1 hq
      have := (hbk n hn).2.2.2.1
      rw [hmbs] at this
      simp only [SFCTreeNode.range]
      omega)
    have e3 : pc.myNumParticles + 1 - 1 = pc.myNumParticles := by omega
    rw [e3] at hu
    have hlenb : bs.bucketList.length = pc.myNumParticles := by
      have := congrArg List.length hu
      simp only [List.length_map, List.length_range'] at this
      rw [e1]; exact this
    refine ⟨setSentinels pc parts, bs,
      { root := t, boundaryNodesPending := bs.boundaryNodesPending, outbox := bs.outbox,
        cerr := bs.cerr, treeReady := if bs.boundaryNodesPending = 0 then 1 else 0 },
      ?_, hcerr', hlenb, ?_, by rw [e1]; exact hu, s1, s2, ?_, ?_⟩
    · unfold startTreeBuild
      simp only
      rw [hbuild]
    · simp only [BuildState.initial, List.length_nil] at s3
      omega
    · have s2' : bs.boundaryNodesPending = 0 := s2
      simp only [s2']
      rfl
    · have s2' : bs.boundaryNodesPending = 0 := s2
      simp only [s2', if_true]
  · intro hN
    exact (empty_piece_undefined env pc parts h0 h1 hN (by rw [hmbs]; decide)
      (by rw [hlen, hN])).2

/-- C25 at concrete inputs. On a single piece with two particles of keys `2^61` and
`2^62` the build gives two buckets, one per particle, and the tree is ready after the
build. On a single piece that holds no particle the build is undefined. -/
theorem C25_one_bucket_per_particle_witness :
    (∃ ps bs pst, startTreeBuild exampleEnv pairPiece pairParticles = some (ps, bs, pst) ∧
      bs.bucketList.map SFCTreeNode.range = [(1, 2), (2, 3)] ∧ pst.treeReady = 1) ∧
    startTreeBuild exampleEnv emptyPiece noParticles = none := by
  constructor
  · obtain ⟨ps, bs, pst, h1, -, -, -, h5, -, -, -, h9⟩ :=
      (C25_one_bucket_per_particle exampleEnv pairPiece pairParticles rfl rfl rfl rfl
        (by
          intro i j hi hij hj
          have hj' : j ≤ 2 := hj
          interval_cases j <;> interval_cases i <;> decide)
        (by
          intro i j hi hij hj
          have hj' : j ≤ 2 := hj
          have ei : i = 1 := by omega
          have ej : j = 2 := by omega
          subst ei ej
          decide)
        (by
          intro i hi hj
          have hj' : i ≤ 2 := hj
          interval_cases i <;> decide)).1 (by decide)
    exact ⟨ps, bs, pst, h1, h5, h9⟩
  · exact (C25_one_bucket_per_particle exampleEnv emptyPiece noParticles rfl rfl rfl rfl
      (by
        intro i j hi hij hj
        have hj' : j ≤ 0 := hj
        omega)
      (by
        intro i j hi hij hj
        have hj' : j ≤ 0 := hj
        omega)
      (by
        intro i hi hj
        have hj' : i ≤ 0 := hj
        omega)).2 rfl

/-- C25 (the claim as stated, evaluated): a single piece with buckets of one particle that
holds no particle meets the conditions of the claim, yet the build does not give zero
buckets and a ready tree: it is undefined, from the root and hence in `startTreeBuild`. -/
theorem C25_empty_piece_undefined :
    emptyPiece.numTreePieces = 1 ∧ emptyPiece.maxBucketSize = 1 ∧
    noParticles.length = emptyPiece.myNumParticles + 2 ∧
    (∀ i j, 1 ≤ i → i < j → j ≤ emptyPiece.myNumParticles →
      keyAt noParticles i ≠ keyAt noParticles j) ∧
    (∀ i, 1 ≤ i → i ≤ emptyPiece.myNumParticles →
      firstPossibleKey < keyAt noParticles i ∧ keyAt noParticles i < lastPossibleKey) ∧
    buildTree exampleEnv emptyPiece (setSentinels emptyPiece noParticles) 63 firstPossibleKey
      0 1 BuildState.initial = none ∧
    startTreeBuild exampleEnv emptyPiece noParticles = none := by
  have h := empty_piece_undefined exampleEnv emptyPiece noParticles rfl rfl rfl
    (by decide) rfl
  refine ⟨rfl, rfl, rfl, ?_, ?_, h.1, h.2⟩
  · intro i j hi hij hj
    have hj' : j ≤ 0 := hj
    omega
  · intro i hi hj
    have hj' : i ≤ 0 := hj
    omega

/-! ### Cache lines -/

theorem copySFCTreeNode_some {M : Type} (thisIndex : Nat) (tmp node : SFCTreeNode M) :
    copySFCTreeNode thisIndex tmp (some node) =
      if node.type = .Invalid then none else some (copiedNode thisIndex tmp node) := by
  unfold copySFCTreeNode copiedNode
  simp only
  by_cases h : node.type = .Invalid
  · rw [if_pos h, if_pos h]
  · rw [if_neg h, if_neg h]
    by_cases h2 : node.type = .Boundary ∨ node.type = .Internal ∨ node.type = .Bucket
    · rw [if_pos h2, if_pos h2]
    · rw [if_neg h2, if_neg h2]

theorem prefixCopyNode_step {M : Type} (env : Env M) (w : Walker M)
    (nodeLookup : Nat → Option (SFCTreeNode M)) (rem k : Nat) (node : SFCTreeNode M) :
    prefixCopyNode env w nodeLookup (rem + 1) (some node) k =
      if node.type = .Invalid ∨ k ≠ env.lookupKey node.key node.level then ([], false)
      else if (prefixCopyNode env w nodeLookup rem
          (nodeLookup (w.leftChildLookupKey node.key node.level))
          (w.leftChildLookupKey node.key node.level)).2 = true then
        ((k, copiedNode w.thisIndex (freshNode env 0 0) node) ::
          ((prefixCopyNode env w nodeLookup rem
              (nodeLookup (w.leftChildLookupKey node.key node.level))
              (w.leftChildLookupKey node.key node.level)).1 ++
            (prefixCopyNode env w nodeLookup rem
              (nodeLookup (w.rightChildLookupKey node.key node.level))
              (w.rightChildLookupKey node.key node.level)).1),
          (prefixCopyNode env w nodeLookup rem
            (nodeLookup (w.rightChildLookupKey node.key node.level))
            (w.rightChildLookupKey node.key node.level)).2)
      else
        ((k, copiedNode w.thisIndex (freshNode env 0 0) node) ::
          (prefixCopyNode env w nodeLookup rem
            (nodeLookup (w.leftChildLookupKey node.key node.level))
            (w.leftChildLookupKey node.key node.level)).1, false) := by
  rw [prefixCopyNode, copySFCTreeNode_some]
  by_cases h : node.type = .Invalid
  · simp only [h, if_true, true_or]
  · by_cases hk : k = env.lookupKey node.key node.level
    · simp only [h, if_false, hk, if_true, false_or, ne_eq, not_true_eq_false]
    · simp only [h, if_false, hk, false_or, ne_eq, not_false_eq_true, if_true]

theorem prefixCopyNode_null {M : Type} (env : Env M) (w : Walker M)
    (nodeLookup : Nat → Option (SFCTreeNode M)) (rem k : Nat) :
    prefixCopyNode env w nodeLookup (rem + 1) none k =
      ([(k, { freshNode env 0 0 with type := .Empty })], true) := by
  rw [prefixCopyNode]
  rfl

theorem prefixCopyNode_length {M : Type} (env : Env M) (w : Walker M)
    (nodeLookup : Nat → Option (SFCTreeNode M)) :
    ∀ (rem : Nat) (node : Option (SFCTreeNode M)) (k : Nat),
      (prefixCopyNode env w nodeLookup rem node k).1.length ≤ 2 ^ rem - 1 ∧
      ((prefixCopyNode env w nodeLookup rem node k).2 = false →
        (prefixCopyNode env w nodeLookup rem node k).1.length < 2 ^ rem - 1) ∧
      (0 < rem → (prefixCopyNode env w nodeLookup rem node k).2 = true →
        1 ≤ (prefixCopyNode env w nodeLookup rem node k).1.length) := by
  intro rem
  induction rem with
  | zero => intro node k; simp [prefixCopyNode]
  | succ r ih =>
    intro node k
    have hpos := Nat.two_pow_pos r
    have hpow : 2 ^ (r + 1) = 2 ^ r + 2 ^ r := by rw [Nat.pow_succ]; omega
    cases node with
    | none =>
      rw [prefixCopyNode_null]
      simp only [List.length_singleton]
      refine ⟨by omega, fun h => absurd h (by simp), fun _ _ => le_refl 1⟩
    | some n =>
      rw [prefixCopyNode_step]
      obtain ⟨l1, l2, -⟩ := ih (nodeLookup (w.leftChildLookupKey n.key n.level))
        (w.leftChildLookupKey n.key n.level)
      obtain ⟨r1, r2, -⟩ := ih (nodeLookup (w.rightChildLookupKey n.key n.level))
        (w.rightChildLookupKey n.key n.level)
      split_ifs with h1 h2
      · simp only [List.length_nil]
        refine ⟨by omega, fun _ => by omega, fun _ h => absurd h (by simp)⟩
      · simp only [List.length_cons, List.length_append]
        refine ⟨by omega, fun h => ?_, fun _ _ => by omega⟩
        have := r2 h
        omega
      · simp only [List.length_cons]
        have hl : (prefixCopyNode env w nodeLookup r
            (nodeLookup (w.leftChildLookupKey n.key n.level))
            (w.leftChildLookupKey n.key n.level)).2 = false := by
          simpa using h2
        have := l2 hl
        refine ⟨by omega, fun _ => by omega, fun _ h => absurd h (by simp)⟩

theorem prefixCopyNode_returned {M : Type} (env : Env M) (w : Walker M)
    (nodeLookup : Nat → Option (SFCTreeNode M)) (rem k : Nat) (node : SFCTreeNode M)
    (h : (prefixCopyNode env w nodeLookup (rem + 1) (some node) k).2 = true) :
    (node.type ≠ .Invalid ∧ k = env.lookupKey node.key node.level) ∧
    (prefixCopyNode env w nodeLookup rem
      (nodeLookup (w.leftChildLookupKey node.key node.level))
      (w.leftChildLookupKey node.key node.level)).2 = true ∧
    (prefixCopyNode env w nodeLookup rem
      (nodeLookup (w.rightChildLookupKey node.key node.level))
      (w.rightChildLookupKey node.key node.level)).2 = true ∧
    (prefixCopyNode env w nodeLookup (rem + 1) (some node) k).1 =
      (k, copiedNode w.thisIndex (freshNode env 0 0) node) ::
        ((prefixCopyNode env w nodeLookup rem
            (nodeLookup (w.leftChildLookupKey node.key node.level))
            (w.leftChildLookupKey node.key node.level)).1 ++
          (prefixCopyNode env w nodeLookup rem
            (nodeLookup (w.rightChildLookupKey node.key node.level))
            (w.rightChildLookupKey node.key node.level)).1) := by
  rw [prefixCopyNode_step] at h ⊢
  by_cases c1 : node.type = .Invalid ∨ k ≠ env.lookupKey node.key node.level
  · rw [if_pos c1] at h
    exact absurd h (by simp)
  · rw [if_neg c1] at h ⊢
    have hc : node.type ≠ .Invalid ∧ k = env.lookupKey node.key node.level := by
      constructor
      · exact fun e => c1 (Or.inl e)
      · by_contra e
        exact c1 (Or.inr e)
    by_cases c2 : (prefixCopyNode env w nodeLookup rem
        (nodeLookup (w.leftChildLookupKey node.key node.level))
        (w.leftChildLookupKey node.key node.level)).2 = true
    · rw [if_pos c2] at h ⊢
      exact ⟨hc, c2, h, rfl⟩
    · rw [if_neg c2] at h
      exact absurd h (by simp)

theorem prefixCopyNode_full {M : Type} (env : Env M) (w : Walker M)
    (nodeLookup : Nat → Option (SFCTreeNode M)) :
    ∀ (rem k : Nat), (prefixCopyNode env w nodeLookup rem (nodeLookup k) k).2 = true →
      ((prefixCopyNode env w nodeLookup rem (nodeLookup k) k).1.length = 2 ^ rem - 1 ↔
        FullLine w nodeLookup rem k) := by
  intro rem
  induction rem with
  | zero => intro k _; simp [prefixCopyNode, FullLine]
  | succ r ih =>
    intro k hret
    have hpos := Nat.two_pow_pos r
    have hpow : 2 ^ (r + 1) = 2 ^ r + 2 ^ r := by rw [Nat.pow_succ]; omega
    simp only [FullLine]
    cases hk : nodeLookup k with
    | none =>
      rw [prefixCopyNode_null]
      simp only [List.length_singleton]
      constructor
      · intro h
        left
        by_contra hr
        have : 2 ≤ 2 ^ r := by
          obtain ⟨r', rfl⟩ := Nat.exists_eq_succ_of_ne_zero hr
          have := Nat.two_pow_pos r'
          rw [Nat.pow_succ]; omega
        omega
      · intro h
        rcases h with h | ⟨n, hn, -⟩
        · subst h; rfl
        · exact absurd hn (by simp)
    | some n =>
      rw [hk] at hret
      obtain ⟨-, c2, c3, hrec⟩ := prefixCopyNode_returned env w nodeLookup r k n hret
      rw [hrec]
      have h1 := (prefixCopyNode_length env w nodeLookup r
        (nodeLookup (w.leftChildLookupKey n.key n.level))
        (w.leftChildLookupKey n.key n.level)).1
      have h2 := (prefixCopyNode_length env w nodeLookup r
        (nodeLookup (w.rightChildLookupKey n.key n.level))
        (w.rightChildLookupKey n.key n.level)).1
      have i1 := ih (w.leftChildLookupKey n.key n.level) c2
      have i2 := ih (w.rightChildLookupKey n.key n.level) c3
      simp only [List.length_cons, List.length_append]
      constructor
      · intro h
        right
        exact ⟨n, rfl, i1.1 (by omega), i2.1 (by omega)⟩
      · intro h
        rcases h with h | ⟨m, hm, f1, f2⟩
        · subst h
          simp only [prefixCopyNode, List.length_nil]
          rfl
        · simp only [Option.some.injEq] at hm
          subst hm
          have := i1.2 f1
          have := i2.2 f2
          omega

theorem prefixCopyNode_cacheLine {M : Type} (env : Env M) (w : Walker M)
    (nodeLookup : Nat → Option (SFCTreeNode M)) :
    ∀ (rem k : Nat), (prefixCopyNode env w nodeLookup rem (nodeLookup k) k).2 = true →
      (prefixCopyNode env w nodeLookup rem (nodeLookup k) k).1
        = cacheLine env w nodeLookup rem k := by
  intro rem
  induction rem with
  | zero => intro k _; simp [prefixCopyNode, cacheLine]
  | succ r ih =>
    intro k hret
    simp only [cacheLine]
    cases hk : nodeLookup k with
    | none => rw [prefixCopyNode_null]
    | some n =>
      rw [hk] at hret
      obtain ⟨-, c2, c3, hrec⟩ := prefixCopyNode_returned env w nodeLookup r k n hret
      rw [hrec, ih _ c2, ih _ c3]

theorem prefixCopyNode_returns {M : Type} (env : Env M) (w : Walker M)
    (nodeLookup : Nat → Option (SFCTreeNode M))
    (hcons : ∀ k node, nodeLookup k = some node →
      node.type ≠ .Invalid ∧ env.lookupKey node.key node.level = k) :
    ∀ (rem k : Nat), (prefixCopyNode env w nodeLookup rem (nodeLookup k) k).2 = true := by
  intro rem
  induction rem with
  | zero => intro k; simp [prefixCopyNode]
  | succ r ih =>
    intro k
    cases hk : nodeLookup k with
    | none => rw [prefixCopyNode_null]
    | some n =>
      obtain ⟨hty, hkey⟩ := hcons k n hk
      rw [prefixCopyNode_step]
      have hno : ¬ (n.type = .Invalid ∨ k ≠ env.lookupKey n.key n.level) := by
        intro h
        rcases h with h | h
        · exact hty h
        · exact h hkey.symm
      rw [if_neg hno, if_pos (ih _)]
      exact ih _

theorem prefixCopyNode_copies {M : Type} (env : Env M) (w : Walker M)
    (nodeLookup : Nat → Option (SFCTreeNode M)) :
    ∀ (rem k : Nat), (prefixCopyNode env w nodeLookup rem (nodeLookup k) k).2 = true →
      ∀ x ∈ (prefixCopyNode env w nodeLookup rem (nodeLookup k) k).1,
        (nodeLookup x.1 = none → x.2.type = .Empty) ∧
        (∀ node, nodeLookup x.1 = some node →
          copySFCTreeNode w.thisIndex (freshNode env 0 0) (some node) = some x.2) := by
  intro rem
  induction rem with
  | zero => intro k _ x hx; simp [prefixCopyNode] at hx
  | succ r ih =>
    intro k hret x hx
    cases hk : nodeLookup k with
    | none =>
      rw [hk, prefixCopyNode_null] at hx
      simp only [List.mem_singleton] at hx
      subst hx
      exact ⟨fun _ => rfl, fun n hn => by rw [hk] at hn; exact absurd hn (by simp)⟩
    | some n =>
      rw [hk] at hret hx
      obtain ⟨c1, c2, c3, hrec⟩ := prefixCopyNode_returned env w nodeLookup r k n hret
      rw [hrec] at hx
      simp only [List.mem_cons, List.mem_append] at hx
      rcases hx with rfl | hx | hx
      · refine ⟨fun h => by rw [hk] at h; exact absurd h (by simp), fun m hm => ?_⟩
        simp only at hm
        rw [hk] at hm
        simp only [Option.some.injEq] at hm
        subst hm
        rw [copySFCTreeNode_some, if_neg c1.1]
      · exact ih _ c2 x hx
      · exact ih _ c3 x hx

/-- C26 (amended): for a node stored in `nodeLookup` under the lookup key `k` and a cache
line depth `d ≥ 1`, `prefixCopyNode` started at depth 0 writes at most `2^d - 1` records.
It fails its first assertion, where the program aborts with no record written, when the
node is of kind `Invalid` or is stored under another key than its own lookup key, and it
returns when no node in `nodeLookup` is `Invalid` and each is stored under its own lookup
key.
When it returns, it has written at least one record, and exactly `2^d - 1` of them if
and only if every tree position above the last level of the line holds a node; the
records are those of the cache line in pre-order (the position, then the positions under
its left child, then those under its right child), each keyed by the lookup key of its
position and holding the copy `copySFCTreeNode` makes of the node stored there; a
position without a node is written as one record of kind `Empty`, and the positions
below it are not written. -/
theorem C26_prefixCopyNode_records {M : Type} (env : Env M) (w : Walker M)
    (nodeLookup : Nat → Option (SFCTreeNode M)) (d k : Nat) (node : SFCTreeNode M)
    (hd : 1 ≤ d) (hk : nodeLookup k = some node) :
    (prefixCopyNode env w nodeLookup d (some node) k).1.length ≤ 2 ^ d - 1 ∧
    (node.type = .Invalid ∨ k ≠ env.lookupKey node.key node.level →
      prefixCopyNode env w nodeLookup d (some node) k = ([], false)) ∧
    ((∀ k' n, nodeLookup k' = some n →
        n.type ≠ .Invalid ∧ env.lookupKey n.key n.level = k') →
      (prefixCopyNode env w nodeLookup d (some node) k).2 = true) ∧
    ((prefixCopyNode env w nodeLookup d (some node) k).2 = true →
      1 ≤ (prefixCopyNode env w nodeLookup d (some node) k).1.length ∧
      ((prefixCopyNode env w nodeLookup d (some node) k).1.length = 2 ^ d - 1 ↔
        FullLine w nodeLookup d k) ∧
      (prefixCopyNode env w nodeLookup d (some node) k).1 = cacheLine env w nodeLookup d k ∧
      ∀ x ∈ (prefixCopyNode env w nodeLookup d (some node) k).1,
        (nodeLookup x.1 = none → x.2.type = .Empty) ∧
        (∀ n, nodeLookup x.1 = some n →
          copySFCTreeNode w.thisIndex (freshNode env 0 0) (some n) = some x.2)) := by
  obtain ⟨h1, -, h2⟩ := prefixCopyNode_length env w nodeLookup d (some node) k
  refine ⟨h1, ?_, ?_, ?_⟩
  · intro h
    obtain ⟨r, rfl⟩ : ∃ r, d = r + 1 := ⟨d - 1, by omega⟩
    rw [prefixCopyNode_step, if_pos h]
  · intro hcons
    have h := prefixCopyNode_returns env w nodeLookup hcons d k
    rw [hk] at h
    exact h
  · intro hret
    have h3 := prefixCopyNode_full env w nodeLookup d k
    have h4 := prefixCopyNode_cacheLine env w nodeLookup d k
    have h5 := prefixCopyNode_copies env w nodeLookup d k
    rw [hk] at h3 h4 h5
    exact ⟨h2 (by omega) hret, h3 hret, h4 hret, h5 hret⟩

/-- C26 on the single piece with two particles, for the root (lookup key `2^62`) and a
cache line of three levels: the traversal returns, the tree is complete that far and the
line has `2^3 - 1 = 7` records, two of them `Empty`. -/
theorem C26_prefixCopyNode_records_witness :
    (1 ≤ 3 ∧ pairLookup (2 ^ 62)
      = some ((builtTree exampleEnv pairPiece pairParticles).nodes.getD 0
          (freshNode exampleEnv 0 0))) ∧
    (prefixCopyNode exampleEnv (localWalker pairPiece pairParticles) pairLookup 3
        (pairLookup (2 ^ 62)) (2 ^ 62)).2 = true ∧
    (prefixCopyNode exampleEnv (localWalker pairPiece pairParticles) pairLookup 3
        (pairLookup (2 ^ 62)) (2 ^ 62)).1.map (fun x => (x.1, x.2.type))
      = [(2 ^ 62, .Internal), (2 ^ 61, .Internal), (2 ^ 60, .Empty),
         (2 ^ 61 + 2 ^ 60, .Bucket), (2 ^ 62 + 2 ^ 61, .Internal),
         (2 ^ 62 + 2 ^ 60, .Bucket), (2 ^ 62 + 2 ^ 61 + 2 ^ 60, .Empty)] ∧
    (prefixCopyNode exampleEnv (localWalker pairPiece pairParticles) pairLookup 3
        (some ((builtTree exampleEnv pairPiece pairParticles).nodes.getD 0
          (freshNode exampleEnv 0 0))) (2 ^ 62)).1
      = cacheLine exampleEnv (localWalker pairPiece pairParticles) pairLookup 3 (2 ^ 62) :=
  ⟨⟨by decide, by rfl⟩, by decide, by decide,
    ((C26_prefixCopyNode_records exampleEnv (localWalker pairPiece pairParticles) pairLookup 3
      (2 ^ 62) ((builtTree exampleEnv pairPiece pairParticles).nodes.getD 0
        (freshNode exampleEnv 0 0)) (by decide) (by rfl)).2.2.2 (by decide)).2.2.1⟩

set_option maxRecDepth 100000 in
/-- C26 (the claim as stated, evaluated). In the tree of the single piece with two
particles the bucket of lookup key `2^61 + 2^60` is in `nodeLookup`; for a cache line of
three levels `prefixCopyNode` returns with the bucket and one `Empty` record for each of
its two missing children, three records and not `2^3 - 1 = 7`. In the tree of the single
piece with two particles of equal key the last node, which `buildTree` creates at level
63 and enters in `nodeLookup`, is left `Invalid`; for a cache line of one level
`prefixCopyNode` started at it aborts on the assertion of `copySFCTreeNode` with no
record, not `2^1 - 1 = 1`, whatever the lookup key and the other entries. -/
theorem C26_line_below_a_bucket :
    ((pairLookup (2 ^ 61 + 2 ^ 60)).map (fun n => n.type) = some .Bucket ∧
      (prefixCopyNode exampleEnv (localWalker pairPiece pairParticles) pairLookup 3
          (pairLookup (2 ^ 61 + 2 ^ 60)) (2 ^ 61 + 2 ^ 60)).2 = true ∧
      (prefixCopyNode exampleEnv (localWalker pairPiece pairParticles) pairLookup 3
          (pairLookup (2 ^ 61 + 2 ^ 60)) (2 ^ 61 + 2 ^ 60)).1.map (fun x => (x.1, x.2.type))
        = [(2 ^ 61 + 2 ^ 60, .Bucket), (2 ^ 61 + 2 ^ 59, .Empty),
           (2 ^ 61 + 2 ^ 60 + 2 ^ 59, .Empty)] ∧
      (prefixCopyNode exampleEnv (localWalker pairPiece pairParticles) pairLookup 3
          (pairLookup (2 ^ 61 + 2 ^ 60)) (2 ^ 61 + 2 ^ 60)).1.length ≠ 2 ^ 3 - 1) ∧
    (((builtTree exampleEnv tiedPiece tiedParticles).nodes.map
        (fun n => (n.type, n.key, n.level))).getD 65 (.Empty, 0, 0)
        = (.Invalid, 2 ^ 62, 63) ∧
      ∀ nodeLookup k,
        prefixCopyNode exampleEnv (localWalker tiedPiece tiedParticles) nodeLookup 1
          (some ((builtTree exampleEnv tiedPiece tiedParticles).nodes.getD 65
            (freshNode exampleEnv 0 0))) k = ([], false)) := by
  refine ⟨⟨by decide, by decide, by decide, by decide⟩, by decide, fun nodeLookup k => ?_⟩
  rw [prefixCopyNode_step]
  exact if_pos (Or.inl (by decide))

/-! ### Migration of a piece -/

theorem rebuild_linked {M : Type} (w : Walker M) (look : Nat → Option (SFCTreeNode M)) :
    ∀ (t : Tree M) (fuel : Nat), t.depth < fuel → t.Linked w look →
      rebuildSFCTree w look fuel t.rootNode = some t := by
  intro t
  induction t with
  | null =>
    intro fuel hf _
    obtain ⟨f, rfl⟩ := Nat.exists_eq_succ_of_ne_zero (by omega : fuel ≠ 0)
    rfl
  | node n l r ihl ihr =>
    intro fuel hf hl
    obtain ⟨f, rfl⟩ := Nat.exists_eq_succ_of_ne_zero (by omega : fuel ≠ 0)
    simp only [Tree.depth] at hf
    simp only [Tree.Linked] at hl
    obtain ⟨h1, h2, h3, h4⟩ := hl
    simp only [Tree.rootNode, rebuildSFCTree]
    rw [h1, h2, ihl f (by omega) h3, ihr f (by omega) h4]

theorem lookup_nodup {β : Type} : ∀ (xs : List (Nat × β)), (xs.map Prod.fst).Nodup →
    ∀ k v, xs.lookup k = some v ↔ (k, v) ∈ xs := by
  intro xs
  induction xs with
  | nil => intro _ k v; simp [List.lookup]
  | cons x xs ih =>
    intro hnd k v
    obtain ⟨a, b⟩ := x
    simp only [List.map_cons, List.nodup_cons] at hnd
    obtain ⟨hna, hnd⟩ := hnd
    simp only [List.lookup, List.mem_cons, Prod.mk.injEq]
    by_cases hk : k = a
    · subst hk
      simp only [beq_self_eq_true, Option.some.injEq, true_and]
      constructor
      · intro h; exact Or.inl h.symm
      · intro h
        rcases h with h | h
        · exact h.symm
        · exact absurd (List.mem_map_of_mem Prod.fst h) hna
    · have : (k == a) = false := by simpa using hk
      simp only [this, ih hnd k v]
      constructor
      · intro h; exact Or.inr h
      · intro h
        rcases h with h | h
        · exact absurd h.1 hk
        · exact h

theorem foldl_cons_eq {α : Type} (xs init : List α) :
    xs.foldl (fun m e => e :: m) init = xs.reverse ++ init := by
  induction xs generalizing init with
  | nil => rfl
  | cons x xs ih => simp [List.foldl_cons, ih]

theorem pack_entries {M : Type} (root : SFCTreeNode M) :
    ∀ (nl : List (Nat × Stored M)),
      (∀ k n, (k, n) ∈ (pupPack root nl).entries ↔ (k, Stored.node n) ∈ nl) ∧
      ((nl.map Prod.fst).Nodup → ((pupPack root nl).entries.map Prod.fst).Nodup) := by
  intro nl
  have hmem : ∀ k n, (k, n) ∈ (pupPack root nl).entries ↔ (k, Stored.node n) ∈ nl := by
    intro k n
    simp only [pupPack, List.mem_filterMap]
    constructor
    · rintro ⟨⟨a, v⟩, hm, hv⟩
      cases v with
      | null => simp at hv
      | root => simp at hv
      | node m =>
        simp only [Option.some.injEq, Prod.mk.injEq] at hv
        obtain ⟨rfl, rfl⟩ := hv
        exact hm
    · intro h
      exact ⟨(k, .node n), h, rfl⟩
  refine ⟨hmem, ?_⟩
  induction nl with
  | nil => intro _; simp [pupPack]
  | cons x xs ih =>
    intro hnd
    obtain ⟨a, v⟩ := x
    simp only [List.map_cons, List.nodup_cons] at hnd
    obtain ⟨hna, hnd⟩ := hnd
    have hsub : ∀ k, k ∈ (pupPack root xs).entries.map Prod.fst → k ∈ xs.map Prod.fst := by
      intro k hk
      obtain ⟨⟨k', n⟩, hm, rfl⟩ := List.mem_map.1 hk
      simp only [pupPack, List.mem_filterMap] at hm
      obtain ⟨⟨a', v'⟩, hm', hv⟩ := hm
      cases v' with
      | null => simp at hv
      | root => simp at hv
      | node m =>
        simp only [Option.some.injEq, Prod.mk.injEq] at hv
        obtain ⟨rfl, rfl⟩ := hv
        exact List.mem_map_of_mem Prod.fst hm'
    have ih' := ih (fun k n => by
      simp only [pupPack, List.mem_filterMap]
      constructor
      · rintro ⟨⟨a', v'⟩, hm, hv⟩
        cases v' with
        | null => simp at hv
        | root => simp at hv
        | node m =>
          simp only [Option.some.injEq, Prod.mk.injEq] at hv
          obtain ⟨rfl, rfl⟩ := hv
          exact hm
      · intro h
        exact ⟨(k, .node n), h, rfl⟩) hnd
    cases v with
    | null => simpa [pupPack] using ih'
    | root => simpa [pupPack] using ih'
    | node m =>
      have e : (pupPack root ((a, Stored.node m) :: xs)).entries
          = (a, m) :: (pupPack root xs).entries := by
        simp [pupPack]
      rw [e, List.map_cons, List.nodup_cons]
      exact ⟨fun h => hna (hsub a h), ih'⟩

theorem unpack_lookup {M : Type} (env : Env M) (root : SFCTreeNode M)
    (nl : List (Nat × Stored M)) (hmap : (nl.map Prod.fst).Nodup)
    (hroot : ∀ k, (k, Stored.root) ∈ nl ↔ k = env.lookupKey root.key root.level) (k : Nat) :
    ((pupPack root nl).entries.foldl (fun m e => (e.1, e.2) :: m)
      [(env.lookupKey root.key root.level, root)]).lookup k = storedAt nl root k := by
  obtain ⟨hmem, hnd⟩ := pack_entries root nl
  have hnd := hnd hmap
  have hL : (pupPack root nl).entries.foldl (fun m e => (e.1, e.2) :: m)
      [(env.lookupKey root.key root.level, root)]
      = (pupPack root nl).entries.reverse ++ [(env.lookupKey root.key root.level, root)] :=
    foldl_cons_eq _ _
  rw [hL]
  have hrk : env.lookupKey root.key root.level ∉ (pupPack root nl).entries.map Prod.fst := by
    intro h
    obtain ⟨⟨k', n⟩, hm, hk⟩ := List.mem_map.1 h
    simp only at hk
    subst hk
    have h1 := (lookup_nodup nl hmap _ _).2 ((hmem _ _).1 hm)
    have h2 := (lookup_nodup nl hmap _ _).2 ((hroot _).2 rfl)
    rw [h1] at h2
    simp at h2
  have hLnd : (((pupPack root nl).entries.reverse ++
      [(env.lookupKey root.key root.level, root)]).map Prod.fst).Nodup := by
    rw [List.map_append, List.map_reverse, List.nodup_append]
    refine ⟨List.nodup_reverse.2 hnd, by simp, ?_⟩
    intro x hx hy
    simp only [List.map_cons, List.map_nil, List.mem_singleton] at hy
    subst hy
    exact hrk (List.mem_reverse.1 hx)
  apply Option.ext
  intro n
  simp only [Option.mem_def]
  rw [lookup_nodup _ hLnd]
  simp only [List.mem_append, List.mem_reverse, List.mem_singleton, Prod.mk.injEq, hmem]
  unfold storedAt
  constructor
  · intro h
    rcases h with h | ⟨h1, h2⟩
    · rw [(lookup_nodup nl hmap _ _).2 h]
    · subst h1 h2
      rw [(lookup_nodup nl hmap _ _).2 ((hroot _).2 rfl)]
  · intro h
    cases hl : nl.lookup k with
    | none => rw [hl] at h; simp at h
    | some v =>
      rw [hl] at h
      have hm := (lookup_nodup nl hmap _ _).1 hl
      cases v with
      | null => simp at h
      | root =>
        simp only [Option.some.injEq] at h
        exact Or.inr ⟨(hroot k).1 hm, h.symm⟩
      | node m =>
        simp only [Option.some.injEq] at h
        subst h
        exact Or.inl hm

theorem eq_of_perm_map_nodup {α : Type} (f : α → Nat) :
    ∀ (l1 l2 : List α), l1.Perm l2 → l1.map f = l2.map f → (l2.map f).Nodup → l1 = l2 := by
  intro l1
  induction l1 with
  | nil => intro l2 hp _ _; exact (List.Perm.nil_eq hp)
  | cons a l1 ih =>
    intro l2 hp hm hnd
    cases l2 with
    | nil => simp at hm
    | cons b l2 =>
      simp only [List.map_cons, List.cons.injEq] at hm
      simp only [List.map_cons, List.nodup_cons] at hnd
      have ha : a ∈ b :: l2 := hp.subset (List.mem_cons_self _ _)
      have hab : a = b := by
        rcases List.mem_cons.1 ha with h | h
        · exact h
        · exfalso
          apply hnd.1
          rw [← hm.1]
          exact List.mem_map_of_mem f h
      subst hab
      rw [ih l2 (List.Perm.cons_inv hp) hm.2 hnd.2]

theorem sorted_buckets_eq {M : Type} (sort : List (SFCTreeNode M) → List (SFCTreeNode M))
    (hsort : SortsByBegin sort) (xs bucketList : List (SFCTreeNode M))
    (hp : bucketList.Perm xs)
    (hs : bucketList.Pairwise (fun a b => a.beginParticle < b.beginParticle)) :
    sort xs = bucketList := by
  obtain ⟨h1, h2⟩ := hsort xs
  have hperm : (sort xs).Perm bucketList := h1.trans hp.symm
  have hs1 : ((sort xs).map (fun n => n.beginParticle)).Sorted (· ≤ ·) := by
    rw [List.Sorted, List.pairwise_map]
    exact h2.imp (fun h => by omega)
  have hs2 : (bucketList.map (fun n => n.beginParticle)).Sorted (· ≤ ·) := by
    rw [List.Sorted, List.pairwise_map]
    exact hs.imp (fun h => by omega)
  have hnd : (bucketList.map (fun n => n.beginParticle)).Nodup := by
    rw [List.Nodup, List.pairwise_map]
    exact hs.imp (fun h => by omega)
  have heq := List.eq_of_perm_of_sorted (hperm.map _) hs1 hs2
  exact eq_of_perm_map_nodup _ _ _ hperm heq hnd

theorem sortByBegin_sorts {M : Type} : SortsByBegin (sortByBegin : List (SFCTreeNode M) → _) := by
  intro xs
  haveI : IsTotal (SFCTreeNode M) (fun a b => a.beginParticle ≤ b.beginParticle) :=
    ⟨fun a b => Nat.le_total _ _⟩
  haveI : IsTrans (SFCTreeNode M) (fun a b => a.beginParticle ≤ b.beginParticle) :=
    ⟨fun a b c h1 h2 => Nat.le_trans h1 h2⟩
  refine ⟨List.perm_insertionSort _ xs, ?_⟩
  have h := List.sorted_insertionSort (fun a b : SFCTreeNode M =>
    a.beginParticle ≤ b.beginParticle) xs
  exact h.imp (fun h => by omega)

/-- C27: packing the tree with `pup` and unpacking the result restores it. Let the
original `nodeLookup` hold every key once and the root under its lookup key only, let
the child pointers of the tree agree with `nodeLookup` at the child lookup keys (nothing
stored where a child pointer is null), and let `bucketList` hold the `Bucket` nodes of
`nodeLookup` in strictly ascending order of `beginParticle`. Then after unpacking
`nodeLookup` holds the same node fields under every key as before, the root included;
`rebuildSFCTree` from the root yields the original tree, so that the children of every
node are the nodes stored under its child lookup keys and each child has the node as
parent; and the sorted `bucketList` is the original one. -/
theorem C27_pup_round_trip {M : Type} (env : Env M) (w : Walker M)
    (sort : List (SFCTreeNode M) → List (SFCTreeNode M)) (fuel : Nat) (t : Tree M)
    (root : SFCTreeNode M) (nodeLookup : List (Nat × Stored M))
    (bucketList : List (SFCTreeNode M))
    (hroot : t.rootNode = some root)
    (hmap : (nodeLookup.map Prod.fst).Nodup)
    (hkey : ∀ k, (k, Stored.root) ∈ nodeLookup ↔ k = env.lookupKey root.key root.level)
    (hlinked : t.Linked w (storedAt nodeLookup root))
    (hfuel : t.depth < fuel)
    (hsort : SortsByBegin sort)
    (hbuckets : bucketList.Perm
      (((pupPack root nodeLookup).entries.filter
        (fun e => decide (e.2.type = .Bucket))).map Prod.snd))
    (hordered : bucketList.Pairwise (fun a b => a.beginParticle < b.beginParticle)) :
    (∀ k, (pupUnpack env w sort fuel (pupPack root nodeLookup)).nodeLookup.lookup k
      = storedAt nodeLookup root k) ∧
    (pupUnpack env w sort fuel (pupPack root nodeLookup)).root = some t ∧
    t.Linked w (fun k =>
      (pupUnpack env w sort fuel (pupPack root nodeLookup)).nodeLookup.lookup k) ∧
    (pupUnpack env w sort fuel (pupPack root nodeLookup)).bucketList = bucketList := by
  have h1 : ∀ k, (pupUnpack env w sort fuel (pupPack root nodeLookup)).nodeLookup.lookup k
      = storedAt nodeLookup root k := unpack_lookup env root nodeLookup hmap hkey
  have hfun : (fun k =>
      (pupUnpack env w sort fuel (pupPack root nodeLookup)).nodeLookup.lookup k)
      = storedAt nodeLookup root := funext h1
  refine ⟨h1, ?_, by rw [hfun]; exact hlinked, ?_⟩
  · have h2 := rebuild_linked w (storedAt nodeLookup root) t fuel hfuel hlinked
    rw [hroot] at h2
    show rebuildSFCTree w (fun k =>
      (pupUnpack env w sort fuel (pupPack root nodeLookup)).nodeLookup.lookup k) fuel
      (some root) = some t
    rw [hfun]
    exact h2
  · exact sorted_buckets_eq sort hsort _ bucketList hbuckets hordered

/-- C27 on the single piece with two particles: after packing and unpacking the rebuilt
tree is the tree of the build and the bucket list is the one of the build. -/
theorem C27_pup_round_trip_witness :
    (builtTree exampleEnv pairPiece pairParticles).depth = 3 ∧
    pairStored.map Prod.fst
      = [2 ^ 62, 2 ^ 61, 2 ^ 61 + 2 ^ 60, 2 ^ 62 + 2 ^ 61, 2 ^ 62 + 2 ^ 60] ∧
    (pupUnpack exampleEnv (localWalker pairPiece pairParticles) sortByBegin 64
        (pupPack pairRoot pairStored)).root
      = some (builtTree exampleEnv pairPiece pairParticles) ∧
    (pupUnpack exampleEnv (localWalker pairPiece pairParticles) sortByBegin 64
        (pupPack pairRoot pairStored)).bucketList
      = (builtMembers exampleEnv pairPiece pairParticles).bucketList := by
  have e : pairStored = [(2 ^ 62, .root),
      (2 ^ 61, .node ((builtTree exampleEnv pairPiece pairParticles).nodes.getD 1
        (freshNode exampleEnv 0 0))),
      (2 ^ 61 + 2 ^ 60, .node ((builtTree exampleEnv pairPiece pairParticles).nodes.getD 2
        (freshNode exampleEnv 0 0))),
      (2 ^ 62 + 2 ^ 61, .node ((builtTree exampleEnv pairPiece pairParticles).nodes.getD 3
        (freshNode exampleEnv 0 0))),
      (2 ^ 62 + 2 ^ 60, .node ((builtTree exampleEnv pairPiece pairParticles).nodes.getD 4
        (freshNode exampleEnv 0 0)))] := by rfl
  have h := C27_pup_round_trip exampleEnv (localWalker pairPiece pairParticles) sortByBegin 64
    (builtTree exampleEnv pairPiece pairParticles) pairRoot pairStored
    (builtMembers exampleEnv pairPiece pairParticles).bucketList (by rfl) (by decide)
    (by
      intro k
      rw [e]
      have ek : exampleEnv.lookupKey pairRoot.key pairRoot.level = 2 ^ 62 := by decide
      rw [ek]
      simp)
    ⟨rfl, rfl, ⟨rfl, rfl, trivial, ⟨rfl, rfl, trivial, trivial⟩⟩,
      ⟨rfl, rfl, ⟨rfl, rfl, trivial, trivial⟩, trivial⟩⟩
    (by decide) sortByBegin_sorts (List.Perm.of_eq (by rfl)) (by decide)
  exact ⟨by decide, by decide, h.2.1, h.2.2.2⟩

/-! ### The owners of a node -/

theorem upperBoundFrom_le (v : Nat) (xs : List Nat) (base : Nat) :
    upperBoundFrom v xs base ≤ base + xs.length := by
  induction xs generalizing base with
  | nil => simp [upperBoundFrom]
  | cons x xs ih =>
    simp only [upperBoundFrom, List.length_cons]
    split
    · omega
    · have := ih (base + 1)
      omega

theorem locLeft_le_length (splitters : List Nat) (lb : Nat) :
    locLeft splitters lb ≤ splitters.length := by
  unfold locLeft upper_bound
  have := upperBoundFrom_le lb ((splitters.drop 0).take (splitters.length - 0)) 0
  simp only [List.drop_zero, Nat.sub_zero, List.take_length, Nat.zero_add] at this ⊢
  exact this

theorem locRight_le_length (splitters : List Nat) (lb rb : Nat) :
    locRight splitters lb rb ≤ splitters.length := by
  have hl := locLeft_le_length splitters lb
  unfold locRight lower_bound
  have := (lowerBoundFrom_spec rb
    ((splitters.drop (locLeft splitters lb)).take (splitters.length - locLeft splitters lb))
    (locLeft splitters lb)).2.1
  simp only [List.length_take, List.length_drop] at this
  omega

/-- The outputs of a successful `nodeOwnership` on `2 * n` splitters: the values stored
are indices `first <= designated <= last < n` and the count `last - first + 1`. -/
theorem nodeOwnership_range (splitters : List Nat) (n lb rb : Nat) (out : OwnerOut)
    (hlen : splitters.length = 2 * n)
    (h : (nodeOwnership splitters lb rb out).1 = true) :
    ∃ d k f l, (nodeOwnership splitters lb rb out).2 =
        ⟨store out.designatedOwner d, store out.numOwners k, store out.firstOwner f,
          store out.lastOwner l⟩ ∧
      f ≤ d ∧ d ≤ l ∧ l < n ∧ k = l - f + 1 := by
  have h1 := locLeft_le_locRight splitters lb rb
  have h2 := locRight_le_length splitters lb rb
  unfold nodeOwnership at h ⊢
  simp only at h ⊢
  split
  · rename_i heq
    rw [if_pos heq] at h
    split
    · rename_i hodd
      exact ⟨_, _, _, _, rfl, le_refl _, le_refl _, by omega, by omega⟩
    · rename_i hodd
      rw [if_neg hodd] at h
      exact absurd h (by simp)
  · rename_i hne
    exact ⟨_, _, _, _, rfl, by omega, by omega, by omega, rfl⟩

/-- C35: whenever `nodeOwnership` returns true on a splitter array of length
`2 * numTreePieces` (non-decreasing or not), the values it stores satisfy
`firstOwner <= designatedOwner <= lastOwner < numTreePieces` and `numOwners >= 1`; the
`remoteIndex` that `lookupLeftChild` / `lookupRightChild` store in a `NonLocal` node is
such a `designatedOwner`, so it is below `numTreePieces` and `requestNode` called with it
counts no failed assertion. -/
theorem C35_owner_indices_in_range {M : Type} (env : Env M) (w : Walker M)
    (cache : CacheManager M) (pc : Piece) (lb rb d0 n0 f0 l0 : Nat)
    (hlen : pc.splitters.length = 2 * pc.numTreePieces) :
    ((nodeOwnership pc.splitters lb rb ⟨some d0, some n0, some f0, some l0⟩).1 = true →
      ∃ d k f l, (nodeOwnership pc.splitters lb rb ⟨some d0, some n0, some f0, some l0⟩).2
          = ⟨some d, some k, some f, some l⟩ ∧
        f ≤ d ∧ d ≤ l ∧ l < pc.numTreePieces ∧ 1 ≤ k) ∧
    (∀ key level st c lt rt st', lookupChild env pc key level st = (.node c lt rt, st') →
      c.type = .NonLocal ∧ c.remoteIndex < pc.numTreePieces ∧ 1 ≤ c.numOwners ∧
      (w.numTreePieces = pc.numTreePieces → ∀ id k gs,
        (requestNode w cache id c.remoteIndex k gs).2.asserts = gs.asserts)) := by
  constructor
  · intro h
    obtain ⟨d, k, f, l, he, h1, h2, h3, h4⟩ := nodeOwnership_range _ _ lb rb _ hlen h
    exact ⟨d, k, f, l, he, h1, h2, h3, by omega⟩
  · intro key level st c lt rt st' h
    unfold lookupChild at h
    simp only at h
    split at h
    · rename_i hres
      obtain ⟨d, k, f, l, he, h1, h2, h3, h4⟩ := nodeOwnership_range _ _ _ _ _ hlen hres
      simp only [Prod.mk.injEq, Tree.node.injEq] at h
      obtain ⟨⟨rfl, -, -⟩, -⟩ := h
      rw [he]
      simp only [store, Option.getD_some]
      refine ⟨trivial, by omega, by omega, ?_⟩
      intro hw id k' gs
      have hlt : d < w.numTreePieces := by omega
      unfold requestNode
      simp only [if_pos hlt]
      split
      · split <;> rfl
      · rfl
    · simp at h

/-- C35 at piece 1 of the two-piece example: the node of key range `[0, 2^62 - 1]` is
owned by piece 0 alone, below the two pieces. -/
theorem C35_owner_indices_in_range_witness :
    pieceOne.splitters.length = 2 * pieceOne.numTreePieces ∧
    (nodeOwnership pieceOne.splitters 0 (2 ^ 62 - 1) ⟨some 0, some 0, some 0, some 0⟩
      = (true, ⟨some 0, some 1, some 0, some 0⟩)) ∧
    (∃ d k f l, (nodeOwnership pieceOne.splitters 0 (2 ^ 62 - 1)
        ⟨some 0, some 0, some 0, some 0⟩).2 = ⟨some d, some k, some f, some l⟩ ∧
      f ≤ d ∧ d ≤ l ∧ l < pieceOne.numTreePieces ∧ 1 ≤ k) :=
  ⟨by decide, by decide,
    (C35_owner_indices_in_range exampleEnv exampleWalker emptyCache pieceOne 0 (2 ^ 62 - 1)
      0 0 0 0 (by decide)).1 (by decide)⟩

/-! ### Node requests served from the tree table -/

theorem TableGrows_refl {M : Type} (t : List (Nat × Option (SFCTreeNode M))) :
    TableGrows t t := fun _ => Or.inl rfl

theorem TableGrows_trans {M : Type} {t1 t2 t3 : List (Nat × Option (SFCTreeNode M))}
    (h12 : TableGrows t1 t2) (h23 : TableGrows t2 t3) : TableGrows t1 t3 := by
  intro k
  rcases h12 k with h | ⟨h, h'⟩
  · rcases h23 k with g | ⟨g, g'⟩
    · exact Or.inl (g.trans h)
    · exact Or.inr ⟨h ▸ g, g'⟩
  · rcases h23 k with g | ⟨g, g'⟩
    · exact Or.inr ⟨h, g.trans h'⟩
    · rw [h'] at g
      exact absurd g (by simp)

theorem TableGrows_value {M : Type} {t t' : List (Nat × Option (SFCTreeNode M))}
    (h : TableGrows t t') : nodeLookup_value t' = nodeLookup_value t := by
  funext k
  unfold nodeLookup_value
  rcases h k with h | ⟨h, h'⟩
  · rw [h]
  · rw [h, h']; rfl

theorem lookup_append_single {M : Type} (t : List (Nat × Option (SFCTreeNode M)))
    (k k' : Nat) (p : Option (SFCTreeNode M)) :
    (t ++ [(k, p)]).lookup k' =
      match t.lookup k' with
      | some q => some q
      | none => if k' = k then some p else none := by
  induction t with
  | nil =>
    simp only [List.nil_append, List.lookup, List.lookup_cons]
    by_cases h : k' = k
    · subst h; simp
    · have : (k' == k) = false := by simpa using h
      simp [this, h]
  | cons x xs ih =>
    obtain ⟨a, b⟩ := x
    simp only [List.cons_append, List.lookup_cons]
    by_cases h : (k' == a) = true
    · simp [h]
    · have h' : (k' == a) = false := by simpa using h
      simp only [h']
      exact ih

theorem nodeLookup_index_spec {M : Type} (t : List (Nat × Option (SFCTreeNode M)))
    (k : Nat) :
    (nodeLookup_index t k).1 = nodeLookup_value t k ∧
    TableGrows t (nodeLookup_index t k).2 ∧
    (nodeLookup_find t k = none → nodeLookup_find (nodeLookup_index t k).2 k = some none) := by
  unfold nodeLookup_index nodeLookup_value
  cases h : nodeLookup_find t k with
  | some p =>
    simp only [Option.join]
    exact ⟨rfl, TableGrows_refl t, fun h' => absurd h' (by simp)⟩
  | none =>
    simp only [Option.join]
    refine ⟨rfl, ?_, ?_⟩
    · intro k'
      unfold nodeLookup_find at h ⊢
      rw [lookup_append_single]
      cases h' : t.lookup k' with
      | some q => exact Or.inl rfl
      | none =>
        by_cases hk : k' = k
        · simp [hk]
        · simp [hk]
    · intro _
      unfold nodeLookup_find at h ⊢
      rw [lookup_append_single, h]
      simp

theorem prefixCopyNodeTable_spec {M : Type} (env : Env M) (w : Walker M) :
    ∀ rem node k t,
      (prefixCopyNodeTable env w rem node k t).1
        = (prefixCopyNode env w (nodeLookup_value t) rem node k).1 ∧
      (prefixCopyNodeTable env w rem node k t).2.1
        = (prefixCopyNode env w (nodeLookup_value t) rem node k).2 ∧
      TableGrows t (prefixCopyNodeTable env w rem node k t).2.2 := by
  intro rem
  induction rem with
  | zero =>
    intro node k t
    simp only [prefixCopyNodeTable, prefixCopyNode]
    exact ⟨trivial, trivial, TableGrows_refl t⟩
  | succ rem ih =>
    intro node k t
    rw [prefixCopyNodeTable, prefixCopyNode]
    cases hc : copySFCTreeNode w.thisIndex (freshNode env 0 0) node with
    | none => exact ⟨rfl, rfl, TableGrows_refl t⟩
    | some tmp =>
      cases node with
      | none => exact ⟨rfl, rfl, TableGrows_refl t⟩
      | some node =>
        simp only
        obtain ⟨hl1, hl2, -⟩ := nodeLookup_index_spec t (w.leftChildLookupKey node.key node.level)
        obtain ⟨hL1, hL2, hL3⟩ := ih (nodeLookup_index t (w.leftChildLookupKey node.key node.level)).1
          (w.leftChildLookupKey node.key node.level)
          (nodeLookup_index t (w.leftChildLookupKey node.key node.level)).2
        have hg1 := TableGrows_trans hl2 hL3
        obtain ⟨hr1, hr2, -⟩ := nodeLookup_index_spec
          (prefixCopyNodeTable env w rem
            (nodeLookup_index t (w.leftChildLookupKey node.key node.level)).1
            (w.leftChildLookupKey node.key node.level)
            (nodeLookup_index t (w.leftChildLookupKey node.key node.level)).2).2.2
          (w.rightChildLookupKey node.key node.level)
        have hg2 := TableGrows_trans hg1 hr2
        obtain ⟨hR1, hR2, hR3⟩ := ih (nodeLookup_index (prefixCopyNodeTable env w rem
            (nodeLookup_index t (w.leftChildLookupKey node.key node.level)).1
            (w.leftChildLookupKey node.key node.level)
            (nodeLookup_index t (w.leftChildLookupKey node.key node.level)).2).2.2
          (w.rightChildLookupKey node.key node.level)).1
          (w.rightChildLookupKey node.key node.level)
          (nodeLookup_index (prefixCopyNodeTable env w rem
            (nodeLookup_index t (w.leftChildLookupKey node.key node.level)).1
            (w.leftChildLookupKey node.key node.level)
            (nodeLookup_index t (w.leftChildLookupKey node.key node.level)).2).2.2
          (w.rightChildLookupKey node.key node.level)).2
        have eL : prefixCopyNode env w
            (nodeLookup_value (nodeLookup_index t (w.leftChildLookupKey node.key node.level)).2)
            rem (nodeLookup_index t (w.leftChildLookupKey node.key node.level)).1
            (w.leftChildLookupKey node.key node.level)
            = prefixCopyNode env w (nodeLookup_value t) rem
              (nodeLookup_value t (w.leftChildLookupKey node.key node.level))
              (w.leftChildLookupKey node.key node.level) := by
          rw [TableGrows_value hl2, hl1]
        rw [eL] at hL1 hL2
        have eR : prefixCopyNode env w
            (nodeLookup_value (nodeLookup_index (prefixCopyNodeTable env w rem
              (nodeLookup_index t (w.leftChildLookupKey node.key node.level)).1
              (w.leftChildLookupKey node.key node.level)
              (nodeLookup_index t (w.leftChildLookupKey node.key node.level)).2).2.2
              (w.rightChildLookupKey node.key node.level)).2)
            rem (nodeLookup_index (prefixCopyNodeTable env w rem
              (nodeLookup_index t (w.leftChildLookupKey node.key node.level)).1
              (w.leftChildLookupKey node.key node.level)
              (nodeLookup_index t (w.leftChildLookupKey node.key node.level)).2).2.2
              (w.rightChildLookupKey node.key node.level)).1
            (w.rightChildLookupKey node.key node.level)
            = prefixCopyNode env w (nodeLookup_value t) rem
              (nodeLookup_value t (w.rightChildLookupKey node.key node.level))
              (w.rightChildLookupKey node.key node.level) := by
          rw [TableGrows_value hg2, hr1, TableGrows_value hg1]
        rw [eR] at hR1 hR2
        by_cases hk : k = env.lookupKey node.key node.level
        · rw [if_pos hk, if_pos hk, hL2]
          by_cases hret : (prefixCopyNode env w (nodeLookup_value t) rem
              (nodeLookup_value t (w.leftChildLookupKey node.key node.level))
              (w.leftChildLookupKey node.key node.level)).2 = true
          · rw [if_pos hret, if_pos hret]
            simp only
            rw [hL1, hR1, hR2]
            exact ⟨rfl, rfl, TableGrows_trans hg2 hR3⟩
          · rw [if_neg hret, if_neg hret]
            simp only
            rw [hL1]
            exact ⟨rfl, trivial, hg1⟩
        · rw [if_neg hk, if_neg hk]
          exact ⟨rfl, rfl, TableGrows_refl t⟩

theorem TableGrows_entry {M : Type} {t t' : List (Nat × Option (SFCTreeNode M))}
    (h : TableGrows t t') (k : Nat) (hk : nodeLookup_find t k ≠ none) :
    nodeLookup_find t' k ≠ none := by
  rcases h k with h | ⟨h, -⟩
  · rw [h]; exact hk
  · exact absurd h hk

theorem nodeLookup_index_entry {M : Type} (t : List (Nat × Option (SFCTreeNode M)))
    (k : Nat) : nodeLookup_find (nodeLookup_index t k).2 k ≠ none := by
  cases h : nodeLookup_find t k with
  | none =>
    rw [(nodeLookup_index_spec t k).2.2 h]
    simp
  | some p =>
    have : (nodeLookup_index t k).2 = t := by
      unfold nodeLookup_index
      rw [h]
    rw [this, h]
    simp

theorem copySFCTreeNode_fields {M : Type} (thisIndex : Nat) (tmp node c : SFCTreeNode M)
    (h : copySFCTreeNode thisIndex tmp (some node) = some c) :
    c.key = node.key ∧ c.level = node.level := by
  rw [copySFCTreeNode_some] at h
  by_cases hi : node.type = .Invalid
  · rw [if_pos hi] at h
    exact absurd h (by simp)
  · rw [if_neg hi] at h
    simp only [Option.some.injEq] at h
    subst h
    exact ⟨rfl, rfl⟩

theorem prefixCopyNodeTable_enters {M : Type} (env : Env M) (w : Walker M) :
    ∀ rem node k t, ∀ x ∈ (prefixCopyNodeTable env w rem node k t).1, x.2.type ≠ .Empty →
      nodeLookup_find (prefixCopyNodeTable env w rem node k t).2.2
        (w.leftChildLookupKey x.2.key x.2.level) ≠ none ∧
      ((prefixCopyNodeTable env w rem node k t).2.1 = true →
        nodeLookup_find (prefixCopyNodeTable env w rem node k t).2.2
          (w.rightChildLookupKey x.2.key x.2.level) ≠ none) := by
  intro rem
  induction rem with
  | zero =>
    intro node k t x hx
    simp [prefixCopyNodeTable] at hx
  | succ rem ih =>
    intro node k t x
    rw [prefixCopyNodeTable]
    cases hc : copySFCTreeNode w.thisIndex (freshNode env 0 0) node with
    | none =>
      intro hx
      simp at hx
    | some tmp =>
      cases node with
      | none =>
        intro hx hty
        simp only [List.mem_singleton] at hx
        subst hx
        simp only [copySFCTreeNode, Option.some.injEq] at hc
        subst hc
        exact absurd rfl hty
      | some node =>
        obtain ⟨hkey, hlevel⟩ := copySFCTreeNode_fields w.thisIndex _ node tmp hc
        simp only
        by_cases hk : k = env.lookupKey node.key node.level
        · rw [if_pos hk]
          have e1 := nodeLookup_index_entry t (w.leftChildLookupKey node.key node.level)
          have g1 := (prefixCopyNodeTable_spec env w rem
            (nodeLookup_index t (w.leftChildLookupKey node.key node.level)).1
            (w.leftChildLookupKey node.key node.level)
            (nodeLookup_index t (w.leftChildLookupKey node.key node.level)).2).2.2
          have iL := ih (nodeLookup_index t (w.leftChildLookupKey node.key node.level)).1
            (w.leftChildLookupKey node.key node.level)
            (nodeLookup_index t (w.leftChildLookupKey node.key node.level)).2
          by_cases hret : (prefixCopyNodeTable env w rem
              (nodeLookup_index t (w.leftChildLookupKey node.key node.level)).1
              (w.leftChildLookupKey node.key node.level)
              (nodeLookup_index t (w.leftChildLookupKey node.key node.level)).2).2.1 = true
          · rw [if_pos hret]
            have e2 := nodeLookup_index_entry (prefixCopyNodeTable env w rem
              (nodeLookup_index t (w.leftChildLookupKey node.key node.level)).1
              (w.leftChildLookupKey node.key node.level)
              (nodeLookup_index t (w.leftChildLookupKey node.key node.level)).2).2.2
              (w.rightChildLookupKey node.key node.level)
            have g2 := (nodeLookup_index_spec (prefixCopyNodeTable env w rem
              (nodeLookup_index t (w.leftChildLookupKey node.key node.level)).1
              (w.leftChildLookupKey node.key node.level)
              (nodeLookup_index t (w.leftChildLookupKey node.key node.level)).2).2.2
              (w.rightChildLookupKey node.key node.level)).2.1
            have g3 := (prefixCopyNodeTable_spec env w rem
              (nodeLookup_index (prefixCopyNodeTable env w rem
                (nodeLookup_index t (w.leftChildLookupKey node.key node.level)).1
                (w.leftChildLookupKey node.key node.level)
                (nodeLookup_index t (w.leftChildLookupKey node.key node.level)).2).2.2
                (w.rightChildLookupKey node.key node.level)).1
              (w.rightChildLookupKey node.key node.level)
              (nodeLookup_index (prefixCopyNodeTable env w rem
                (nodeLookup_index t (w.leftChildLookupKey node.key node.level)).1
                (w.leftChildLookupKey node.key node.level)
                (nodeLookup_index t (w.leftChildLookupKey node.key node.level)).2).2.2
                (w.rightChildLookupKey node.key node.level)).2).2.2
            have iR := ih (nodeLookup_index (prefixCopyNodeTable env w rem
                (nodeLookup_index t (w.leftChildLookupKey node.key node.level)).1
                (w.leftChildLookupKey node.key node.level)
                (nodeLookup_index t (w.leftChildLookupKey node.key node.level)).2).2.2
                (w.rightChildLookupKey node.key node.level)).1
              (w.rightChildLookupKey node.key node.level)
              (nodeLookup_index (prefixCopyNodeTable env w rem
                (nodeLookup_index t (w.leftChildLookupKey node.key node.level)).1
                (w.leftChildLookupKey node.key node.level)
                (nodeLookup_index t (w.leftChildLookupKey node.key node.level)).2).2.2
                (w.rightChildLookupKey node.key node.level)).2
            have g23 := TableGrows_trans g2 g3
            intro hx hty
            simp only [List.mem_cons, List.mem_append] at hx
            rcases hx with rfl | hx | hx
            · simp only [hkey, hlevel]
              exact ⟨TableGrows_entry g23 _ (TableGrows_entry g1 _ e1),
                fun _ => TableGrows_entry g3 _ e2⟩
            · obtain ⟨a, b⟩ := iL x hx hty
              exact ⟨TableGrows_entry g23 _ a, fun _ => TableGrows_entry g23 _ (b hret)⟩
            · exact iR x hx hty
          · rw [if_neg hret]
            intro hx hty
            simp only [List.mem_cons] at hx
            rcases hx with rfl | hx
            · simp only [hkey, hlevel]
              exact ⟨TableGrows_entry g1 _ e1, fun h => absurd h (by simp)⟩
            · exact ⟨(iL x hx hty).1, fun h => absurd h (by simp)⟩
        · rw [if_neg hk]
          intro hx
          simp at hx

theorem cacheLineNumber_small (d : Nat) (hd : d ≤ 30) :
    cacheLineNumber d = some (2 ^ d - 1) := by
  unfold cacheLineNumber INT_MAX
  have h : 2 ^ d ≤ 2 ^ 30 := Nat.pow_le_pow_right (by decide) hd
  rw [if_pos (by omega)]

theorem fillRequestNode_grows {M : Type} (env : Env M) (w : Walker M) (d : Nat)
    (t : List (Nat × Option (SFCTreeNode M))) (retIndex k id : Nat)
    (reply : Option (NodeReply M)) (t' : List (Nat × Option (SFCTreeNode M)))
    (h : fillRequestNode env w d t retIndex k id = some (reply, t')) :
    TableGrows t t' ∧ (nodeLookup_find t k = none → nodeLookup_find t' k = some none) := by
  obtain ⟨h1, h2, h3⟩ := nodeLookup_index_spec t k
  unfold fillRequestNode at h
  simp only at h
  split at h
  · rename_i n hn
    have hpresent : nodeLookup_find t k ≠ none := by
      intro habs
      rw [h1] at hn
      unfold nodeLookup_value at hn
      rw [habs] at hn
      exact absurd hn (by simp)
    split at h
    · split at h
      · exact absurd h (by simp)
      · split at h
        · split at h
          · simp only [Option.some.injEq, Prod.mk.injEq] at h
            obtain ⟨-, rfl⟩ := h
            exact ⟨TableGrows_trans h2 (prefixCopyNodeTable_spec env w d _ _ _).2.2,
              fun habs => absurd habs hpresent⟩
          · exact absurd h (by simp)
        · split at h
          · simp only [Option.some.injEq, Prod.mk.injEq] at h
            obtain ⟨-, rfl⟩ := h
            exact ⟨TableGrows_trans h2 (prefixCopyNodeTable_spec env w d _ _ _).2.2,
              fun habs => absurd habs hpresent⟩
          · exact absurd h (by simp)
    · split at h
      · simp only [Option.some.injEq, Prod.mk.injEq] at h
        obtain ⟨-, rfl⟩ := h
        exact ⟨h2, fun habs => absurd habs hpresent⟩
      · simp only [Option.some.injEq, Prod.mk.injEq] at h
        obtain ⟨-, rfl⟩ := h
        exact ⟨h2, fun habs => absurd habs hpresent⟩
  · simp only [Option.some.injEq, Prod.mk.injEq] at h
    obtain ⟨-, rfl⟩ := h
    exact ⟨h2, h3⟩

theorem served_table_grows {M : Type} (env : Env M) (w : Walker M)
    (cacheLineDepth : Nat) (t : List (Nat × Option (SFCTreeNode M))) :
    (∀ k res, TableGrows t (lookupNode w t k res).2 ∧
      nodeLookup_value (lookupNode w t k res).2 = nodeLookup_value t ∧
      (nodeLookup_find t k = none →
        nodeLookup_find (lookupNode w t k res).2 k = some none)) ∧
    (∀ rem node k, TableGrows t (prefixCopyNodeTable env w rem node k t).2.2 ∧
      nodeLookup_value (prefixCopyNodeTable env w rem node k t).2.2 = nodeLookup_value t) ∧
    (∀ retIndex k id reply t',
      fillRequestNode env w cacheLineDepth t retIndex k id = some (reply, t') →
      TableGrows t t' ∧ nodeLookup_value t' = nodeLookup_value t ∧
      (nodeLookup_find t k = none → nodeLookup_find t' k = some none)) := by
  refine ⟨?_, ?_, ?_⟩
  · intro k res
    obtain ⟨-, h2, h3⟩ := nodeLookup_index_spec t k
    exact ⟨h2, TableGrows_value h2, h3⟩
  · intro rem node k
    have h := (prefixCopyNodeTable_spec env w rem node k t).2.2
    exact ⟨h, TableGrows_value h⟩
  · intro retIndex k id reply t' h
    obtain ⟨h1, h2⟩ := fillRequestNode_grows env w cacheLineDepth t retIndex k id reply t' h
    exact ⟨h1, TableGrows_value h1, h2⟩

theorem served_line_enters_child_keys {M : Type} (env : Env M) (w : Walker M)
    (cacheLineDepth : Nat) (t : List (Nat × Option (SFCTreeNode M)))
    (retIndex k id r s : Nat) (line : List (Nat × SFCTreeNode M))
    (t' : List (Nat × Option (SFCTreeNode M)))
    (h : fillRequestNode env w cacheLineDepth t retIndex k id
      = some (some (.recvNodes r line s), t')) :
    ∀ x ∈ line, x.2.type ≠ .Empty →
      nodeLookup_find t' (w.leftChildLookupKey x.2.key x.2.level) ≠ none ∧
      nodeLookup_find t' (w.rightChildLookupKey x.2.key x.2.level) ≠ none := by
  unfold fillRequestNode at h
  simp only at h
  split at h
  · split at h
    · split at h
      · exact absurd h (by simp)
      · split at h
        · rename_i hret
          split at h
          · simp only [Option.some.injEq, Prod.mk.injEq, NodeReply.recvNodes.injEq] at h
            obtain ⟨⟨-, rfl, -⟩, rfl⟩ := h
            intro x hx hty
            have := prefixCopyNodeTable_enters env w _ _ _ _ x hx hty
            exact ⟨this.1, this.2 hret⟩
          · exact absurd h (by simp)
        · split at h
          · simp at h
          · exact absurd h (by simp)
    · split at h
      · simp at h
      · simp at h
  · split at h
    · simp at h
    · simp at h

/-- C36 (the code evaluated at the failing input). Piece 1 of two holds the node of
lookup key `2^62 + 2^61` that piece 0 requests, and below it the bucket of lookup key
`2^62 + 2^60`, which has no children: `nodeLookup.find` reports no entry under the lookup
key `2^62 + 2^59` of the bucket's left child. `fillRequestNode` serves the request with a
cache line of depth 2: it sends piece 0 the three records of the line, and afterwards
`nodeLookup.find` finds an entry under `2^62 + 2^59`, holding a null pointer. Likewise in
the single piece with two particles: nothing is stored under the lookup key
`2^61 + 2^59`, and after `fillRequestNode` has served a request for the bucket above it
with a cache line of depth 2, or after `lookupNode` for that key, `nodeLookup.find` finds
an entry there, holding a null pointer. -/
theorem C36_served_request_enters_null :
    (nodeLookup_find servingTable (2 ^ 62 + 2 ^ 59) = none ∧
      (prefixCopyNodeTable exampleEnv cachingWalker 2
          (nodeLookup_value servingTable (2 ^ 62 + 2 ^ 61)) (2 ^ 62 + 2 ^ 61)
          servingTable).1.map (fun x => (x.1, x.2.type))
        = [(2 ^ 62 + 2 ^ 61, .Internal), (2 ^ 62 + 2 ^ 60, .Bucket),
           (2 ^ 62 + 2 ^ 61 + 2 ^ 60, .Internal)] ∧
      (fillRequestNode exampleEnv cachingWalker 2 servingTable 0 (2 ^ 62 + 2 ^ 61) 0).map
          (fun r => r.1)
        = some (some (.recvNodes 0 (prefixCopyNodeTable exampleEnv cachingWalker 2
            (nodeLookup_value servingTable (2 ^ 62 + 2 ^ 61)) (2 ^ 62 + 2 ^ 61)
            servingTable).1 1)) ∧
      (fillRequestNode exampleEnv cachingWalker 2 servingTable 0 (2 ^ 62 + 2 ^ 61) 0).map
          (fun r => nodeLookup_find r.2 (2 ^ 62 + 2 ^ 59))
        = some (some none)) ∧
    nodeLookup_find pairTable (2 ^ 61 + 2 ^ 59) = none ∧
    nodeLookup_find (servedTable exampleEnv cachingWalker 2 pairTable 0 (2 ^ 61 + 2 ^ 60) 0)
      (2 ^ 61 + 2 ^ 59) = some none ∧
    nodeLookup_find (lookupNode cachingWalker pairTable (2 ^ 61 + 2 ^ 59) emptyNode).2
      (2 ^ 61 + 2 ^ 59) = some none := by
  refine ⟨⟨by rfl, by decide, by rfl, by rfl⟩, by rfl, by rfl, by rfl⟩

/-- C38 (claim as stated fails): for `_cacheLineDepth = 32` the value `2^32 - 1` does not
fit the `int` variable `number`, whose computation `(1 << 32) - 1` is undefined, while
`prefixCopyNode` writes a record: `fillRequestNode` is undefined on a request for the
root of the single piece with two particles. -/
theorem C38_deep_line_overflows_int :
    cacheLineNumber 32 = none ∧
    (prefixCopyNodeTable exampleEnv cachingWalker 32 none 1 pairTable).1.length = 1 ∧
    (fillRequestNode exampleEnv cachingWalker 32 pairTable 0 (2 ^ 62) 0).isNone = true := by
  refine ⟨by decide, by rfl, by rfl⟩

/-- C38 (amended): for every `_cacheLineDepth` `d` from 0 to 30, where `(1 << d) - 1` is
computed without overflow, the arrays `cacheKeys` and `cacheNodes` that `fillRequestNode`
allocates have `2^d - 1` elements, and for every starting node (null or not), lookup key
and `nodeLookup` the number of records `prefixCopyNode` writes is at most `2^d - 1`; the
records are written at the indices `0, 1, ...` in turn, so each index written is below
the size of the arrays, also the index of the element of `cacheNodes` written before an
assertion fails, and `fillRequestNode` is defined. -/
theorem C38_cache_line_fits {M : Type} (env : Env M) (w : Walker M) (d : Nat)
    (hd : d ≤ 30) :
    cacheLineNumber d = some (2 ^ d - 1) ∧
    (∀ node k t, (prefixCopyNodeTable env w d node k t).1.length ≤ 2 ^ d - 1 ∧
      (∀ i, i < (prefixCopyNodeTable env w d node k t).1.length → i < 2 ^ d - 1) ∧
      ((prefixCopyNodeTable env w d node k t).2.1 = false →
        (prefixCopyNodeTable env w d node k t).1.length < 2 ^ d - 1)) ∧
    (∀ t retIndex k id, (fillRequestNode env w d t retIndex k id).isSome = true) := by
  have hlen : ∀ node k t, (prefixCopyNodeTable env w d node k t).1.length ≤ 2 ^ d - 1 ∧
      ((prefixCopyNodeTable env w d node k t).2.1 = false →
        (prefixCopyNodeTable env w d node k t).1.length < 2 ^ d - 1) := by
    intro node k t
    rw [(prefixCopyNodeTable_spec env w d node k t).1,
      (prefixCopyNodeTable_spec env w d node k t).2.1]
    exact ⟨(prefixCopyNode_length env w _ d node k).1,
      (prefixCopyNode_length env w _ d node k).2.1⟩
  refine ⟨cacheLineNumber_small d hd, ?_, ?_⟩
  · intro node k t
    exact ⟨(hlen node k t).1, fun i hi => lt_of_lt_of_le hi (hlen node k t).1,
      (hlen node k t).2⟩
  · intro t retIndex k id
    unfold fillRequestNode
    simp only [cacheLineNumber_small d hd]
    split
    · split
      · split
        · rw [if_pos (hlen _ _ _).1]
          rfl
        · rename_i hret
          rw [if_pos ((hlen _ _ _).2 (by simpa using hret))]
          rfl
      · split <;> rfl
    · rfl

/-- C38 (amended) at depth 2 on the single piece with two particles: the arrays have
three elements and the line of the root has three records. -/
theorem C38_cache_line_fits_witness :
    2 ≤ 30 ∧ cacheLineNumber 2 = some 3 ∧
    (prefixCopyNodeTable exampleEnv cachingWalker 2 (nodeLookup_value pairTable (2 ^ 62))
      (2 ^ 62) pairTable).1.length = 3 ∧
    (fillRequestNode exampleEnv cachingWalker 2 pairTable 0 (2 ^ 62) 0).isSome = true :=
  ⟨by decide, (C38_cache_line_fits exampleEnv cachingWalker 2 (by decide)).1, by rfl,
    (C38_cache_line_fits exampleEnv cachingWalker 2 (by decide)).2.2 pairTable 0 (2 ^ 62) 0⟩

/-! ### The force of a particle on a bucket -/

theorem partBucketForceStep_spec {V S B : Type} (ops : ForceOps V S)
    (part : ForceParticle V S) (req : BucketForceRequest V S B) (j : Nat) :
    (partBucketForceStep ops part req j).finished = req.finished ∧
    (partBucketForceStep ops part req j).identifier = req.identifier ∧
    (partBucketForceStep ops part req j).numAdditionalRequests = req.numAdditionalRequests ∧
    (partBucketForceStep ops part req j).numParticlesInBucket = req.numParticlesInBucket ∧
    (partBucketForceStep ops part req j).boundingBox = req.boundingBox ∧
    (partBucketForceStep ops part req j).positions = req.positions ∧
    (partBucketForceStep ops part req j).softs = req.softs ∧
    (∀ i, (partBucketForceStep ops part req j).accelerations i =
      if i = j ∧ ops.nonzero (separation ops part req j) = true then
        ops.addVector (req.accelerations j) (partAcceleration ops part req j)
      else req.accelerations i) ∧
    (∀ i, (partBucketForceStep ops part req j).potentials i =
      if i = j ∧ ops.nonzero (separation ops part req j) = true then
        ops.subScalar (req.potentials j) (partPotential ops part req j)
      else req.potentials i) := by
  unfold partBucketForceStep separation
  simp only
  split
  · rename_i h
    refine ⟨rfl, rfl, rfl, rfl, rfl, rfl, rfl, ?_, ?_⟩
    · intro i
      by_cases hi : i = j
      · simp [hi, h]
      · simp [hi]
    · intro i
      by_cases hi : i = j
      · simp [hi, h]
      · simp [hi]
  · rename_i h
    refine ⟨rfl, rfl, rfl, rfl, rfl, rfl, rfl, ?_, ?_⟩
    · intro i
      simp [h]
    · intro i
      simp [h]

theorem partBucketForce_fold {V S B : Type} (ops : ForceOps V S)
    (part : ForceParticle V S) (js : List Nat) (hnd : js.Nodup) :
    ∀ req : BucketForceRequest V S B,
    (js.foldl (partBucketForceStep ops part) req).finished = req.finished ∧
    (js.foldl (partBucketForceStep ops part) req).identifier = req.identifier ∧
    (js.foldl (partBucketForceStep ops part) req).numAdditionalRequests
      = req.numAdditionalRequests ∧
    (js.foldl (partBucketForceStep ops part) req).numParticlesInBucket
      = req.numParticlesInBucket ∧
    (js.foldl (partBucketForceStep ops part) req).boundingBox = req.boundingBox ∧
    (js.foldl (partBucketForceStep ops part) req).positions = req.positions ∧
    (js.foldl (partBucketForceStep ops part) req).softs = req.softs ∧
    (∀ i, (js.foldl (partBucketForceStep ops part) req).accelerations i =
      if i ∈ js ∧ ops.nonzero (separation ops part req i) = true then
        ops.addVector (req.accelerations i) (partAcceleration ops part req i)
      else req.accelerations i) ∧
    (∀ i, (js.foldl (partBucketForceStep ops part) req).potentials i =
      if i ∈ js ∧ ops.nonzero (separation ops part req i) = true then
        ops.subScalar (req.potentials i) (partPotential ops part req i)
      else req.potentials i) := by
  induction js with
  | nil =>
    intro req
    simp
  | cons j js ih =>
    intro req
    rw [List.nodup_cons] at hnd
    obtain ⟨hj, hnd⟩ := hnd
    simp only [List.foldl_cons]
    obtain ⟨a1, a2, a3, a4, a5, a6, a7, a8, a9⟩ := partBucketForceStep_spec ops part req j
    obtain ⟨b1, b2, b3, b4, b5, b6, b7, b8, b9⟩ := ih hnd (partBucketForceStep ops part req j)
    have hsep : ∀ i, separation ops part (partBucketForceStep ops part req j) i
        = separation ops part req i := by
      intro i; unfold separation; rw [a6]
    have hacc : ∀ i, partAcceleration ops part (partBucketForceStep ops part req j) i
        = partAcceleration ops part req i := by
      intro i; unfold partAcceleration; rw [a6, a7]
    have hpot : ∀ i, partPotential ops part (partBucketForceStep ops part req j) i
        = partPotential ops part req i := by
      intro i; unfold partPotential; rw [a6, a7]
    refine ⟨b1.trans a1, b2.trans a2, b3.trans a3, b4.trans a4, b5.trans a5, b6.trans a6,
      b7.trans a7, ?_, ?_⟩
    · intro i
      rw [b8 i, hsep, hacc, a8 i]
      by_cases hi : i = j
      · subst hi
        simp [hj]
      · simp [hi]
    · intro i
      rw [b9 i, hsep, hpot, a9 i]
      by_cases hi : i = j
      · subst hi
        simp [hj]
      · simp [hi]

/-- C32: over arithmetic in which the squared separation of two positions is zero
exactly when they are equal, `partBucketForce` leaves `accelerations[j]` and
`potentials[j]` as they are for every bucket particle `j` at the position of the source
particle, adds the one contribution `part->mass * r * b` to `accelerations[j]` and
subtracts the one contribution `part->mass * a` from `potentials[j]` for every other
`j` of the bucket, and leaves the positions, the softenings, the entries past the
bucket and all other fields of the request as they are. In terms of the test the code
makes, for any arithmetic: the entry `j` is updated exactly when `rsq != 0`. -/
theorem C32_partBucketForce_skips_coincident {V S B : Type} (ops : ForceOps V S)
    (part : ForceParticle V S) (req : BucketForceRequest V S B)
    (hself : ∀ p, ops.nonzero (ops.lengthSquared (ops.sub p p)) = false)
    (hapart : ∀ p q, p ≠ q → ops.nonzero (ops.lengthSquared (ops.sub p q)) = true) :
    (∀ j, j < req.numParticlesInBucket → req.positions j = part.position →
      (partBucketForce ops part req).accelerations j = req.accelerations j ∧
      (partBucketForce ops part req).potentials j = req.potentials j) ∧
    (∀ j, j < req.numParticlesInBucket → req.positions j ≠ part.position →
      (partBucketForce ops part req).accelerations j
        = ops.addVector (req.accelerations j) (partAcceleration ops part req j) ∧
      (partBucketForce ops part req).potentials j
        = ops.subScalar (req.potentials j) (partPotential ops part req j)) ∧
    (∀ j, j < req.numParticlesInBucket → ops.nonzero (separation ops part req j) = false →
      (partBucketForce ops part req).accelerations j = req.accelerations j ∧
      (partBucketForce ops part req).potentials j = req.potentials j) ∧
    (∀ j, j < req.numParticlesInBucket → ops.nonzero (separation ops part req j) = true →
      (partBucketForce ops part req).accelerations j
        = ops.addVector (req.accelerations j) (partAcceleration ops part req j) ∧
      (partBucketForce ops part req).potentials j
        = ops.subScalar (req.potentials j) (partPotential ops part req j)) ∧
    (∀ j, req.numParticlesInBucket ≤ j →
      (partBucketForce ops part req).accelerations j = req.accelerations j ∧
      (partBucketForce ops part req).potentials j = req.potentials j) ∧
    (partBucketForce ops part req).positions = req.positions ∧
    (partBucketForce ops part req).softs = req.softs ∧
    (partBucketForce ops part req).numParticlesInBucket = req.numParticlesInBucket ∧
    (partBucketForce ops part req).boundingBox = req.boundingBox ∧
    (partBucketForce ops part req).finished = req.finished ∧
    (partBucketForce ops part req).identifier = req.identifier ∧
    (partBucketForce ops part req).numAdditionalRequests = req.numAdditionalRequests := by
  obtain ⟨b1, b2, b3, b4, b5, b6, b7, b8, b9⟩ :=
    partBucketForce_fold ops part (List.range req.numParticlesInBucket)
      (List.nodup_range _) req
  unfold partBucketForce
  have hskip : ∀ j, ops.nonzero (separation ops part req j) = false →
      ((List.range req.numParticlesInBucket).foldl (partBucketForceStep ops part) req).accelerations j
        = req.accelerations j ∧
      ((List.range req.numParticlesInBucket).foldl (partBucketForceStep ops part) req).potentials j
        = req.potentials j := by
    intro j hz
    rw [b8 j, b9 j]
    simp [hz]
  have hadd : ∀ j, j < req.numParticlesInBucket →
      ops.nonzero (separation ops part req j) = true →
      ((List.range req.numParticlesInBucket).foldl (partBucketForceStep ops part) req).accelerations j
        = ops.addVector (req.accelerations j) (partAcceleration ops part req j) ∧
      ((List.range req.numParticlesInBucket).foldl (partBucketForceStep ops part) req).potentials j
        = ops.subScalar (req.potentials j) (partPotential ops part req j) := by
    intro j hj hz
    rw [b8 j, b9 j]
    simp [hz, List.mem_range, hj]
  refine ⟨?_, ?_, ?_, ?_, ?_, b6, b7, b4, b5, b1, b2, b3⟩
  · intro j _ hp
    exact hskip j (by unfold separation; rw [hp]; exact hself _)
  · intro j hj hp
    exact hadd j hj (by unfold separation; exact hapart _ _ (fun h => hp h.symm))
  · intro j _ hz
    exact hskip j hz
  · intro j hj hz
    exact hadd j hj hz
  · intro j hj
    rw [b8 j, b9 j]
    have : j ∉ List.range req.numParticlesInBucket := by
      simp [List.mem_range]; omega
    simp [this]

/-- C32 on a line: the source at position 1 leaves the bucket particle 1, which is at
its position, alone and contributes to the particles 0 and 2. -/
theorem C32_partBucketForce_skips_coincident_witness :
    (∀ p, lineOps.nonzero (lineOps.lengthSquared (lineOps.sub p p)) = false) ∧
    (∀ p q, p ≠ q → lineOps.nonzero (lineOps.lengthSquared (lineOps.sub p q)) = true) ∧
    lineRequest.positions 1 = lineSource.position ∧
    ((partBucketForce lineOps lineSource lineRequest).accelerations 1
        = lineRequest.accelerations 1 ∧
      (partBucketForce lineOps lineSource lineRequest).potentials 1
        = lineRequest.potentials 1) ∧
    (partBucketForce lineOps lineSource lineRequest).accelerations 2 = -16 ∧
    (partBucketForce lineOps lineSource lineRequest).potentials 2 = -8 :=
  ⟨fun p => by simp [lineOps], fun p q h => by
      have : p - q ≠ 0 := sub_ne_zero.2 h
      simp [lineOps, this],
    rfl,
    (C32_partBucketForce_skips_coincident lineOps lineSource lineRequest
      (fun p => by simp [lineOps]) (fun p q h => by
        have : p - q ≠ 0 := sub_ne_zero.2 h
        simp [lineOps, this])).1 1 (by decide) rfl,
    by decide, by decide⟩

/-! ### Remote buckets on a cache hit and on a cache miss -/

theorem remoteParticleStep_fold {M : Type} (env : Env M) (w : Walker M) (id : Nat)
    (m : GravState → Nat → Int)
    (hm : ∀ st i x p, m (remoteParticleStep env w id x p st) i = m st i)
    (g : Nat → GravityParticle) (is : List Nat) :
    ∀ st : GravState,
      ((is.foldl (fun st i => remoteParticleStep env w id (m st i) (g i) st) st).bucketReqs id
        = particleForces w (is.map g) (st.bucketReqs id)) ∧
      (∀ j, ((is.foldl (fun st i => remoteParticleStep env w id (m st i) (g i) st)
          st).myParticles j).extpartmass = (st.myParticles j).extpartmass +
        if (w.reqnode env id).beginParticle ≤ j ∧ j < (w.reqnode env id).endParticle then
          (is.map (m st)).sum else 0) ∧
      (is.foldl (fun st i => remoteParticleStep env w id (m st i) (g i) st)
        st).myNumParticleInteractions = st.myNumParticleInteractions := by
  induction is with
  | nil =>
    intro st
    simp [particleForces]
  | cons i is ih =>
    intro st
    simp only [List.foldl_cons, List.map_cons, List.sum_cons]
    obtain ⟨h1, h2, h3⟩ := ih (remoteParticleStep env w id (m st i) (g i) st)
    refine ⟨?_, ?_, ?_⟩
    · rw [h1]
      simp [remoteParticleStep, GravState.updateReq, GravState.updateParticles,
        particleForces]
    · intro j
      rw [h2 j]
      have hmm : (fun k => m (remoteParticleStep env w id (m st i) (g i) st) k) = m st := by
        funext k; exact hm st k _ _
      have hmm' : m (remoteParticleStep env w id (m st i) (g i) st) = m st := hmm
      rw [hmm']
      by_cases hj : (w.reqnode env id).beginParticle ≤ j ∧ j < (w.reqnode env id).endParticle
      · simp only [remoteParticleStep, GravState.updateReq, GravState.updateParticles,
          if_pos hj]
        omega
      · simp only [remoteParticleStep, GravState.updateReq, GravState.updateParticles,
          if_neg hj]
    · rw [h3]
      rfl

theorem remoteParticleStep_mass {M : Type} (env : Env M) (w : Walker M) (id : Nat)
    (x : Int) (p : GravityParticle) (st : GravState) (i : Nat) :
    ((remoteParticleStep env w id x p st).myParticles i).mass = (st.myParticles i).mass := by
  simp only [remoteParticleStep, GravState.updateReq, GravState.updateParticles]
  split <;> rfl

theorem cachedWalk_bucket_hit {M : Type} (env : Env M) (w : Walker M)
    (cache : CacheManager M) (id fuel : Nat) (node : SFCTreeNode M)
    (part : List GravityParticle) (st : GravState)
    (hcache : w.useCache = true) (hty : node.type = .Bucket)
    (hopen : w.openCriterionBucket node (st.bucketReqs id) = true)
    (hhit : cache.requestParticles w.thisIndex (env.lookupKey node.key node.level)
      node.remoteIndex node.beginParticle node.endParticle = some part) :
    cachedWalkBucketTree env w cache id (fuel + 1) node st =
      (List.range' node.beginParticle (node.endParticle - node.beginParticle)).foldl
        (fun st i => remoteParticleStep env w id (st.myParticles i).mass
          (part.getD (i - node.beginParticle) { key := 0 }) st)
        { st with
          myNumMACChecks := st.myNumMACChecks + 1
          myNumParticleInteractions := st.myNumParticleInteractions +
            (st.bucketReqs id).numParticlesInBucket *
              (node.endParticle - node.beginParticle) } := by
  simp [cachedWalkBucketTree, requestParticles, hty, hopen, hcache, hhit]

theorem cachedWalk_bucket_miss {M : Type} (env : Env M) (w : Walker M)
    (cache : CacheManager M) (id fuel : Nat) (node : SFCTreeNode M) (st : GravState)
    (hcache : w.useCache = true) (hty : node.type = .Bucket)
    (hopen : w.openCriterionBucket node (st.bucketReqs id) = true)
    (hmiss : cache.requestParticles w.thisIndex (env.lookupKey node.key node.level)
      node.remoteIndex node.beginParticle node.endParticle = none) :
    cachedWalkBucketTree env w cache id (fuel + 1) node st =
      { GravState.updateReq { st with myNumMACChecks := st.myNumMACChecks + 1 } id
          (fun r => { r with numAdditionalRequests := r.numAdditionalRequests +
            ((node.endParticle : Int) - (node.beginParticle : Int)) }) with
        fetches := st.fetches ++ [.particles id (env.lookupKey node.key node.level)
          node.remoteIndex node.beginParticle node.endParticle] } := by
  simp [cachedWalkBucketTree, requestParticles, hty, hopen, hcache, hmiss]

theorem fetched_list (part : List GravityParticle) (b cnt : Nat) :
    (List.range' b cnt).map (fun i => part.getD (i - b) { key := 0 })
      = (List.range cnt).map (fun i => part.getD i { key := 0 }) := by
  rw [List.range'_eq_map_range, List.map_map]
  apply List.map_congr_left
  intro i _
  simp

/-- C37 (what the two paths do): for a remote `Bucket` node `[begin, end)` that is
opened, with the software cache on and the same fetched particle array `part`,
`cachedWalkBucketTree` on a cache hit and `receiveParticles` after a cache miss apply
`partBucketForce` for the same particles in the same order and add the same amount
`numParticlesInBucket * (end - begin)` to `myNumParticleInteractions`; to the
`extpartmass` of each particle of the requesting bucket the miss path adds the sum of
the masses of the fetched particles, whereas the hit path adds the sum of the masses
`myParticles[i].mass` of the local particles at the indices `begin <= i < end` of the
remote node. -/
theorem C37_hit_adds_local_masses {M : Type} (env : Env M) (w : Walker M)
    (hitCache missCache : CacheManager M) (id fuel : Nat) (node : SFCTreeNode M)
    (part : List GravityParticle) (st : GravState)
    (hcache : w.useCache = true) (hty : node.type = .Bucket)
    (hopen : w.openCriterionBucket node (st.bucketReqs id) = true)
    (hhit : hitCache.requestParticles w.thisIndex (env.lookupKey node.key node.level)
      node.remoteIndex node.beginParticle node.endParticle = some part)
    (hmiss : missCache.requestParticles w.thisIndex (env.lookupKey node.key node.level)
      node.remoteIndex node.beginParticle node.endParticle = none) :
    (cachedWalkBucketTree env w hitCache id (fuel + 1) node st).bucketReqs id
      = particleForces w ((List.range (node.endParticle - node.beginParticle)).map
          (fun i => part.getD i { key := 0 })) (st.bucketReqs id) ∧
    (receiveParticlesWalk env w part ((node.endParticle : Int) - node.beginParticle) id
        (cachedWalkBucketTree env w missCache id (fuel + 1) node st)).bucketReqs id
      = particleForces w ((List.range (node.endParticle - node.beginParticle)).map
          (fun i => part.getD i { key := 0 })) (st.bucketReqs id) ∧
    (cachedWalkBucketTree env w hitCache id (fuel + 1) node st).myNumParticleInteractions
      = st.myNumParticleInteractions + (st.bucketReqs id).numParticlesInBucket *
          (node.endParticle - node.beginParticle) ∧
    (receiveParticlesWalk env w part ((node.endParticle : Int) - node.beginParticle) id
        (cachedWalkBucketTree env w missCache id (fuel + 1) node st)).myNumParticleInteractions
      = st.myNumParticleInteractions + (st.bucketReqs id).numParticlesInBucket *
          (node.endParticle - node.beginParticle) ∧
    ∀ j, (w.reqnode env id).beginParticle ≤ j → j < (w.reqnode env id).endParticle →
      ((cachedWalkBucketTree env w hitCache id (fuel + 1) node st).myParticles j).extpartmass
        = (st.myParticles j).extpartmass +
          massSum (fun i => (st.myParticles i).mass) node.beginParticle node.endParticle ∧
      ((receiveParticlesWalk env w part ((node.endParticle : Int) - node.beginParticle) id
        (cachedWalkBucketTree env w missCache id (fuel + 1) node st)).myParticles j).extpartmass
        = (st.myParticles j).extpartmass +
          fetchedMass part (node.endParticle - node.beginParticle) := by
  have hnum : ((node.endParticle : Int) - (node.beginParticle : Int)).toNat
      = node.endParticle - node.beginParticle := by omega
  rw [cachedWalk_bucket_hit env w hitCache id fuel node part st hcache hty hopen hhit,
    cachedWalk_bucket_miss env w missCache id fuel node st hcache hty hopen hmiss]
  obtain ⟨a1, a2, a3⟩ := remoteParticleStep_fold env w id
    (fun st i => (st.myParticles i).mass)
    (fun st i x p => remoteParticleStep_mass env w id x p st i)
    (fun i => part.getD (i - node.beginParticle) { key := 0 })
    (List.range' node.beginParticle (node.endParticle - node.beginParticle))
    { st with
      myNumMACChecks := st.myNumMACChecks + 1
      myNumParticleInteractions := st.myNumParticleInteractions +
        (st.bucketReqs id).numParticlesInBucket * (node.endParticle - node.beginParticle) }
  unfold receiveParticlesWalk
  simp only [hnum]
  obtain ⟨b1, b2, b3⟩ := remoteParticleStep_fold env w id
    (fun _ i => (part.getD i { key := 0 }).mass) (fun _ _ _ _ => rfl)
    (fun i => part.getD i { key := 0 })
    (List.range (node.endParticle - node.beginParticle))
    { GravState.updateReq
        { GravState.updateReq { st with myNumMACChecks := st.myNumMACChecks + 1 } id
            (fun r => { r with numAdditionalRequests := r.numAdditionalRequests +
              ((node.endParticle : Int) - (node.beginParticle : Int)) }) with
          fetches := st.fetches ++ [.particles id (env.lookupKey node.key node.level)
            node.remoteIndex node.beginParticle node.endParticle] } id
        (fun r => { r with numAdditionalRequests := r.numAdditionalRequests -
          ((node.endParticle : Int) - (node.beginParticle : Int)) }) with
      myNumParticleInteractions := st.myNumParticleInteractions +
        (st.bucketReqs id).numParticlesInBucket * (node.endParticle - node.beginParticle) }
  have hreq : ∀ r : BucketGravityRequest,
      ({ r with numAdditionalRequests := r.numAdditionalRequests +
          ((node.endParticle : Int) - (node.beginParticle : Int)) -
          ((node.endParticle : Int) - (node.beginParticle : Int)) } : BucketGravityRequest)
        = r := by
    intro r
    cases r
    simp
  refine ⟨?_, ?_, ?_, ?_, ?_⟩
  · rw [a1, fetched_list]
  · simp only [GravState.updateReq, if_true] at b1 ⊢
    rw [b1, hreq]
  · rw [a3]
  · simp only [GravState.updateReq, if_true] at b3 ⊢
    rw [b3]
  · intro j hj1 hj2
    constructor
    · rw [a2 j, if_pos ⟨hj1, hj2⟩]
      rfl
    · simp only [GravState.updateReq, if_true] at b2 ⊢
      rw [b2 j, if_pos ⟨hj1, hj2⟩]
      rfl

/-- C37 (code evaluated at the failing input): piece 1 of the two-piece example, whose
particles have mass 1, walks the remote bucket `[1, 2)` of piece 0, whose particle has
mass 5, for its bucket 0 (particle 1). On a cache miss `receiveParticles` adds 5 to the
`extpartmass` of particle 1; on a cache hit `cachedWalkBucketTree` adds 1, the mass of
the local particle at index 1. -/
theorem C37_hit_adds_local_masses_witness :
    cachingWalker.useCache = true ∧ remoteBucket.type = .Bucket ∧
    ((cachedWalkBucketTree exampleEnv cachingWalker holdingCache 0 1 remoteBucket
        exampleGrav).myParticles 1).extpartmass
      = (exampleGrav.myParticles 1).extpartmass +
        massSum (fun i => (exampleGrav.myParticles i).mass) 1 2 ∧
    ((receiveParticlesWalk exampleEnv cachingWalker fetchedParticles ((2 : Int) - 1) 0
        (cachedWalkBucketTree exampleEnv cachingWalker emptyCache 0 1 remoteBucket
          exampleGrav)).myParticles 1).extpartmass
      = (exampleGrav.myParticles 1).extpartmass + fetchedMass fetchedParticles 1 ∧
    ((cachedWalkBucketTree exampleEnv cachingWalker holdingCache 0 1 remoteBucket
        exampleGrav).myParticles 1).extpartmass = 1 ∧
    ((receiveParticlesWalk exampleEnv cachingWalker fetchedParticles 1 0
        (cachedWalkBucketTree exampleEnv cachingWalker emptyCache 0 1 remoteBucket
          exampleGrav)).myParticles 1).extpartmass = 5 :=
  ⟨rfl, rfl,
    ((C37_hit_adds_local_masses exampleEnv cachingWalker holdingCache emptyCache 0 0
      remoteBucket fetchedParticles exampleGrav rfl rfl rfl rfl rfl).2.2.2.2 1
        (by decide) (by decide)).1,
    ((C37_hit_adds_local_masses exampleEnv cachingWalker holdingCache emptyCache 0 0
      remoteBucket fetchedParticles exampleGrav rfl rfl rfl rfl rfl).2.2.2.2 1
        (by decide) (by decide)).2,
    by decide, by decide⟩

/-! ### The opening test of the walk -/

theorem WalkCount.here (st : GravState) : WalkCount st st := ⟨le_refl _, by omega⟩

theorem WalkCount.next {a b c : GravState} (h1 : WalkCount a b) (h2 : WalkCount b c) :
    WalkCount a c := by
  unfold WalkCount at *
  omega

theorem WalkCount.of_same (st st' : GravState)
    (h1 : st'.countIntersects = st.countIntersects)
    (h2 : st.myNumMACChecks ≤ st'.myNumMACChecks) : WalkCount st st' := by
  unfold WalkCount
  omega

theorem requestNode_count {M : Type} (w : Walker M) (cache : CacheManager M)
    (id remoteIndex lookupKey : Nat) (st : GravState) :
    WalkCount st (requestNode w cache id remoteIndex lookupKey st).2 := by
  unfold requestNode
  simp only
  split
  · split
    · split <;> exact WalkCount.of_same _ _ rfl (le_refl _)
    · split <;> exact WalkCount.of_same _ _ rfl (le_refl _)
  · split <;> exact WalkCount.of_same _ _ rfl (le_refl _)

theorem requestParticles_count {M : Type} (w : Walker M) (cache : CacheManager M)
    (id key remoteIndex : Nat) (first last : Int) (st : GravState) :
    WalkCount st (requestParticles w cache id key remoteIndex first last st).2 := by
  unfold requestParticles
  split
  · split <;> exact WalkCount.of_same _ _ rfl (le_refl _)
  · exact WalkCount.of_same _ _ rfl (le_refl _)

theorem localParticleStep_count {M : Type} (env : Env M) (w : Walker M) (id : Nat)
    (st : GravState) (i : Nat) : WalkCount st (localParticleStep env w id st i) :=
  WalkCount.of_same _ _ rfl (le_refl _)

theorem remoteParticleStep_count {M : Type} (env : Env M) (w : Walker M) (id : Nat)
    (m : Int) (part : GravityParticle) (st : GravState) :
    WalkCount st (remoteParticleStep env w id m part st) :=
  WalkCount.of_same _ _ rfl (le_refl _)

theorem foldl_count {α : Type} (f : GravState → α → GravState)
    (hf : ∀ st a, WalkCount st (f st a)) (xs : List α) (st : GravState) :
    WalkCount st (xs.foldl f st) := by
  induction xs generalizing st with
  | nil => exact WalkCount.here _
  | cons x xs ih => exact (hf st x).next (ih (f st x))

theorem cachedWalk_count {M : Type} (env : Env M) (w : Walker M) (cache : CacheManager M)
    (id : Nat) : ∀ (fuel : Nat) (node : SFCTreeNode M) (st : GravState),
      WalkCount st (cachedWalkBucketTree env w cache id fuel node st) := by
  intro fuel
  induction fuel with
  | zero => intro node st; exact WalkCount.here _
  | succ fuel ih =>
    intro node st
    unfold cachedWalkBucketTree
    simp only
    have h0 : WalkCount st
        (if node.type ≠ .Invalid then { st with myNumMACChecks := st.myNumMACChecks + 1 }
         else { st with myNumMACChecks := st.myNumMACChecks + 1, asserts := st.asserts + 1 }) := by
      split <;> exact WalkCount.of_same _ _ rfl (Nat.le_succ _)
    generalize (if node.type ≠ .Invalid then { st with myNumMACChecks := st.myNumMACChecks + 1 }
         else { st with myNumMACChecks := st.myNumMACChecks + 1, asserts := st.asserts + 1 })
      = st0 at h0
    refine h0.next ?_
    split
    · exact WalkCount.here _
    · split
      · exact WalkCount.of_same _ _ rfl (le_refl _)
      · split
        · have h1 := requestParticles_count w cache id (env.lookupKey node.key node.level)
            node.remoteIndex node.beginParticle node.endParticle st0
          split
          · rename_i part st1 heq
            rw [heq] at h1
            refine h1.next ((WalkCount.of_same st1 ({ st1 with
              myNumParticleInteractions := st1.myNumParticleInteractions +
                (st0.bucketReqs id).numParticlesInBucket *
                  (node.endParticle - node.beginParticle) }) rfl (le_refl _)).next ?_)
            exact foldl_count (fun st i => remoteParticleStep env w id (st.myParticles i).mass
              (part.getD (i - node.beginParticle) { key := 0 }) st)
              (fun s i => remoteParticleStep_count env w id _ _ s) _ _
          · rename_i st1 heq
            rw [heq] at h1
            exact h1
        · split
          · have h1 := requestNode_count w cache id node.remoteIndex
              (env.lookupKey node.key node.level) st0
            split
            · rename_i pnode st1 heq
              rw [heq] at h1
              exact h1.next (ih _ _)
            · rename_i st1 heq
              rw [heq] at h1
              exact h1
          · have h1 := requestNode_count w cache id node.remoteIndex
              (w.leftChildLookupKey node.key node.level) st0
            generalize requestNode w cache id node.remoteIndex
              (w.leftChildLookupKey node.key node.level) st0 = ra at h1
            obtain ⟨oa, s1⟩ := ra
            cases oa with
            | none =>
              simp only
              have h2 : WalkCount st0 s1 := h1
              generalize s1 = st2 at h2
              have h3 := requestNode_count w cache id node.remoteIndex
                (w.rightChildLookupKey node.key node.level) st2
              generalize requestNode w cache id node.remoteIndex
                (w.rightChildLookupKey node.key node.level) st2 = rb at h3
              obtain ⟨ob, s3⟩ := rb
              cases ob with
              | none => exact h2.next h3
              | some child => exact h2.next (h3.next (ih _ _))
            | some child1 =>
              simp only
              have h2 : WalkCount st0 (cachedWalkBucketTree env w cache id fuel child1 s1) :=
                h1.next (ih _ _)
              generalize cachedWalkBucketTree env w cache id fuel child1 s1 = st2 at h2
              have h3 := requestNode_count w cache id node.remoteIndex
                (w.rightChildLookupKey node.key node.level) st2
              generalize requestNode w cache id node.remoteIndex
                (w.rightChildLookupKey node.key node.level) st2 = rb at h3
              obtain ⟨ob, s3⟩ := rb
              cases ob with
              | none => exact h2.next h3
              | some child => exact h2.next (h3.next (ih _ _))

theorem walk_count {M : Type} (env : Env M) (w : Walker M) (cache : CacheManager M)
    (id : Nat) : ∀ (t : Tree M) (st : GravState),
      WalkCount st (walkBucketTree env w cache id t st) := by
  intro t
  induction t with
  | null => intro st; exact WalkCount.here _
  | node node l r ihl ihr =>
    intro st
    unfold walkBucketTree
    simp only
    split
    · unfold WalkCount
      simp only [GravState.updateReq, GravState.updateParticles]
      omega
    · have h0 : WalkCount st { st with myNumMACChecks := st.myNumMACChecks + 1 } :=
        WalkCount.of_same _ _ rfl (Nat.le_succ _)
      split
      · refine h0.next ((WalkCount.of_same _ ({ st with
          myNumMACChecks := st.myNumMACChecks + 1
          myNumParticleInteractions := st.myNumParticleInteractions +
            (st.bucketReqs id).numParticlesInBucket *
              (node.endParticle - node.beginParticle) }) rfl (le_refl _)).next ?_)
        exact foldl_count _ (fun s i => localParticleStep_count env w id s i) _ _
      · split
        · have h1 := requestNode_count w cache id node.remoteIndex
            (env.lookupKey node.key node.level)
            { st with myNumMACChecks := st.myNumMACChecks + 1 }
          refine h0.next ?_
          split
          · rename_i pnode st1 heq
            rw [heq] at h1
            exact h1.next ((WalkCount.of_same st1
              ({ st1 with countHits := st1.countHits + 1 }) rfl (le_refl _)).next
              (cachedWalk_count env w cache id _ _ _))
          · rename_i st1 heq
            rw [heq] at h1
            exact h1
        · exact h0.next ((ihl _).next (ihr _))

/-- C31: with the opening test of the walker being `openCriterionBucket`, a node is
treated as a single multipole (`nodeBucketForce` is applied to the bucket, nothing
below the node is visited: one opening test and one more in `countIntersects`) exactly
when the sphere around the node's centre of mass with the radius
`opening_geometry_factor * radius / theta` does not intersect the bounding box of the
request; otherwise a `Bucket` gets the direct forces of each of its particles, a
`NonLocal` node is requested with `requestNode` and walked with `cachedWalkBucketTree`
on a hit, and a node of any other kind is walked through its left child and then its
right child, a null child being skipped. -/
theorem C31_walk_dispatch {M V S Sph Box : Type} (env : Env M) (w : Walker M)
    (geo : OpeningGeometry M V S Sph Box) (cache : CacheManager M) (id : Nat)
    (node : SFCTreeNode M) (l r : Tree M) (st : GravState)
    (hgeo : w.openCriterionBucket = openCriterionBucket geo) :
    (((walkBucketTree env w cache id (.node node l r) st).countIntersects
          = st.countIntersects + 1 ∧
        (walkBucketTree env w cache id (.node node l r) st).myNumMACChecks
          = st.myNumMACChecks + 1) ↔
      geo.intersect (geo.boundingBox (st.bucketReqs id))
        (geo.sphere (geo.cm node.moments) (geo.scaled (geo.radius node.moments))) = false) ∧
    (geo.intersect (geo.boundingBox (st.bucketReqs id))
        (geo.sphere (geo.cm node.moments) (geo.scaled (geo.radius node.moments))) = false →
      walkBucketTree env w cache id (.node node l r) st =
        GravState.updateReq
          (GravState.updateParticles
            { st with
              myNumMACChecks := st.myNumMACChecks + 1
              countIntersects := st.countIntersects + 1
              myNumCellInteractions := st.myNumCellInteractions +
                (st.bucketReqs id).numParticlesInBucket }
            (w.reqnode env id).beginParticle (w.reqnode env id).endParticle
            (fun p => { p with intcellmass := p.intcellmass + env.totalMass node.moments }))
          id (fun r => applyForce r (w.nodeBucketForce node r))) ∧
    (geo.intersect (geo.boundingBox (st.bucketReqs id))
        (geo.sphere (geo.cm node.moments) (geo.scaled (geo.radius node.moments))) = true →
      (node.type = .Bucket →
        walkBucketTree env w cache id (.node node l r) st =
          (List.range' node.beginParticle (node.endParticle - node.beginParticle)).foldl
            (localParticleStep env w id)
            { st with
              myNumMACChecks := st.myNumMACChecks + 1
              myNumParticleInteractions := st.myNumParticleInteractions +
                (st.bucketReqs id).numParticlesInBucket *
                  (node.endParticle - node.beginParticle) }) ∧
      (node.type = .NonLocal →
        walkBucketTree env w cache id (.node node l r) st =
          match requestNode w cache id node.remoteIndex (env.lookupKey node.key node.level)
              { st with myNumMACChecks := st.myNumMACChecks + 1 } with
          | (some pnode, st) =>
            cachedWalkBucketTree env w cache id w.depth pnode
              { st with countHits := st.countHits + 1 }
          | (none, st) => st) ∧
      (node.type ≠ .Bucket → node.type ≠ .NonLocal →
        walkBucketTree env w cache id (.node node l r) st =
          walkBucketTree env w cache id r (walkBucketTree env w cache id l
            { st with myNumMACChecks := st.myNumMACChecks + 1 }))) ∧
    walkBucketTree env w cache id .null st = st := by
  have hopen : w.openCriterionBucket node (st.bucketReqs id)
      = geo.intersect (geo.boundingBox (st.bucketReqs id))
        (geo.sphere (geo.cm node.moments) (geo.scaled (geo.radius node.moments))) := by
    rw [hgeo]; rfl
  rw [← hopen]
  have hmulti : w.openCriterionBucket node (st.bucketReqs id) = false →
      walkBucketTree env w cache id (.node node l r) st =
        GravState.updateReq
          (GravState.updateParticles
            { st with
              myNumMACChecks := st.myNumMACChecks + 1
              countIntersects := st.countIntersects + 1
              myNumCellInteractions := st.myNumCellInteractions +
                (st.bucketReqs id).numParticlesInBucket }
            (w.reqnode env id).beginParticle (w.reqnode env id).endParticle
            (fun p => { p with intcellmass := p.intcellmass + env.totalMass node.moments }))
          id (fun r => applyForce r (w.nodeBucketForce node r)) := by
    intro h
    simp [walkBucketTree, h]
  have hrec : w.openCriterionBucket node (st.bucketReqs id) = true →
      WalkCount { st with myNumMACChecks := st.myNumMACChecks + 1 }
        (walkBucketTree env w cache id (.node node l r) st) := by
    intro h
    unfold walkBucketTree
    simp only [h, not_true_eq_false, if_false]
    split
    · refine (WalkCount.of_same _ ({ st with
          myNumMACChecks := st.myNumMACChecks + 1
          myNumParticleInteractions := st.myNumParticleInteractions +
            (st.bucketReqs id).numParticlesInBucket *
              (node.endParticle - node.beginParticle) }) rfl (le_refl _)).next ?_
      exact foldl_count _ (fun s i => localParticleStep_count env w id s i) _ _
    · split
      · have h1 := requestNode_count w cache id node.remoteIndex
          (env.lookupKey node.key node.level)
          { st with myNumMACChecks := st.myNumMACChecks + 1 }
        split
        · rename_i pnode st1 heq
          rw [heq] at h1
          exact h1.next ((WalkCount.of_same st1
            ({ st1 with countHits := st1.countHits + 1 }) rfl (le_refl _)).next
            (cachedWalk_count env w cache id _ _ _))
        · rename_i st1 heq
          rw [heq] at h1
          exact h1
      · exact (walk_count env w cache id l _).next (walk_count env w cache id r _)
  refine ⟨?_, hmulti, ?_, rfl⟩
  · constructor
    · intro hc
      cases h : w.openCriterionBucket node (st.bucketReqs id)
      · rfl
      · have := hrec h
        unfold WalkCount at this
        simp only at this
        omega
    · intro h
      rw [hmulti h]
      exact ⟨rfl, rfl⟩
  · intro h
    refine ⟨?_, ?_, ?_⟩
    · intro hty
      simp [walkBucketTree, h, hty]
    · intro hty
      have hnb : node.type ≠ .Bucket := by rw [hty]; decide
      unfold walkBucketTree
      simp only [h, not_true_eq_false, if_false, if_neg hnb, if_pos hty]
    · intro hb hn
      simp [walkBucketTree, h, hb, hn]

/-- C31 on a line: the bucket at position 5 is away from the bounding box `[100, 200]`
and is treated as a single multipole, with one opening test. -/
theorem C31_walk_dispatch_witness :
    lineWalker.openCriterionBucket = openCriterionBucket lineGeometry ∧
    (walkBucketTree exampleEnv lineWalker emptyCache 0 (.node remoteBucket .null .null)
        exampleGrav).countIntersects = exampleGrav.countIntersects + 1 ∧
    (walkBucketTree exampleEnv lineWalker emptyCache 0 (.node remoteBucket .null .null)
        exampleGrav).myNumMACChecks = exampleGrav.myNumMACChecks + 1 :=
  ⟨rfl, (C31_walk_dispatch exampleEnv lineWalker lineGeometry emptyCache 0 remoteBucket
    .null .null exampleGrav rfl).1.2 rfl⟩

/-! ### The place of the NonLocal nodes -/

theorem optLookup_childOK {M : Type} (env : Env M) (pc : Piece) (c : Prop) [Decidable c]
    (k lv : Nat) (st : BuildState M) (l r : Nat) (hc : c → atBoundary pc l r) :
    ChildOK pc l r (optLookup env pc c k lv st).1 := by
  unfold optLookup
  split
  · rename_i h
    unfold lookupChild
    simp only
    split
    · refine ⟨?_, fun _ => hc h, fun hn => absurd (hc h) hn⟩
      simp [Tree.RemoteOK, Tree.isNonLocal, Tree.nodes]
    · exact ⟨trivial, fun hn => absurd hn (by simp [Tree.isNonLocal]),
        fun _ m hm => by simp [Tree.nodes] at hm⟩
  · exact ⟨trivial, fun hn => absurd hn (by simp [Tree.isNonLocal]),
      fun _ m hm => by simp [Tree.nodes] at hm⟩

theorem BuiltOK.child {M : Type} {pc : Piece} {l' r' : Nat} {t : Tree M}
    (h : BuiltOK pc l' r' t) (l r : Nat) (hmono : atBoundary pc l' r' → atBoundary pc l r) :
    ChildOK pc l r t ∧ t ≠ .null ∧ ¬ t.isNonLocal := by
  obtain ⟨⟨n, lt, rt, rfl, hn⟩, h2, h3⟩ := h
  exact ⟨⟨h2, fun hnl => absurd hnl hn, fun hb => h3 (fun hb' => hb (hmono hb'))⟩,
    by simp, hn⟩

theorem finishNode_builtOK {M : Type} {env : Env M} {pc : Piece} {node : SFCTreeNode M}
    {l r : Nat} {lt rt t : Tree M} {st st' : BuildState M}
    (h : finishNode env pc node l r lt rt st = some (t, st'))
    (hl : ChildOK pc l r lt) (hr : ChildOK pc l r rt)
    (hsib : (lt ≠ .null ∧ ¬ lt.isNonLocal) ∨ (rt ≠ .null ∧ ¬ rt.isNonLocal)) :
    BuiltOK pc l r t := by
  obtain ⟨n, rfl, h1, -, h3⟩ := finishNode_class h
  have hn : n.type ≠ .NonLocal := by
    by_cases hb : n.type = .Boundary
    · rw [hb]; decide
    · rw [(h3 hb).1]; decide
  obtain ⟨l1, l2, l3⟩ := hl
  obtain ⟨r1, r2, r3⟩ := hr
  refine ⟨⟨n, lt, rt, rfl, hn⟩, ?_, ?_⟩
  · refine ⟨fun h => absurd h hn, ?_, ?_, ?_, l1, r1⟩
    · intro hnl
      refine ⟨h1.2 (l2 hnl), ?_⟩
      rcases hsib with hs | hs
      · exact absurd hnl hs.2
      · exact hs
    · intro hnl
      refine ⟨h1.2 (r2 hnl), ?_⟩
      rcases hsib with hs | hs
      · exact hs
      · exact absurd hnl hs.2
    · intro hb m hm
      have hnb : ¬ atBoundary pc l r := fun hab => hb (h1.2 hab)
      rcases List.mem_append.1 hm with hm | hm
      · exact l3 hnb m hm
      · exact r3 hnb m hm
  · intro hnb m hm
    simp only [Tree.nodes, List.mem_cons, List.mem_append] at hm
    rcases hm with rfl | hm | hm
    · exact hn
    · exact l3 hnb m hm
    · exact r3 hnb m hm

theorem Built_remoteOK {M : Type} {env : Env M} {pc : Piece} {parts : List GravityParticle}
    {bits key l r : Nat} {st st' : BuildState M} {t : Tree M}
    (h : Built env pc parts bits key l r st t st') : BuiltOK pc l r t := by
  induction h with
  | bucket bits key l r st hok hc =>
    refine ⟨⟨_, _, _, rfl, by simp [bucketNode]⟩, ?_, ?_⟩
    · simp [Tree.RemoteOK, Tree.isNonLocal, Tree.nodes, bucketNode]
    · intro _ m hm
      simp only [Tree.nodes, List.append_nil, List.mem_singleton] at hm
      subst hm
      simp [bucketNode]
  | exhausted key l r st hok hc hsz =>
    refine ⟨⟨_, _, _, rfl, by simp [startNode, freshNode]⟩, ?_, ?_⟩
    · simp [Tree.RemoteOK, Tree.isNonLocal, Tree.nodes, startNode, freshNode]
    · intro _ m hm
      simp only [Tree.nodes, List.append_nil, List.mem_singleton] at hm
      subst hm
      simp [startNode, freshNode]
  | leftRemote b key r st st1 st' rt t hok hc hr hf ih =>
    have hchild := ih.child 0 r (fun hb => by
      unfold atBoundary at hb ⊢
      rcases hb with hb | hb
      · exact absurd hb.1 (by omega)
      · exact Or.inr hb)
    exact finishNode_builtOK hf
      (optLookup_childOK env pc _ _ _ _ 0 r (fun hc' => Or.inl ⟨rfl, hc'⟩))
      hchild.1 (Or.inr hchild.2)
  | rightRemote b key l st st1 st' lt t hok hc hl hf ih =>
    have hchild := ih.child l (pc.myNumParticles + 1) (fun hb => by
      unfold atBoundary at hb ⊢
      rcases hb with hb | hb
      · exact Or.inl hb
      · exact absurd hb.1 (by omega))
    exact finishNode_builtOK hf hchild.1
      (optLookup_childOK env pc _ _ _ _ l _ (fun hc' => Or.inr ⟨rfl, hc'⟩))
      (Or.inl hchild.2)
  | split b key l r s st st1 st2 st' lt rt t hok hc hls hsr hs1 hsN hl hr hf ih1 ih2 =>
    have hrN : r ≤ pc.myNumParticles + 1 := hok.2.2.1
    have hc1 := ih1.child l r (fun hb => by
      unfold atBoundary at hb ⊢
      rcases hb with hb | hb
      · exact Or.inl hb
      · exact absurd hb.1 (by omega))
    have hc2 := ih2.child l r (fun hb => by
      unfold atBoundary at hb ⊢
      rcases hb with hb | hb
      · exact absurd hb.1 (by omega)
      · exact Or.inr hb)
    exact finishNode_builtOK hf hc1.1 hc2.1 (Or.inl hc1.2)
  | ones b key l r st st1 st' rt t hok hc hr hf ih =>
    have hchild := ih.child l r (fun hb => hb)
    exact finishNode_builtOK hf
      (optLookup_childOK env pc _ _ _ _ l r (fun hc' => Or.inl hc'))
      hchild.1 (Or.inr hchild.2)
  | zeros b key l r st st1 st' lt t hok hc hl hf ih =>
    have hchild := ih.child l r (fun hb => hb)
    exact finishNode_builtOK hf hchild.1
      (optLookup_childOK env pc _ _ _ _ l r (fun hc' => Or.inr hc'))
      (Or.inl hchild.2)

theorem atPath_mem_nodes {M : Type} : ∀ (p : List Bool) (t : Tree M) (n : SFCTreeNode M),
    t.atPath p = some n → n ∈ t.nodes := by
  intro p
  induction p with
  | nil =>
    intro t n h
    cases t with
    | null => simp [Tree.atPath] at h
    | node a l r =>
      simp only [Tree.atPath, Option.some.injEq] at h
      subst h
      simp [Tree.nodes]
  | cons b p ih =>
    intro t n h
    cases t with
    | null => simp [Tree.atPath] at h
    | node a l r =>
      cases b with
      | false =>
        simp only [Tree.atPath] at h
        simp only [Tree.nodes, List.mem_cons, List.mem_append]
        exact Or.inr (Or.inl (ih l n h))
      | true =>
        simp only [Tree.atPath] at h
        simp only [Tree.nodes, List.mem_cons, List.mem_append]
        exact Or.inr (Or.inr (ih r n h))

theorem atPath_nil_some {M : Type} (t : Tree M) (ht : t ≠ .null) :
    ∃ s, t.atPath [] = some s := by
  cases t with
  | null => exact absurd rfl ht
  | node a l r => exact ⟨a, rfl⟩

/-- In a tree with the `NonLocal` nodes in place, `calculateRemoteMoments` dereferences
no null parent or sibling, and it leaves a node where there was one that is not
`NonLocal`. -/
theorem RemoteOK_total {M : Type} (env : Env M) :
    ∀ (t : Tree M), t.RemoteOK → ¬ t.isNonLocal →
      ∀ ctx, ∃ t', calculateRemoteMoments env ctx t = some t' ∧ (t ≠ .null → t' ≠ .null) := by
  intro t
  induction t with
  | null =>
    intro _ _ ctx
    exact ⟨.null, rfl, fun h => h⟩
  | node n l r ihl ihr =>
    intro hok hn ctx
    have hn' : n.type ≠ .NonLocal := hn
    obtain ⟨-, h2, h3, -, h5, h6⟩ := hok
    unfold calculateRemoteMoments
    rw [if_neg hn']
    by_cases hb : n.type = .Boundary
    · rw [if_pos hb]
      have hleft : ∃ l', calculateRemoteMoments env (some (n, r)) l = some l' ∧
          (l ≠ .null → ¬ l.isNonLocal → l' ≠ .null) := by
        by_cases hl : l.isNonLocal
        · obtain ⟨-, hr1, -⟩ := h2 hl
          cases l with
          | null => exact absurd hl (by simp [Tree.isNonLocal])
          | node c cl cr =>
            cases r with
            | null => exact absurd rfl hr1
            | node s sl sr =>
              have hc : c.type = .NonLocal := hl
              unfold calculateRemoteMoments
              rw [if_pos hc]
              simp only
              split
              · exact ⟨_, rfl, fun _ h => absurd hl h⟩
              · exact ⟨_, rfl, fun _ h => absurd hl h⟩
        · obtain ⟨l', e, hne⟩ := ihl h5 hl (some (n, r))
          exact ⟨l', e, fun h _ => hne h⟩
      obtain ⟨l', el, hl'⟩ := hleft
      rw [el]
      simp only
      have hright : ∃ r', calculateRemoteMoments env (some (n, l')) r = some r' := by
        by_cases hr : r.isNonLocal
        · obtain ⟨-, hl1, hl2⟩ := h3 hr
          have hl3 := hl' hl1 hl2
          cases r with
          | null => exact absurd hr (by simp [Tree.isNonLocal])
          | node c cl cr =>
            cases l' with
            | null => exact absurd rfl hl3
            | node s sl sr =>
              have hc : c.type = .NonLocal := hr
              unfold calculateRemoteMoments
              rw [if_pos hc]
              simp only
              split
              · exact ⟨_, rfl⟩
              · exact ⟨_, rfl⟩
        · obtain ⟨r', e, -⟩ := ihr h6 hr (some (n, l'))
          exact ⟨r', e⟩
      obtain ⟨r', er⟩ := hright
      rw [er]
      exact ⟨_, rfl, fun _ => by simp⟩
    · rw [if_neg hb]
      exact ⟨_, rfl, fun _ => by simp⟩

/-- In a tree with the `NonLocal` nodes in place, `calculateRemoteMoments` called for the
root is called for every `NonLocal` node. -/
theorem RemoteOK_calls {M : Type} :
    ∀ (t : Tree M), t.RemoteOK → ∀ m ∈ t.nodes, m.type = .NonLocal → m ∈ t.remoteCalls := by
  intro t
  induction t with
  | null =>
    intro _ m hm
    simp [Tree.nodes] at hm
  | node n l r ihl ihr =>
    intro hok m hm hty
    obtain ⟨-, -, -, h4, h5, h6⟩ := hok
    simp only [Tree.nodes, List.mem_cons] at hm
    simp only [Tree.remoteCalls, List.mem_cons]
    rcases hm with rfl | hm
    · exact Or.inl rfl
    · right
      by_cases hb : n.type = .Boundary
      · rw [if_pos hb]
        rcases List.mem_append.1 hm with hm | hm
        · exact List.mem_append_left _ (ihl h5 m hm hty)
        · exact List.mem_append_right _ (ihr h6 m hm hty)
      · exact absurd hty (h4 hb m hm)

/-- In a tree with the `NonLocal` nodes in place whose root is not `NonLocal`, a `NonLocal`
node is not the root, the other child pointer of its parent is not null, and its parent
and all nodes above are `Boundary`. -/
theorem RemoteOK_paths {M : Type} :
    ∀ (p : List Bool) (t : Tree M) (n : SFCTreeNode M), t.RemoteOK → ¬ t.isNonLocal →
      t.atPath p = some n → n.type = .NonLocal →
      ∃ q b, p = q ++ [b] ∧ (∃ s, t.atPath (q ++ [!b]) = some s) ∧
        ∀ q1 q2, q = q1 ++ q2 → ∃ a, t.atPath q1 = some a ∧ a.type = .Boundary := by
  intro p
  induction p with
  | nil =>
    intro t n _ hroot hp hty
    cases t with
    | null => simp [Tree.atPath] at hp
    | node a l r =>
      simp only [Tree.atPath, Option.some.injEq] at hp
      subst hp
      exact absurd hty hroot
  | cons b p ih =>
    intro t n hok hroot hp hty
    cases t with
    | null => simp [Tree.atPath] at hp
    | node a l r =>
      obtain ⟨h1, h2, h3, h4, h5, h6⟩ := hok
      have hmem : n ∈ l.nodes ++ r.nodes := by
        cases b with
        | false => exact List.mem_append_left _ (atPath_mem_nodes p l n hp)
        | true => exact List.mem_append_right _ (atPath_mem_nodes p r n hp)
      have hb : a.type = .Boundary := by
        by_contra hb
        exact h4 hb n hmem hty
      cases b with
      | false =>
        simp only [Tree.atPath] at hp
        by_cases hl : l.isNonLocal
        · cases l with
          | null => exact absurd hl (by simp [Tree.isNonLocal])
          | node c cl cr =>
            obtain ⟨hcl, hcr⟩ := h5.1 hl
            subst hcl hcr
            cases p with
            | nil =>
              obtain ⟨-, hr1, -⟩ := h2 hl
              obtain ⟨s, hs⟩ := atPath_nil_some r hr1
              refine ⟨[], false, rfl, ⟨s, by simpa [Tree.atPath] using hs⟩, ?_⟩
              intro q1 q2 hq
              have : q1 = [] := by
                cases q1 with
                | nil => rfl
                | cons x xs => simp at hq
              subst this
              exact ⟨a, rfl, hb⟩
            | cons x xs =>
              cases x <;> simp [Tree.atPath] at hp
        · obtain ⟨q, b', hq, ⟨s, hs⟩, hpre⟩ := ih l n h5 hl hp hty
          refine ⟨false :: q, b', by simp [hq], ⟨s, by simpa [Tree.atPath] using hs⟩, ?_⟩
          intro q1 q2 hq12
          cases q1 with
          | nil => exact ⟨a, rfl, hb⟩
          | cons x xs =>
            simp only [List.cons_append, List.cons.injEq] at hq12
            obtain ⟨rfl, hq12⟩ := hq12
            obtain ⟨a', ha', hb'⟩ := hpre xs q2 hq12
            exact ⟨a', by simpa [Tree.atPath] using ha', hb'⟩
      | true =>
        simp only [Tree.atPath] at hp
        by_cases hr : r.isNonLocal
        · cases r with
          | null => exact absurd hr (by simp [Tree.isNonLocal])
          | node c cl cr =>
            obtain ⟨hcl, hcr⟩ := h6.1 hr
            subst hcl hcr
            cases p with
            | nil =>
              obtain ⟨-, hl1, -⟩ := h3 hr
              obtain ⟨s, hs⟩ := atPath_nil_some l hl1
              refine ⟨[], true, rfl, ⟨s, by simpa [Tree.atPath] using hs⟩, ?_⟩
              intro q1 q2 hq
              have : q1 = [] := by
                cases q1 with
                | nil => rfl
                | cons x xs => simp at hq
              subst this
              exact ⟨a, rfl, hb⟩
            | cons x xs =>
              cases x <;> simp [Tree.atPath] at hp
        · obtain ⟨q, b', hq, ⟨s, hs⟩, hpre⟩ := ih r n h6 hr hp hty
          refine ⟨true :: q, b', by simp [hq], ⟨s, by simpa [Tree.atPath] using hs⟩, ?_⟩
          intro q1 q2 hq12
          cases q1 with
          | nil => exact ⟨a, rfl, hb⟩
          | cons x xs =>
            simp only [List.cons_append, List.cons.injEq] at hq12
            obtain ⟨rfl, hq12⟩ := hq12
            obtain ⟨a', ha', hb'⟩ := hpre xs q2 hq12
            exact ⟨a', by simpa [Tree.atPath] using ha', hb'⟩

theorem SameKinds_refl {M : Type} : ∀ t : Tree M, t.SameKinds t := by
  intro t
  induction t with
  | null => trivial
  | node n l r ihl ihr => exact ⟨rfl, ihl, ihr⟩

theorem SameKinds_trans {M : Type} : ∀ (a b c : Tree M),
    a.SameKinds b → b.SameKinds c → a.SameKinds c := by
  intro a
  induction a with
  | null =>
    intro b c h1 h2
    cases b with
    | null => exact h2
    | node _ _ _ => exact absurd h1 (by simp [Tree.SameKinds])
  | node n l r ihl ihr =>
    intro b c h1 h2
    cases b with
    | null => exact absurd h1 (by simp [Tree.SameKinds])
    | node n2 l2 r2 =>
      cases c with
      | null => exact absurd h2 (by simp [Tree.SameKinds])
      | node n3 l3 r3 =>
        exact ⟨h1.1.trans h2.1, ihl _ _ h1.2.1 h2.2.1, ihr _ _ h1.2.2 h2.2.2⟩

theorem SameKinds_nodes {M : Type} : ∀ (a b : Tree M), a.SameKinds b →
    a.nodes.map (fun n => n.type) = b.nodes.map (fun n => n.type) := by
  intro a
  induction a with
  | null =>
    intro b h
    cases b with
    | null => rfl
    | node _ _ _ => exact absurd h (by simp [Tree.SameKinds])
  | node n l r ihl ihr =>
    intro b h
    cases b with
    | null => exact absurd h (by simp [Tree.SameKinds])
    | node n2 l2 r2 =>
      simp only [Tree.nodes, List.map_cons, List.map_append]
      rw [h.1, ihl _ h.2.1, ihr _ h.2.2]

theorem SameKinds_isNonLocal {M : Type} (a b : Tree M) (h : a.SameKinds b) :
    (a.isNonLocal ↔ b.isNonLocal) ∧ (a = .null ↔ b = .null) := by
  cases a with
  | null =>
    cases b with
    | null => exact ⟨Iff.rfl, by simp⟩
    | node _ _ _ => exact absurd h (by simp [Tree.SameKinds])
  | node n l r =>
    cases b with
    | null => exact absurd h (by simp [Tree.SameKinds])
    | node n2 l2 r2 =>
      refine ⟨?_, by simp⟩
      simp only [Tree.isNonLocal]
      rw [h.1]

theorem no_kind_of_nodes {M : Type} (xs ys : List (SFCTreeNode M))
    (h : xs.map (fun n => n.type) = ys.map (fun n => n.type))
    (hx : ∀ m ∈ xs, m.type ≠ .NonLocal) : ∀ m ∈ ys, m.type ≠ .NonLocal := by
  intro m hm hty
  have : NodeType.NonLocal ∈ ys.map (fun n => n.type) :=
    List.mem_map.2 ⟨m, hm, hty⟩
  rw [← h] at this
  obtain ⟨x, hx1, hx2⟩ := List.mem_map.1 this
  exact hx x hx1 hx2

theorem SameKinds_remoteOK {M : Type} : ∀ (a b : Tree M), a.SameKinds b →
    a.RemoteOK → b.RemoteOK := by
  intro a
  induction a with
  | null =>
    intro b h _
    cases b with
    | null => trivial
    | node _ _ _ => exact absurd h (by simp [Tree.SameKinds])
  | node n l r ihl ihr =>
    intro b h hok
    cases b with
    | null => exact absurd h (by simp [Tree.SameKinds])
    | node n2 l2 r2 =>
      obtain ⟨hty, hl, hr⟩ := h
      obtain ⟨h1, h2, h3, h4, h5, h6⟩ := hok
      obtain ⟨el1, el2⟩ := SameKinds_isNonLocal l l2 hl
      obtain ⟨er1, er2⟩ := SameKinds_isNonLocal r r2 hr
      refine ⟨?_, ?_, ?_, ?_, ihl _ hl h5, ihr _ hr h6⟩
      · intro hn
        obtain ⟨a1, a2⟩ := h1 (hty.trans hn)
        exact ⟨el2.1 a1, er2.1 a2⟩
      · intro hn
        obtain ⟨a1, a2, a3⟩ := h2 (el1.2 hn)
        exact ⟨hty ▸ a1, fun e => a2 (er2.2 e), fun e => a3 (er1.2 e)⟩
      · intro hn
        obtain ⟨a1, a2, a3⟩ := h3 (er1.2 hn)
        exact ⟨hty ▸ a1, fun e => a2 (el2.2 e), fun e => a3 (el1.2 e)⟩
      · intro hnb
        have hnb' : n.type ≠ .Boundary := by rw [hty]; exact hnb
        refine no_kind_of_nodes (l.nodes ++ r.nodes) (l2.nodes ++ r2.nodes) ?_ (h4 hnb')
        simp only [List.map_append]
        rw [SameKinds_nodes l l2 hl, SameKinds_nodes r r2 hr]

theorem modify_sameKinds {M : Type} (env : Env M) (k : Nat)
    (f : SFCTreeNode M → SFCTreeNode M) : ∀ t : Tree M,
    (∀ x, t.find env k = some x → (f x).type = x.type) → t.SameKinds (t.modify env k f) := by
  intro t
  induction t with
  | null => intro _; trivial
  | node n l r ihl ihr =>
    intro hf
    unfold Tree.modify
    unfold Tree.find at hf
    split
    · rename_i hk
      rw [if_pos hk] at hf
      exact ⟨(hf n rfl).symm, SameKinds_refl l, SameKinds_refl r⟩
    · rename_i hk
      rw [if_neg hk] at hf
      split
      · rename_i x hx
        rw [hx] at hf
        refine ⟨rfl, ihl ?_, SameKinds_refl r⟩
        intro y hy
        rw [hx] at hy
        simp only [Option.some.injEq] at hy
        subst hy
        exact hf x rfl
      · rename_i hx
        rw [hx] at hf
        exact ⟨rfl, SameKinds_refl l, ihr hf⟩

/-- C34: in the tree that `buildTree` leaves on a sorted particle array, every
`NonLocal` node is a child (the tree position `q ++ [b]`) whose sibling pointer (the
position `q ++ [!b]`) is not null and whose parent and all further ancestors up to the
root (the positions that are prefixes of `q`) are `Boundary`. Hence
`calculateRemoteMoments(root)` is called for every `NonLocal` node and returns without
dereferencing a null parent or sibling, on the tree as built and on every tree with the
same nodes of the same kinds, such as the tree after the updates of the fields of a node
by `acceptBoundaryNodeContribution` and `acceptBoundaryNode`. -/
theorem C34_nonlocal_below_boundary {M : Type} (env : Env M) (pc : Piece)
    (parts : List GravityParticle) (t : Tree M) (st : BuildState M)
    (hlen : parts.length = pc.myNumParticles + 2)
    (hsorted : ∀ i j, i ≤ j → j ≤ pc.myNumParticles + 1 → keyAt parts i ≤ keyAt parts j)
    (hkey : keyAt parts (pc.myNumParticles + 1) ≤ lastPossibleKey)
    (hbuild : buildTree env pc parts 63 firstPossibleKey 0 (pc.myNumParticles + 1)
      BuildState.initial = some (t, st)) :
    (∀ p n, t.atPath p = some n → n.type = .NonLocal →
      ∃ q b, p = q ++ [b] ∧ (∃ s, t.atPath (q ++ [!b]) = some s) ∧
        ∀ q1 q2, q = q1 ++ q2 → ∃ a, t.atPath q1 = some a ∧ a.type = .Boundary) ∧
    (∀ n ∈ t.nodes, n.type = .NonLocal → n ∈ t.remoteCalls) ∧
    (∃ t', calculateRemoteMoments env none t = some t') ∧
    (∀ t2, t.SameKinds t2 →
      (∃ t', calculateRemoteMoments env none t2 = some t') ∧
      (∀ n ∈ t2.nodes, n.type = .NonLocal → n ∈ t2.remoteCalls) ∧
      ∀ k f, (∀ x, t2.find env k = some x → (f x).type = x.type) →
        t.SameKinds (t2.modify env k f)) := by
  have hb := buildTree_built env pc parts hlen hsorted 63 firstPossibleKey 0
    (pc.myNumParticles + 1) BuildState.initial t st (root_callOK pc parts hsorted hkey) hbuild
  obtain ⟨⟨n, lt, rt, rfl, hn⟩, hok, -⟩ := Built_remoteOK hb
  have hsame : ∀ t2, (Tree.node n lt rt).SameKinds t2 →
      (∃ t', calculateRemoteMoments env none t2 = some t') ∧
      (∀ m ∈ t2.nodes, m.type = .NonLocal → m ∈ t2.remoteCalls) := by
    intro t2 h2
    have hok2 := SameKinds_remoteOK _ t2 h2 hok
    have hn2 : ¬ t2.isNonLocal := fun h => hn ((SameKinds_isNonLocal _ t2 h2).1.2 h)
    obtain ⟨t', e, -⟩ := RemoteOK_total env t2 hok2 hn2 none
    exact ⟨⟨t', e⟩, RemoteOK_calls t2 hok2⟩
  refine ⟨?_, (hsame _ (SameKinds_refl _)).2, (hsame _ (SameKinds_refl _)).1, ?_⟩
  · intro p m hp hty
    exact RemoteOK_paths p _ m hok hn hp hty
  · intro t2 h2
    refine ⟨(hsame t2 h2).1, (hsame t2 h2).2, ?_⟩
    intro k f hf
    exact SameKinds_trans _ t2 _ h2 (modify_sameKinds env k f t2 hf)

/-- C34 on piece 0 of two: the `NonLocal` node of the tree is the right child of the
`Boundary` root, its sibling is the left child, and `calculateRemoteMoments(root)`
returns. -/
theorem C34_nonlocal_below_boundary_witness :
    (builtTree exampleEnv pieceZero (setSentinels pieceZero partsZero)).nodes.map
      (fun n => n.type)
      = [.Boundary, .Internal, .Internal, .Bucket, .Bucket, .NonLocal] ∧
    (((builtTree exampleEnv pieceZero (setSentinels pieceZero partsZero)).atPath
      [true]).map (fun n => n.type)) = some .NonLocal ∧
    (∃ t', calculateRemoteMoments exampleEnv none
      (builtTree exampleEnv pieceZero (setSentinels pieceZero partsZero)) = some t') :=
  ⟨by decide, by decide,
    (C34_nonlocal_below_boundary exampleEnv pieceZero (setSentinels pieceZero partsZero)
      (builtTree exampleEnv pieceZero (setSentinels pieceZero partsZero))
      (builtMembers exampleEnv pieceZero (setSentinels pieceZero partsZero)) rfl
      (by
        intro i j hij hj
        have hj' : j ≤ 3 := hj
        interval_cases j <;> interval_cases i <;> decide)
      (by decide) rfl).2.2.1⟩

/-! ### The depth of the build -/

theorem optLookup_within {M : Type} (env : Env M) (pc : Piece) (c : Prop) [Decidable c]
    (k lv : Nat) (st : BuildState M) (n : SFCTreeNode M) :
    (optLookup env pc c k lv st).1.within n ∧ (optLookup env pc c k lv st).1.Nested := by
  unfold optLookup
  split
  · unfold lookupChild
    simp only
    split
    · exact ⟨fun h => absurd rfl h, trivial, trivial, trivial, trivial⟩
    · exact ⟨trivial, trivial⟩
  · exact ⟨trivial, trivial⟩

theorem Built_nested {M : Type} {env : Env M} {pc : Piece} {parts : List GravityParticle}
    {bits key l r : Nat} {st st' : BuildState M} {t : Tree M}
    (h : Built env pc parts bits key l r st t st') :
    (∃ n lt rt, t = .node n lt rt ∧ Visited pc bits key l r n) ∧ t.Nested := by
  have hfin : ∀ (bits key l r : Nat) (lt rt t : Tree M) (st st' : BuildState M),
      finishNode env pc (startNode env pc bits key l r) l r lt rt st = some (t, st') →
      (∀ n, Visited pc bits key l r n → lt.within n) →
      (∀ n, Visited pc bits key l r n → rt.within n) →
      lt.Nested → rt.Nested →
      (∃ n lt rt, t = .node n lt rt ∧ Visited pc bits key l r n) ∧ t.Nested := by
    intro bits key l r lt rt t st st' hf h1 h2 h3 h4
    obtain ⟨n, rfl, hv⟩ := finish_visited hf
    exact ⟨⟨n, lt, rt, rfl, hv⟩, h1 n hv, h2 n hv, h3, h4⟩
  have hchild : ∀ (bits key l r bits' key' l' r' : Nat) (c : Tree M),
      (∃ n lt rt, c = .node n lt rt ∧ Visited pc bits' key' l' r' n) →
      (if l = 0 then l + 1 else l) ≤ (if l' = 0 then l' + 1 else l') →
      (if r' = pc.myNumParticles + 1 then r' + 1 - 1 else r' + 1)
        ≤ (if r = pc.myNumParticles + 1 then r + 1 - 1 else r + 1) →
      ∀ n, Visited pc bits key l r n → c.within n := by
    intro bits key l r bits' key' l' r' c hc hb he n hv
    obtain ⟨m, lt, rt, rfl, hm⟩ := hc
    intro _
    obtain ⟨-, -, m3, m4⟩ := hm
    obtain ⟨-, -, n3, n4⟩ := hv
    rw [m3, m4, n3, n4]
    exact ⟨hb, he⟩
  induction h with
  | bucket bits key l r st hok hc =>
    exact ⟨⟨_, _, _, rfl, rfl, rfl, rfl, rfl⟩, trivial, trivial, trivial, trivial⟩
  | exhausted key l r st hok hc hsz =>
    exact ⟨⟨_, _, _, rfl, rfl, rfl, rfl, rfl⟩, trivial, trivial, trivial, trivial⟩
  | leftRemote b key r st st1 st' rt t hok hc hr hf ih =>
    exact hfin _ _ _ _ _ _ _ _ _ hf
      (fun n _ => (optLookup_within env pc _ _ _ _ n).1)
      (hchild _ _ 0 r _ _ 1 r rt ih.1 (by simp) (le_refl _))
      (optLookup_within env pc _ _ _ _ (freshNode env 0 0)).2 ih.2
  | rightRemote b key l st st1 st' lt t hok hc hl hf ih =>
    exact hfin _ _ _ _ _ _ _ _ _ hf
      (hchild _ _ l (pc.myNumParticles + 1) _ _ l pc.myNumParticles lt ih.1 (le_refl _)
        (by simp))
      (fun n _ => (optLookup_within env pc _ _ _ _ n).1)
      ih.2 (optLookup_within env pc _ _ _ _ (freshNode env 0 0)).2
  | split b key l r s st st1 st2 st' lt rt t hok hc hls hsr hs1 hsN hl hr hf ih1 ih2 =>
    have hrN : r ≤ pc.myNumParticles + 1 := hok.2.2.1
    exact hfin _ _ _ _ _ _ _ _ _ hf
      (hchild _ _ l r _ _ l (s - 1) lt ih1.1 (le_refl _) (by
        rw [if_neg (by omega)]
        split <;> omega))
      (hchild _ _ l r _ _ s r rt ih2.1 (by
        rw [if_neg (by omega : ¬ s = 0)]
        split <;> omega) (le_refl _))
      ih1.2 ih2.2
  | ones b key l r st st1 st' rt t hok hc hr hf ih =>
    exact hfin _ _ _ _ _ _ _ _ _ hf
      (fun n _ => (optLookup_within env pc _ _ _ _ n).1)
      (hchild _ _ l r _ _ l r rt ih.1 (le_refl _) (le_refl _))
      (optLookup_within env pc _ _ _ _ (freshNode env 0 0)).2 ih.2
  | zeros b key l r st st1 st' lt t hok hc hl hf ih =>
    exact hfin _ _ _ _ _ _ _ _ _ hf
      (hchild _ _ l r _ _ l r lt ih.1 (le_refl _) (le_refl _))
      (fun n _ => (optLookup_within env pc _ _ _ _ n).1)
      ih.2 (optLookup_within env pc _ _ _ _ (freshNode env 0 0)).2

theorem Built_callOK {M : Type} {env : Env M} {pc : Piece} {parts : List GravityParticle}
    {bits key l r : Nat} {st st' : BuildState M} {t : Tree M}
    (h : Built env pc parts bits key l r st t st') : CallOK pc parts bits key l r := by
  cases h <;> assumption

/-- On a sorted particle array whose first particle has the key of the left sentinel,
with fewer than `maxBucketSize` indices of that key, no call over the particles `0 .. r`
with `1 ≤ r` completes. -/
theorem Built_tied_sentinel {M : Type} {env : Env M} {pc : Piece}
    {parts : List GravityParticle} (hN : 1 ≤ pc.myNumParticles)
    (htie : keyAt parts 1 = keyAt parts 0)
    (hfew : ∀ r, r ≤ pc.myNumParticles + 1 → keyAt parts r = keyAt parts 0 →
      (r : Int) < pc.maxBucketSize)
    {bits key l r : Nat} {st st' : BuildState M} {t : Tree M}
    (h : Built env pc parts bits key l r st t st') : l = 0 → 1 ≤ r → False := by
  induction h with
  | bucket bits key l r st hok hc =>
    intro hl _
    exact hc.2.1 hl
  | exhausted key l r st hok hc hsz =>
    intro hl hr
    subst hl
    obtain ⟨-, -, hrN, -, hrange, -, -⟩ := hok
    have h0 := hrange 0 (le_refl _) (by omega)
    have h1 := hrange r (by omega) (le_refl _)
    have := hfew r hrN (by omega)
    exact hsz (by omega)
  | leftRemote b key r st st1 st' rt t hok hc hr hf ih =>
    intro _ _
    obtain ⟨-, -, -, -, -, hk, -⟩ := Built_callOK hr
    have := hk (by omega)
    omega
  | rightRemote b key l st st1 st' lt t hok hc hl hf ih =>
    intro hl0 _
    exact ih hl0 hN
  | split b key l r s st st1 st2 st' lt rt t hok hc hls hsr hs1 hsN hl hr hf ih1 ih2 =>
    intro hl0 _
    exact ih1 hl0 (by omega)
  | ones b key l r st st1 st' rt t hok hc hr hf ih =>
    intro hl0 hr1
    exact ih hl0 hr1
  | zeros b key l r st st1 st' lt t hok hc hl hf ih =>
    intro hl0 hr1
    exact ih hl0 hr1

/-- C39 (what holds, and where the claim fails): on a particle array sorted by key,
sentinels included. (1) When the build from the root completes, every node of the tree
is at the level that equals its depth, at most 63, so each call was made for a child one
level below its parent, and the particle interval of every built node lies in the
interval of its parent. (2) A call at level 63 that is not a bucket although
`rightParticle - leftParticle < maxBucketSize` (an endpoint is a sentinel) does not
return: it takes neither the bucket branch nor the branch of the level test and goes on
to the shift `1 << (62 - 63)` and to the children at level 64; its behaviour is
undefined. (3) Such a call is reached, and the whole build is undefined, whenever the
first particle has the key of the left sentinel and fewer than `maxBucketSize` indices
carry this key. -/
theorem C39_build_below_level_63 {M : Type} (env : Env M) (pc : Piece)
    (parts : List GravityParticle)
    (hlen : parts.length = pc.myNumParticles + 2)
    (hsorted : ∀ i j, i ≤ j → j ≤ pc.myNumParticles + 1 → keyAt parts i ≤ keyAt parts j)
    (hkey : keyAt parts (pc.myNumParticles + 1) ≤ lastPossibleKey) :
    (∀ t st, buildTree env pc parts 63 firstPossibleKey 0 (pc.myNumParticles + 1)
        BuildState.initial = some (t, st) →
      (∀ p a, t.atPath p = some a → a.level = p.length ∧ a.level ≤ 63) ∧ t.Nested) ∧
    (∀ key l r (st : BuildState M), ¬ bucketRule pc l r →
      (r : Int) - (l : Int) < pc.maxBucketSize →
      buildTree env pc parts 0 key l r st = none) ∧
    (1 ≤ pc.myNumParticles → keyAt parts 1 = keyAt parts 0 →
      (∀ r, r ≤ pc.myNumParticles + 1 → keyAt parts r = keyAt parts 0 →
        (r : Int) < pc.maxBucketSize) →
      buildTree env pc parts 63 firstPossibleKey 0 (pc.myNumParticles + 1)
        (BuildState.initial : BuildState M) = none) := by
  refine ⟨?_, ?_, ?_⟩
  · intro t st hbuild
    have hb := buildTree_built env pc parts hlen hsorted 63 firstPossibleKey 0
      (pc.myNumParticles + 1) BuildState.initial t st (root_callOK pc parts hsorted hkey)
      hbuild
    refine ⟨?_, (Built_nested hb).2⟩
    intro p a hp
    obtain ⟨h1, h2, h3, -⟩ := Keyed_atPath t 63 firstPossibleKey p a (Built_keyed hb) hp
    omega
  · intro key l r st hnb hsz
    have hnb' : ¬ (((r : Int) - (l : Int) < pc.maxBucketSize) ∧ l ≠ 0 ∧
        r ≠ pc.myNumParticles + 1) := hnb
    unfold buildTree
    simp only
    rw [if_neg hnb', if_neg (fun h => h.1 hsz)]
  · intro hN htie hfew
    cases hres : buildTree env pc parts 63 firstPossibleKey 0 (pc.myNumParticles + 1)
        (BuildState.initial : BuildState M) with
    | none => rfl
    | some res =>
      obtain ⟨t, st⟩ := res
      have hb := buildTree_built env pc parts hlen hsorted 63 firstPossibleKey 0
        (pc.myNumParticles + 1) BuildState.initial t st (root_callOK pc parts hsorted hkey)
        hres
      exact absurd (Built_tied_sentinel hN htie hfew hb rfl (by omega)) (fun h => h)

/-- C39 (code evaluated at the failing input): a single piece with buckets of up to 12
particles holding one particle of key 0, the key `firstPossibleKey` of the left
sentinel. The particle array with its sentinels is sorted, and the build from the root
is undefined: the calls for the sentinel and the particle descend to level 63, where
`rightParticle - leftParticle = 1 < 12` keeps the level test from being made. -/
theorem C39_build_below_level_63_witness :
    zeroKeyParticles.map GravityParticle.key = [0, 0, 2 ^ 63 - 1] ∧
    buildTree exampleEnv zeroKeyPiece zeroKeyParticles 0 0 0 1 BuildState.initial = none ∧
    buildTree exampleEnv zeroKeyPiece zeroKeyParticles 63 firstPossibleKey 0
      (zeroKeyPiece.myNumParticles + 1) BuildState.initial = none :=
  have h := C39_build_below_level_63 exampleEnv zeroKeyPiece zeroKeyParticles rfl
    (by
      intro i j hij hj
      have hj' : j ≤ 2 := hj
      interval_cases j <;> interval_cases i <;> decide)
    (by decide)
  ⟨by decide,
    h.2.1 0 0 1 BuildState.initial (fun hb => hb.2.1 rfl) (by decide),
    h.2.2 (by decide) (by decide) (by
      intro r hr _
      have hr' : r ≤ 2 := hr
      have hm : zeroKeyPiece.maxBucketSize = 12 := rfl
      rw [hm]
      omega)⟩

/-! ### Boundary nodes outside their owner range -/

set_option maxRecDepth 100000 in
/-- C33 (code evaluated at the failing input): two pieces with the non-decreasing
splitters `2^60, 2^62, 2^62 + 2^60, 2^62 + 2^61`. On piece 0 the particle array with its
sentinels is sorted and `startTreeBuild` completes; the nodes of key `2^62` at the levels
1 and 2, over the local particle `[2, 3)` of key `2^62`, are typed `Boundary`, and
`nodeOwnership` returns for them the co-owner range `firstOwner = lastOwner = 1`, which
does not contain piece 0. With the splitters `4, 6, 7, 10` the node of key 6 at level 62
(key range `[6, 7]`) of piece 1, over the left sentinel of key 6 and the particle of key
7, meets the test of a `Boundary` node, `nodeOwnership` returns false for it, and the
call for the node, and with it `startTreeBuild`, is undefined. -/
theorem C33_boundary_piece_outside_owner_range :
    (setSentinels tiePieceZero tiePartsZero).map GravityParticle.key
      = [0, 2 ^ 60, 2 ^ 62, 2 ^ 62 + 2 ^ 60] ∧
    (startTreeBuild exampleEnv tiePieceZero tiePartsZero).isSome = true ∧
    ((builtState exampleEnv tiePieceZero tiePartsZero).root.nodes.filter
        (fun n => decide (n.type = .Boundary))).map
          (fun n => (n.key, n.level, n.beginParticle, n.endParticle))
      = [(0, 0, 1, 3), (2 ^ 62, 1, 2, 3), (2 ^ 62, 2, 2, 3)] ∧
    nodeOwnership tiePieceZero.splitters (exampleEnv.leftBoundary (2 ^ 62) 1)
        (exampleEnv.rightBoundary (2 ^ 62) 1) ⟨some 0, some 0, some 0, some 0⟩
      = (true, ⟨some 1, some 1, some 1, some 1⟩) ∧
    nodeOwnership tiePieceZero.splitters (exampleEnv.leftBoundary (2 ^ 62) 2)
        (exampleEnv.rightBoundary (2 ^ 62) 2) ⟨some 0, some 0, some 0, some 0⟩
      = (true, ⟨some 1, some 1, some 1, some 1⟩) ∧
    ¬ (1 ≤ tiePieceZero.thisIndex) ∧
    (setSentinels adjacentPieceOne adjacentPartsOne).map GravityParticle.key
      = [6, 7, 10, 2 ^ 63 - 1] ∧
    atBoundary adjacentPieceOne 0 1 ∧
    (nodeOwnership adjacentPieceOne.splitters (exampleEnv.leftBoundary 6 62)
        (exampleEnv.rightBoundary 6 62) ⟨some 0, some 0, some 0, some 0⟩).1 = false ∧
    (buildTree exampleEnv adjacentPieceOne (setSentinels adjacentPieceOne adjacentPartsOne)
        1 6 0 1 BuildState.initial).isSome = false ∧
    (startTreeBuild exampleEnv adjacentPieceOne adjacentPartsOne).isSome = false := by
  refine ⟨by decide, by rfl, by decide, by decide, by decide, by decide, by decide,
    Or.inl ⟨rfl, by decide⟩, by decide, by rfl, by rfl⟩

end TreePiece
